import Mathlib

/-!
# pdbterm: rendering core, input handling and command line

A shallow embedding of the rendering core and the input handling of pdbterm
(`src/visualization/UnicodeScreen.cpp`, `src/visualization/SixelEncoder.cpp`),
of its command line (`src/structure/Parameters.cpp`) and of the start-up in
`main.cpp`, together with the properties of them that are checked against
the code.

Conventions of the embedding

* `float` values are rationals (`ℚ`). The functions with the suffix `_f32`, and
  the blend of the Sixel encoder, round every operation to binary32 as the
  code does (section "Binary32 arithmetic"); they carry the properties in
  which a byte, a pixel or a branch depends on the rounding. The functions
  without the suffix read the float arithmetic of the code over the ordered
  field, without rounding. Infinities and NaN are not modelled.
* `uint8_t` values are natural numbers; a conversion `(uint8_t)e` of a float
  is truncation toward zero followed by reduction modulo 256.
* `int` values are integers (`Int`); sizes and loop bounds that the code
  only ever uses non-negatively are natural numbers.
* an access to a `std::vector` outside its bounds makes the embedded
  function return `none`.
* library functions (`cosf`, `sinf`, `tanf`, `sqrtf`), the file system and the
  outcome of a download are parameters of the embedded functions.
-/

namespace PdbTerm

/-! ## Data model (`UnicodeScreen.hpp`) -/

/-- The struct `RGB`: three 8-bit channels. -/
structure RGB where
  r : Nat
  g : Nat
  b : Nat
deriving DecidableEq, Repr

/-- The struct `Pixel`: a shaded color, the depth it was written at and
whether the cell has been written this frame. -/
structure Pixel where
  r : Nat
  g : Nat
  b : Nat
  depth : ℚ
  active : Bool
deriving DecidableEq

/-- An atom as the renderer reads it (`Atom.hpp` is not part of the sources):
the public coordinates `x`, `y`, `z`, which `get_position()` exposes as
`pos[0]`, `pos[1]`, `pos[2]`, and the secondary-structure tag returned by
`get_structure()`. -/
structure Atom where
  x : ℚ
  y : ℚ
  z : ℚ
  ss : Char := 'x'
deriving DecidableEq

/-- The array `get_position()` of an atom. -/
def Atom.get_position (a : Atom) (k : Nat) : ℚ :=
  match k with
  | 0 => a.x
  | 1 => a.y
  | _ => a.z

/-- One entry `[chainID, chain_atoms]` of the map `Protein::get_atoms()`,
with the value `chain_length` that `Protein::get_chain_length(chainID)`
returns for it (`Protein.hpp` is not part of the sources). -/
structure Chain where
  chainID : String
  chain_atoms : List Atom
  chain_length : Int
deriving DecidableEq

/-- A loaded structure as the renderer reads it: the entries of
`get_atoms()` in iteration order and the z-extent `get_scaled_min_z()`,
`get_scaled_max_z()`. -/
structure Protein where
  get_atoms : List Chain
  scaled_min_z : ℚ := 0
  scaled_max_z : ℚ := 0
deriving DecidableEq

/-- The enumerators of `enum class PaletteType` that `UnicodeScreen.cpp` names:
the five built-in palettes and the sentinel `PALETTE_COUNT` of the header,
and the theme palette `PYWAL`, which the header under `src/` does not list. -/
inductive PaletteType where
  | PYWAL
  | NEON
  | COOL
  | WARM
  | EARTH
  | PASTEL
  | PALETTE_COUNT
deriving DecidableEq, Repr

/-- The enumeration `ViewMode`. -/
inductive ViewMode where
  | BACKBONE
  | GRID
  | SURFACE
deriving DecidableEq, Repr

/-- The enumeration `ColorScheme`. -/
inductive ColorScheme where
  | RAINBOW
  | CHAIN
  | STRUCTURE
deriving DecidableEq, Repr

/-- The render state of `class UnicodeScreen`. -/
structure UnicodeScreen where
  buf_width : Int
  buf_height : Int
  framebuffer : List Pixel
  palette_colors : List RGB := []
  bg_color : RGB := ⟨18, 18, 24⟩
  data : List Protein := []
  pan_x : List ℚ := []
  pan_y : List ℚ := []
  zoom_level : ℚ := 28 / 10
  focal_offset : ℚ := 5
  auto_rotate : Bool := true
  rotation_speed : ℚ := 2 / 100
  use_sixel : Bool := false
  fg_color : RGB := ⟨180, 180, 180⟩
  palette_type : PaletteType := PaletteType.NEON
  pywal_colors : List RGB := []
  color_scheme : ColorScheme := ColorScheme.RAINBOW
  view_mode : ViewMode := ViewMode.BACKBONE
  structNum : Int := -1
  random_mode : Bool := false
  screen_mode : String := "protein"
  screen_show_structure : Bool := false
  term_cols : Int := 80
  term_rows : Int := 24
  info_rows : Int := 3
  pixel_width : Int := 0
  pixel_height : Int := 0
deriving DecidableEq

/-! ## Numeric conversions -/

/-- The conversion `(int)e` of a float: truncation toward zero. -/
def float_to_int (q : ℚ) : Int :=
  if 0 ≤ q then ⌊q⌋ else ⌈q⌉

/-- The conversion `(uint8_t)e` of a float: truncation toward zero, kept in
the range of a byte. -/
def float_to_uint8 (q : ℚ) : Nat :=
  (float_to_int q % 256).toNat

/-- The function `std::clamp(v, lo, hi)`. -/
def clamp (v lo hi : ℚ) : ℚ :=
  if v < lo then lo else if hi < v then hi else v

/-! ## Binary32 arithmetic

The code computes in `float`, the IEEE 754 binary32 format. Where a byte, a
pixel or a branch depends on the rounding of an operation, the embedded
function rounds the exact result of every single operation, conversion and
decimal literal to binary32 with `f32`; such a function carries the suffix
`_f32` when a function of the same name with exact arithmetic exists. Values
beyond the largest finite binary32 value, infinities and NaN are not
modelled. -/

/-- The nearest integer to `y`, ties to the even integer. -/
def round_even (y : ℚ) : Int :=
  if y - (⌊y⌋ : ℚ) < 1 / 2 then ⌊y⌋
  else if 1 / 2 < y - (⌊y⌋ : ℚ) then ⌊y⌋ + 1
  else if ⌊y⌋ % 2 = 0 then ⌊y⌋ else ⌊y⌋ + 1

/-- The search for the binade of a magnitude `a >= p` upwards: from the
exponent `e` with `p = 2^e`, the power is doubled while its double does not
exceed `a`, at most `fuel` times. -/
def f32_binade_up : Nat → Int → ℚ → ℚ → Int × ℚ
  | 0, e, p, _ => (e, p)
  | fuel + 1, e, p, a => if 2 * p ≤ a then f32_binade_up fuel (e + 1) (2 * p) a else (e, p)

/-- The search for the binade of a magnitude `a < 2 * p` downwards: from the
exponent `e` with `p = 2^e`, the power is halved until it does not exceed `a`,
at most `fuel` times. -/
def f32_binade_down : Nat → Int → ℚ → ℚ → Int × ℚ
  | 0, e, p, _ => (e, p)
  | fuel + 1, e, p, a => if p ≤ a then (e, p) else f32_binade_down fuel (e - 1) (p / 2) a

/-- The binade of the magnitude `a` in binary32: the exponent `e` in
-126 .. 127 with `2^e <= a < 2^(e+1)`, and -126 in the subnormal range,
together with the power `2^e`. -/
def f32_binade (a : ℚ) : Int × ℚ :=
  if 1 ≤ a then f32_binade_up 127 0 1 a else f32_binade_down 126 0 1 a

/-- The exponent of the binade of the magnitude `a`. -/
def f32_exponent (a : ℚ) : Int :=
  (f32_binade a).1

/-- The value `x` rounded in the binade `b = (e, 2^e)`: the multiple of the
unit `2^e / 2^23` nearest to `x`, ties to the even multiple (a significand of
24 bits). -/
def f32_round (x : ℚ) (b : Int × ℚ) : ℚ :=
  match b with
  | (_, p) => (round_even (x / (p / 8388608)) : ℚ) * (p / 8388608)

/-- The binary32 value nearest to the rational `x`, ties to the even
significand: `x` rounded in the binade of its magnitude. -/
def f32 (x : ℚ) : ℚ :=
  f32_round x (f32_binade |x|)

/-- The conversion `(float)i` of an `int`. -/
def int_to_float (i : Int) : ℚ :=
  f32 (i : ℚ)

/-! ## Pixel operations (`UnicodeScreen.cpp`) -/

/-- The epsilon `0.01f` of the depth test. -/
def depth_eps : ℚ := 1 / 100

/-- The method `UnicodeScreen::clear_framebuffer`. -/
def UnicodeScreen.clear_framebuffer (s : UnicodeScreen) : UnicodeScreen :=
  { s with framebuffer := s.framebuffer.map (fun _ => ⟨0, 0, 0, 0, false⟩) }

/-- The method `UnicodeScreen::depth_shade`. -/
def depth_shade (color : RGB) (brightness : ℚ) : RGB :=
  let brightness := clamp brightness (45 / 100) 1
  { r := float_to_uint8 (color.r * brightness)
    g := float_to_uint8 (color.g * brightness)
    b := float_to_uint8 (color.b * brightness) }

/-- The method `UnicodeScreen::plot_pixel`. The result is `none` when the
access `framebuffer[idx]` is outside the vector. -/
def UnicodeScreen.plot_pixel (s : UnicodeScreen) (x y : Int) (z : ℚ)
    (color : RGB) (brightness : ℚ) : Option UnicodeScreen :=
  if x < 0 ∨ x ≥ s.buf_width ∨ y < 0 ∨ y ≥ s.buf_height then some s
  else
    let idx := y * s.buf_width + x
    match s.framebuffer[idx.toNat]? with
    | none => none
    | some cell =>
      if cell.active = true ∧ z > cell.depth + depth_eps then some s
      else
        let shaded := depth_shade color brightness
        some { s with
          framebuffer :=
            s.framebuffer.set idx.toNat
              { r := shaded.r, g := shaded.g, b := shaded.b, depth := z, active := true } }

/-- The method `UnicodeScreen::depth_shade` in binary32: the literal `0.45f`
and the product of a channel with the brightness are rounded (the conversion
of a channel to `float` is exact). -/
def depth_shade_f32 (color : RGB) (brightness : ℚ) : RGB :=
  let brightness := clamp brightness (f32 (45 / 100)) 1
  { r := float_to_uint8 (f32 ((color.r : ℚ) * brightness))
    g := float_to_uint8 (f32 ((color.g : ℚ) * brightness))
    b := float_to_uint8 (f32 ((color.b : ℚ) * brightness)) }

/-- The method `UnicodeScreen::plot_pixel` in binary32: the depth test
compares `z` with the rounded sum of the stored depth and the literal
`0.01f`. The result is `none` when the access `framebuffer[idx]` is outside
the vector. -/
def UnicodeScreen.plot_pixel_f32 (s : UnicodeScreen) (x y : Int) (z : ℚ)
    (color : RGB) (brightness : ℚ) : Option UnicodeScreen :=
  if x < 0 ∨ x ≥ s.buf_width ∨ y < 0 ∨ y ≥ s.buf_height then some s
  else
    let idx := y * s.buf_width + x
    match s.framebuffer[idx.toNat]? with
    | none => none
    | some cell =>
      if cell.active = true ∧ z > f32 (cell.depth + f32 (1 / 100)) then some s
      else
        let shaded := depth_shade_f32 color brightness
        some { s with
          framebuffer :=
            s.framebuffer.set idx.toNat
              { r := shaded.r, g := shaded.g, b := shaded.b, depth := z, active := true } }

/-! ## Auto-rotation (`UnicodeScreen::auto_rotate_step`) -/

/-- The sums `cx`, `cy`, `cz` and the counter `count` of a centroid loop. -/
structure CentroidSums where
  cx : ℚ := 0
  cy : ℚ := 0
  cz : ℚ := 0
  count : Int := 0
deriving DecidableEq

/-- The first pair of loops of `auto_rotate_step` over the chains and atoms
of one structure. -/
def rotation_sums (protein : Protein) : CentroidSums :=
  protein.get_atoms.foldl
    (fun acc chain =>
      chain.chain_atoms.foldl
        (fun acc atom =>
          { cx := acc.cx + atom.x, cy := acc.cy + atom.y, cz := acc.cz + atom.z,
            count := acc.count + 1 })
        acc)
    {}

/-- The body of the loop of `auto_rotate_step` over the structures: the
rotation of the atoms of one structure about the vertical axis through its
centroid; a structure without atoms is skipped. -/
def rotate_protein (cosA sinA : ℚ) (protein : Protein) : Protein :=
  let sums := rotation_sums protein
  if sums.count = 0 then protein
  else
    let cx := sums.cx / sums.count
    let cz := sums.cz / sums.count
    { protein with
      get_atoms := protein.get_atoms.map (fun chain =>
        { chain with
          chain_atoms := chain.chain_atoms.map (fun atom =>
            let dx := atom.x - cx
            let dz := atom.z - cz
            { atom with
              x := cx + dx * cosA + dz * sinA
              z := cz - dx * sinA + dz * cosA }) }) }

/-- The method `UnicodeScreen::auto_rotate_step`; the library functions `cosf`
and `sinf` are parameters. -/
def UnicodeScreen.auto_rotate_step (cosf sinf : ℚ → ℚ) (s : UnicodeScreen) : UnicodeScreen :=
  if s.auto_rotate = false then s
  else
    let cosA := cosf s.rotation_speed
    let sinA := sinf s.rotation_speed
    { s with data := s.data.map (rotate_protein cosA sinA) }

/-- All atoms of a structure, chain after chain. -/
def Protein.all_atoms (p : Protein) : List Atom :=
  p.get_atoms.flatMap (fun chain => chain.chain_atoms)

/-- The centroid of a structure: the mean of the `x`, `y` and `z` of its atoms. -/
def Protein.centroid (p : Protein) : ℚ × ℚ × ℚ :=
  ((p.all_atoms.map (fun a => a.x)).sum / p.all_atoms.length,
   (p.all_atoms.map (fun a => a.y)).sum / p.all_atoms.length,
   (p.all_atoms.map (fun a => a.z)).sum / p.all_atoms.length)

/-! ## Projection (`project_atoms`) -/

/-- The struct `ProjAtom`. -/
structure ProjAtom where
  sx : Int
  sy : Int
  z : ℚ
  brightness : ℚ
  color : RGB
  chain_idx : Int
  total_chains : Int
  ss_type : Char
  global_idx : Int
deriving DecidableEq

/-- The constant `FOV`. -/
def FOV : ℚ := 90

/-- The constant `PI`. -/
def PI : ℚ := 314159265359 / 100000000000

/-- The first loops of `project_atoms` for one chain: the positions of the
atoms `0 .. get_chain_length(cid) - 1` are added to the sums, and the chain
length to `global_total`. The result is `none` when `atoms[i]` is outside
the vector. -/
def centroid_chain (acc : CentroidSums × Int) (chain : Chain) : Option (CentroidSums × Int) :=
  let n := chain.chain_length
  match (List.range n.toNat).foldlM
      (fun (sums : CentroidSums) i =>
        match chain.chain_atoms[i]? with
        | none => none
        | some atom =>
          some { cx := sums.cx + atom.get_position 0, cy := sums.cy + atom.get_position 1,
                 cz := sums.cz + atom.get_position 2, count := sums.count + 1 })
      acc.1 with
  | none => none
  | some sums => some (sums, acc.2 + n)

/-- The first loops of `project_atoms` over all structures and chains: the
sums `cx`, `cy`, `cz`, `count` and `global_total`. -/
def scene_sums (data : List Protein) : Option (CentroidSums × Int) :=
  data.foldlM (fun acc p => p.get_atoms.foldlM centroid_chain acc) ({}, 0)

/-- The loops of `project_atoms` that count `total_chains`. -/
def count_chains (data : List Protein) : Int :=
  data.foldl (fun total p => p.get_atoms.foldl (fun total _ => total + 1) total) 0

/-- The values `project_atoms` fixes before its main loop. -/
structure ProjEnv where
  cx : ℚ
  cy : ℚ
  cz : ℚ
  total_chains : Int
  fovRads : ℚ
  half_w : ℚ
  half_h : ℚ
  scale : ℚ
  focal_offset : ℚ
  pan_x : List ℚ
  pan_y : List ℚ

/-- The body of the innermost loop of `project_atoms`: the `ProjAtom` pushed
for an atom of the structure `target`, whose pan is `(px, py)`. -/
def project_atom (env : ProjEnv) (target : Protein) (px py : ℚ) (chain_idx : Int)
    (atom : Atom) (global_idx : Int) : ProjAtom :=
  let x := atom.get_position 0 - env.cx
  let y := atom.get_position 1 - env.cy
  let z := (atom.get_position 2 - env.cz) + env.focal_offset
  let projX := (x / z) * env.fovRads + px
  let projY := (y / z) * env.fovRads + py
  let sx := float_to_int (env.half_w + projX * env.scale)
  let sy := float_to_int (env.half_h - projY * env.scale)
  let min_z := target.scaled_min_z
  let max_z := target.scaled_max_z
  let zn := if max_z > min_z then (atom.get_position 2 - min_z) / (max_z - min_z) else 1 / 2
  let zn := clamp zn 0 1
  let brightness := 1 - zn * (65 / 100)
  { sx := sx, sy := sy, z := z, brightness := brightness, color := ⟨0, 0, 0⟩,
    chain_idx := chain_idx, total_chains := env.total_chains, ss_type := atom.ss,
    global_idx := global_idx }

/-- The locals `global_idx`, `chain_idx` and the output `chains_out` of the
main loop of `project_atoms`. -/
structure ProjState where
  global_idx : Int := 0
  chain_idx : Int := 0
  chains_out : List (List ProjAtom) := []

/-- The body of the loop of `project_atoms` over the chains of the structure
`data[ii]`. The result is `none` when `chain_atoms[i]`, `pan_x[ii]` or
`pan_y[ii]` is outside its vector. -/
def project_chain (env : ProjEnv) (ii : Nat) (target : Protein) (st : ProjState)
    (chain : Chain) : Option ProjState :=
  let num_atoms := chain.chain_length
  if num_atoms = 0 then some { st with chain_idx := st.chain_idx + 1 }
  else
    match (List.range num_atoms.toNat).foldlM
        (fun (acc : List ProjAtom × Int) i =>
          match chain.chain_atoms[i]? with
          | none => none
          | some atom =>
            match env.pan_x[ii]?, env.pan_y[ii]? with
            | some px, some py =>
              some (acc.1 ++ [project_atom env target px py st.chain_idx atom acc.2], acc.2 + 1)
            | _, _ => none)
        ([], st.global_idx) with
    | none => none
    | some (chain_out, global_idx) =>
      some { global_idx := global_idx, chain_idx := st.chain_idx + 1,
             chains_out := st.chains_out ++ [chain_out] }

/-- The main loop `for (ii = 0; ii < data.size(); ii++)` of `project_atoms`,
from the index `ii` on. -/
def project_structures (env : ProjEnv) : Nat → List Protein → ProjState → Option ProjState
  | _, [], st => some st
  | ii, target :: rest, st =>
    match target.get_atoms.foldlM (project_chain env ii target) st with
    | none => none
    | some st1 => project_structures env (ii + 1) rest st1

/-- The function `project_atoms`; the result is `chains_out` (empty on entry
at every call) and `global_total`. The library function `tanf` is a
parameter. -/
def project_atoms (tanf : ℚ → ℚ) (data : List Protein) (pan_x : List ℚ)
    (zoom_level focal_offset : ℚ) (pan_y : List ℚ) (buf_width buf_height : Int) :
    Option (List (List ProjAtom) × Int) :=
  match scene_sums data with
  | none => none
  | some (sums, global_total) =>
    let cx := if sums.count > 0 then sums.cx / sums.count else sums.cx
    let cy := if sums.count > 0 then sums.cy / sums.count else sums.cy
    let cz := if sums.count > 0 then sums.cz / sums.count else sums.cz
    let total_chains := count_chains data
    let fovRads := 1 / tanf ((FOV / zoom_level) * (1 / 2) / 180 * PI)
    let half_w : ℚ := buf_width * (1 / 2)
    let half_h : ℚ := buf_height * (1 / 2)
    let scale := min half_w half_h
    let env : ProjEnv :=
      { cx := cx, cy := cy, cz := cz, total_chains := total_chains, fovRads := fovRads,
        half_w := half_w, half_h := half_h, scale := scale, focal_offset := focal_offset,
        pan_x := pan_x, pan_y := pan_y }
    match project_structures env 0 data {} with
    | none => none
    | some st => some (st.chains_out, global_total)

/-- The projected atoms of a chain whose first atom has the global index `g`. -/
def project_list (env : ProjEnv) (target : Protein) (px py : ℚ) (chain_idx : Int) :
    List Atom → Int → List ProjAtom
  | [], _ => []
  | atom :: rest, g =>
    project_atom env target px py chain_idx atom g ::
      project_list env target px py chain_idx rest (g + 1)

/-- All atoms of a scene, structure after structure. -/
def scene_atoms (data : List Protein) : List Atom :=
  data.flatMap (fun p => p.all_atoms)

/-- The number of chains of the structures before `data[ii]`: the value of
`chain_idx` when the main loop of `project_atoms` reaches `data[ii]`. -/
def chains_before (data : List Protein) (ii : Nat) : Nat :=
  ((data.take ii).map (fun p => p.get_atoms.length)).sum

/-- A color whose channels are in the range of `uint8_t`. -/
def RGB.valid (c : RGB) : Prop :=
  c.r < 256 ∧ c.g < 256 ∧ c.b < 256

/-- The method `UnicodeScreen::interpolate_color`. The result is `none` when
an access to `palette_colors` is outside the vector. -/
def UnicodeScreen.interpolate_color (s : UnicodeScreen) (t : ℚ) : Option RGB :=
  let t := clamp t 0 1
  let n : Int := s.palette_colors.length
  if n = 0 then some ⟨255, 255, 255⟩
  else if n = 1 then s.palette_colors[0]?
  else
    let idx : ℚ := t * ((n - 1 : Int) : ℚ)
    let i : Int := float_to_int idx
    let f : ℚ := idx - (i : ℚ)
    if i ≥ n - 1 then s.palette_colors[(n - 1).toNat]?
    else
      match s.palette_colors[i.toNat]?, s.palette_colors[(i + 1).toNat]? with
      | some a, some b =>
        some { r := float_to_uint8 ((a.r : ℚ) + (((b.r : Int) - (a.r : Int) : Int) : ℚ) * f)
               g := float_to_uint8 ((a.g : ℚ) + (((b.g : Int) - (a.g : Int) : Int) : ℚ) * f)
               b := float_to_uint8 ((a.b : ℚ) + (((b.b : Int) - (a.b : Int) : Int) : ℚ) * f) }
      | _, _ => none

/-- The method `UnicodeScreen::interpolate_color` in binary32: the product
`t * (n - 1)`, the difference `idx - i` and the product and the sum of every
channel are rounded. The result is `none` when an access to `palette_colors`
is outside the vector. -/
def UnicodeScreen.interpolate_color_f32 (s : UnicodeScreen) (t : ℚ) : Option RGB :=
  let t := clamp t 0 1
  let n : Int := s.palette_colors.length
  if n = 0 then some ⟨255, 255, 255⟩
  else if n = 1 then s.palette_colors[0]?
  else
    let idx : ℚ := f32 (t * int_to_float (n - 1))
    let i : Int := float_to_int idx
    let f : ℚ := f32 (idx - int_to_float i)
    if i ≥ n - 1 then s.palette_colors[(n - 1).toNat]?
    else
      match s.palette_colors[i.toNat]?, s.palette_colors[(i + 1).toNat]? with
      | some a, some b =>
        some { r := float_to_uint8
                 (f32 ((a.r : ℚ) + f32 (int_to_float ((b.r : Int) - (a.r : Int)) * f)))
               g := float_to_uint8
                 (f32 ((a.g : ℚ) + f32 (int_to_float ((b.g : Int) - (a.g : Int)) * f)))
               b := float_to_uint8
                 (f32 ((a.b : ℚ) + f32 (int_to_float ((b.b : Int) - (a.b : Int)) * f))) }
      | _, _ => none

/-! ## Output text

The encoders append to a `std::string`; its content is a list of bytes. -/

/-- The bytes of a string literal of the code (all of them ASCII). -/
def str_bytes (t : String) : List Nat :=
  t.toList.map Char.toNat

/-- The function `std::to_string` on a non-negative `int`: the decimal digits. -/
def to_string (n : Nat) : List Nat :=
  (Nat.toDigits 10 n).map Char.toNat

/-! ## Braille rendering (`UnicodeScreen::render_braille`) -/

/-- The table `dot_bits[2][4]`. -/
def dot_bits (dc dr : Nat) : Nat :=
  match dc, dr with
  | 0, 0 => 0x01
  | 0, 1 => 0x02
  | 0, 2 => 0x04
  | 0, 3 => 0x40
  | 1, 0 => 0x08
  | 1, 1 => 0x10
  | 1, 2 => 0x20
  | 1, 3 => 0x80
  | _, _ => 0

/-- The locals of one cell of `render_braille`: `pattern`, `best_depth`
(`none` is the initial `+infinity`), `best_color` and `any_active`. -/
structure BrailleCell where
  pattern : Nat := 0
  best_depth : Option ℚ := none
  best_color : RGB := ⟨0, 0, 0⟩
  any_active : Bool := false
deriving DecidableEq

/-- The test `framebuffer[idx].depth < best_depth`. -/
def depth_below (d : ℚ) (best : Option ℚ) : Bool :=
  match best with
  | none => true
  | some b => decide (d < b)

/-- The body of the two inner loops of `render_braille` for the subpixel
`(dc, dr)` of the cell `(cc, cr)`. -/
def braille_step (s : UnicodeScreen) (cc cr : Nat) (st : BrailleCell) (pos : Nat × Nat) :
    Option BrailleCell :=
  let dc := pos.1
  let dr := pos.2
  let px : Int := cc * 2 + dc
  let py : Int := cr * 4 + dr
  if px ≥ s.buf_width ∨ py ≥ s.buf_height then some st
  else
    let idx := py * s.buf_width + px
    match s.framebuffer[idx.toNat]? with
    | none => none
    | some cell =>
      if cell.active = true then
        let st1 := { st with pattern := st.pattern ||| dot_bits dc dr, any_active := true }
        if depth_below cell.depth st.best_depth = true then
          some { st1 with best_depth := some cell.depth, best_color := ⟨cell.r, cell.g, cell.b⟩ }
        else some st1
      else some st

/-- The subpixel positions of a cell in the order the loops visit them:
`dc` outer (0..1), `dr` inner (0..3). -/
def braille_positions : List (Nat × Nat) :=
  (List.range 2).flatMap (fun dc => (List.range 4).map (fun dr => (dc, dr)))

/-- The scan of the eight subpixels of the cell `(cc, cr)`. -/
def braille_cell (s : UnicodeScreen) (cc cr : Nat) : Option BrailleCell :=
  braille_positions.foldlM (braille_step s cc cr) {}

/-- The three bytes `0xE0 | ((cp >> 12) & 0x0F)`, `0x80 | ((cp >> 6) & 0x3F)`,
`0x80 | (cp & 0x3F)` appended for a codepoint. -/
def codepoint_bytes (codepoint : Nat) : List Nat :=
  [0xE0 ||| ((codepoint >>> 12) &&& 0x0F),
   0x80 ||| ((codepoint >>> 6) &&& 0x3F),
   0x80 ||| (codepoint &&& 0x3F)]

/-- The truecolor escape `ESC [ <code> ;2; r ; g ; b m` for `code` 38
(foreground) or 48 (background), without the trailing text. -/
def color_escape (code : String) (c : RGB) : List Nat :=
  str_bytes ("\x1b[" ++ code ++ ";2;") ++ to_string c.r ++ str_bytes ";" ++
    to_string c.g ++ str_bytes ";" ++ to_string c.b ++ str_bytes "m"

/-- The bytes `render_braille` appends for the cell `(cc, cr)`. -/
def render_cell (s : UnicodeScreen) (cc cr : Nat) : Option (List Nat) :=
  match braille_cell s cc cr with
  | none => none
  | some st =>
    if st.any_active = true then
      some (color_escape "38" st.best_color ++ color_escape "48" s.bg_color ++
        codepoint_bytes (0x2800 + st.pattern))
    else
      some (color_escape "48" s.bg_color ++ str_bytes " ")

/-- One row of cells of `render_braille`, followed by the style reset and
newline when it is not the last row. -/
def render_row (s : UnicodeScreen) (cell_rows cell_cols cr : Nat) : Option (List Nat) :=
  match (List.range cell_cols).mapM (fun cc => render_cell s cc cr) with
  | none => none
  | some cells =>
    some (cells.flatten ++ (if cr + 1 < cell_rows then str_bytes "\x1b[0m\n" else []))

/-- The method `UnicodeScreen::render_braille`: the bytes written to the
terminal. The result is `none` when the call
`out.reserve(term_cols * (term_rows - info_rows) * 30)` throws
`std::length_error`: a negative argument converts to a size above
`max_size()`. -/
def UnicodeScreen.render_braille (s : UnicodeScreen) : Option (List Nat) :=
  if s.term_cols * (s.term_rows - s.info_rows) * 30 < 0 then none
  else
    let cell_rows := (Int.tdiv s.buf_height 4).toNat
    let cell_cols := (Int.tdiv s.buf_width 2).toNat
    match (List.range cell_rows).mapM (fun cr => render_row s cell_rows cell_cols cr) with
    | none => none
    | some rows => some (str_bytes "\x1b[H" ++ rows.flatten ++ str_bytes "\x1b[0m")

/-- Whether the subpixel `(dc, dr)` of the cell `(cc, cr)` is an active
pixel of the framebuffer. -/
def subpixel_active (s : UnicodeScreen) (cc cr dc dr : Nat) : Bool :=
  let px : Int := cc * 2 + dc
  let py : Int := cr * 4 + dr
  match s.framebuffer[(py * s.buf_width + px).toNat]? with
  | none => false
  | some cell => cell.active

/-- Decoding a Braille codepoint: the subpixel `(dc, dr)` is on when the bit
`dot_bits[dc][dr]` of `codepoint - 0x2800` is set. -/
def braille_decode (codepoint dc dr : Nat) : Bool :=
  (codepoint - 0x2800) &&& dot_bits dc dr != 0

/-! ## Sixel encoding (`SixelEncoder.cpp`) -/

/-- The table `levels[6]` of `nearest_palette_color`. -/
def levels (i : Nat) : Int :=
  match i with
  | 0 => 0
  | 1 => 95
  | 2 => 135
  | 3 => 175
  | 4 => 215
  | 5 => 255
  | _ => 0

/-- The lambda `nearest_level` of `nearest_palette_color`: the loop over
`i = 1..5` keeps `(best, best_dist)` and replaces it on a strictly smaller
distance. -/
def nearest_level (v : Nat) : Nat :=
  ((List.range' 1 5).foldl
    (fun (st : Nat × Int) (i : Nat) =>
      let d := |(v : Int) - levels i|
      if d < st.2 then (i, d) else st)
    (0, |(v : Int) - levels 0|)).1

/-- The function `SixelEncoder::nearest_palette_color`. -/
def nearest_palette_color (r g b : Nat) : Int :=
  let ri := nearest_level r
  let gi := nearest_level g
  let bi := nearest_level b
  16 + ri * 36 + gi * 6 + bi

/-- The conversion `(char)c` of an `int`: the low byte. -/
def char_byte (c : Int) : Nat :=
  (c % 256).toNat

/-- The body of the loop over `bit` in `encode_band`: the bit is set when the
row `band_y + bit` exists and its pixel in column `x` has the color. The
result is `none` when `palette_pixels[row * width + x]` is outside the vector. -/
def sixel_bit_step (palette_pixels : List Int) (width height band_y : Nat) (color : Int)
    (x : Nat) (sixel_val : Nat) (bit : Nat) : Option Nat :=
  let row := band_y + bit
  if row < height then
    match palette_pixels[row * width + x]? with
    | none => none
    | some c => if c = color then some (sixel_val ||| (1 <<< bit)) else some sixel_val
  else some sixel_val

/-- The value `ch = sixel_val + 63` that `encode_band` computes for the
column `x` of a color. -/
def sixel_column (palette_pixels : List Int) (width height band_y : Nat) (color : Int)
    (x : Nat) : Option Int :=
  match (List.range 6).foldlM (sixel_bit_step palette_pixels width height band_y color x) 0 with
  | none => none
  | some sixel_val => some ((sixel_val : Int) + 63)

/-- The locals `run_char`, `run_len` of `encode_band` and the output string.
The counter `run_len` is never negative. -/
structure RunState where
  run_char : Int
  run_len : Nat
  out : List Nat
deriving DecidableEq

/-- The lambda `flush_run` of `encode_band`: the output after the pending run
is appended. -/
def flush_run (st : RunState) : List Nat :=
  if st.run_len ≤ 0 then st.out
  else if st.run_len ≤ 3 then
    st.out ++ List.replicate st.run_len (char_byte st.run_char)
  else
    st.out ++ str_bytes "!" ++ to_string st.run_len ++ [char_byte st.run_char]

/-- The run bookkeeping of `encode_band` for one column whose character is `ch`. -/
def run_step (st : RunState) (ch : Int) : RunState :=
  if ch = st.run_char then { st with run_len := st.run_len + 1 }
  else { run_char := ch, run_len := 1, out := flush_run st }

/-- The body of the loop over the active colors in `encode_band`, after the
separator: the palette-select marker `#` and the color, the loop over the
columns, and the final `flush_run`. -/
def encode_color (out : List Nat) (palette_pixels : List Int) (width height band_y : Nat)
    (color : Int) : Option (List Nat) :=
  let st0 : RunState :=
    { run_char := -1, run_len := 0, out := out ++ str_bytes "#" ++ to_string color.toNat }
  match (List.range width).foldlM
      (fun st x =>
        match sixel_column palette_pixels width height band_y color x with
        | none => none
        | some ch => some (run_step st ch))
      st0 with
  | none => none
  | some st => some (flush_run st)

/-- The first loop of `encode_band`: the values `c >= 0` inserted into
`active_colors`, in scan order (rows of the band, then columns). -/
def band_colors (palette_pixels : List Int) (width height band_y : Nat) : Option (List Int) :=
  (List.range' band_y (min (band_y + 6) height - band_y)).foldlM
    (fun acc row =>
      (List.range width).foldlM
        (fun acc x =>
          match palette_pixels[row * width + x]? with
          | none => none
          | some c => if c ≥ 0 then some (acc ++ [c]) else some acc)
        acc)
    []

/-- The function `SixelEncoder::encode_band`. The order in which the range-for
visits the elements of the `std::unordered_set` is not fixed by the language:
the sequence `iter` of the visited colors is a parameter; it holds every
element of `band_colors` once. -/
def encode_band (out : List Nat) (palette_pixels : List Int) (width height band_y : Nat)
    (iter : List Int) : Option (List Nat) :=
  match iter.foldlM
      (fun (st : Bool × List Nat) color =>
        let out1 := if st.1 = false then st.2 ++ str_bytes "$" else st.2
        match encode_color out1 palette_pixels width height band_y color with
        | none => none
        | some out2 => some (false, out2))
      (true, out) with
  | none => none
  | some st => some (st.2 ++ str_bytes "-")

/-- Reading back the run tokens of one color: after a `!` (`count = some n`
while the decimal digits of the count are read) the next non-digit byte is
repeated `n` times; any other byte stands for itself. -/
def sixel_expand_from (count : Option Nat) (bytes : List Nat) : List Nat :=
  match count, bytes with
  | _, [] => []
  | none, c :: rest =>
    if c = 33 then sixel_expand_from (some 0) rest
    else c :: sixel_expand_from none rest
  | some n, c :: rest =>
    if 48 ≤ c ∧ c ≤ 57 then sixel_expand_from (some (n * 10 + (c - 48))) rest
    else List.replicate n c ++ sixel_expand_from none rest

/-- The columns described by a sequence of run tokens. -/
def sixel_expand (bytes : List Nat) : List Nat :=
  sixel_expand_from none bytes

/-- The text of one run of `k` copies of the byte `c`: `k` literal copies
when `k <= 3`, otherwise `!`, the decimal `k` and one copy. -/
def run_token (c : Nat) (k : Nat) : List Nat :=
  if k ≤ 3 then List.replicate k c else str_bytes "!" ++ to_string k ++ [c]

/-- The 6-bit value of column `x` in the band at `band_y` for a color: bit `i`
is counted when row `band_y + i` is below `height` and its pixel in column
`x` has the color. -/
def column_value (palette_pixels : List Int) (width height band_y : Nat) (color : Int)
    (x : Nat) : Nat :=
  ((List.range 6).map (fun i =>
    if band_y + i < height ∧ palette_pixels[(band_y + i) * width + x]? = some color
    then 2 ^ i else 0)).sum

/-- The characters of the `width` columns of a color in a band: `63 +` the
6-bit value of each column. -/
def band_columns (palette_pixels : List Int) (width height band_y : Nat) (color : Int) :
    List Nat :=
  (List.range width).map (fun x => 63 + column_value palette_pixels width height band_y color x)

/-- The maximal runs of a sequence of characters that continues a pending
run of `cnt` copies of `cur` (no pending run when `cnt = 0`). -/
def run_tokens (cur : Int) (cnt : Nat) : List Int → List (Int × Nat)
  | [] => if cnt = 0 then [] else [(cur, cnt)]
  | x :: xs =>
    if x = cur then run_tokens cur (cnt + 1) xs
    else (if cnt = 0 then [] else [(cur, cnt)]) ++ run_tokens x 1 xs

/-- The maximal runs of the column characters of a color in a band, starting
from the initial state `run_char = -1`, `run_len = 0` of `encode_band`. -/
def color_runs (palette_pixels : List Int) (width height band_y : Nat) (color : Int) :
    List (Int × Nat) :=
  run_tokens (-1) 0
    ((List.range width).map (fun x =>
      ((63 + column_value palette_pixels width height band_y color x : Nat) : Int)))

/-- The text `encode_band` writes for one color: the palette-select marker
`#` and the color, then the run tokens. -/
def color_segment (palette_pixels : List Int) (width height band_y : Nat) (color : Int) :
    List Nat :=
  str_bytes "#" ++ to_string color.toNat ++
    (color_runs palette_pixels width height band_y color).flatMap
      (fun r => run_token (char_byte r.1) r.2)

/-! ## Contrast boost (`boost_color`) -/

/-- The conversion `(uint8_t)i` of an `int`: the low byte. -/
def int_to_uint8 (i : Int) : Nat :=
  (i % 256).toNat

/-- The function `std::clamp(v, lo, hi)` on `int`. -/
def clamp_int (v lo hi : Int) : Int :=
  if v < lo then lo else if hi < v then hi else v

/-- The luminance `0.299f * r + 0.587f * g + 0.114f * b` that `boost_color`
computes for a color. -/
def luminance (c : RGB) : ℚ :=
  299 / 1000 * c.r + 587 / 1000 * c.g + 114 / 1000 * c.b

/-- The static function `boost_color`. -/
def boost_color (c bg : RGB) : RGB :=
  let c_lum := luminance c
  let bg_lum := luminance bg
  let diff := |c_lum - bg_lum|
  if diff < 80 then
    let scale : ℚ := if bg_lum < 128 then 16 / 10 else 6 / 10
    { r := int_to_uint8 (clamp_int (float_to_int (c.r * scale)) 0 255)
      g := int_to_uint8 (clamp_int (float_to_int (c.g * scale)) 0 255)
      b := int_to_uint8 (clamp_int (float_to_int (c.b * scale)) 0 255) }
  else c

/-- The luminance `0.299f * r + 0.587f * g + 0.114f * b` of `boost_color` in
binary32: the three literals, the three products and the two sums, from left
to right, are rounded. -/
def luminance_f32 (c : RGB) : ℚ :=
  f32 (f32 (f32 (f32 (299 / 1000) * c.r) + f32 (f32 (587 / 1000) * c.g))
    + f32 (f32 (114 / 1000) * c.b))

/-- The static function `boost_color` in binary32: the luminances, their
difference, the literals `1.6f` and `0.6f` and the product of a channel with
the scale are rounded. -/
def boost_color_f32 (c bg : RGB) : RGB :=
  let c_lum := luminance_f32 c
  let bg_lum := luminance_f32 bg
  let diff := |f32 (c_lum - bg_lum)|
  if diff < 80 then
    let scale : ℚ := if bg_lum < 128 then f32 (16 / 10) else f32 (6 / 10)
    { r := int_to_uint8 (clamp_int (float_to_int (f32 (c.r * scale))) 0 255)
      g := int_to_uint8 (clamp_int (float_to_int (f32 (c.g * scale))) 0 255)
      b := int_to_uint8 (clamp_int (float_to_int (f32 (c.b * scale))) 0 255) }
  else c

/-- The brightness formula of the specification for an atom at depth `z` of a
structure with z-extent `min_z .. max_z`. -/
def brightness_of (min_z max_z z : ℚ) : ℚ :=
  if max_z > min_z then 1 - 65 / 100 * clamp ((z - min_z) / (max_z - min_z)) 0 1
  else 675 / 1000

/-! ## Color schemes (`UnicodeScreen.cpp`) -/

/-- The method `UnicodeScreen::get_color_for_point`. The result is `none` when
`palette_colors[0]` is outside the vector. -/
def UnicodeScreen.get_color_for_point (s : UnicodeScreen) (point_idx total_points : Int) :
    Option RGB :=
  if total_points ≤ 1 then s.palette_colors[0]?
  else
    let t : ℚ := (point_idx : ℚ) / ((total_points - 1 : Int) : ℚ)
    s.interpolate_color t

/-- The method `UnicodeScreen::get_chain_color`. -/
def UnicodeScreen.get_chain_color (s : UnicodeScreen) (chain_idx total_chains : Int) :
    Option RGB :=
  if total_chains ≤ 1 then
    if s.palette_colors.isEmpty = true then some ⟨255, 255, 255⟩ else s.palette_colors[0]?
  else
    let t : ℚ := (chain_idx : ℚ) / ((total_chains - 1 : Int) : ℚ)
    s.interpolate_color t

/-- The method `UnicodeScreen::get_ss_color`. -/
def get_ss_color (ss_type : Char) : RGB :=
  if ss_type = 'H' then ⟨220, 60, 60⟩
  else if ss_type = 'S' then ⟨60, 120, 220⟩
  else ⟨160, 160, 160⟩

/-- The pixel `framebuffer[idx]` that `render_braille` reads for the subpixel
`(dc, dr)` of the cell `(cc, cr)`. -/
def subpixel_at (s : UnicodeScreen) (cc cr dc dr : Nat) : Option Pixel :=
  let px : Int := cc * 2 + dc
  let py : Int := cr * 4 + dr
  s.framebuffer[(py * s.buf_width + px).toNat]?

/-- The update of the cell locals of `render_braille` by a subpixel that is
inside the buffer: `cell` is the pixel read and `bit` its entry of `dot_bits`. -/
def braille_merge (st : BrailleCell) (cell : Pixel) (bit : Nat) : BrailleCell :=
  if cell.active = true then
    if depth_below cell.depth st.best_depth = true then
      { pattern := st.pattern ||| bit, best_depth := some cell.depth,
        best_color := ⟨cell.r, cell.g, cell.b⟩, any_active := true }
    else { st with pattern := st.pattern ||| bit, any_active := true }
  else st

/-- The statement that the cell locals `st` hold the nearest active pixel of
the pixels `seen` so far, the first one in case of equal depths; `none` and
no color when no pixel of `seen` is active. -/
def nearest_so_far (seen : List Pixel) (st : BrailleCell) : Prop :=
  (st.best_depth = none ∧ st.any_active = false ∧ ∀ x ∈ seen, x.active = false) ∨
  (∃ (j : Nat) (x : Pixel), seen[j]? = some x ∧ x.active = true ∧
    st.best_depth = some x.depth ∧ st.best_color = ⟨x.r, x.g, x.b⟩ ∧ st.any_active = true ∧
    ∀ (k : Nat) (y : Pixel), seen[k]? = some y → y.active = true →
      x.depth ≤ y.depth ∧ (k < j → x.depth < y.depth))

/-! ## Palette state (`load_colors`, `apply_palette`, palette key) -/

/-- The stops that `apply_palette` assigns for `PYWAL` when no theme color is
loaded. -/
def default_stops : List RGB :=
  [⟨255, 70, 70⟩, ⟨255, 140, 50⟩, ⟨255, 210, 60⟩, ⟨80, 220, 80⟩, ⟨50, 200, 220⟩,
   ⟨80, 120, 255⟩, ⟨160, 80, 255⟩]

/-- The stops that the `switch` of `apply_palette` assigns for a palette type,
before the boost; `none` for the `default:` branch, which assigns nothing. -/
def palette_stops (palette_type : PaletteType) (pywal_colors : List RGB) : Option (List RGB) :=
  match palette_type with
  | PaletteType.PYWAL =>
    some (if pywal_colors.isEmpty = true then default_stops else pywal_colors)
  | PaletteType.NEON =>
    some [⟨255, 70, 70⟩, ⟨255, 140, 50⟩, ⟨255, 210, 60⟩, ⟨80, 220, 80⟩, ⟨50, 200, 220⟩,
      ⟨80, 120, 255⟩, ⟨160, 80, 255⟩, ⟨255, 80, 180⟩]
  | PaletteType.COOL =>
    some [⟨60, 180, 255⟩, ⟨80, 120, 255⟩, ⟨140, 80, 255⟩, ⟨180, 60, 220⟩, ⟨80, 200, 200⟩,
      ⟨60, 220, 160⟩, ⟨100, 160, 255⟩]
  | PaletteType.WARM =>
    some [⟨255, 60, 60⟩, ⟨255, 120, 40⟩, ⟨255, 180, 30⟩, ⟨255, 220, 80⟩, ⟨220, 100, 60⟩,
      ⟨255, 80, 120⟩, ⟨240, 160, 50⟩]
  | PaletteType.EARTH =>
    some [⟨180, 120, 60⟩, ⟨140, 160, 80⟩, ⟨100, 140, 120⟩, ⟨160, 100, 80⟩, ⟨120, 150, 100⟩,
      ⟨200, 160, 100⟩, ⟨160, 130, 90⟩]
  | PaletteType.PASTEL =>
    some [⟨255, 150, 150⟩, ⟨255, 200, 150⟩, ⟨255, 255, 150⟩, ⟨150, 255, 180⟩, ⟨150, 220, 255⟩,
      ⟨180, 150, 255⟩, ⟨255, 150, 220⟩]
  | PaletteType.PALETTE_COUNT => none

/-- The method `UnicodeScreen::apply_palette`: the `switch`, then the boost of
every stop of `palette_colors` against `bg_color`. -/
def UnicodeScreen.apply_palette (s : UnicodeScreen) : UnicodeScreen :=
  let stops :=
    match palette_stops s.palette_type s.pywal_colors with
    | some stops => stops
    | none => s.palette_colors
  { s with palette_colors := stops.map (fun c => boost_color c s.bg_color) }

/-- The method `UnicodeScreen::load_colors`. The argument `wal` is what the
loop over the lines of `~/.cache/wal/colors` leaves in `wal_colors`: `none`
when `HOME` is unset or the file cannot be opened. -/
def UnicodeScreen.load_colors (wal : Option (List RGB)) (s : UnicodeScreen) : UnicodeScreen :=
  let s1 : UnicodeScreen := { s with bg_color := ⟨18, 18, 24⟩, fg_color := ⟨180, 180, 180⟩ }
  let s2 : UnicodeScreen :=
    match wal with
    | none => s1
    | some wal_colors =>
      if h16 : wal_colors.length ≥ 16 then
        let bg := wal_colors[0]
        { s1 with
          bg_color := bg
          fg_color := wal_colors[7]
          pywal_colors :=
            [boost_color wal_colors[8] bg] ++
              [boost_color wal_colors[1] bg, boost_color wal_colors[2] bg,
               boost_color wal_colors[3] bg, boost_color wal_colors[4] bg,
               boost_color wal_colors[5] bg, boost_color wal_colors[6] bg] }
      else if h8 : wal_colors.length ≥ 8 then
        let bg := wal_colors[0]
        { s1 with
          bg_color := bg
          fg_color := wal_colors[7]
          pywal_colors :=
            [boost_color wal_colors[1] bg, boost_color wal_colors[2] bg,
             boost_color wal_colors[3] bg, boost_color wal_colors[4] bg,
             boost_color wal_colors[5] bg, boost_color wal_colors[6] bg] }
      else s1
  let s3 : UnicodeScreen :=
    if s2.pywal_colors.isEmpty = true then { s2 with palette_type := PaletteType.NEON } else s2
  s3.apply_palette

/-- The enumerators before the sentinel as the header under `src/` declares
them. -/
def header_palette_decl : List PaletteType :=
  [PaletteType.NEON, PaletteType.COOL, PaletteType.WARM, PaletteType.EARTH, PaletteType.PASTEL]

/-- The enumerators before the sentinel in the order in which the `switch`
statements of `apply_palette` and `palette_name` list them, `PYWAL` first. -/
def source_palette_decl : List PaletteType :=
  [PaletteType.PYWAL, PaletteType.NEON, PaletteType.COOL, PaletteType.WARM,
   PaletteType.EARTH, PaletteType.PASTEL]

/-- The conversion `(int)palette_type`; `decl` lists the enumerators declared
before `PALETTE_COUNT`, whose value is their number. -/
def palette_to_int (decl : List PaletteType) (palette_type : PaletteType) : Nat :=
  decl.indexOf palette_type

/-- The conversion `(PaletteType)pt`. -/
def int_to_palette (decl : List PaletteType) (pt : Nat) : PaletteType :=
  decl.getD pt PaletteType.PALETTE_COUNT

/-- The case `'p'`, `'P'` of `handle_input`: the palette type advances modulo
`PALETTE_COUNT` and `apply_palette` runs. -/
def UnicodeScreen.palette_key (decl : List PaletteType) (s : UnicodeScreen) : UnicodeScreen :=
  let pt := palette_to_int decl s.palette_type
  let pt := (pt + 1) % palette_to_int decl PaletteType.PALETTE_COUNT
  ({ s with palette_type := int_to_palette decl pt } : UnicodeScreen).apply_palette

/-! ## Sixel frame (`SixelEncoder::encode`) -/

/-- The struct `RGBA` of `Palette.hpp` (not part of the sources): four 8-bit
channels. -/
structure RGBA where
  r : Nat
  g : Nat
  b : Nat
  a : Nat
deriving DecidableEq

/-- The function `SixelEncoder::build_palette`; the table `Palettes::ID2RGBA`
of `Palette.hpp` is a parameter. -/
def build_palette (ID2RGBA : Nat → RGBA) : List Nat :=
  (List.range 256).foldl
    (fun pal i =>
      let c := ID2RGBA i
      let r := c.r * 100 / 255
      let g := c.g * 100 / 255
      let b := c.b * 100 / 255
      pal ++ (str_bytes "#" ++ to_string i ++ str_bytes ";2;" ++ to_string r ++ str_bytes ";" ++
        to_string g ++ str_bytes ";" ++ to_string b))
    []

/-- The blend `(uint8_t)(c * a + bg * (1.0f - a))` of one channel, with
`a = alpha / 255.0f`, in binary32: the quotient, the two products, the
difference and the sum are rounded (the conversion of a byte to `float` is
exact). -/
def blend_channel (c alpha bg : Nat) : Nat :=
  let a : ℚ := f32 ((alpha : ℚ) / 255)
  float_to_uint8 (f32 (f32 ((c : ℚ) * a) + f32 ((bg : ℚ) * f32 (1 - a))))

/-- The body of the first loop of `encode`: the entry of `palette_pixels` for a
pixel, `-1` when its alpha is below 16. -/
def quantize_pixel (px : RGBA) (bg_r bg_g bg_b : Nat) : Int :=
  if px.a < 16 then -1
  else
    nearest_palette_color (blend_channel px.r px.a bg_r) (blend_channel px.g px.a bg_g)
      (blend_channel px.b px.a bg_b)

/-- The first loop of `encode`: the vector `palette_pixels`. The result is
`none` when `pixels[i]` is outside the vector. -/
def encode_pixels (pixels : List RGBA) (width height bg_r bg_g bg_b : Nat) :
    Option (List Int) :=
  (List.range (width * height)).mapM
    (fun i =>
      match pixels[i]? with
      | none => none
      | some px => some (quantize_pixel px bg_r bg_g bg_b))

/-- The loop `for (band_y = 0; band_y < height; band_y += 6)` of `encode`, from
`band_y` on; `iters band_y` is the order in which the colors of the band at
`band_y` are visited. -/
def encode_bands (palette_pixels : List Int) (width height : Nat) (iters : Nat → List Int)
    (band_y : Nat) (out : List Nat) : Option (List Nat) :=
  if band_y < height then
    match encode_band out palette_pixels width height band_y (iters band_y) with
    | none => none
    | some out1 => encode_bands palette_pixels width height iters (band_y + 6) out1
  else some out
termination_by height - band_y

/-- The function `SixelEncoder::encode`. -/
def encode (ID2RGBA : Nat → RGBA) (pixels : List RGBA) (width height bg_r bg_g bg_b : Nat)
    (iters : Nat → List Int) : Option (List Nat) :=
  match encode_pixels pixels width height bg_r bg_g bg_b with
  | none => none
  | some palette_pixels =>
    let out := str_bytes "\x1bP0;1;q" ++ build_palette ID2RGBA
    match encode_bands palette_pixels width height iters 0 out with
    | none => none
    | some out1 => some (out1 ++ str_bytes "\x1b\\")

/-- The text of one band: the segments of the visited colors separated by `$`,
then the terminator `-`. -/
def band_text (palette_pixels : List Int) (width height band_y : Nat) (iter : List Int) :
    List Nat :=
  List.intercalate (str_bytes "$") (iter.map (color_segment palette_pixels width height band_y))
    ++ str_bytes "-"

/-- An active palette index of the band at `band_y`: a value `c >= 0` of a pixel
in one of the rows `band_y .. band_y + 5` below `height`. -/
def band_has_color (palette_pixels : List Int) (width height band_y : Nat) (c : Int) : Prop :=
  0 ≤ c ∧ ∃ row x, band_y ≤ row ∧ row < band_y + 6 ∧ row < height ∧ x < width ∧
    palette_pixels[row * width + x]? = some c

/-! ## Input handling (`UnicodeScreen::handle_input`) -/

/-- The value `(int)view_mode`. -/
def view_to_int (m : ViewMode) : Int :=
  match m with
  | ViewMode.BACKBONE => 0
  | ViewMode.GRID => 1
  | ViewMode.SURFACE => 2

/-- The conversion `(ViewMode)m` of the values the code produces. -/
def int_to_view (m : Int) : ViewMode :=
  if m = 0 then ViewMode.BACKBONE else if m = 1 then ViewMode.GRID else ViewMode.SURFACE

/-- The value `(int)color_scheme`. -/
def scheme_to_int (c : ColorScheme) : Int :=
  match c with
  | ColorScheme.RAINBOW => 0
  | ColorScheme.CHAIN => 1
  | ColorScheme.STRUCTURE => 2

/-- The conversion `(ColorScheme)s` of the values the code produces. -/
def int_to_scheme (m : Int) : ColorScheme :=
  if m = 0 then ColorScheme.RAINBOW else if m = 1 then ColorScheme.CHAIN
  else ColorScheme.STRUCTURE

/-- The byte of an ASCII character, as `read` delivers it. -/
def key (ch : Char) : Nat :=
  ch.toNat

/-- The constant `pan_step = 0.05f` of `handle_input`. -/
def pan_step : ℚ := 5 / 100

/-- The pan branches of `handle_input`: `pan[structNum] += delta` for a selected
structure, the same change of every entry otherwise. The result is `none`
when `pan[structNum]` is outside the vector. -/
def pan_update (pan : List ℚ) (structNum : Int) (delta : ℚ) : Option (List ℚ) :=
  if structNum ≥ 0 then
    match pan[structNum.toNat]? with
    | none => none
    | some v => some (pan.set structNum.toNat (v + delta))
  else some (pan.map (fun v => v + delta))

/-- The rotate branches of `handle_input`: `rot` stands for the call
`set_rotate(a, b, c)` of `Protein.hpp` (not part of the sources) on one
structure. The result is `none` when `data[structNum]` is outside the
vector. -/
def rotate_update (rot : Protein → Protein) (data : List Protein) (structNum : Int) :
    Option (List Protein) :=
  if structNum ≥ 0 then
    match data[structNum.toNat]? with
    | none => none
    | some p => some (data.set structNum.toNat (rot p))
  else some (data.map rot)

/-- What one attempt of `load_random_pdb` meets: `download_pdb` returns no
file; `reload_protein` throws after clearing the scene, `pushed` being the
structure `set_protein` had added by then, if any; or `reload_protein`
returns with the normalised structure and the resolution that
`query_terminal_size` computed. -/
inductive LoadAttempt where
  | no_file
  | threw (pushed : Option Protein)
  | loaded (p : Protein) (buf_width buf_height : Int)

/-- The call `framebuffer.resize(n, fill)`. -/
def resize_framebuffer (fb : List Pixel) (n : Nat) (fill : Pixel) : List Pixel :=
  fb.take n ++ List.replicate (n - fb.length) fill

/-- The method `UnicodeScreen::auto_detect_color_scheme`; the number of entries
of `get_chain_length()` is the number of chains of the structure. -/
def UnicodeScreen.auto_detect_color_scheme (s : UnicodeScreen) : UnicodeScreen :=
  let total_chains : Int := s.data.foldl (fun total p => total + (p.get_atoms.length : Int)) 0
  { s with color_scheme := if total_chains > 1 then ColorScheme.CHAIN else ColorScheme.RAINBOW }

/-- The method `UnicodeScreen::load_random_pdb` on the outcomes of its
attempts (the loop makes at most 5); the result holds the returned flag. -/
def UnicodeScreen.load_random_pdb (s : UnicodeScreen) : List LoadAttempt → UnicodeScreen × Bool
  | [] => (s, false)
  | LoadAttempt.no_file :: rest => s.load_random_pdb rest
  | LoadAttempt.threw pushed :: rest =>
    UnicodeScreen.load_random_pdb
      { s with data := pushed.toList, pan_x := pushed.toList.map (fun _ => 0),
               pan_y := pushed.toList.map (fun _ => 0) } rest
  | LoadAttempt.loaded p buf_width buf_height :: _ =>
    (UnicodeScreen.auto_detect_color_scheme
      { s with data := [p], pan_x := [0], pan_y := [0], buf_width := buf_width,
               buf_height := buf_height,
               framebuffer := resize_framebuffer s.framebuffer (buf_width * buf_height).toNat
                 ⟨0, 0, 0, 0, false⟩ }, true)

/-- What `handle_input` takes from outside the sources: the method
`Protein::set_rotate` and the declaration order of the palettes. -/
structure KeyEnv where
  set_rotate : Int → Int → Int → Protein → Protein
  decl : List PaletteType

/-- The method `UnicodeScreen::handle_input`: `input` is the byte that `read`
delivers (`none` when `poll` reports nothing or `read` fails), `attempts`
the outcomes of the attempts of `load_random_pdb`. The result holds the
returned flag; it is `none` when an access to `pan_x`, `pan_y` or `data` is
outside the vector. -/
def UnicodeScreen.handle_input (env : KeyEnv) (attempts : List LoadAttempt)
    (input : Option Nat) (s : UnicodeScreen) : Option (UnicodeScreen × Bool) :=
  match input with
  | none => some (s, true)
  | some c =>
    if c = key '0' then some ({ s with structNum := -1 }, true)
    else if key '1' ≤ c ∧ c ≤ key '6' then
      if (c : Int) - (key '0' : Int) ≤ (s.data.length : Int) then
        some ({ s with structNum := (c : Int) - (key '1' : Int) }, true)
      else some (s, true)
    else if c = key 'v' ∨ c = key 'V' then
      some ({ s with view_mode := int_to_view ((view_to_int s.view_mode + 1) % 3) }, true)
    else if c = key 'a' ∨ c = key 'A' then
      (pan_update s.pan_x s.structNum (-pan_step)).map (fun pan => ({ s with pan_x := pan }, true))
    else if c = key 'd' ∨ c = key 'D' then
      (pan_update s.pan_x s.structNum pan_step).map (fun pan => ({ s with pan_x := pan }, true))
    else if c = key 'w' ∨ c = key 'W' then
      (pan_update s.pan_y s.structNum pan_step).map (fun pan => ({ s with pan_y := pan }, true))
    else if c = key 's' ∨ c = key 'S' then
      (pan_update s.pan_y s.structNum (-pan_step)).map (fun pan => ({ s with pan_y := pan }, true))
    else if c = key 'x' ∨ c = key 'X' then
      (rotate_update (env.set_rotate 1 0 0) s.data s.structNum).map
        (fun data => ({ s with data := data }, true))
    else if c = key 'y' ∨ c = key 'Y' then
      (rotate_update (env.set_rotate 0 1 0) s.data s.structNum).map
        (fun data => ({ s with data := data }, true))
    else if c = key 'z' ∨ c = key 'Z' then
      (rotate_update (env.set_rotate 0 0 1) s.data s.structNum).map
        (fun data => ({ s with data := data }, true))
    else if c = key 'r' ∨ c = key 'R' then
      if s.zoom_level + 3 / 10 < 15 then
        some ({ s with zoom_level := s.zoom_level + 3 / 10 }, true)
      else some (s, true)
    else if c = key 'f' ∨ c = key 'F' then
      if s.zoom_level - 3 / 10 > 5 / 10 then
        some ({ s with zoom_level := s.zoom_level - 3 / 10 }, true)
      else some (s, true)
    else if c = key ' ' then some ({ s with auto_rotate := !s.auto_rotate }, true)
    else if c = key 'c' ∨ c = key 'C' then
      some ({ s with color_scheme := int_to_scheme ((scheme_to_int s.color_scheme + 1) % 3) },
        true)
    else if c = key 'p' ∨ c = key 'P' then some (s.palette_key env.decl, true)
    else if c = key 'n' ∨ c = key 'N' then
      if s.random_mode = true then some ((s.load_random_pdb (attempts.take 5)).1, true)
      else some (s, true)
    else if c = key 'q' ∨ c = key 'Q' then some (s, false)
    else some (s, true)

/-- The bytes that `handle_input` binds to a command. -/
def bound_key (c : Nat) : Bool :=
  (key '0' ≤ c ∧ c ≤ key '6') ∨
    c ∈ [key 'v', key 'V', key 'a', key 'A', key 'd', key 'D', key 'w', key 'W', key 's',
      key 'S', key 'x', key 'X', key 'y', key 'Y', key 'z', key 'Z', key 'r', key 'R',
      key 'f', key 'F', key ' ', key 'c', key 'C', key 'p', key 'P', key 'n', key 'N',
      key 'q', key 'Q']

/-- One input of the tick loop: the pending byte, if any, and the outcomes of
the attempts of a reload. -/
structure TickInput where
  byte : Option Nat
  attempts : List LoadAttempt := []

/-- The calls of `handle_input` of the tick loop of `main` on a sequence of
inputs: the loop ends when a call returns `false`. -/
def UnicodeScreen.handle_inputs (env : KeyEnv) : List TickInput → UnicodeScreen →
    Option UnicodeScreen
  | [], s => some s
  | i :: rest, s =>
    match s.handle_input env i.attempts i.byte with
    | none => none
    | some (s1, run) => if run = true then UnicodeScreen.handle_inputs env rest s1 else some s1

/-- The constructor `UnicodeScreen::UnicodeScreen`: the member initialisers of
the header, then the body. `wal` is the content of the theme file, as for
`load_colors`; `buf_width` and `buf_height` have no initialiser and start
with the indeterminate values `w`, `h`. -/
def UnicodeScreen.new (show_structure : Bool) (mode : String) (sixel : Bool)
    (wal : Option (List RGB)) (w h : Int) : UnicodeScreen :=
  UnicodeScreen.load_colors wal
    { buf_width := w, buf_height := h, framebuffer := [],
      screen_show_structure := show_structure, screen_mode := mode, use_sixel := sixel }

/-! ## Command line (`Parameters.cpp`) -/

/-- The members of `class Parameters` with their initialisers. -/
structure Parameters where
  show_structure : Bool := false
  predict_structure : Bool := false
  sixel : Bool := false
  random_pdb : Bool := false
  arg_okay : Bool := true
  in_file : List String := []
  chains : List String := []
  utmatrix : String := ""
  chainfile : String := ""
  mode : String := "protein"
  pdb_id : String := ""
  render_path : String := ""
deriving DecidableEq, Repr

/-- The call `std::transform(.., ::tolower)` on a string. -/
def str_tolower (t : String) : String :=
  String.mk (t.data.map Char.toLower)

/-- The call `std::transform(.., ::toupper)` on a string. -/
def str_toupper (t : String) : String :=
  String.mk (t.data.map Char.toUpper)

/-- The second loop of the constructor of `Parameters`, from the argument
`argv[i]` on: the list holds `argv[i], .., argv[argc - 1]`. The result is
`Except.error` with the members as they are when an exception is thrown.
The test `fs::exists(a) && fs::is_regular_file(a)` is the parameter
`is_file`. -/
def Parameters.scan (is_file : String → Bool) : List String → Parameters →
    Except Parameters Parameters
  | [], p => Except.ok p
  | a :: rest, p =>
    if a = "-m" ∨ a = "--mode" then
      match rest with
      | v :: rest1 =>
        let val := str_tolower v
        if val = "chain" ∨ val = "rainbow" ∨ val = "protein" then
          Parameters.scan is_file rest1 { p with mode := val }
        else Except.error p
      | [] => Except.error p
    else if a = "-c" ∨ a = "--chains" then
      match rest with
      | v :: rest1 => Parameters.scan is_file rest1 { p with chainfile := v }
      | [] => Except.error p
    else if a = "-s" ∨ a = "--structure" then
      Parameters.scan is_file rest { p with show_structure := true }
    else if a = "-p" ∨ a = "--predict" then
      Parameters.scan is_file rest { p with predict_structure := true }
    else if a = "--sixel" then Parameters.scan is_file rest { p with sixel := true }
    else if a = "--random" then Parameters.scan is_file rest { p with random_pdb := true }
    else if a = "--pdb" then
      match rest with
      | v :: rest1 => Parameters.scan is_file rest1 { p with pdb_id := str_toupper v }
      | [] => Except.error p
    else if a = "--render" then
      match rest with
      | v :: rest1 => Parameters.scan is_file rest1 { p with render_path := v }
      | [] => Except.error p
    else if a = "-ut" ∨ a = "--utmatrix" then
      match rest with
      | v :: rest1 => Parameters.scan is_file rest1 { p with utmatrix := v }
      | [] => Except.error p
    else if is_file a = true ∧ p.in_file.length < 6 then
      Parameters.scan is_file rest { p with in_file := p.in_file ++ [a] }
    else Except.error p

/-- The checks of the constructor of `Parameters` after the loop. -/
def Parameters.validate (p : Parameters) : Parameters :=
  let p1 : Parameters :=
    { p with chains := p.chains ++ List.replicate (p.in_file.length - p.chains.length) "-" }
  if p1.random_pdb = true ∧ p1.pdb_id ≠ "" then { p1 with arg_okay := false }
  else if p1.in_file.length = 0 ∧ p1.random_pdb = false ∧ p1.pdb_id = "" then
    { p1 with arg_okay := false }
  else p1

/-- The constructor `Parameters::Parameters` on the arguments `argv[1], ..,
argv[argc - 1]`. The result is `none` when the constructor does not return:
with `--help` among the arguments it prints the help and calls
`std::exit(0)`. -/
def Parameters.new (is_file : String → Bool) (args : List String) : Option Parameters :=
  if "--help" ∈ args then none
  else if args.length + 1 ≤ 1 then some { arg_okay := false }
  else
    match Parameters.scan is_file args {} with
    | Except.error p => some { p with arg_okay := false }
    | Except.ok p => some p.validate

/-- The method `Parameters::check_arg_okay`. -/
def Parameters.check_arg_okay (p : Parameters) : Bool :=
  p.arg_okay

/-- The method `Parameters::get_mode`. -/
def Parameters.get_mode (p : Parameters) : String :=
  p.mode

/-- The arguments after which the loop of `Parameters` reads a value. -/
def takes_value (a : String) : Bool :=
  a ∈ ["-m", "--mode", "-c", "--chains", "--pdb", "--render", "-ut", "--utmatrix"]

/-- An argument list read as a command line: every option that takes a value
is paired with the argument that follows it (`none` when it is the last
argument), every other argument stands alone. -/
def arg_items : List String → List (String × Option String)
  | [] => []
  | a :: rest =>
    if takes_value a = true then
      match rest with
      | v :: rest1 => (a, some v) :: arg_items rest1
      | [] => [(a, none)]
    else (a, none) :: arg_items rest

/-- What the loop of `Parameters` does with one item of the command line. -/
def item_step (is_file : String → Bool) (p : Parameters) (item : String × Option String) :
    Except Parameters Parameters :=
  let a := item.1
  if a = "-m" ∨ a = "--mode" then
    match item.2 with
    | some v =>
      if str_tolower v = "chain" ∨ str_tolower v = "rainbow" ∨ str_tolower v = "protein" then
        Except.ok { p with mode := str_tolower v }
      else Except.error p
    | none => Except.error p
  else if a = "-c" ∨ a = "--chains" then
    match item.2 with
    | some v => Except.ok { p with chainfile := v }
    | none => Except.error p
  else if a = "-s" ∨ a = "--structure" then Except.ok { p with show_structure := true }
  else if a = "-p" ∨ a = "--predict" then Except.ok { p with predict_structure := true }
  else if a = "--sixel" then Except.ok { p with sixel := true }
  else if a = "--random" then Except.ok { p with random_pdb := true }
  else if a = "--pdb" then
    match item.2 with
    | some v => Except.ok { p with pdb_id := str_toupper v }
    | none => Except.error p
  else if a = "--render" then
    match item.2 with
    | some v => Except.ok { p with render_path := v }
    | none => Except.error p
  else if a = "-ut" ∨ a = "--utmatrix" then
    match item.2 with
    | some v => Except.ok { p with utmatrix := v }
    | none => Except.error p
  else if is_file a = true ∧ p.in_file.length < 6 then
    Except.ok { p with in_file := p.in_file ++ [a] }
  else Except.error p

/-- The loop of `Parameters` over a list of items. -/
def items_scan (is_file : String → Bool) :
    List (String × Option String) → Parameters → Except Parameters Parameters
  | [], p => Except.ok p
  | item :: rest, p =>
    match item_step is_file p item with
    | Except.error q => Except.error q
    | Except.ok q => items_scan is_file rest q

/-- Reference definition of the palette interpolation, after the words of the
specification: `t` is clamped to [0, 1]; the position is `idx = t * (n - 1)`;
the result interpolates linearly, channel by channel and truncated, between
the stop `floor(idx)` and the next stop (the last stop itself at the end); a
single-stop palette gives that stop and an empty palette gives white. -/
def interpolate_reference (stops : List RGB) (t : ℚ) : RGB :=
  let n := stops.length
  if n = 0 then ⟨255, 255, 255⟩
  else if n = 1 then stops.getD 0 ⟨255, 255, 255⟩
  else
    let idx : ℚ := max 0 (min t 1) * ((n : ℚ) - 1)
    let i : Nat := ⌊idx⌋.toNat
    let f : ℚ := idx - ⌊idx⌋
    let a := stops.getD i ⟨255, 255, 255⟩
    let b := stops.getD (min (i + 1) (n - 1)) ⟨255, 255, 255⟩
    { r := ⌊(a.r : ℚ) + ((b.r : ℚ) - (a.r : ℚ)) * f⌋.toNat
      g := ⌊(a.g : ℚ) + ((b.g : ℚ) - (a.g : ℚ)) * f⌋.toNat
      b := ⌊(a.b : ℚ) + ((b.b : ℚ) - (a.b : ℚ)) * f⌋.toNat }

/-- Reference definition of the palette interpolation in binary32, after the
words of the specification with every operation rounded: `t` is clamped to
[0, 1]; the position is `idx = fl(t * (n - 1))`; with `i = floor(idx)` and
`f = fl(idx - i)` a channel is `floor(fl(a + fl((b - a) * f)))` for the
channels `a`, `b` of the stop `i` and of the next stop (the last stop itself
at the end); a single-stop palette gives that stop and an empty palette
gives white. -/
def interpolate_reference_f32 (stops : List RGB) (t : ℚ) : RGB :=
  let n := stops.length
  if n = 0 then ⟨255, 255, 255⟩
  else if n = 1 then stops.getD 0 ⟨255, 255, 255⟩
  else
    let idx : ℚ := f32 (max 0 (min t 1) * f32 ((n : ℚ) - 1))
    let i : Nat := ⌊idx⌋.toNat
    let f : ℚ := f32 (idx - ⌊idx⌋)
    let a := stops.getD i ⟨255, 255, 255⟩
    let b := stops.getD (min (i + 1) (n - 1)) ⟨255, 255, 255⟩
    { r := ⌊f32 ((a.r : ℚ) + f32 (((b.r : ℚ) - (a.r : ℚ)) * f))⌋.toNat
      g := ⌊f32 ((a.g : ℚ) + f32 (((b.g : ℚ) - (a.g : ℚ)) * f))⌋.toNat
      b := ⌊f32 ((a.b : ℚ) + f32 (((b.b : ℚ) - (a.b : ℚ)) * f))⌋.toNat }

/-! ## Drawing primitives (`draw_line`, `draw_filled_circle`) -/

/-- The body of the loop over `t` in `draw_line`: the four axis neighbours of
the sample `(ix, iy)` at the offset `t`, with the faded brightness. -/
def UnicodeScreen.plot_neighbours (s : UnicodeScreen) (ix iy : Int) (z : ℚ) (color : RGB)
    (brightness : ℚ) (t : Int) : Option UnicodeScreen :=
  let fade := brightness * (1 - 25 / 100 * (t : ℚ))
  match s.plot_pixel (ix + t) iy z color fade with
  | none => none
  | some s1 =>
    match s1.plot_pixel (ix - t) iy z color fade with
    | none => none
    | some s2 =>
      match s2.plot_pixel ix (iy + t) z color fade with
      | none => none
      | some s3 => s3.plot_pixel ix (iy - t) z color fade

/-- The locals `x`, `y`, `z` of the sample loops of `draw_line` and
`project_grid`, with the screen. -/
structure LineState where
  x : ℚ
  y : ℚ
  z : ℚ
  screen : UnicodeScreen

/-- The body of the loop over the samples of `draw_line`. -/
def line_step (xInc yInc zInc : ℚ) (thick : Nat) (color : RGB) (brightness : ℚ)
    (st : LineState) : Option LineState :=
  let ix := float_to_int (st.x + 1 / 2)
  let iy := float_to_int (st.y + 1 / 2)
  match st.screen.plot_pixel ix iy st.z color brightness with
  | none => none
  | some s1 =>
    match (List.range thick).foldlM
        (fun (s2 : UnicodeScreen) (k : Nat) =>
          s2.plot_neighbours ix iy st.z color brightness ((k : Int) + 1))
        s1 with
    | none => none
    | some s3 => some { x := st.x + xInc, y := st.y + yInc, z := st.z + zInc, screen := s3 }

/-- The method `UnicodeScreen::draw_line`. -/
def UnicodeScreen.draw_line (s : UnicodeScreen) (x0 y0 : Int) (z0 : ℚ) (x1 y1 : Int) (z1 : ℚ)
    (color : RGB) (brightness : ℚ) : Option UnicodeScreen :=
  let dx := x1 - x0
  let dy := y1 - y0
  let steps : Int := max |dx| |dy|
  if steps = 0 then s.plot_pixel x0 y0 z0 color brightness
  else
    let xInc : ℚ := (dx : ℚ) / (steps : ℚ)
    let yInc : ℚ := (dy : ℚ) / (steps : ℚ)
    let zInc : ℚ := (z1 - z0) / (steps : ℚ)
    let thick : Nat := if s.use_sixel = true then 2 else 1
    match (List.range (steps + 1).toNat).foldlM
        (fun (st : LineState) (_ : Nat) => line_step xInc yInc zInc thick color brightness st)
        { x := (x0 : ℚ), y := (y0 : ℚ), z := z0, screen := s } with
    | none => none
    | some st => some st.screen

/-- The values `-radius, .., radius` of the loop variables of
`draw_filled_circle`. -/
def circle_offsets (radius : Int) : List Int :=
  (List.range (2 * radius + 1).toNat).map (fun k => -radius + (k : Int))

/-- The method `UnicodeScreen::draw_filled_circle`; the library function `sqrtf`
is a parameter. -/
def UnicodeScreen.draw_filled_circle (sqrtf : ℚ → ℚ) (s : UnicodeScreen) (cx cy : Int) (z : ℚ)
    (radius : Int) (color : RGB) (brightness : ℚ) : Option UnicodeScreen :=
  (circle_offsets radius).foldlM
    (fun (s1 : UnicodeScreen) (dy : Int) =>
      (circle_offsets radius).foldlM
        (fun (s2 : UnicodeScreen) (dx : Int) =>
          let dist := sqrtf ((dx * dx + dy * dy : Int) : ℚ)
          if dist ≤ (radius : ℚ) then
            let edge := 1 - max 0 ((dist - (radius : ℚ) + 15 / 10) / (15 / 10))
            s2.plot_pixel (cx + dx) (cy + dy) z color (brightness * edge)
          else some s2)
        s1)
    s

/-! ## Views (`project_backbone`, `project_grid`, `project_surface`) -/

/-- The `switch (color_scheme)` of the three views: the color of a projected
atom. The result is `none` when `get_color_for_point` or `get_chain_color`
reads `palette_colors` outside the vector. -/
def UnicodeScreen.resolve_color (s : UnicodeScreen) (a : ProjAtom) (global_total : Int) :
    Option RGB :=
  match s.color_scheme with
  | ColorScheme.RAINBOW => s.get_color_for_point a.global_idx global_total
  | ColorScheme.CHAIN => s.get_chain_color a.chain_idx a.total_chains
  | ColorScheme.STRUCTURE => some (get_ss_color a.ss_type)

/-- The body of the loop of `project_backbone` over the atoms of one chain. -/
def UnicodeScreen.backbone_step (global_total : Int) (chain : List ProjAtom)
    (s : UnicodeScreen) (i : Nat) : Option UnicodeScreen :=
  match chain[i]? with
  | none => none
  | some a =>
    match s.resolve_color a global_total with
    | none => none
    | some color =>
      if i > 0 then
        match chain[i - 1]? with
        | none => none
        | some prev => s.draw_line prev.sx prev.sy prev.z a.sx a.sy a.z color a.brightness
      else some s

/-- The loops of `project_backbone` over the chains that `project_atoms`
returned. -/
def UnicodeScreen.backbone_chains (s : UnicodeScreen) (global_total : Int)
    (chains : List (List ProjAtom)) : Option UnicodeScreen :=
  chains.foldlM
    (fun (s1 : UnicodeScreen) (chain : List ProjAtom) =>
      (List.range chain.length).foldlM (UnicodeScreen.backbone_step global_total chain) s1)
    s

/-- The method `UnicodeScreen::project_backbone`. -/
def UnicodeScreen.project_backbone (tanf : ℚ → ℚ) (s : UnicodeScreen) :
    Option UnicodeScreen :=
  match project_atoms tanf s.data s.pan_x s.zoom_level s.focal_offset s.pan_y s.buf_width
      s.buf_height with
  | none => none
  | some (chains, global_total) => s.backbone_chains global_total chains

/-- The method `UnicodeScreen::project_surface`. -/
def UnicodeScreen.project_surface (sqrtf tanf : ℚ → ℚ) (s : UnicodeScreen) :
    Option UnicodeScreen :=
  match project_atoms tanf s.data s.pan_x s.zoom_level s.focal_offset s.pan_y s.buf_width
      s.buf_height with
  | none => none
  | some (chains, global_total) =>
    let r_scale : ℚ := if s.use_sixel = true then 4 else 1
    chains.foldlM
      (fun (s1 : UnicodeScreen) (chain : List ProjAtom) =>
        chain.foldlM
          (fun (s2 : UnicodeScreen) (a : ProjAtom) =>
            match s2.resolve_color a global_total with
            | none => none
            | some color =>
              let radius := float_to_int ((3 + a.brightness * 3) * r_scale)
              s2.draw_filled_circle sqrtf a.sx a.sy a.z radius color a.brightness)
          s1)
      s

/-- The struct `FlatAtom` of `project_grid`. -/
structure FlatAtom where
  sx : Int
  sy : Int
  z : ℚ
  brightness : ℚ
  x3d : ℚ
  y3d : ℚ
  z3d : ℚ
  color : RGB

/-- The first loop of `project_grid` for one chain, the entry number
`chain_offset` of the structures: the atoms `0 .. get_chain_length - 1` are
paired with `chains[chain_offset][i]` and appended to `all_atoms`. The result
is `none` when `chain_atoms[i]` is outside the vector or the color reads
`palette_colors` outside the vector. -/
def UnicodeScreen.grid_chain (s : UnicodeScreen) (chains : List (List ProjAtom))
    (global_total : Int) (acc : List FlatAtom × Int) (chain : Chain) :
    Option (List FlatAtom × Int) :=
  let chain_offset := acc.2
  match (List.range chain.chain_length.toNat).foldlM
      (fun (all_atoms : List FlatAtom) (i : Nat) =>
        match chain.chain_atoms[i]? with
        | none => none
        | some atom =>
          if chain_offset < (chains.length : Int) ∧
              (i : Int) < ((chains.getD chain_offset.toNat []).length : Int) then
            match (chains.getD chain_offset.toNat [])[i]? with
            | none => none
            | some pa =>
              match s.resolve_color pa global_total with
              | none => none
              | some color =>
                some (all_atoms ++
                  [{ sx := pa.sx, sy := pa.sy, z := pa.z, brightness := pa.brightness,
                     x3d := atom.get_position 0, y3d := atom.get_position 1,
                     z3d := atom.get_position 2, color := color }])
          else some all_atoms)
      acc.1 with
  | none => none
  | some all_atoms => some (all_atoms, chain_offset + 1)

/-- The first loop of `project_grid`: the vector `all_atoms`. -/
def UnicodeScreen.grid_atoms (s : UnicodeScreen) (chains : List (List ProjAtom))
    (global_total : Int) : Option (List FlatAtom) :=
  match s.data.foldlM
      (fun (acc : List FlatAtom × Int) (target : Protein) =>
        target.get_atoms.foldlM (s.grid_chain chains global_total) acc)
      ([], 0) with
  | none => none
  | some acc => some acc.1

/-- The 3D distance `sqrtf(dx*dx + dy*dy + dz*dz)` of two entries of
`all_atoms`. -/
def flat_dist (sqrtf : ℚ → ℚ) (a b : FlatAtom) : ℚ :=
  let dx := a.x3d - b.x3d
  let dy := a.y3d - b.y3d
  let dz := a.z3d - b.z3d
  sqrtf (dx * dx + dy * dy + dz * dz)

/-- The second loop of `project_grid` and the value `threshold`. -/
def grid_threshold (sqrtf : ℚ → ℚ) (all_atoms : List FlatAtom) : Option ℚ :=
  match (List.range (all_atoms.length - 1)).foldlM
      (fun (acc : ℚ × Int) (k : Nat) =>
        match all_atoms[k + 1]?, all_atoms[k]? with
        | some a, some b =>
          let d := flat_dist sqrtf a b
          if d > 1 / 1000 ∧ d < 5 / 10 then some (acc.1 + d, acc.2 + 1) else some acc
        | _, _ => none)
      (0, 0) with
  | none => none
  | some (avg_dist, dist_count) =>
    some (if dist_count > 0 then (avg_dist / (dist_count : ℚ)) * (25 / 10) else 15 / 100)

/-- The third loop of `project_grid` for one chain: a line for every
consecutive pair, between the entries `flat_idx + i - 1` and `flat_idx + i`
of `all_atoms`. -/
def UnicodeScreen.grid_chain_lines (all_atoms : List FlatAtom)
    (acc : UnicodeScreen × Int) (chain : List ProjAtom) : Option (UnicodeScreen × Int) :=
  let flat_idx := acc.2
  let n : Int := all_atoms.length
  match (List.range (chain.length - 1)).foldlM
      (fun (s : UnicodeScreen) (k : Nat) =>
        let ai : Int := flat_idx + ((k : Int) + 1) - 1
        let bi : Int := flat_idx + ((k : Int) + 1)
        if ai ≥ 0 ∧ ai < n ∧ bi < n then
          match all_atoms[ai.toNat]?, all_atoms[bi.toNat]? with
          | some a, some b =>
            s.draw_line a.sx a.sy a.z b.sx b.sy b.z b.color
              ((a.brightness + b.brightness) * (1 / 2))
          | _, _ => none
        else some s)
      acc.1 with
  | none => none
  | some s => some (s, flat_idx + (chain.length : Int))

/-- The body of the fourth loop of `project_grid` for the pair `(i, j)`: the
proximity edge between `a = all_atoms[i]` and `b = all_atoms[j]`. -/
def UnicodeScreen.grid_edge (sqrtf : ℚ → ℚ) (threshold : ℚ) (s : UnicodeScreen)
    (a b : FlatAtom) : Option UnicodeScreen :=
  if flat_dist sqrtf a b < threshold then
    let br := (a.brightness + b.brightness) * (1 / 2)
    let ddx := b.sx - a.sx
    let ddy := b.sy - a.sy
    let steps : Int := max |ddx| |ddy|
    if steps = 0 then some s
    else
      let xInc : ℚ := (ddx : ℚ) / (steps : ℚ)
      let yInc : ℚ := (ddy : ℚ) / (steps : ℚ)
      let zInc : ℚ := (b.z - a.z) / (steps : ℚ)
      match (List.range (steps + 1).toNat).foldlM
          (fun (st : LineState) (_ : Nat) =>
            match st.screen.plot_pixel (float_to_int (st.x + 1 / 2))
                (float_to_int (st.y + 1 / 2)) st.z b.color (br * (7 / 10)) with
            | none => none
            | some s1 =>
              some { x := st.x + xInc, y := st.y + yInc, z := st.z + zInc, screen := s1 })
          { x := (a.sx : ℚ), y := (a.sy : ℚ), z := a.z, screen := s } with
      | none => none
      | some st => some st.screen
  else some s

/-- The fourth loop of `project_grid`: the pairs `i < j` with `j >= i + 3`. -/
def UnicodeScreen.grid_edges (sqrtf : ℚ → ℚ) (threshold : ℚ) (all_atoms : List FlatAtom)
    (s : UnicodeScreen) : Option UnicodeScreen :=
  (List.range all_atoms.length).foldlM
    (fun (s1 : UnicodeScreen) (i : Nat) =>
      (List.range (all_atoms.length - (i + 3))).foldlM
        (fun (s2 : UnicodeScreen) (k : Nat) =>
          match all_atoms[i]?, all_atoms[i + 3 + k]? with
          | some a, some b => s2.grid_edge sqrtf threshold a b
          | _, _ => none)
        s1)
    s

/-- The method `UnicodeScreen::project_grid`. -/
def UnicodeScreen.project_grid (sqrtf tanf : ℚ → ℚ) (s : UnicodeScreen) :
    Option UnicodeScreen :=
  match project_atoms tanf s.data s.pan_x s.zoom_level s.focal_offset s.pan_y s.buf_width
      s.buf_height with
  | none => none
  | some (chains, global_total) =>
    match s.grid_atoms chains global_total with
    | none => none
    | some all_atoms =>
      match grid_threshold sqrtf all_atoms with
      | none => none
      | some threshold =>
        match chains.foldlM (UnicodeScreen.grid_chain_lines all_atoms) (s, 0) with
        | none => none
        | some (s1, _) =>
          match s1.grid_edges sqrtf threshold all_atoms with
          | none => none
          | some s2 =>
            let dot_r : Int := if s.use_sixel = true then 3 else 1
            all_atoms.foldlM
              (fun (s3 : UnicodeScreen) (a : FlatAtom) =>
                s3.draw_filled_circle sqrtf a.sx a.sy a.z dot_r a.color a.brightness)
              s2

/-- The chains that the main loop of `project_atoms` pushes for the chains `cs`
of the structure `target`, entered with the counters `chain_idx` and
`global_idx`: one list for every chain with atoms. -/
def projected_chains (env : ProjEnv) (target : Protein) (px py : ℚ) :
    Int → Int → List Chain → List (List ProjAtom)
  | _, _, [] => []
  | chain_idx, global_idx, chain :: cs =>
    (if chain.chain_atoms = [] then []
     else [project_list env target px py chain_idx chain.chain_atoms global_idx]) ++
      projected_chains env target px py (chain_idx + 1)
        (global_idx + (chain.chain_atoms.length : Int)) cs

/-- The chains that the main loop of `project_atoms` pushes for the structures
`data[ii], data[ii + 1], ..`. -/
def projected_scene (env : ProjEnv) : Nat → Int → Int → List Protein → List (List ProjAtom)
  | _, _, _, [] => []
  | ii, chain_idx, global_idx, target :: rest =>
    projected_chains env target (env.pan_x.getD ii 0) (env.pan_y.getD ii 0) chain_idx
        global_idx target.get_atoms ++
      projected_scene env (ii + 1) (chain_idx + (target.get_atoms.length : Int))
        (global_idx + (target.all_atoms.length : Int)) rest

/-- The values that `project_atoms` fixes before its main loop, on a scene
whose chain lengths are those of its atom vectors. -/
def scene_env (tanf : ℚ → ℚ) (data : List Protein) (pan_x : List ℚ)
    (zoom_level focal_offset : ℚ) (pan_y : List ℚ) (buf_width buf_height : Int) : ProjEnv :=
  let count : Int := (scene_atoms data).length
  let sx := ((scene_atoms data).map (fun a => a.x)).sum
  let sy := ((scene_atoms data).map (fun a => a.y)).sum
  let sz := ((scene_atoms data).map (fun a => a.z)).sum
  { cx := if count > 0 then sx / (count : ℚ) else sx
    cy := if count > 0 then sy / (count : ℚ) else sy
    cz := if count > 0 then sz / (count : ℚ) else sz
    total_chains := count_chains data
    fovRads := 1 / tanf ((FOV / zoom_level) * (1 / 2) / 180 * PI)
    half_w := (buf_width : ℚ) * (1 / 2)
    half_h := (buf_height : ℚ) * (1 / 2)
    scale := min ((buf_width : ℚ) * (1 / 2)) ((buf_height : ℚ) * (1 / 2))
    focal_offset := focal_offset
    pan_x := pan_x
    pan_y := pan_y }

/-- The arguments of one call of `draw_line`. -/
structure LineCall where
  x0 : Int
  y0 : Int
  z0 : ℚ
  x1 : Int
  y1 : Int
  z1 : ℚ
  color : RGB
  brightness : ℚ

/-- A sequence of calls of `draw_line`, one after the other. -/
def UnicodeScreen.draw_lines (s : UnicodeScreen) (calls : List LineCall) :
    Option UnicodeScreen :=
  calls.foldlM
    (fun (s1 : UnicodeScreen) (c : LineCall) =>
      s1.draw_line c.x0 c.y0 c.z0 c.x1 c.y1 c.z1 c.color c.brightness)
    s

/-- The line from the projected atom `prev` to the projected atom `a`, with the
color `color` and the brightness of `a`. -/
def line_between (color : RGB) (prev a : ProjAtom) : LineCall :=
  { x0 := prev.sx, y0 := prev.sy, z0 := prev.z, x1 := a.sx, y1 := a.sy, z1 := a.z,
    color := color, brightness := a.brightness }

/-- One line for every consecutive pair of a chain of projected atoms, from the
atom `i - 1` to the atom `i`, in the order of `i`. -/
def chain_lines (color_of : ProjAtom → RGB) (chain : List ProjAtom) : List LineCall :=
  (chain.zip chain.tail).map (fun pair => line_between (color_of pair.2) pair.1 pair.2)

/-- A state that differs from `s` in the framebuffer only. -/
def UnicodeScreen.same_controls (s s1 : UnicodeScreen) : Prop :=
  s1 = { s with framebuffer := s1.framebuffer }

/-! ## Start-up (`main`, the constructor of `UnicodeScreen`) -/

/-- The method `UnicodeScreen::set_protein`; `protein` is the structure that the
constructor of `Protein` (not part of the sources) builds from the file. -/
def UnicodeScreen.set_protein (protein : Protein) (s : UnicodeScreen) : UnicodeScreen :=
  { s with data := s.data ++ [protein], pan_x := s.pan_x ++ [0], pan_y := s.pan_y ++ [0] }

/-- The method `UnicodeScreen::normalize_proteins`: `normalised` stands for the
structures after `load_data`, `do_shift` and `do_scale` of `Protein.hpp` (not
part of the sources), `buf_width` and `buf_height` for the resolution that
`query_terminal_size` computes. -/
def UnicodeScreen.normalize_proteins (normalised : List Protein) (buf_width buf_height : Int)
    (s : UnicodeScreen) : UnicodeScreen :=
  { s with data := normalised, buf_width := buf_width, buf_height := buf_height,
           framebuffer := resize_framebuffer s.framebuffer (buf_width * buf_height).toNat
             ⟨0, 0, 0, 0, false⟩ }

/-- The branch of `main` for local input files, after the constructor of the
screen: `set_protein` for every file, then `normalize_proteins`
(`set_chainfile`, `set_tmatrix` and `set_utmatrix` write members that the
views do not read). -/
def UnicodeScreen.load_files (proteins normalised : List Protein) (buf_width buf_height : Int)
    (s : UnicodeScreen) : UnicodeScreen :=
  UnicodeScreen.normalize_proteins normalised buf_width buf_height
    (proteins.foldl (fun s1 protein => UnicodeScreen.set_protein protein s1) s)

/-! ## Terminal geometry (`UnicodeScreen::query_terminal_size`) -/

/-- The struct `winsize` that `ioctl(TIOCGWINSZ)` fills: four `unsigned short`
values. -/
structure Winsize where
  ws_row : Nat
  ws_col : Nat
  ws_xpixel : Nat
  ws_ypixel : Nat
deriving DecidableEq

/-- The method `UnicodeScreen::query_terminal_size`: `ws` is what `ioctl` reports,
`none` when the call fails. The result is `none` on the integer division
`pixel_height / term_rows` by zero. -/
def UnicodeScreen.query_terminal_size (ws : Option Winsize) (s : UnicodeScreen) :
    Option UnicodeScreen :=
  let s1 : UnicodeScreen :=
    match ws with
    | none => s
    | some w =>
      let s0 : UnicodeScreen := { s with term_cols := w.ws_col, term_rows := w.ws_row }
      if s.use_sixel = true then
        { s0 with pixel_width := w.ws_xpixel, pixel_height := w.ws_ypixel }
      else s0
  let s2 : UnicodeScreen := { s1 with info_rows := 1 + (s1.data.length : Int) }
  if s2.use_sixel = true then
    if s2.pixel_width > 0 ∧ s2.pixel_height > 0 then
      if s2.term_rows = 0 then none
      else
        let cell_px_h := Int.tdiv s2.pixel_height s2.term_rows
        let render_pixel_h := s2.pixel_height - s2.info_rows * cell_px_h
        some { s2 with buf_width := s2.pixel_width, buf_height := max 6 render_pixel_h }
    else
      some { s2 with buf_width := s2.term_cols * 8,
                     buf_height := (s2.term_rows - s2.info_rows) * 16 }
  else
    let render_rows := max 4 (s2.term_rows - s2.info_rows)
    some { s2 with buf_width := s2.term_cols * 2, buf_height := render_rows * 4 }

/-! ## Chain selection (`UnicodeScreen::set_chainfile`) -/

/-- The body of the loop of `set_chainfile` for one non-empty line: `index` and
`chainlist` are what `iss >> index >> chainlist` extracts from it. The
result is `none` when the write `chainVec[index]` is outside the vector. -/
def chainfile_line (filesize : Int) (chainVec : List String) (line : Int × String) :
    Option (List String) :=
  let index := line.1
  let chainlist := line.2
  if index ≥ filesize then some chainVec
  else if 0 ≤ index ∧ index.toNat < chainVec.length then
    some (chainVec.set index.toNat chainlist)
  else none

/-- The method `UnicodeScreen::set_chainfile` on the member `chainVec`: `file` is
`none` when the name is empty or the file cannot be opened, and holds the
extracted values of the non-empty lines otherwise. -/
def set_chainfile (file : Option (List (Int × String))) (filesize : Int)
    (chainVec : List String) : Option (List String) :=
  let chainVec1 := chainVec ++ List.replicate filesize.toNat "-"
  match file with
  | none => some chainVec1
  | some lines => lines.foldlM (chainfile_line filesize) chainVec1

/-- The method `UnicodeScreen::set_utmatrix` tests the index of a line by
`index < 0 || index >= (int)filenum` before it writes. -/
def utmatrix_skips (filenum index : Int) : Bool :=
  index < 0 ∨ index ≥ filenum

/-- One sample of `draw_line`: the centre pixel `(ix, iy)`, then for
`t = 1 .. thick` its four axis neighbours at the distance `t`. -/
def UnicodeScreen.line_sample (s : UnicodeScreen) (ix iy : Int) (z : ℚ) (thick : Nat)
    (color : RGB) (brightness : ℚ) : Option UnicodeScreen :=
  match s.plot_pixel ix iy z color brightness with
  | none => none
  | some s1 =>
    (List.range thick).foldlM
      (fun (s2 : UnicodeScreen) (k : Nat) =>
        s2.plot_neighbours ix iy z color brightness ((k : Int) + 1))
      s1

/-! ## Word wrap of the sidebar (`word_wrap`) -/

/-- The test `std::isspace` in the "C" locale, which ends a word of the
extraction `stream >> word`: space, tab, line feed, vertical tab, form feed,
carriage return. -/
def is_space (c : Nat) : Bool :=
  c = 32 ∨ (9 ≤ c ∧ c ≤ 13)

/-- The words that `stream >> word` extracts one after the other from the
rest `text` of the stream; `cur` holds the bytes of the word being read. -/
def stream_words_from : List Nat → List Nat → List (List Nat)
  | [], cur => if cur = [] then [] else [cur]
  | c :: rest, cur =>
    if is_space c = true then
      if cur = [] then stream_words_from rest [] else cur :: stream_words_from rest []
    else stream_words_from rest (cur ++ [c])

/-- The words of a text, as the loop `while (stream >> word)` sees them. -/
def stream_words (text : List Nat) : List (List Nat) :=
  stream_words_from text []

/-- The body of the loop of `word_wrap`; the state holds `lines` and `line`. -/
def wrap_step (width : Int) (st : List (List Nat) × List Nat) (word : List Nat) :
    List (List Nat) × List Nat :=
  if st.2.isEmpty = true then (st.1, word)
  else if ((st.2.length + 1 + word.length : Nat) : Int) ≤ width then
    (st.1, st.2 ++ ([32] ++ word))
  else (st.1 ++ [st.2], word)

/-- The function `word_wrap` of `UnicodeScreen.cpp`, on the bytes of the text. -/
def word_wrap (text : List Nat) (width : Int) : List (List Nat) :=
  let st := (stream_words text).foldl (wrap_step width) ([], [])
  if st.2.isEmpty = true then st.1 else st.1 ++ [st.2]

/-- Words joined by single spaces. -/
def join_words (ws : List (List Nat)) : List Nat :=
  List.intercalate [32] ws

/-- The loop body of `word_wrap` on the words of the lines instead of their
bytes: `st.2` holds the words of the line being filled. -/
def wrap_step_words (width : Int) (st : List (List (List Nat)) × List (List Nat))
    (word : List Nat) : List (List (List Nat)) × List (List Nat) :=
  if st.2 = [] then (st.1, [word])
  else if (((join_words st.2).length + 1 + word.length : Nat) : Int) ≤ width then
    (st.1, st.2 ++ [word])
  else (st.1 ++ [st.2], [word])

/-- The words of the lines of `word_wrap`, line after line. -/
def wrap_groups (ws : List (List Nat)) (width : Int) : List (List (List Nat)) :=
  let st := ws.foldl (wrap_step_words width) ([], [])
  if st.2 = [] then st.1 else st.1 ++ [st.2]

/-- The invariant of the loop of `word_wrap` after the words `ws`: the full
lines `st.1` and the line being filled `st.2` hold the words `ws` in order,
no full line is empty, a line of several words fits the width, and the first
word of a line did not fit on the line before it. -/
def wrap_inv (width : Int) (ws : List (List Nat))
    (st : List (List (List Nat)) × List (List Nat)) : Prop :=
  st.1.flatten ++ st.2 = ws ∧ (∀ g ∈ st.1, g ≠ []) ∧ (st.1 ≠ [] → st.2 ≠ []) ∧
  (∀ g ∈ st.1 ++ [st.2], 1 < g.length → ((join_words g).length : Int) ≤ width) ∧
  List.Chain' (fun g1 g2 => ∃ w, g2.head? = some w ∧
    width < (((join_words g1).length + 1 + w.length : Nat) : Int)) (st.1 ++ [st.2])

/-! ## Example scenes

Concrete inputs on which the properties below are instantiated. -/

/-- A 10 x 10 screen whose only active pixel is (0, 0), the top-left subpixel
of the cell (0, 0). -/
def demo_top_left : UnicodeScreen :=
  { buf_width := 10, buf_height := 10,
    framebuffer := (List.replicate 100 ⟨0, 0, 0, 0, false⟩).set 0 ⟨255, 70, 70, 1, true⟩ }

/-- A screen of one cell (2 x 4 pixels) with three active pixels: (0, 1) at
depth 3, (1, 0) at depth 2 and (1, 2) at depth 2. -/
def demo_nearest : UnicodeScreen :=
  { buf_width := 2, buf_height := 4,
    framebuffer :=
      [⟨0, 0, 0, 0, false⟩, ⟨40, 50, 60, 2, true⟩, ⟨10, 20, 30, 3, true⟩, ⟨0, 0, 0, 0, false⟩,
       ⟨0, 0, 0, 0, false⟩, ⟨70, 80, 90, 2, true⟩, ⟨0, 0, 0, 0, false⟩, ⟨0, 0, 0, 0, false⟩] }

/-- One row of 16 palette pixels: twelve of index 5, one of index 6, three of
index 5. -/
def demo_row : List Int :=
  List.replicate 12 5 ++ [6] ++ List.replicate 3 5

/-- A screen with the built-in palette `NEON` of `apply_palette`, before the
contrast boost. -/
def demo_palette : UnicodeScreen :=
  { buf_width := 0, buf_height := 0, framebuffer := [],
    palette_colors := [⟨255, 70, 70⟩, ⟨255, 140, 50⟩, ⟨255, 210, 60⟩, ⟨80, 220, 80⟩,
      ⟨50, 200, 220⟩, ⟨80, 120, 255⟩, ⟨160, 80, 255⟩, ⟨255, 80, 180⟩] }

/-- A structure of two chains, three atoms in all, with centroid (2, 1, 3). -/
def demo_protein : Protein :=
  { get_atoms :=
      [{ chainID := "A", chain_atoms := [⟨1, 2, 3, 'H'⟩, ⟨3, 0, 1, 'H'⟩], chain_length := 2 },
       { chainID := "B", chain_atoms := [⟨2, 1, 5, 'S'⟩], chain_length := 1 }] }

/-- A structure of one chain with atoms at depth 1 and 2, of z-extent 1 .. 5. -/
def demo_extent : Protein :=
  { get_atoms :=
      [{ chainID := "A", chain_atoms := [⟨0, 0, 1, 'H'⟩, ⟨1, 0, 2, 'H'⟩], chain_length := 2 }],
    scaled_min_z := 1, scaled_max_z := 5 }

/-- A screen that holds the structure `demo_protein`. -/
def demo_scene : UnicodeScreen :=
  { buf_width := 10, buf_height := 10, framebuffer := [],
    data := [demo_protein], pan_x := [0], pan_y := [0] }

/-- The screen `demo_scene` with auto-rotate disabled. -/
def demo_scene_still : UnicodeScreen :=
  { demo_scene with auto_rotate := false }

/-- A theme of eight colors on a black background. -/
def demo_theme : List RGB :=
  [⟨0, 0, 0⟩, ⟨10, 10, 10⟩, ⟨200, 0, 0⟩, ⟨0, 200, 0⟩, ⟨0, 0, 200⟩, ⟨200, 200, 0⟩,
   ⟨0, 200, 200⟩, ⟨180, 180, 180⟩]

/-- Two rows of 5 palette pixels: a row of index 16, then one pixel of index 17
and four inactive ones. -/
def demo_band : List Int :=
  [16, 16, 16, 16, 16, 17, -1, -1, -1, -1]

/-- An image of 1 x 7 pixels: six opaque red pixels and a transparent one. -/
def demo_pixels : List RGBA :=
  List.replicate 6 ⟨255, 0, 0, 255⟩ ++ [⟨0, 0, 255, 10⟩]

/-- A cleared framebuffer of 10 x 10 cells. -/
def demo_screen : UnicodeScreen :=
  { buf_width := 10, buf_height := 10,
    framebuffer := List.replicate 100 ⟨0, 0, 0, 0, false⟩ }

/-- The screen `demo_screen` after the cell (5, 5) received the color
(255, 70, 70) at depth 1. -/
def demo_first : UnicodeScreen :=
  { demo_screen with framebuffer := demo_screen.framebuffer.set 55 ⟨255, 70, 70, 1, true⟩ }

/-- A screen of 4 x 4 cells with one structure of one atom, in the state the
constructor leaves. -/
def demo_controls : UnicodeScreen :=
  { buf_width := 4, buf_height := 4, framebuffer := List.replicate 16 ⟨0, 0, 0, 0, false⟩,
    data := [{ get_atoms := [⟨"A", [⟨0, 0, 0, 'x'⟩], 1⟩] }], pan_x := [0], pan_y := [0] }

/-- An environment of `handle_input` in which `set_rotate` changes nothing and
the palettes are those of the header. -/
def demo_keys : KeyEnv :=
  { set_rotate := fun _ _ _ p => p, decl := header_palette_decl }

/-- A screen whose palette has the two stops (0, 100, 200) and (100, 0, 201). -/
def demo_blend : UnicodeScreen :=
  { buf_width := 0, buf_height := 0, framebuffer := [],
    palette_colors := [⟨0, 100, 200⟩, ⟨100, 0, 201⟩] }

/-- A screen of 4 x 4 cells whose only structure has one chain without atoms. -/
def demo_hollow : UnicodeScreen :=
  { buf_width := 4, buf_height := 4, framebuffer := List.replicate 16 ⟨0, 0, 0, 0, false⟩,
    data := [{ get_atoms := [⟨"A", [], 0⟩] }], pan_x := [0], pan_y := [0] }

/-- A screen of 10 x 10 cells that holds the structure `demo_protein` (a chain
of two atoms and a chain of one atom), with a palette of two stops. -/
def demo_backbone : UnicodeScreen :=
  { buf_width := 10, buf_height := 10,
    framebuffer := List.replicate 100 ⟨0, 0, 0, 0, false⟩,
    palette_colors := [⟨255, 70, 70⟩, ⟨80, 120, 255⟩],
    data := [demo_protein], pan_x := [0], pan_y := [0] }

/-- A strip of 3 x 1 inactive cells in Braille mode. -/
def demo_strip : UnicodeScreen :=
  { buf_width := 3, buf_height := 1, framebuffer := List.replicate 3 ⟨0, 0, 0, 0, false⟩ }

/-- A screen of 10 x 10 cells whose only structure has a chain without atoms
before two chains of one atom each, at (1, 2, 3) and (3, 0, 1). -/
def demo_gap : UnicodeScreen :=
  { buf_width := 10, buf_height := 10,
    framebuffer := List.replicate 100 ⟨0, 0, 0, 0, false⟩,
    palette_colors := [⟨255, 70, 70⟩, ⟨80, 120, 255⟩],
    data := [{ get_atoms := [⟨"A", [], 0⟩, ⟨"B", [⟨1, 2, 3, 'H'⟩], 1⟩,
                             ⟨"C", [⟨3, 0, 1, 'H'⟩], 1⟩] }],
    pan_x := [0], pan_y := [0] }

/-- A screen of one cell that is active with the color (255, 70, 70) at the
depth `d`. -/
def demo_cell (d : ℚ) : UnicodeScreen :=
  { buf_width := 1, buf_height := 1, framebuffer := [⟨255, 70, 70, d, true⟩] }

/-- A screen whose palette has the fourteen stops `(i, 13 - i, 0)`, `i = 0 .. 13`. -/
def demo_ramp : UnicodeScreen :=
  { buf_width := 0, buf_height := 0, framebuffer := [],
    palette_colors := [⟨0, 13, 0⟩, ⟨1, 12, 0⟩, ⟨2, 11, 0⟩, ⟨3, 10, 0⟩, ⟨4, 9, 0⟩, ⟨5, 8, 0⟩,
      ⟨6, 7, 0⟩, ⟨7, 6, 0⟩, ⟨8, 5, 0⟩, ⟨9, 4, 0⟩, ⟨10, 3, 0⟩, ⟨11, 2, 0⟩, ⟨12, 1, 0⟩,
      ⟨13, 0, 0⟩] }

theorem round_even_intCast (n : Int) : round_even (n : ℚ) = n := by
  unfold round_even
  rw [Int.floor_intCast, sub_self, if_pos (by norm_num)]

theorem round_even_floor (y : ℚ) : ⌊y⌋ ≤ round_even y ∧ round_even y ≤ ⌊y⌋ + 1 := by
  unfold round_even
  split_ifs <;> constructor <;> omega

theorem round_even_mono {x y : ℚ} (h : x ≤ y) : round_even x ≤ round_even y := by
  rcases lt_or_eq_of_le (Int.floor_le_floor h) with hlt | heq
  · have h1 := (round_even_floor x).2
    have h2 := (round_even_floor y).1
    omega
  · unfold round_even
    rw [heq]
    have hd : x - (⌊y⌋ : ℚ) ≤ y - (⌊y⌋ : ℚ) := by linarith
    split_ifs <;> first | omega | (exfalso; linarith)

theorem round_even_neg (y : ℚ) : round_even (-y) = -round_even y := by
  by_cases hy : (⌊y⌋ : ℚ) = y
  · rw [← hy, ← Int.cast_neg, round_even_intCast, round_even_intCast]
  · have h1 : (⌊y⌋ : ℚ) < y := lt_of_le_of_ne (Int.floor_le y) hy
    have h2 : y < (⌊y⌋ : ℚ) + 1 := Int.lt_floor_add_one y
    have hf : ⌊-y⌋ = -⌊y⌋ - 1 := by
      rw [Int.floor_eq_iff]
      push_cast
      constructor <;> linarith
    unfold round_even
    rw [hf]
    push_cast
    split_ifs <;> first | omega | (exfalso; linarith)

theorem f32_binade_up_spec (fuel : Nat) (e : Int) (p a : ℚ) (hp : p = (2 : ℚ) ^ e)
    (hle : p ≤ a) :
    (f32_binade_up fuel e p a).2 = (2 : ℚ) ^ (f32_binade_up fuel e p a).1 ∧
    e ≤ (f32_binade_up fuel e p a).1 ∧ (f32_binade_up fuel e p a).1 ≤ e + fuel ∧
    (f32_binade_up fuel e p a).2 ≤ a ∧
    ((f32_binade_up fuel e p a).1 < e + fuel →
      a < (2 : ℚ) ^ ((f32_binade_up fuel e p a).1 + 1)) := by
  induction fuel generalizing e p with
  | zero =>
    simp only [f32_binade_up]
    exact ⟨hp, le_refl _, by simp, hle, fun h => absurd h (by simp)⟩
  | succ k ih =>
    unfold f32_binade_up
    split_ifs with hc
    · have hp2 : 2 * p = (2 : ℚ) ^ (e + 1) := by
        rw [hp, zpow_add₀ (by norm_num : (2 : ℚ) ≠ 0)]
        norm_num
        ring
      obtain ⟨h1, h2, h3, h4, h5⟩ := ih (e + 1) (2 * p) hp2 hc
      refine ⟨h1, by omega, by push_cast; omega, h4, fun h => h5 (by push_cast at h; omega)⟩
    · refine ⟨hp, le_refl _, by push_cast; omega, hle, fun _ => ?_⟩
      have hp2 : 2 * p = (2 : ℚ) ^ (e + 1) := by
        rw [hp, zpow_add₀ (by norm_num : (2 : ℚ) ≠ 0)]
        norm_num
        ring
      show a < (2 : ℚ) ^ (e + 1)
      rw [← hp2]
      exact not_le.mp hc

theorem f32_binade_down_spec (fuel : Nat) (e : Int) (p a : ℚ) (hp : p = (2 : ℚ) ^ e)
    (hlt : a < 2 * p) :
    (f32_binade_down fuel e p a).2 = (2 : ℚ) ^ (f32_binade_down fuel e p a).1 ∧
    e - fuel ≤ (f32_binade_down fuel e p a).1 ∧ (f32_binade_down fuel e p a).1 ≤ e ∧
    (e - fuel < (f32_binade_down fuel e p a).1 → (f32_binade_down fuel e p a).2 ≤ a) ∧
    a < (2 : ℚ) ^ ((f32_binade_down fuel e p a).1 + 1) := by
  have hp2 : 2 * p = (2 : ℚ) ^ (e + 1) := by
    rw [hp, zpow_add₀ (by norm_num : (2 : ℚ) ≠ 0)]
    norm_num
    ring
  induction fuel generalizing e p with
  | zero =>
    simp only [f32_binade_down]
    refine ⟨hp, by simp, le_refl _, fun h => absurd h (by simp), ?_⟩
    rw [← hp2]
    exact hlt
  | succ k ih =>
    unfold f32_binade_down
    split_ifs with hc
    · refine ⟨hp, by push_cast; omega, le_refl _, fun _ => hc, ?_⟩
      show a < (2 : ℚ) ^ (e + 1)
      rw [← hp2]
      exact hlt
    · have hp3 : p / 2 = (2 : ℚ) ^ (e - 1) := by
        rw [hp, zpow_sub₀ (by norm_num : (2 : ℚ) ≠ 0)]
        norm_num
      have hlt2 : a < 2 * (p / 2) := by
        have := not_le.mp hc
        linarith
      have hp4 : 2 * (p / 2) = (2 : ℚ) ^ (e - 1 + 1) := by
        rw [sub_add_cancel, ← hp]
        ring
      obtain ⟨h1, h2, h3, h4, h5⟩ := ih (e - 1) (p / 2) hp3 hlt2 hp4
      refine ⟨h1, by push_cast; omega, by omega, fun h => h4 (by push_cast at h; omega), h5⟩

theorem f32_binade_spec (a : ℚ) :
    (f32_binade a).2 = (2 : ℚ) ^ f32_exponent a ∧
    -126 ≤ f32_exponent a ∧ f32_exponent a ≤ 127 ∧
    (-126 < f32_exponent a → (2 : ℚ) ^ f32_exponent a ≤ a) ∧
    (f32_exponent a < 127 → a < (2 : ℚ) ^ (f32_exponent a + 1)) := by
  unfold f32_exponent f32_binade
  split_ifs with h1
  · obtain ⟨h1, h2, h3, h4, h5⟩ := f32_binade_up_spec 127 0 1 a (by norm_num) h1
    refine ⟨h1, by omega, by push_cast at h3; omega, fun _ => ?_, fun h => h5 (by push_cast; omega)⟩
    rw [← h1]
    exact h4
  · obtain ⟨h1, h2, h3, h4, h5⟩ := f32_binade_down_spec 126 0 1 a (by norm_num)
      (by linarith [not_le.mp h1])
    refine ⟨h1, by push_cast at h2; omega, by omega, fun h => ?_, fun _ => h5⟩
    rw [← h1]
    exact h4 (by push_cast; omega)

theorem f32_exponent_range (a : ℚ) : -126 ≤ f32_exponent a ∧ f32_exponent a ≤ 127 :=
  ⟨(f32_binade_spec a).2.1, (f32_binade_spec a).2.2.1⟩

theorem f32_exponent_le (a : ℚ) (h : -126 < f32_exponent a) : (2 : ℚ) ^ f32_exponent a ≤ a :=
  (f32_binade_spec a).2.2.2.1 h

theorem f32_exponent_lt (a : ℚ) (h : f32_exponent a < 127) :
    a < (2 : ℚ) ^ (f32_exponent a + 1) :=
  (f32_binade_spec a).2.2.2.2 h

theorem f32_eq (x : ℚ) :
    f32 x = (round_even (x / (2 : ℚ) ^ (f32_exponent |x| - 23)) : ℚ)
      * (2 : ℚ) ^ (f32_exponent |x| - 23) := by
  have h : (f32_binade |x|).2 / 8388608 = (2 : ℚ) ^ (f32_exponent |x| - 23) := by
    rw [(f32_binade_spec |x|).1, zpow_sub₀ (by norm_num : (2 : ℚ) ≠ 0)]
    norm_num
  have hr : ∀ b : Int × ℚ, f32_round x b
      = (round_even (x / (b.2 / 8388608)) : ℚ) * (b.2 / 8388608) := fun b => by
    cases b
    rfl
  unfold f32
  rw [hr, h]

theorem f32_exponent_mono {a b : ℚ} (h : a ≤ b) : f32_exponent a ≤ f32_exponent b := by
  by_contra hc
  push_neg at hc
  have h1 : -126 < f32_exponent a := lt_of_le_of_lt (f32_exponent_range b).1 hc
  have h2 : f32_exponent b < 127 := lt_of_lt_of_le hc (f32_exponent_range a).2
  have h3 := f32_exponent_le a h1
  have h4 := f32_exponent_lt b h2
  have h5 : (2 : ℚ) ^ (f32_exponent b + 1) ≤ (2 : ℚ) ^ f32_exponent a :=
    zpow_le_zpow_right₀ (by norm_num) (by omega)
  linarith

theorem f32_neg (x : ℚ) : f32 (-x) = -f32 x := by
  rw [f32_eq (-x), f32_eq x, abs_neg, neg_div, round_even_neg]
  push_cast
  ring

theorem f32_zero : f32 0 = 0 := by
  rw [f32_eq]
  rw [zero_div]
  have : round_even 0 = 0 := by
    have := round_even_intCast 0
    simpa using this
  rw [this]
  simp

theorem f32_nonneg {x : ℚ} (h : 0 ≤ x) : 0 ≤ f32 x := by
  rw [f32_eq]
  have hu : (0 : ℚ) < (2 : ℚ) ^ (f32_exponent |x| - 23) := zpow_pos (by norm_num) _
  apply mul_nonneg _ hu.le
  have h0 : round_even 0 ≤ round_even (x / (2 : ℚ) ^ (f32_exponent |x| - 23)) :=
    round_even_mono (div_nonneg h hu.le)
  have e0 : round_even 0 = 0 := by
    have := round_even_intCast 0
    simpa using this
  rw [e0] at h0
  exact_mod_cast h0

theorem f32_mono_nonneg {a b : ℚ} (ha : 0 ≤ a) (h : a ≤ b) : f32 a ≤ f32 b := by
  have hb : 0 ≤ b := le_trans ha h
  have hm := f32_exponent_mono (abs_le_abs_of_nonneg ha h)
  rw [f32_eq a, f32_eq b]
  rw [abs_of_nonneg ha, abs_of_nonneg hb] at *
  have hua : (0 : ℚ) < (2 : ℚ) ^ (f32_exponent a - 23) := zpow_pos (by norm_num) _
  have hub : (0 : ℚ) < (2 : ℚ) ^ (f32_exponent b - 23) := zpow_pos (by norm_num) _
  rcases lt_or_eq_of_le hm with hlt | heq
  · have h1 : f32_exponent a < 127 := lt_of_lt_of_le hlt (f32_exponent_range b).2
    have h2 : -126 < f32_exponent b := lt_of_le_of_lt (f32_exponent_range a).1 hlt
    have h3 := f32_exponent_lt a h1
    have h4 := f32_exponent_le b h2
    have e24 : (2 : ℚ) ^ (f32_exponent a + 1)
        = 16777216 * (2 : ℚ) ^ (f32_exponent a - 23) := by
      rw [show f32_exponent a + 1 = 24 + (f32_exponent a - 23) by ring,
        zpow_add₀ (by norm_num : (2 : ℚ) ≠ 0)]
      norm_num
    have e23 : (2 : ℚ) ^ (f32_exponent b)
        = 8388608 * (2 : ℚ) ^ (f32_exponent b - 23) := by
      rw [show f32_exponent b = 23 + (f32_exponent b - 23) by ring,
        zpow_add₀ (by norm_num : (2 : ℚ) ≠ 0)]
      norm_num
    have l1 : a / (2 : ℚ) ^ (f32_exponent a - 23) ≤ ((16777216 : Int) : ℚ) := by
      rw [div_le_iff₀ hua]
      push_cast
      linarith
    have l2 : ((8388608 : Int) : ℚ) ≤ b / (2 : ℚ) ^ (f32_exponent b - 23) := by
      rw [le_div_iff₀ hub]
      push_cast
      linarith
    have r1 := round_even_mono l1
    have r2 := round_even_mono l2
    rw [round_even_intCast] at r1 r2
    have r1q : (round_even (a / (2 : ℚ) ^ (f32_exponent a - 23)) : ℚ) ≤ 16777216 := by
      exact_mod_cast r1
    have r2q : (8388608 : ℚ) ≤ (round_even (b / (2 : ℚ) ^ (f32_exponent b - 23)) : ℚ) := by
      exact_mod_cast r2
    calc (round_even (a / (2 : ℚ) ^ (f32_exponent a - 23)) : ℚ) * (2 : ℚ) ^ (f32_exponent a - 23)
        ≤ 16777216 * (2 : ℚ) ^ (f32_exponent a - 23) :=
          mul_le_mul_of_nonneg_right r1q hua.le
      _ = (2 : ℚ) ^ (f32_exponent a + 1) := e24.symm
      _ ≤ (2 : ℚ) ^ (f32_exponent b) := zpow_le_zpow_right₀ (by norm_num) (by omega)
      _ = 8388608 * (2 : ℚ) ^ (f32_exponent b - 23) := e23
      _ ≤ (round_even (b / (2 : ℚ) ^ (f32_exponent b - 23)) : ℚ) * (2 : ℚ) ^ (f32_exponent b - 23) :=
          mul_le_mul_of_nonneg_right r2q hub.le
  · rw [heq]
    apply mul_le_mul_of_nonneg_right _ hub.le
    have : round_even (a / (2 : ℚ) ^ (f32_exponent b - 23)) ≤ round_even (b / (2 : ℚ) ^ (f32_exponent b - 23)) :=
      round_even_mono (div_le_div_of_nonneg_right h hub.le)
    exact_mod_cast this

theorem f32_mono {a b : ℚ} (h : a ≤ b) : f32 a ≤ f32 b := by
  rcases le_or_lt 0 a with ha | ha
  · exact f32_mono_nonneg ha h
  · rcases le_or_lt 0 b with hb | hb
    · have h1 : f32 a = -f32 (-a) := by rw [f32_neg, neg_neg]
      have h2 := f32_nonneg (show (0 : ℚ) ≤ -a by linarith)
      have h3 := f32_nonneg hb
      linarith
    · have h1 : f32 a = -f32 (-a) := by rw [f32_neg, neg_neg]
      have h2 : f32 b = -f32 (-b) := by rw [f32_neg, neg_neg]
      have h3 := f32_mono_nonneg (show (0 : ℚ) ≤ -b by linarith) (show -b ≤ -a by linarith)
      linarith

/-- A value that is a multiple of the unit of its binade is representable. -/
theorem f32_of_multiple (x : ℚ) (m : Int)
    (h : x = (m : ℚ) * (2 : ℚ) ^ (f32_exponent |x| - 23)) : f32 x = x := by
  have hu : (0 : ℚ) < (2 : ℚ) ^ (f32_exponent |x| - 23) := zpow_pos (by norm_num) _
  rw [f32_eq]
  have : x / (2 : ℚ) ^ (f32_exponent |x| - 23) = (m : ℚ) := by
    rw [div_eq_iff hu.ne']
    exact h
  rw [this, round_even_intCast]
  exact h.symm

theorem f32_intCast (n : Int) (h : |n| < 2 ^ 24) : f32 (n : ℚ) = n := by
  have hr := f32_exponent_range |(n : ℚ)|
  have he : f32_exponent |(n : ℚ)| ≤ 23 := by
    by_contra hc
    push_neg at hc
    have h1 := f32_exponent_le |(n : ℚ)| (by omega)
    have h2 : (2 : ℚ) ^ (24 : Int) ≤ (2 : ℚ) ^ f32_exponent |(n : ℚ)| :=
      zpow_le_zpow_right₀ (by norm_num) (by omega)
    have h3 : |(n : ℚ)| < (2 : ℚ) ^ (24 : Int) := by
      have : ((|n| : Int) : ℚ) < ((2 ^ 24 : Int) : ℚ) := by exact_mod_cast h
      push_cast at this
      norm_num
      exact this
    linarith
  obtain ⟨k, hk⟩ : ∃ k : Nat, f32_exponent |(n : ℚ)| - 23 = -(k : Int) :=
    ⟨(23 - f32_exponent |(n : ℚ)|).toNat, by omega⟩
  apply f32_of_multiple _ (n * 2 ^ k)
  rw [hk, zpow_neg, zpow_natCast]
  push_cast
  field_simp

theorem f32_natCast (n : Nat) (h : n < 2 ^ 24) : f32 (n : ℚ) = n := by
  have := f32_intCast (n : Int) (by
    rw [abs_of_nonneg (Int.natCast_nonneg n)]
    exact_mod_cast h)
  simpa using this

theorem f32_one : f32 1 = 1 := by
  have := f32_natCast 1 (by norm_num)
  simpa using this

theorem int_to_float_eq (i : Int) (h : |i| < 2 ^ 24) : int_to_float i = i :=
  f32_intCast i h

theorem f32_le_intCast {x : ℚ} (n : Int) (hn : |n| < 2 ^ 24) (h : x ≤ (n : ℚ)) :
    f32 x ≤ (n : ℚ) := by
  have := f32_mono h
  rwa [f32_intCast n hn] at this

theorem f32_ge_intCast {x : ℚ} (n : Int) (hn : |n| < 2 ^ 24) (h : (n : ℚ) ≤ x) :
    (n : ℚ) ≤ f32 x := by
  have := f32_mono h
  rwa [f32_intCast n hn] at this

/-! ## Properties of the pixel operations -/

theorem plot_pixel_in_bounds_index (w h x y : Int) (hx0 : 0 ≤ x) (hxw : x < w)
    (hy0 : 0 ≤ y) (hyh : y < h) :
    0 ≤ y * w + x ∧ y * w + x < w * h := by
  have hw : 0 < w := by omega
  have h1 : 0 ≤ y * w := Int.mul_nonneg hy0 (by omega)
  have h2 : (y + 1) * w ≤ h * w := Int.mul_le_mul_of_nonneg_right (by omega) (by omega)
  constructor
  · omega
  · nlinarith

theorem braille_step_spec (s : UnicodeScreen) (cc cr : Nat) (st : BrailleCell) (dc dr : Nat)
    (hlen : s.framebuffer.length = (s.buf_width * s.buf_height).toNat)
    (hcc : (cc : Int) * 2 + dc < s.buf_width) (hcr : (cr : Int) * 4 + dr < s.buf_height) :
    ∃ st', braille_step s cc cr st (dc, dr) = some st' ∧
      st'.pattern = st.pattern ||| (if subpixel_active s cc cr dc dr = true then dot_bits dc dr else 0) ∧
      st'.any_active = (st.any_active || subpixel_active s cc cr dc dr) := by
  have hidx := plot_pixel_in_bounds_index s.buf_width s.buf_height ((cc : Int) * 2 + dc)
    ((cr : Int) * 4 + dr) (by omega) hcc (by omega) hcr
  have hlt : (((cr : Int) * 4 + dr) * s.buf_width + ((cc : Int) * 2 + dc)).toNat
      < s.framebuffer.length := by
    rw [hlen]; omega
  have hb : ¬ ((cc : Int) * 2 + dc ≥ s.buf_width ∨ (cr : Int) * 4 + dr ≥ s.buf_height) := by
    omega
  simp only [braille_step, subpixel_active, hb, if_false, List.getElem?_eq_getElem hlt]
  by_cases ha : (s.framebuffer[(((cr : Int) * 4 + dr) * s.buf_width
      + ((cc : Int) * 2 + dc)).toNat]).active = true
  · simp only [ha, if_true]
    split <;> exact ⟨_, rfl, rfl, by simp⟩
  · simp only [ha, if_false]
    refine ⟨_, rfl, by simp, ?_⟩
    simp only [Bool.not_eq_true] at ha
    simp [ha]

theorem braille_positions_eq :
    braille_positions = [(0, 0), (0, 1), (0, 2), (0, 3), (1, 0), (1, 1), (1, 2), (1, 3)] := by
  decide

theorem braille_bits_decode (p : Nat) :
    ∀ b0 b1 b2 b3 b4 b5 b6 b7 : Bool,
      (((((((((0 ||| (if b0 = true then 0x01 else 0)) ||| (if b1 = true then 0x02 else 0))
        ||| (if b2 = true then 0x04 else 0)) ||| (if b3 = true then 0x40 else 0))
        ||| (if b4 = true then 0x08 else 0)) ||| (if b5 = true then 0x10 else 0))
        ||| (if b6 = true then 0x20 else 0)) ||| (if b7 = true then 0x80 else 0)) : Nat) = p →
      p < 256 ∧
      ((p &&& 0x01 != 0) = b0) ∧ ((p &&& 0x02 != 0) = b1) ∧ ((p &&& 0x04 != 0) = b2) ∧
      ((p &&& 0x40 != 0) = b3) ∧ ((p &&& 0x08 != 0) = b4) ∧ ((p &&& 0x10 != 0) = b5) ∧
      ((p &&& 0x20 != 0) = b6) ∧ ((p &&& 0x80 != 0) = b7) := by
  intro b0 b1 b2 b3 b4 b5 b6 b7 h
  subst h
  revert b0 b1 b2 b3 b4 b5 b6 b7
  decide

theorem codepoint_bytes_utf8 :
    ∀ p, p < 256 → codepoint_bytes (0x2800 + p) =
      (String.utf8EncodeChar (Char.ofNat (0x2800 + p))).map UInt8.toNat := by
  set_option maxRecDepth 1000000 in decide

/-- C4 (Braille round trip): for a cell of the render grid with an active
subpixel, on a framebuffer of size `buf_width * buf_height`, the scan returns
a pattern byte whose bit `dot_bits[dc][dr]` is set exactly when the subpixel
`(dc, dr)` is active; the eight table entries are distinct single bits of a
byte, so decoding the codepoint `0x2800 + pattern` recovers the
active/inactive map; and the cell is written as the two color escapes
followed by three bytes that are the UTF-8 encoding of that codepoint. -/
theorem render_braille_cell_roundtrip (s : UnicodeScreen) (cc cr : Nat)
    (hlen : s.framebuffer.length = (s.buf_width * s.buf_height).toNat)
    (hcc : (cc : Int) * 2 + 1 < s.buf_width) (hcr : (cr : Int) * 4 + 3 < s.buf_height)
    (hact : ∃ dc dr, dc < 2 ∧ dr < 4 ∧ subpixel_active s cc cr dc dr = true) :
    ∃ st, braille_cell s cc cr = some st ∧ st.pattern < 256 ∧
      (∀ dc dr, dc < 2 → dr < 4 →
        (st.pattern &&& dot_bits dc dr ≠ 0 ↔ subpixel_active s cc cr dc dr = true)) ∧
      (∀ dc dr, dc < 2 → dr < 4 →
        braille_decode (0x2800 + st.pattern) dc dr = subpixel_active s cc cr dc dr) ∧
      (∀ dc dr, dc < 2 → dr < 4 → ∃ k, k < 8 ∧ dot_bits dc dr = 2 ^ k) ∧
      (∀ dc dr dc' dr', dc < 2 → dr < 4 → dc' < 2 → dr' < 4 →
        dot_bits dc dr = dot_bits dc' dr' → dc = dc' ∧ dr = dr') ∧
      render_cell s cc cr = some (color_escape "38" st.best_color ++
        color_escape "48" s.bg_color ++ codepoint_bytes (0x2800 + st.pattern)) ∧
      codepoint_bytes (0x2800 + st.pattern) =
        (String.utf8EncodeChar (Char.ofNat (0x2800 + st.pattern))).map UInt8.toNat := by
  obtain ⟨s1, e1, p1, a1⟩ := braille_step_spec s cc cr {} 0 0 hlen (by omega) (by omega)
  obtain ⟨s2, e2, p2, a2⟩ := braille_step_spec s cc cr s1 0 1 hlen (by omega) (by omega)
  obtain ⟨s3, e3, p3, a3⟩ := braille_step_spec s cc cr s2 0 2 hlen (by omega) (by omega)
  obtain ⟨s4, e4, p4, a4⟩ := braille_step_spec s cc cr s3 0 3 hlen (by omega) (by omega)
  obtain ⟨s5, e5, p5, a5⟩ := braille_step_spec s cc cr s4 1 0 hlen (by omega) (by omega)
  obtain ⟨s6, e6, p6, a6⟩ := braille_step_spec s cc cr s5 1 1 hlen (by omega) (by omega)
  obtain ⟨s7, e7, p7, a7⟩ := braille_step_spec s cc cr s6 1 2 hlen (by omega) (by omega)
  obtain ⟨s8, e8, p8, a8⟩ := braille_step_spec s cc cr s7 1 3 hlen (by omega) (by omega)
  have hcell : braille_cell s cc cr = some s8 := by
    simp only [braille_cell, braille_positions_eq, List.foldlM_cons, List.foldlM_nil,
      e1, e2, e3, e4, e5, e6, e7, e8, Option.some_bind, Option.bind_eq_bind, pure]
  have hpat := braille_bits_decode s8.pattern
    (subpixel_active s cc cr 0 0) (subpixel_active s cc cr 0 1)
    (subpixel_active s cc cr 0 2) (subpixel_active s cc cr 0 3)
    (subpixel_active s cc cr 1 0) (subpixel_active s cc cr 1 1)
    (subpixel_active s cc cr 1 2) (subpixel_active s cc cr 1 3)
    (by
      rw [p8, p7, p6, p5, p4, p3, p2, p1]
      rfl)
  obtain ⟨hlt, h00, h01, h02, h03, h10, h11, h12, h13⟩ := hpat
  have hdec : ∀ dc dr, dc < 2 → dr < 4 →
      (s8.pattern &&& dot_bits dc dr != 0) = subpixel_active s cc cr dc dr := by
    intro dc dr hdc hdr
    interval_cases dc <;> interval_cases dr <;> assumption
  have hany : s8.any_active = true := by
    obtain ⟨dc, dr, hdc, hdr, h⟩ := hact
    rw [a8, a7, a6, a5, a4, a3, a2, a1]
    interval_cases dc <;> interval_cases dr <;> simp [h]
  refine ⟨s8, hcell, hlt, ?_, ?_, ?_, ?_, ?_, codepoint_bytes_utf8 _ hlt⟩
  · intro dc dr hdc hdr
    rw [← hdec dc dr hdc hdr]
    simp
  · intro dc dr hdc hdr
    rw [← hdec dc dr hdc hdr]
    simp [braille_decode]
  · intro dc dr hdc hdr
    interval_cases dc <;> interval_cases dr
    exacts [⟨0, by decide⟩, ⟨1, by decide⟩, ⟨2, by decide⟩, ⟨6, by decide⟩,
      ⟨3, by decide⟩, ⟨4, by decide⟩, ⟨5, by decide⟩, ⟨7, by decide⟩]
  · intro dc dr dc' dr' hdc hdr hdc' hdr'
    interval_cases dc <;> interval_cases dr <;> interval_cases dc' <;> interval_cases dr' <;>
      decide
  · simp only [render_cell, hcell, hany, if_true]

/-- Scenario of C4: the cell whose only active subpixel is the top-left one
has pattern 1, it is written as the codepoint 0x2801 (bytes E2 A0 81), and
decoding 0x2801 gives the top-left subpixel alone. -/
theorem render_braille_cell_roundtrip_witness :
    ∃ st, braille_cell demo_top_left 0 0 = some st ∧ 0x2800 + st.pattern = 0x2801 ∧
      render_cell demo_top_left 0 0 = some (color_escape "38" ⟨255, 70, 70⟩ ++
        color_escape "48" ⟨18, 18, 24⟩ ++ [0xE2, 0xA0, 0x81]) ∧
      braille_decode 0x2801 0 0 = subpixel_active demo_top_left 0 0 0 0 ∧
      braille_decode 0x2801 1 3 = subpixel_active demo_top_left 0 0 1 3 ∧
      braille_decode 0x2801 0 0 = true ∧ braille_decode 0x2801 1 3 = false := by
  obtain ⟨st, h1, -, -, h2, -, -, h3, -⟩ :=
    render_braille_cell_roundtrip demo_top_left 0 0 rfl (by decide) (by decide)
      ⟨0, 0, by decide, by decide, rfl⟩
  have e : braille_cell demo_top_left 0 0 = some ⟨1, some 1, ⟨255, 70, 70⟩, true⟩ := rfl
  rw [e] at h1
  cases h1
  exact ⟨_, e, rfl, h3, h2 0 0 (by decide) (by decide), h2 1 3 (by decide) (by decide),
    by decide, by decide⟩

/-! ## Properties of the Sixel encoder -/

theorem nearest_level_spec :
    ∀ v, v < 256 → nearest_level v < 6 ∧
      (∀ j, j < 6 → |(v : Int) - levels (nearest_level v)| ≤ |(v : Int) - levels j|) ∧
      (∀ j, j < nearest_level v →
        |(v : Int) - levels (nearest_level v)| < |(v : Int) - levels j|) := by
  set_option maxRecDepth 1000000 in decide

theorem nearest_level_levels : ∀ i, i < 6 → nearest_level (levels i).toNat = i := by
  decide

/-- C5 (palette quantisation): for 8-bit channels the result is
`16 + 36*ri + 6*gi + bi` where each of `ri`, `gi`, `bi` is an index below 6
of a level at minimal absolute distance from its channel, every level of
smaller index being strictly farther (the lower level wins a tie); the
result lies in 16..231, and a color made of the levels `i`, `j`, `k` maps to
`16 + 36*i + 6*j + k`. -/
theorem nearest_palette_color_spec (r g b : Nat) (hr : r < 256) (hg : g < 256) (hb : b < 256) :
    ∃ ri gi bi : Nat, nearest_palette_color r g b = 16 + 36 * ri + 6 * gi + bi ∧
      ri < 6 ∧ gi < 6 ∧ bi < 6 ∧
      (∀ j, j < 6 → |(r : Int) - levels ri| ≤ |(r : Int) - levels j|) ∧
      (∀ j, j < 6 → |(g : Int) - levels gi| ≤ |(g : Int) - levels j|) ∧
      (∀ j, j < 6 → |(b : Int) - levels bi| ≤ |(b : Int) - levels j|) ∧
      (∀ j, j < ri → |(r : Int) - levels ri| < |(r : Int) - levels j|) ∧
      (∀ j, j < gi → |(g : Int) - levels gi| < |(g : Int) - levels j|) ∧
      (∀ j, j < bi → |(b : Int) - levels bi| < |(b : Int) - levels j|) ∧
      16 ≤ nearest_palette_color r g b ∧ nearest_palette_color r g b ≤ 231 ∧
      (∀ i j k, i < 6 → j < 6 → k < 6 →
        nearest_palette_color (levels i).toNat (levels j).toNat (levels k).toNat
          = 16 + 36 * i + 6 * j + k) := by
  obtain ⟨r1, r2, r3⟩ := nearest_level_spec r hr
  obtain ⟨g1, g2, g3⟩ := nearest_level_spec g hg
  obtain ⟨b1, b2, b3⟩ := nearest_level_spec b hb
  refine ⟨nearest_level r, nearest_level g, nearest_level b, ?_, r1, g1, b1, r2, g2, b2,
    r3, g3, b3, ?_, ?_, ?_⟩
  · simp only [nearest_palette_color]; ring
  · simp only [nearest_palette_color]; omega
  · simp only [nearest_palette_color]; omega
  · intro i j k hi hj hk
    simp only [nearest_palette_color, nearest_level_levels i hi, nearest_level_levels j hj,
      nearest_level_levels k hk]
    ring

/-- Instances of C5: (100, 200, 115) is quantised to the levels 1, 4, 1 (115 is
equally near 95 and 135, the lower wins), index 77; and (255, 0, 135) to
16 + 36*5 + 0 + 2 = 198. -/
theorem nearest_palette_color_spec_witness :
    nearest_palette_color 100 200 115 = 77 ∧ nearest_palette_color 255 0 135 = 198 ∧
    ∃ ri gi bi : Nat, nearest_palette_color 100 200 115 = 16 + 36 * ri + 6 * gi + bi ∧
      ri < 6 ∧ gi < 6 ∧ bi < 6 := by
  obtain ⟨ri, gi, bi, h, hr, hg, hb, -⟩ :=
    nearest_palette_color_spec 100 200 115 (by decide) (by decide) (by decide)
  exact ⟨by decide, by decide, ri, gi, bi, h, hr, hg, hb⟩

theorem sixel_bit_step_spec (pp : List Int) (width height band_y : Nat) (color : Int)
    (x v bit : Nat) (hlen : pp.length = width * height) (hx : x < width) :
    sixel_bit_step pp width height band_y color x v bit =
      some (v ||| (if band_y + bit < height ∧ pp[(band_y + bit) * width + x]? = some color
        then 1 <<< bit else 0)) := by
  unfold sixel_bit_step
  by_cases hrow : band_y + bit < height
  · have hlt : (band_y + bit) * width + x < pp.length := by
      rw [hlen]
      have h1 : (band_y + bit + 1) * width ≤ height * width := Nat.mul_le_mul_right _ hrow
      have h2 : (band_y + bit + 1) * width = (band_y + bit) * width + width := by ring
      have h3 : height * width = width * height := Nat.mul_comm _ _
      omega
    simp only [hrow, if_true, List.getElem?_eq_getElem hlt, true_and, Option.some.injEq]
    by_cases hc : pp[(band_y + bit) * width + x] = color
    · simp [hc]
    · simp [hc]
  · simp [hrow]

theorem sixel_bits_sum (b0 b1 b2 b3 b4 b5 : Bool) :
    ((((((0 ||| (if b0 = true then 1 <<< 0 else 0)) ||| (if b1 = true then 1 <<< 1 else 0))
      ||| (if b2 = true then 1 <<< 2 else 0)) ||| (if b3 = true then 1 <<< 3 else 0))
      ||| (if b4 = true then 1 <<< 4 else 0)) ||| (if b5 = true then 1 <<< 5 else 0) : Nat)
    = (if b0 = true then 2 ^ 0 else 0) + ((if b1 = true then 2 ^ 1 else 0)
      + ((if b2 = true then 2 ^ 2 else 0) + ((if b3 = true then 2 ^ 3 else 0)
      + ((if b4 = true then 2 ^ 4 else 0) + ((if b5 = true then 2 ^ 5 else 0) + 0))))) := by
  revert b0 b1 b2 b3 b4 b5
  decide

theorem column_value_lt (pp : List Int) (width height band_y : Nat) (color : Int) (x : Nat) :
    column_value pp width height band_y color x < 64 := by
  have h : List.range 6 = [0, 1, 2, 3, 4, 5] := by decide
  simp only [column_value, h, List.map_cons, List.map_nil, List.sum_cons, List.sum_nil]
  split_ifs <;> omega

theorem sixel_column_spec (pp : List Int) (width height band_y : Nat) (color : Int)
    (x : Nat) (hlen : pp.length = width * height) (hx : x < width) :
    sixel_column pp width height band_y color x =
      some (((63 + column_value pp width height band_y color x : Nat) : Int)) := by
  have h : List.range 6 = [0, 1, 2, 3, 4, 5] := by decide
  have hs := sixel_bits_sum
    (decide (band_y + 0 < height ∧ pp[(band_y + 0) * width + x]? = some color))
    (decide (band_y + 1 < height ∧ pp[(band_y + 1) * width + x]? = some color))
    (decide (band_y + 2 < height ∧ pp[(band_y + 2) * width + x]? = some color))
    (decide (band_y + 3 < height ∧ pp[(band_y + 3) * width + x]? = some color))
    (decide (band_y + 4 < height ∧ pp[(band_y + 4) * width + x]? = some color))
    (decide (band_y + 5 < height ∧ pp[(band_y + 5) * width + x]? = some color))
  simp only [decide_eq_true_eq] at hs
  simp only [sixel_column, column_value, h, List.foldlM_cons, List.foldlM_nil,
    sixel_bit_step_spec pp width height band_y color x _ _ hlen hx, Option.some_bind,
    Option.bind_eq_bind, pure, List.map_cons, List.map_nil, List.sum_cons, List.sum_nil, hs]
  congr 1
  push_cast
  ring

theorem encode_columns_fold (pp : List Int) (width height band_y : Nat) (color : Int)
    (hlen : pp.length = width * height) (l : List Nat) (hl : ∀ x ∈ l, x < width)
    (st : RunState) :
    l.foldlM
      (fun st x =>
        match sixel_column pp width height band_y color x with
        | none => none
        | some ch => some (run_step st ch))
      st
    = some ((l.map (fun x =>
        ((63 + column_value pp width height band_y color x : Nat) : Int))).foldl run_step st) := by
  induction l generalizing st with
  | nil => rfl
  | cons x xs ih =>
    have hx : x < width := hl x (List.mem_cons_self _ _)
    have hxs : ∀ y ∈ xs, y < width := fun y hy => hl y (List.mem_cons_of_mem _ hy)
    simp only [List.foldlM_cons, sixel_column_spec pp width height band_y color x hlen hx,
      Option.some_bind, Option.bind_eq_bind, List.map_cons, List.foldl_cons]
    exact ih hxs _

theorem flush_run_eq (st : RunState) :
    flush_run st = st.out ++
      (if st.run_len = 0 then [] else run_token (char_byte st.run_char) st.run_len) := by
  unfold flush_run run_token
  by_cases h0 : st.run_len = 0
  · simp [h0]
  · have h1 : ¬ st.run_len ≤ 0 := by omega
    by_cases h3 : st.run_len ≤ 3
    · simp [h0, h1, h3]
    · simp [h0, h1, h3, List.append_assoc]

theorem flush_run_foldl (cols : List Int) (st : RunState) :
    flush_run (cols.foldl run_step st) = st.out ++
      (run_tokens st.run_char st.run_len cols).flatMap
        (fun r => run_token (char_byte r.1) r.2) := by
  induction cols generalizing st with
  | nil =>
    rw [List.foldl_nil, flush_run_eq, run_tokens]
    by_cases h0 : st.run_len = 0
    · simp [h0]
    · simp [h0]
  | cons x xs ih =>
    rw [List.foldl_cons, ih, run_tokens]
    by_cases hx : x = st.run_char
    · simp [run_step, hx]
    · simp only [run_step, hx, if_false, List.flatMap_append, flush_run_eq]
      by_cases h0 : st.run_len = 0
      · simp [h0]
      · simp [h0, List.append_assoc]

theorem run_tokens_expand (cur : Int) (cnt : Nat) (cols : List Int) :
    (run_tokens cur cnt cols).flatMap (fun r => List.replicate r.2 r.1)
      = List.replicate cnt cur ++ cols := by
  induction cols generalizing cur cnt with
  | nil =>
    rw [run_tokens]
    by_cases h0 : cnt = 0
    · simp [h0]
    · simp [h0]
  | cons x xs ih =>
    rw [run_tokens]
    by_cases hx : x = cur
    · simp only [hx, if_true, ih, List.replicate_succ']
      simp
    · simp only [hx, if_false, List.flatMap_append, ih]
      by_cases h0 : cnt = 0
      · simp [h0]
      · simp [h0]

theorem run_tokens_mem (cur : Int) (cnt : Nat) (cols : List Int) :
    ∀ r ∈ run_tokens cur cnt cols, 1 ≤ r.2 ∧ (r.1 ∈ cols ∨ (cnt ≠ 0 ∧ r.1 = cur)) := by
  induction cols generalizing cur cnt with
  | nil =>
    intro r hr
    rw [run_tokens] at hr
    by_cases h0 : cnt = 0
    · simp [h0] at hr
    · simp only [h0, if_false, List.mem_singleton] at hr
      subst hr
      exact ⟨by simp only; omega, Or.inr ⟨h0, rfl⟩⟩
  | cons x xs ih =>
    intro r hr
    rw [run_tokens] at hr
    by_cases hx : x = cur
    · simp only [hx, if_true] at hr
      obtain ⟨h1, h2⟩ := ih cur (cnt + 1) r hr
      refine ⟨h1, ?_⟩
      rcases h2 with h2 | ⟨_, h2⟩
      · exact Or.inl (List.mem_cons_of_mem _ h2)
      · exact Or.inl (by rw [h2, hx]; exact List.mem_cons_self _ _)
    · simp only [hx, if_false, List.mem_append] at hr
      rcases hr with hr | hr
      · by_cases h0 : cnt = 0
        · simp [h0] at hr
        · simp only [h0, if_false, List.mem_singleton] at hr
          subst hr
          exact ⟨by simp only; omega, Or.inr ⟨h0, rfl⟩⟩
      · obtain ⟨h1, h2⟩ := ih x 1 r hr
        refine ⟨h1, ?_⟩
        rcases h2 with h2 | ⟨_, h2⟩
        · exact Or.inl (List.mem_cons_of_mem _ h2)
        · exact Or.inl (by rw [h2]; exact List.mem_cons_self _ _)

theorem run_tokens_chain (cur : Int) (cnt : Nat) (cols : List Int) :
    List.Chain' (fun a b : Int × Nat => a.1 ≠ b.1) (run_tokens cur cnt cols) ∧
    (cnt ≠ 0 → ∀ r ∈ (run_tokens cur cnt cols).head?, r.1 = cur) := by
  induction cols generalizing cur cnt with
  | nil =>
    rw [run_tokens]
    by_cases h0 : cnt = 0
    · simp [h0]
    · simp [h0]
  | cons x xs ih =>
    rw [run_tokens]
    by_cases hx : x = cur
    · simp only [hx, if_true]
      obtain ⟨h1, h2⟩ := ih cur (cnt + 1)
      exact ⟨h1, fun _ => h2 (by omega)⟩
    · simp only [hx, if_false]
      obtain ⟨h1, h2⟩ := ih x 1
      by_cases h0 : cnt = 0
      · simp [h0, h1]
      · simp only [h0, if_false, List.singleton_append, List.head?_cons]
        refine ⟨?_, fun _ r hr => by simp at hr; rw [← hr]⟩
        rw [List.chain'_cons']
        refine ⟨fun r hr => ?_, h1⟩
        have := h2 (by omega) r hr
        simp only [ne_eq]
        rw [this]
        exact fun h => hx h.symm

theorem digitChar_toNat : ∀ d, d < 10 → (Nat.digitChar d).toNat = 48 + d := by
  decide

theorem toDigitsCore_spec (fuel : Nat) :
    ∀ (n : Nat) (ds : List Char), n < fuel →
      ∃ pre : List Nat,
        (Nat.toDigitsCore 10 fuel n ds).map Char.toNat = pre ++ ds.map Char.toNat ∧
        (∀ c ∈ pre, 48 ≤ c ∧ c ≤ 57) ∧
        pre.foldl (fun a c => a * 10 + (c - 48)) 0 = n := by
  induction fuel with
  | zero => intro n ds h; omega
  | succ fuel ih =>
    intro n ds h
    have hd : (Nat.digitChar (n % 10)).toNat = 48 + n % 10 :=
      digitChar_toNat _ (Nat.mod_lt _ (by decide))
    by_cases h0 : n / 10 = 0
    · refine ⟨[48 + n % 10], ?_, ?_, ?_⟩
      · simp [Nat.toDigitsCore, h0, hd]
      · intro c hc
        simp only [List.mem_singleton] at hc
        omega
      · simp only [List.foldl_cons, List.foldl_nil]
        omega
    · obtain ⟨pre, h1, h2, h3⟩ := ih (n / 10) (Nat.digitChar (n % 10) :: ds) (by omega)
      refine ⟨pre ++ [48 + n % 10], ?_, ?_, ?_⟩
      · simp only [Nat.toDigitsCore, h0, if_false, h1, List.map_cons, hd]
        simp
      · intro c hc
        simp only [List.mem_append, List.mem_singleton] at hc
        rcases hc with hc | hc
        · exact h2 c hc
        · omega
      · simp only [List.foldl_append, List.foldl_cons, List.foldl_nil, h3]
        omega

theorem to_string_spec (n : Nat) :
    (∀ c ∈ to_string n, 48 ≤ c ∧ c ≤ 57) ∧
    (to_string n).foldl (fun a c => a * 10 + (c - 48)) 0 = n := by
  obtain ⟨pre, h1, h2, h3⟩ := toDigitsCore_spec (n + 1) n [] (by omega)
  have : to_string n = pre := by
    simpa [to_string, Nat.toDigits] using h1
  rw [this]
  exact ⟨h2, h3⟩

theorem sixel_expand_digits (pre : List Nat) (hpre : ∀ c ∈ pre, 48 ≤ c ∧ c ≤ 57)
    (c : Nat) (hc : ¬ (48 ≤ c ∧ c ≤ 57)) (rest : List Nat) (a : Nat) :
    sixel_expand_from (some a) (pre ++ c :: rest) =
      List.replicate (pre.foldl (fun a c => a * 10 + (c - 48)) a) c ++
        sixel_expand_from none rest := by
  induction pre generalizing a with
  | nil => simp [sixel_expand_from, hc]
  | cons d ds ih =>
    have hd := hpre d (List.mem_cons_self _ _)
    have hds : ∀ c ∈ ds, 48 ≤ c ∧ c ≤ 57 := fun c h => hpre c (List.mem_cons_of_mem _ h)
    simp only [List.cons_append, sixel_expand_from, hd, and_self, if_true, List.foldl_cons]
    exact ih hds _

theorem sixel_expand_literal (k c : Nat) (hc : c ≠ 33) (rest : List Nat) :
    sixel_expand_from none (List.replicate k c ++ rest) =
      List.replicate k c ++ sixel_expand_from none rest := by
  induction k with
  | zero => simp
  | succ k ih =>
    simp only [List.replicate_succ, List.cons_append, sixel_expand_from, hc, if_false,
      List.append_eq, ih]

theorem sixel_expand_run_token (k c : Nat) (hc : c ≠ 33) (hd : ¬ (48 ≤ c ∧ c ≤ 57))
    (rest : List Nat) :
    sixel_expand_from none (run_token c k ++ rest) =
      List.replicate k c ++ sixel_expand_from none rest := by
  unfold run_token
  by_cases h3 : k ≤ 3
  · simp only [h3, if_true]
    exact sixel_expand_literal k c hc rest
  · obtain ⟨h1, h2⟩ := to_string_spec k
    have hb : str_bytes "!" = [33] := by decide
    simp only [h3, if_false, hb, List.append_assoc, List.singleton_append, sixel_expand_from,
      if_true, List.append_eq]
    rw [sixel_expand_digits (to_string k) h1 c hd rest 0, h2]

theorem sixel_expand_tokens (rs : List (Nat × Nat))
    (hrs : ∀ r ∈ rs, r.1 ≠ 33 ∧ ¬ (48 ≤ r.1 ∧ r.1 ≤ 57)) :
    sixel_expand (rs.flatMap (fun r => run_token r.1 r.2)) =
      rs.flatMap (fun r => List.replicate r.2 r.1) := by
  unfold sixel_expand
  induction rs with
  | nil => simp [sixel_expand_from]
  | cons r rs ih =>
    obtain ⟨h1, h2⟩ := hrs r (List.mem_cons_self _ _)
    have hrs' : ∀ r ∈ rs, r.1 ≠ 33 ∧ ¬ (48 ≤ r.1 ∧ r.1 ≤ 57) :=
      fun r h => hrs r (List.mem_cons_of_mem _ h)
    simp only [List.flatMap_cons]
    rw [sixel_expand_run_token r.2 r.1 h1 h2, ih hrs']

theorem encode_color_eq (out : List Nat) (pp : List Int) (width height band_y : Nat)
    (color : Int) (hlen : pp.length = width * height) :
    encode_color out pp width height band_y color =
      some (out ++ color_segment pp width height band_y color) := by
  unfold encode_color
  simp only
  rw [encode_columns_fold pp width height band_y color hlen (List.range width)
    (fun x hx => List.mem_range.mp hx)]
  simp only [flush_run_foldl, color_segment, color_runs, List.append_assoc]

theorem intercalate_cons_eq (sep a : List Nat) (l : List (List Nat)) :
    List.intercalate sep (a :: l) = a ++ l.flatMap (fun b => sep ++ b) := by
  induction l generalizing a with
  | nil => simp [List.intercalate]
  | cons b l ih =>
    have h := ih b
    simp only [List.intercalate, List.intersperse, List.flatten_cons, List.flatMap_cons] at h ⊢
    rw [h]
    simp [List.append_assoc]

theorem encode_band_fold (pp : List Int) (width height band_y : Nat)
    (hlen : pp.length = width * height) (l : List Int) (acc : List Nat) :
    l.foldlM
      (fun (st : Bool × List Nat) color =>
        let out1 := if st.1 = false then st.2 ++ str_bytes "$" else st.2
        match encode_color out1 pp width height band_y color with
        | none => none
        | some out2 => some (false, out2))
      (false, acc)
    = some (false, acc ++ l.flatMap
        (fun c => str_bytes "$" ++ color_segment pp width height band_y c)) := by
  induction l generalizing acc with
  | nil => simp
  | cons c l ih =>
    simp only [List.foldlM_cons, if_true, encode_color_eq _ pp width height band_y c hlen,
      Option.some_bind, Option.bind_eq_bind, List.flatMap_cons]
    rw [ih]
    simp [List.append_assoc]

theorem encode_band_eq (out : List Nat) (pp : List Int) (width height band_y : Nat)
    (iter : List Int) (hlen : pp.length = width * height) :
    encode_band out pp width height band_y iter =
      some (out ++ List.intercalate (str_bytes "$")
        (iter.map (color_segment pp width height band_y)) ++ str_bytes "-") := by
  unfold encode_band
  cases iter with
  | nil => simp [List.intercalate]
  | cons c l =>
    simp only [List.foldlM_cons, Bool.true_eq_false, if_false,
      encode_color_eq _ pp width height band_y c hlen, Option.some_bind, Option.bind_eq_bind]
    rw [encode_band_fold pp width height band_y hlen]
    simp only [List.map_cons, intercalate_cons_eq, List.flatMap_map, List.append_assoc]

theorem char_byte_column (v : Nat) (hv : v < 64) : char_byte ((63 + v : Nat) : Int) = 63 + v := by
  unfold char_byte
  omega

theorem color_runs_spec (pp : List Int) (width height band_y : Nat) (color : Int) :
    ∃ rs : List (Nat × Nat),
      (color_runs pp width height band_y color).flatMap
          (fun r => run_token (char_byte r.1) r.2)
        = rs.flatMap (fun r => run_token r.1 r.2) ∧
      rs.flatMap (fun r => List.replicate r.2 r.1) = band_columns pp width height band_y color ∧
      (∀ r ∈ rs, 1 ≤ r.2 ∧ 63 ≤ r.1 ∧ r.1 ≤ 126) ∧
      List.Chain' (fun a b : Nat × Nat => a.1 ≠ b.1) rs := by
  have hmem : ∀ r ∈ color_runs pp width height band_y color,
      1 ≤ r.2 ∧ ∃ v, v < 64 ∧ r.1 = ((63 + v : Nat) : Int) := by
    intro r hr
    obtain ⟨h1, h2⟩ := run_tokens_mem _ _ _ r hr
    refine ⟨h1, ?_⟩
    rcases h2 with h2 | ⟨h2, _⟩
    · obtain ⟨x, _, hx⟩ := List.mem_map.mp h2
      exact ⟨_, column_value_lt pp width height band_y color x, hx.symm⟩
    · exact absurd rfl h2
  refine ⟨(color_runs pp width height band_y color).map (fun r => (char_byte r.1, r.2)),
    ?_, ?_, ?_, ?_⟩
  · simp [List.flatMap_map]
  · have h := congrArg (List.map char_byte)
      (run_tokens_expand (-1) 0 ((List.range width).map (fun x =>
        ((63 + column_value pp width height band_y color x : Nat) : Int))))
    simp only [List.replicate_zero, List.nil_append, List.map_map] at h
    rw [List.flatMap_map]
    simp only [List.flatMap, List.map_flatten, List.map_map] at h ⊢
    simp only [color_runs, band_columns]
    convert h using 2
    · apply List.map_congr_left
      intro r _
      simp
    · funext x
      simp only [Function.comp]
      exact (char_byte_column _ (column_value_lt pp width height band_y color x)).symm
  · intro r hr
    obtain ⟨r0, hr0, rfl⟩ := List.mem_map.mp hr
    obtain ⟨h1, v, hv, h2⟩ := hmem r0 hr0
    simp only [h2, char_byte_column v hv]
    exact ⟨h1, by omega, by omega⟩
  · rw [List.chain'_map]
    have hc := (run_tokens_chain (-1) 0 ((List.range width).map (fun x =>
        ((63 + column_value pp width height band_y color x : Nat) : Int)))).1
    rw [List.Chain'.iff_mem] at hc
    refine hc.imp ?_
    rintro a b ⟨ha, hb, hab⟩
    obtain ⟨_, va, hva, ea⟩ := hmem a ha
    obtain ⟨_, vb, hvb, eb⟩ := hmem b hb
    simp only [ea, eb, char_byte_column va hva, char_byte_column vb hvb, ne_eq] at hab ⊢
    omega

theorem encode_band_segments (out : List Nat) (pp : List Int) (width height band_y : Nat)
    (iter : List Int) (hlen : pp.length = width * height)
    (P : Int → List Nat → Prop)
    (hP : ∀ color, ∃ runs,
      (color_runs pp width height band_y color).flatMap
          (fun r => run_token (char_byte r.1) r.2) = runs ∧ P color runs) :
    ∃ segs : List (List Nat),
      encode_band out pp width height band_y iter =
        some (out ++ List.intercalate (str_bytes "$") segs ++ str_bytes "-") ∧
      segs.length = iter.length ∧
      ∀ i (hi : i < iter.length), ∃ runs,
        segs[i]? = some (str_bytes "#" ++ to_string (iter[i]).toNat ++ runs) ∧
        P iter[i] runs := by
  refine ⟨iter.map (color_segment pp width height band_y),
    encode_band_eq out pp width height band_y iter hlen, by simp, ?_⟩
  intro i hi
  obtain ⟨runs, h1, h2⟩ := hP iter[i]
  refine ⟨runs, ?_, h2⟩
  rw [List.getElem?_map, List.getElem?_eq_getElem hi, Option.map_some', color_segment, h1]

/-- C6 (column characters of a band): on a pixel vector of size
`width * height`, `encode_band` writes, between the band's start and the
terminator `-`, one segment per visited color, separated by `$`; the segment
of a color is `#`, the color, and run tokens whose expansion (a literal byte
once, `!` n c as n copies of c) is exactly `width` characters, the `x`-th
being `63 +` the sum of `2^i` over the `i < 6` with `band_y + i < height` and
pixel `(x, band_y + i)` of that color; every such character lies in 63..126. -/
theorem encode_band_expand (out : List Nat) (pp : List Int) (width height band_y : Nat)
    (iter : List Int) (hlen : pp.length = width * height) :
    ∃ segs : List (List Nat),
      encode_band out pp width height band_y iter =
        some (out ++ List.intercalate (str_bytes "$") segs ++ str_bytes "-") ∧
      segs.length = iter.length ∧
      ∀ i (hi : i < iter.length), ∃ runs,
        segs[i]? = some (str_bytes "#" ++ to_string (iter[i]).toNat ++ runs) ∧
        ((sixel_expand runs).length = width ∧
         ∀ x, x < width →
          (sixel_expand runs)[x]? =
            some (63 + column_value pp width height band_y iter[i] x) ∧
          63 ≤ 63 + column_value pp width height band_y iter[i] x ∧
          63 + column_value pp width height band_y iter[i] x ≤ 126) := by
  apply encode_band_segments out pp width height band_y iter hlen
    (fun color runs => (sixel_expand runs).length = width ∧
      ∀ x, x < width →
        (sixel_expand runs)[x]? = some (63 + column_value pp width height band_y color x) ∧
        63 ≤ 63 + column_value pp width height band_y color x ∧
        63 + column_value pp width height band_y color x ≤ 126)
  intro color
  obtain ⟨rs, h1, h2, h3, -⟩ := color_runs_spec pp width height band_y color
  have hexp : sixel_expand (rs.flatMap (fun r => run_token r.1 r.2))
      = band_columns pp width height band_y color := by
    rw [sixel_expand_tokens rs (fun r hr => by have := h3 r hr; omega), h2]
  refine ⟨_, h1, ?_, ?_⟩
  · rw [hexp]
    simp [band_columns]
  · intro x hx
    have hv := column_value_lt pp width height band_y color x
    refine ⟨?_, by omega, by omega⟩
    rw [hexp]
    simp [band_columns, hx]

/-- Instance of C6: a band of one row and 16 columns, twelve pixels of index 5,
one of index 6 and three of index 5: the color 5 is written as `#5!12@?@@@`
and its run tokens expand to the 16 column characters. -/
theorem encode_band_expand_witness :
    encode_band [] demo_row 16 1 0 [5] = some (str_bytes "#5!12@?@@@-") ∧
    sixel_expand (str_bytes "!12@?@@@") = List.replicate 12 64 ++ [63] ++ List.replicate 3 64 ∧
    ∃ segs : List (List Nat),
      encode_band [] demo_row 16 1 0 [5] =
        some ([] ++ List.intercalate (str_bytes "$") segs ++ str_bytes "-") ∧
      segs.length = 1 := by
  obtain ⟨segs, h1, h2, -⟩ := encode_band_expand [] demo_row 16 1 0 [5] rfl
  exact ⟨by decide, by decide, segs, h1, h2⟩

/-- C7 (run-length tokens): the run tokens `encode_band` writes for a color
are those of a sequence of runs `(c, k)` with `k >= 1` that expands to the
column characters of the color, in which two adjacent runs never carry the
same character (the runs are maximal); a run with `k <= 3` is written as `k`
literal copies of `c`, a run with `k >= 4` as `!`, the decimal `k` and one
copy of `c`. -/
theorem encode_band_runs (out : List Nat) (pp : List Int) (width height band_y : Nat)
    (iter : List Int) (hlen : pp.length = width * height) :
    ∃ segs : List (List Nat),
      encode_band out pp width height band_y iter =
        some (out ++ List.intercalate (str_bytes "$") segs ++ str_bytes "-") ∧
      segs.length = iter.length ∧
      ∀ i (hi : i < iter.length), ∃ runs,
        segs[i]? = some (str_bytes "#" ++ to_string (iter[i]).toNat ++ runs) ∧
        ∃ rs : List (Nat × Nat),
          runs = rs.flatMap (fun r =>
            if r.2 ≤ 3 then List.replicate r.2 r.1
            else str_bytes "!" ++ to_string r.2 ++ [r.1]) ∧
          rs.flatMap (fun r => List.replicate r.2 r.1)
            = band_columns pp width height band_y iter[i] ∧
          (∀ r ∈ rs, 1 ≤ r.2) ∧
          List.Chain' (fun a b : Nat × Nat => a.1 ≠ b.1) rs := by
  apply encode_band_segments out pp width height band_y iter hlen
    (fun color runs => ∃ rs : List (Nat × Nat),
      runs = rs.flatMap (fun r =>
        if r.2 ≤ 3 then List.replicate r.2 r.1
        else str_bytes "!" ++ to_string r.2 ++ [r.1]) ∧
      rs.flatMap (fun r => List.replicate r.2 r.1)
        = band_columns pp width height band_y color ∧
      (∀ r ∈ rs, 1 ≤ r.2) ∧
      List.Chain' (fun a b : Nat × Nat => a.1 ≠ b.1) rs)
  intro color
  obtain ⟨rs, h1, h2, h3, h4⟩ := color_runs_spec pp width height band_y color
  exact ⟨_, h1, rs, rfl, h2, fun r hr => (h3 r hr).1, h4⟩

/-- Scenario of C7: a band of width 1 and height 1 whose pixel has index 5 is
written as `#5@-`: one palette-select token `#5` and the single literal
character `@`, without a count prefix. -/
theorem encode_band_runs_witness :
    encode_band [] [5] 1 1 0 [5] = some (str_bytes "#5@-") ∧
    band_colors [5] 1 1 0 = some [5] ∧
    ∃ segs : List (List Nat),
      encode_band [] [5] 1 1 0 [5] =
        some ([] ++ List.intercalate (str_bytes "$") segs ++ str_bytes "-") ∧
      segs.length = 1 := by
  obtain ⟨segs, h1, h2, -⟩ := encode_band_runs [] [5] 1 1 0 [5] rfl
  exact ⟨by decide, by decide, segs, h1, h2⟩

/-! ## Properties of the palette -/

theorem float_to_int_intCast (k : Int) : float_to_int (k : ℚ) = k := by
  unfold float_to_int
  split <;> simp

theorem float_to_uint8_natCast (k : Nat) (hk : k < 256) : float_to_uint8 (k : ℚ) = k := by
  have h := float_to_int_intCast (k : Int)
  simp only [Int.cast_natCast] at h
  unfold float_to_uint8
  rw [h]
  omega

theorem atoms_foldl_sums (l : List Atom) (acc : CentroidSums) :
    l.foldl
      (fun (acc : CentroidSums) (atom : Atom) =>
        ({ cx := acc.cx + atom.x, cy := acc.cy + atom.y, cz := acc.cz + atom.z,
           count := acc.count + 1 } : CentroidSums))
      acc
    = { cx := acc.cx + (l.map (fun a => a.x)).sum, cy := acc.cy + (l.map (fun a => a.y)).sum,
        cz := acc.cz + (l.map (fun a => a.z)).sum, count := acc.count + l.length } := by
  induction l generalizing acc with
  | nil => simp
  | cons a l ih =>
    rw [List.foldl_cons, ih]
    simp only [List.map_cons, List.sum_cons, List.length_cons, CentroidSums.mk.injEq]
    refine ⟨by ring, by ring, by ring, by push_cast; ring⟩

theorem chains_foldl_sums (cs : List Chain) (acc : CentroidSums) :
    cs.foldl
      (fun acc chain =>
        chain.chain_atoms.foldl
          (fun (acc : CentroidSums) (atom : Atom) =>
            ({ cx := acc.cx + atom.x, cy := acc.cy + atom.y, cz := acc.cz + atom.z,
               count := acc.count + 1 } : CentroidSums))
          acc)
      acc
    = { cx := acc.cx + ((cs.flatMap (fun c => c.chain_atoms)).map (fun a => a.x)).sum,
        cy := acc.cy + ((cs.flatMap (fun c => c.chain_atoms)).map (fun a => a.y)).sum,
        cz := acc.cz + ((cs.flatMap (fun c => c.chain_atoms)).map (fun a => a.z)).sum,
        count := acc.count + (cs.flatMap (fun c => c.chain_atoms)).length } := by
  induction cs generalizing acc with
  | nil => simp
  | cons c cs ih =>
    rw [List.foldl_cons, ih, atoms_foldl_sums]
    simp only [List.flatMap_cons, List.map_append, List.sum_append, List.length_append,
      CentroidSums.mk.injEq]
    refine ⟨by ring, by ring, by ring, by push_cast; ring⟩

theorem rotation_sums_eq (p : Protein) :
    rotation_sums p =
      { cx := (p.all_atoms.map (fun a => a.x)).sum, cy := (p.all_atoms.map (fun a => a.y)).sum,
        cz := (p.all_atoms.map (fun a => a.z)).sum, count := p.all_atoms.length } := by
  unfold rotation_sums Protein.all_atoms
  rw [chains_foldl_sums]
  simp

theorem rotated_sum (l : List Atom) (cx cz u v : ℚ) :
    (l.map (fun a => cx + (a.x - cx) * u + (a.z - cz) * v)).sum
      = l.length * cx + ((l.map (fun a => a.x)).sum - l.length * cx) * u
        + ((l.map (fun a => a.z)).sum - l.length * cz) * v := by
  induction l with
  | nil => simp
  | cons a l ih =>
    simp only [List.map_cons, List.sum_cons, List.length_cons, ih]
    push_cast
    ring

theorem rotated_sum_z (l : List Atom) (cx cz u v : ℚ) :
    (l.map (fun a => cz - (a.x - cx) * v + (a.z - cz) * u)).sum
      = l.length * cz - ((l.map (fun a => a.x)).sum - l.length * cx) * v
        + ((l.map (fun a => a.z)).sum - l.length * cz) * u := by
  induction l with
  | nil => simp
  | cons a l ih =>
    simp only [List.map_cons, List.sum_cons, List.length_cons, ih]
    push_cast
    ring

theorem all_atoms_map (p : Protein) (f : Atom → Atom) :
    ({ p with
        get_atoms := p.get_atoms.map (fun chain =>
          { chain with chain_atoms := chain.chain_atoms.map f }) } : Protein).all_atoms
      = p.all_atoms.map f := by
  simp only [Protein.all_atoms, List.flatMap, List.map_map, List.map_flatten]
  rfl

theorem rotate_protein_atoms (cosA sinA : ℚ) (p : Protein) (hne : p.all_atoms ≠ []) :
    (rotate_protein cosA sinA p).all_atoms = p.all_atoms.map (fun atom =>
      { atom with
        x := p.centroid.1 + (atom.x - p.centroid.1) * cosA + (atom.z - p.centroid.2.2) * sinA
        z := p.centroid.2.2 - (atom.x - p.centroid.1) * sinA
              + (atom.z - p.centroid.2.2) * cosA }) := by
  have hcount : ¬ ((p.all_atoms.length : Int) = 0) := by
    have := List.length_pos.mpr hne
    omega
  unfold rotate_protein
  simp only [rotation_sums_eq, hcount, if_false, Int.cast_natCast]
  rw [all_atoms_map]
  rfl

/-- C9 (centroid invariance): one `auto_rotate_step` with auto-rotate enabled
keeps the number of structures and of atoms, leaves every atom's `y`
unchanged and, for every structure with at least one atom, leaves the
centroid (the mean of its atoms' `x`, `y`, `z`) unchanged; this holds over
exact arithmetic for any values of `cosf` and `sinf`. With auto-rotate
disabled the state is returned as it is. -/
theorem auto_rotate_step_centroid (cosf sinf : ℚ → ℚ) (s : UnicodeScreen) :
    (s.auto_rotate = true →
      (s.auto_rotate_step cosf sinf).data.length = s.data.length ∧
      ∀ (i : Nat) (p : Protein), s.data[i]? = some p →
        ∃ p' : Protein, (s.auto_rotate_step cosf sinf).data[i]? = some p' ∧
          p'.all_atoms.length = p.all_atoms.length ∧
          p'.all_atoms.map (fun a => a.y) = p.all_atoms.map (fun a => a.y) ∧
          (p.all_atoms ≠ [] → p'.centroid = p.centroid)) ∧
    (s.auto_rotate = false → s.auto_rotate_step cosf sinf = s) := by
  refine ⟨fun hon => ?_, fun hoff => by simp [UnicodeScreen.auto_rotate_step, hoff]⟩
  have hstep : (s.auto_rotate_step cosf sinf).data
      = s.data.map (rotate_protein (cosf s.rotation_speed) (sinf s.rotation_speed)) := by
    simp [UnicodeScreen.auto_rotate_step, hon]
  refine ⟨by rw [hstep, List.length_map], fun i p hp => ?_⟩
  refine ⟨rotate_protein (cosf s.rotation_speed) (sinf s.rotation_speed) p,
    by rw [hstep, List.getElem?_map, hp]; rfl, ?_⟩
  by_cases hne : p.all_atoms = []
  · have h0 : rotate_protein (cosf s.rotation_speed) (sinf s.rotation_speed) p = p := by
      simp [rotate_protein, rotation_sums_eq, hne]
    rw [h0]
    exact ⟨rfl, rfl, fun h => absurd hne h⟩
  · have hrot := rotate_protein_atoms (cosf s.rotation_speed) (sinf s.rotation_speed) p hne
    have hlen : (rotate_protein (cosf s.rotation_speed) (sinf s.rotation_speed) p).all_atoms.length
        = p.all_atoms.length := by rw [hrot, List.length_map]
    refine ⟨hlen, by rw [hrot, List.map_map]; rfl, fun _ => ?_⟩
    have hn : (p.all_atoms.length : ℚ) ≠ 0 := by
      have := List.length_pos.mpr hne
      exact_mod_cast (by omega : p.all_atoms.length ≠ 0)
    have hx : ((rotate_protein (cosf s.rotation_speed) (sinf s.rotation_speed) p).all_atoms.map
        (fun a => a.x)).sum = (p.all_atoms.map (fun a => a.x)).sum := by
      rw [hrot, List.map_map]
      show (p.all_atoms.map (fun a => p.centroid.1 + (a.x - p.centroid.1) * cosf s.rotation_speed
        + (a.z - p.centroid.2.2) * sinf s.rotation_speed)).sum = _
      rw [rotated_sum]
      simp only [Protein.centroid]
      field_simp
    have hy : ((rotate_protein (cosf s.rotation_speed) (sinf s.rotation_speed) p).all_atoms.map
        (fun a => a.y)).sum = (p.all_atoms.map (fun a => a.y)).sum := by
      rw [hrot, List.map_map]
      rfl
    have hz : ((rotate_protein (cosf s.rotation_speed) (sinf s.rotation_speed) p).all_atoms.map
        (fun a => a.z)).sum = (p.all_atoms.map (fun a => a.z)).sum := by
      rw [hrot, List.map_map]
      show (p.all_atoms.map (fun a => p.centroid.2.2
        - (a.x - p.centroid.1) * sinf s.rotation_speed
        + (a.z - p.centroid.2.2) * cosf s.rotation_speed)).sum = _
      rw [rotated_sum_z]
      simp only [Protein.centroid]
      field_simp
    show (_, _, _) = (_, _, _)
    rw [hx, hy, hz, hlen]

/-- Instance of C9: a structure of three atoms with centroid (2, 1, 3), rotated
with `cos = 3/5` and `sin = 4/5`, keeps the centroid (2, 1, 3); with
auto-rotate disabled the state does not change. -/
theorem auto_rotate_step_centroid_witness :
    demo_scene.auto_rotate = true ∧
    (∃ p' : Protein,
      (demo_scene.auto_rotate_step (fun _ => 3 / 5) (fun _ => 4 / 5)).data[0]? = some p' ∧
      demo_protein.centroid = (2, 1, 3) ∧ p'.centroid = (2, 1, 3)) ∧
    demo_scene_still.auto_rotate_step (fun _ => 3 / 5) (fun _ => 4 / 5) = demo_scene_still := by
  have hc0 : demo_protein.centroid = (2, 1, 3) := by
    norm_num [Protein.centroid, Protein.all_atoms, demo_protein]
  obtain ⟨p', hp', -, -, hc⟩ :=
    ((auto_rotate_step_centroid (fun _ => 3 / 5) (fun _ => 4 / 5) demo_scene).1 rfl).2
      0 demo_protein rfl
  refine ⟨rfl, ⟨p', hp', hc0, ?_⟩,
    (auto_rotate_step_centroid (fun _ => 3 / 5) (fun _ => 4 / 5) demo_scene_still).2 rfl⟩
  rw [hc (by simp [Protein.all_atoms, demo_protein]), hc0]

/-! ## Properties of the projection -/

theorem centroid_range_fold (all : List Atom) (l : List Atom) (s : Nat) (sums : CentroidSums)
    (hall : ∀ j a, l[j]? = some a → all[s + j]? = some a) :
    (List.range' s l.length).foldlM
      (fun (sums : CentroidSums) i =>
        match all[i]? with
        | none => none
        | some atom =>
          some ({ cx := sums.cx + atom.get_position 0, cy := sums.cy + atom.get_position 1,
                  cz := sums.cz + atom.get_position 2, count := sums.count + 1 } : CentroidSums))
      sums
    = some ({ cx := sums.cx + (l.map (fun a => a.x)).sum,
              cy := sums.cy + (l.map (fun a => a.y)).sum,
              cz := sums.cz + (l.map (fun a => a.z)).sum,
              count := sums.count + l.length } : CentroidSums) := by
  induction l generalizing s sums with
  | nil => simp
  | cons a l ih =>
    have h0 : all[s]? = some a := by simpa using hall 0 a (by simp)
    have hrest : ∀ j b, l[j]? = some b → all[s + 1 + j]? = some b := by
      intro j b hj
      have := hall (j + 1) b (by simpa using hj)
      rw [← this]
      congr 1
      omega
    simp only [List.length_cons, List.range'_succ, List.foldlM_cons, h0, Option.some_bind,
      Option.bind_eq_bind]
    rw [ih (s + 1) _ hrest]
    simp only [Atom.get_position, List.map_cons, List.sum_cons, Option.some.injEq,
      CentroidSums.mk.injEq]
    refine ⟨by ring, by ring, by ring, by push_cast; ring⟩

theorem centroid_chain_wf (acc : CentroidSums × Int) (chain : Chain)
    (hwf : chain.chain_length = chain.chain_atoms.length) :
    centroid_chain acc chain =
      some (({ cx := acc.1.cx + (chain.chain_atoms.map (fun a => a.x)).sum,
               cy := acc.1.cy + (chain.chain_atoms.map (fun a => a.y)).sum,
               cz := acc.1.cz + (chain.chain_atoms.map (fun a => a.z)).sum,
               count := acc.1.count + chain.chain_atoms.length } : CentroidSums),
            acc.2 + chain.chain_atoms.length) := by
  unfold centroid_chain
  simp only [hwf, Int.toNat_ofNat, List.range_eq_range']
  rw [centroid_range_fold chain.chain_atoms chain.chain_atoms 0 acc.1
    (fun j a h => by simpa using h)]

theorem centroid_chains_fold (cs : List Chain) (acc : CentroidSums × Int)
    (hwf : ∀ c ∈ cs, c.chain_length = c.chain_atoms.length) :
    cs.foldlM centroid_chain acc =
      some (({ cx := acc.1.cx + ((cs.flatMap (fun c => c.chain_atoms)).map (fun a => a.x)).sum,
               cy := acc.1.cy + ((cs.flatMap (fun c => c.chain_atoms)).map (fun a => a.y)).sum,
               cz := acc.1.cz + ((cs.flatMap (fun c => c.chain_atoms)).map (fun a => a.z)).sum,
               count := acc.1.count + (cs.flatMap (fun c => c.chain_atoms)).length }
              : CentroidSums),
            acc.2 + (cs.flatMap (fun c => c.chain_atoms)).length) := by
  induction cs generalizing acc with
  | nil => simp
  | cons c cs ih =>
    have hc := hwf c (List.mem_cons_self _ _)
    have hcs : ∀ d ∈ cs, d.chain_length = d.chain_atoms.length :=
      fun d hd => hwf d (List.mem_cons_of_mem _ hd)
    simp only [List.foldlM_cons, centroid_chain_wf acc c hc, Option.some_bind,
      Option.bind_eq_bind]
    rw [ih _ hcs]
    simp only [List.flatMap_cons, List.map_append, List.sum_append, List.length_append,
      Option.some.injEq, Prod.mk.injEq, CentroidSums.mk.injEq]
    refine ⟨⟨by ring, by ring, by ring, by push_cast; ring⟩, by push_cast; ring⟩

theorem scene_sums_fold (data : List Protein) (acc : CentroidSums × Int)
    (hwf : ∀ p ∈ data, ∀ c ∈ p.get_atoms, c.chain_length = c.chain_atoms.length) :
    data.foldlM (fun acc p => p.get_atoms.foldlM centroid_chain acc) acc =
      some (({ cx := acc.1.cx + ((scene_atoms data).map (fun a => a.x)).sum,
               cy := acc.1.cy + ((scene_atoms data).map (fun a => a.y)).sum,
               cz := acc.1.cz + ((scene_atoms data).map (fun a => a.z)).sum,
               count := acc.1.count + (scene_atoms data).length } : CentroidSums),
            acc.2 + (scene_atoms data).length) := by
  induction data generalizing acc with
  | nil => simp [scene_atoms]
  | cons p ps ih =>
    have hp := hwf p (List.mem_cons_self _ _)
    have hps : ∀ q ∈ ps, ∀ c ∈ q.get_atoms, c.chain_length = c.chain_atoms.length :=
      fun q hq => hwf q (List.mem_cons_of_mem _ hq)
    simp only [List.foldlM_cons, centroid_chains_fold p.get_atoms acc hp, Option.some_bind,
      Option.bind_eq_bind]
    rw [ih _ hps]
    simp only [scene_atoms, List.flatMap_cons, Protein.all_atoms, List.map_append,
      List.sum_append, List.length_append, Option.some.injEq, Prod.mk.injEq,
      CentroidSums.mk.injEq]
    refine ⟨⟨by ring, by ring, by ring, by push_cast; ring⟩, by push_cast; ring⟩

theorem scene_sums_wf (data : List Protein)
    (hwf : ∀ p ∈ data, ∀ c ∈ p.get_atoms, c.chain_length = c.chain_atoms.length) :
    scene_sums data =
      some (({ cx := ((scene_atoms data).map (fun a => a.x)).sum,
               cy := ((scene_atoms data).map (fun a => a.y)).sum,
               cz := ((scene_atoms data).map (fun a => a.z)).sum,
               count := (scene_atoms data).length } : CentroidSums),
            ((scene_atoms data).length : Int)) := by
  unfold scene_sums
  rw [scene_sums_fold data _ hwf]
  simp

theorem project_range_fold (env : ProjEnv) (target : Protein) (cidx : Int)
    (px py : ℚ) (all l : List Atom) (s : Nat) (pre : List ProjAtom) (g : Int)
    (hall : ∀ j a, l[j]? = some a → all[s + j]? = some a) :
    (List.range' s l.length).foldlM
      (fun (acc : List ProjAtom × Int) i =>
        match all[i]? with
        | none => none
        | some atom =>
          some (acc.1 ++ [project_atom env target px py cidx atom acc.2], acc.2 + 1))
      (pre, g)
    = some (pre ++ project_list env target px py cidx l g, g + l.length) := by
  induction l generalizing s pre g with
  | nil => simp [project_list]
  | cons a l ih =>
    have h0 : all[s]? = some a := by simpa using hall 0 a (by simp)
    have hrest : ∀ j b, l[j]? = some b → all[s + 1 + j]? = some b := by
      intro j b hj
      have := hall (j + 1) b (by simpa using hj)
      rw [← this]
      congr 1
      omega
    simp only [List.length_cons, List.range'_succ, List.foldlM_cons, h0,
      Option.some_bind, Option.bind_eq_bind]
    rw [ih (s + 1) _ _ hrest]
    simp only [project_list, List.append_assoc, List.singleton_append, Option.some.injEq,
      Prod.mk.injEq, true_and]
    push_cast
    ring

theorem project_list_getElem (env : ProjEnv) (target : Protein) (px py : ℚ) (cidx : Int)
    (l : List Atom) (g : Int) (i : Nat) (a : Atom) (h : l[i]? = some a) :
    (project_list env target px py cidx l g)[i]? =
      some (project_atom env target px py cidx a (g + i)) := by
  induction l generalizing g i with
  | nil => simp at h
  | cons b l ih =>
    cases i with
    | zero =>
      simp only [List.getElem?_cons_zero, Option.some.injEq] at h
      simp [project_list, h]
    | succ i =>
      simp only [List.getElem?_cons_succ] at h
      simp only [project_list, List.getElem?_cons_succ, ih (g + 1) i h]
      congr 2
      push_cast
      ring

theorem project_chain_wf (env : ProjEnv) (ii : Nat) (target : Protein) (st : ProjState)
    (chain : Chain) (px py : ℚ)
    (hpx : env.pan_x[ii]? = some px) (hpy : env.pan_y[ii]? = some py)
    (hwf : chain.chain_length = chain.chain_atoms.length) :
    ∃ st', project_chain env ii target st chain = some st' ∧
      st'.chain_idx = st.chain_idx + 1 ∧
      (∀ c ∈ st.chains_out, c ∈ st'.chains_out) ∧
      (chain.chain_atoms ≠ [] →
        project_list env target px py st.chain_idx chain.chain_atoms st.global_idx
          ∈ st'.chains_out) := by
  unfold project_chain
  by_cases h0 : chain.chain_length = 0
  · have hnil : chain.chain_atoms = [] := by
      rw [hwf] at h0
      exact List.length_eq_zero.mp (by exact_mod_cast h0)
    simp only [h0, if_true]
    exact ⟨_, rfl, rfl, fun c hc => hc, fun hne => absurd hnil hne⟩
  · have h0' : ¬ ((chain.chain_atoms.length : Int) = 0) := by rwa [hwf] at h0
    simp only [hwf, h0', if_false, Int.toNat_ofNat, List.range_eq_range', hpx, hpy]
    rw [project_range_fold env target st.chain_idx px py chain.chain_atoms
      chain.chain_atoms 0 [] st.global_idx (fun j a h => by simpa using h)]
    refine ⟨_, rfl, rfl, fun c hc => ?_, fun _ => ?_⟩
    · simp only [List.mem_append]
      exact Or.inl hc
    · simp

theorem project_chains_fold (env : ProjEnv) (ii : Nat) (target : Protein) (px py : ℚ)
    (hpx : env.pan_x[ii]? = some px) (hpy : env.pan_y[ii]? = some py)
    (cs : List Chain) (st : ProjState)
    (hwf : ∀ c ∈ cs, c.chain_length = c.chain_atoms.length) :
    ∃ st', cs.foldlM (project_chain env ii target) st = some st' ∧
      st'.chain_idx = st.chain_idx + cs.length ∧
      (∀ c ∈ st.chains_out, c ∈ st'.chains_out) ∧
      (∀ (k : Nat) (ch : Chain), cs[k]? = some ch → ch.chain_atoms ≠ [] →
        ∃ g, project_list env target px py (st.chain_idx + k) ch.chain_atoms g
          ∈ st'.chains_out) := by
  induction cs generalizing st with
  | nil =>
    exact ⟨st, rfl, by simp, fun c hc => hc, fun k ch h => by simp at h⟩
  | cons c cs ih =>
    have hc := hwf c (List.mem_cons_self _ _)
    have hcs : ∀ d ∈ cs, d.chain_length = d.chain_atoms.length :=
      fun d hd => hwf d (List.mem_cons_of_mem _ hd)
    obtain ⟨st1, e1, i1, m1, p1⟩ := project_chain_wf env ii target st c px py hpx hpy hc
    obtain ⟨st2, e2, i2, m2, p2⟩ := ih st1 hcs
    refine ⟨st2, ?_, ?_, fun d hd => m2 d (m1 d hd), ?_⟩
    · simp only [List.foldlM_cons, e1, Option.some_bind, Option.bind_eq_bind, e2]
    · rw [i2, i1, List.length_cons]
      push_cast
      ring
    · intro k ch hk hne
      cases k with
      | zero =>
        simp only [List.getElem?_cons_zero, Option.some.injEq] at hk
        subst hk
        refine ⟨st.global_idx, m2 _ ?_⟩
        simpa using p1 hne
      | succ k =>
        simp only [List.getElem?_cons_succ] at hk
        obtain ⟨g, hg⟩ := p2 k ch hk hne
        refine ⟨g, ?_⟩
        have e : st.chain_idx + ((k + 1 : Nat) : Int) = st1.chain_idx + (k : Int) := by
          rw [i1]; push_cast; ring
        rw [e]
        exact hg

theorem chains_before_succ (p : Protein) (ps : List Protein) (j : Nat) :
    chains_before (p :: ps) (j + 1) = p.get_atoms.length + chains_before ps j := by
  simp [chains_before]

theorem project_structures_wf (env : ProjEnv) (ps : List Protein) (ii : Nat) (st : ProjState)
    (hwf : ∀ p ∈ ps, ∀ c ∈ p.get_atoms, c.chain_length = c.chain_atoms.length)
    (hpan : ∀ j, j < ps.length →
      ∃ px py, env.pan_x[ii + j]? = some px ∧ env.pan_y[ii + j]? = some py) :
    ∃ st', project_structures env ii ps st = some st' ∧
      (∀ c ∈ st.chains_out, c ∈ st'.chains_out) ∧
      (∀ (j k : Nat) (target : Protein) (ch : Chain) (px py : ℚ),
        ps[j]? = some target → target.get_atoms[k]? = some ch → ch.chain_atoms ≠ [] →
        env.pan_x[ii + j]? = some px → env.pan_y[ii + j]? = some py →
        ∃ g, project_list env target px py
            (st.chain_idx + ((chains_before ps j + k : Nat) : Int)) ch.chain_atoms g
          ∈ st'.chains_out) := by
  induction ps generalizing ii st with
  | nil =>
    exact ⟨st, rfl, fun c hc => hc, fun j k t ch px py h => by simp at h⟩
  | cons p ps ih =>
    have hp := hwf p (List.mem_cons_self _ _)
    have hps : ∀ q ∈ ps, ∀ c ∈ q.get_atoms, c.chain_length = c.chain_atoms.length :=
      fun q hq => hwf q (List.mem_cons_of_mem _ hq)
    obtain ⟨px0, py0, hx0, hy0⟩ := hpan 0 (by simp)
    simp only [Nat.add_zero] at hx0 hy0
    obtain ⟨st1, e1, i1, m1, p1⟩ :=
      project_chains_fold env ii p px0 py0 hx0 hy0 p.get_atoms st hp
    have hpan' : ∀ j, j < ps.length →
        ∃ px py, env.pan_x[ii + 1 + j]? = some px ∧ env.pan_y[ii + 1 + j]? = some py := by
      intro j hj
      have := hpan (j + 1) (by simp only [List.length_cons]; omega)
      rwa [show ii + (j + 1) = ii + 1 + j by omega] at this
    obtain ⟨st2, e2, m2, p2⟩ := ih (ii + 1) st1 hps hpan'
    refine ⟨st2, ?_, fun c hc => m2 c (m1 c hc), ?_⟩
    · simp only [project_structures, e1, e2]
    · intro j k target ch px py hj hk hne hx hy
      cases j with
      | zero =>
        simp only [List.getElem?_cons_zero, Option.some.injEq] at hj
        subst hj
        simp only [Nat.add_zero] at hx hy
        rw [hx0] at hx
        rw [hy0] at hy
        cases hx
        cases hy
        obtain ⟨g, hg⟩ := p1 k ch hk hne
        refine ⟨g, m2 _ ?_⟩
        have e : chains_before (p :: ps) 0 = 0 := by simp [chains_before]
        rw [e, Nat.zero_add]
        exact hg
      | succ j =>
        simp only [List.getElem?_cons_succ] at hj
        rw [show ii + (j + 1) = ii + 1 + j by omega] at hx hy
        obtain ⟨g, hg⟩ := p2 j k target ch px py hj hk hne hx hy
        refine ⟨g, ?_⟩
        have e : st.chain_idx + ((chains_before (p :: ps) (j + 1) + k : Nat) : Int)
            = st1.chain_idx + ((chains_before ps j + k : Nat) : Int) := by
          rw [i1, chains_before_succ]
          push_cast
          ring
        rw [e]
        exact hg

/-! ## Properties of the shading and of the contrast boost -/

theorem float_to_int_nonneg (q : ℚ) (hq : 0 ≤ q) : float_to_int q = ⌊q⌋ := by
  simp [float_to_int, hq]

theorem float_to_int_scaled (v : Nat) (c : ℚ) (hc0 : 0 ≤ c) :
    0 ≤ float_to_int ((v : ℚ) * c) ∧
    (c ≤ 1 → float_to_int ((v : ℚ) * c) ≤ v) ∧
    (1 ≤ c → (v : Int) ≤ float_to_int ((v : ℚ) * c)) := by
  have hv : (0 : ℚ) ≤ (v : ℚ) := Nat.cast_nonneg v
  have hq : (0 : ℚ) ≤ (v : ℚ) * c := mul_nonneg hv hc0
  rw [float_to_int_nonneg _ hq]
  refine ⟨Int.floor_nonneg.mpr hq, fun h1 => ?_, fun h1 => ?_⟩
  · have h2 : (v : ℚ) * c ≤ ((v : Int) : ℚ) := by
      have : (v : ℚ) * c ≤ (v : ℚ) * 1 := mul_le_mul_of_nonneg_left h1 hv
      simpa using this
    have h3 := Int.floor_le_floor h2
    rwa [Int.floor_intCast] at h3
  · have h2 : ((v : Int) : ℚ) ≤ (v : ℚ) * c := by
      have : (v : ℚ) * 1 ≤ (v : ℚ) * c := mul_le_mul_of_nonneg_left h1 hv
      simpa using this
    exact Int.le_floor.mpr h2

theorem float_to_int_mono (p q : ℚ) (hp : 0 ≤ p) (hpq : p ≤ q) :
    float_to_int p ≤ float_to_int q := by
  rw [float_to_int_nonneg _ hp, float_to_int_nonneg _ (le_trans hp hpq)]
  exact Int.floor_le_floor hpq

theorem clamp_bounds (v lo hi : ℚ) (h : lo ≤ hi) : lo ≤ clamp v lo hi ∧ clamp v lo hi ≤ hi := by
  unfold clamp
  split_ifs with h1 h2
  · exact ⟨le_refl _, h⟩
  · exact ⟨h, le_refl _⟩
  · exact ⟨not_lt.mp h1, not_lt.mp h2⟩

theorem boost_channel (v : Nat) (hv : v < 256) (s : ℚ) (hs : 0 ≤ s) :
    int_to_uint8 (clamp_int (float_to_int ((v : ℚ) * s)) 0 255)
      = min 255 (float_to_int ((v : ℚ) * s)).toNat ∧
    int_to_uint8 (clamp_int (float_to_int ((v : ℚ) * s)) 0 255) < 256 ∧
    (1 ≤ s → v ≤ int_to_uint8 (clamp_int (float_to_int ((v : ℚ) * s)) 0 255)) ∧
    (s ≤ 1 → int_to_uint8 (clamp_int (float_to_int ((v : ℚ) * s)) 0 255) ≤ v) := by
  obtain ⟨h0, h1, h2⟩ := float_to_int_scaled v s hs
  generalize float_to_int ((v : ℚ) * s) = t at h0 h1 h2
  unfold int_to_uint8 clamp_int
  refine ⟨?_, ?_, fun h => ?_, fun h => ?_⟩
  · split_ifs <;> omega
  · split_ifs <;> omega
  · have := h2 h
    split_ifs <;> omega
  · have := h1 h
    split_ifs <;> omega

/-! ## Properties of the brightness -/

theorem project_atoms_spec (tanf : ℚ → ℚ) (data : List Protein) (pan_x pan_y : List ℚ)
    (zoom_level focal_offset : ℚ) (buf_width buf_height : Int)
    (hwf : ∀ p ∈ data, ∀ c ∈ p.get_atoms, c.chain_length = c.chain_atoms.length)
    (hpx : data.length ≤ pan_x.length) (hpy : data.length ≤ pan_y.length) :
    ∃ chains total,
      project_atoms tanf data pan_x zoom_level focal_offset pan_y buf_width buf_height
        = some (chains, total) ∧
      ∀ (ii k i : Nat) (target : Protein) (chain : Chain) (atom : Atom),
        data[ii]? = some target → target.get_atoms[k]? = some chain →
        chain.chain_atoms[i]? = some atom →
        ∃ (out_chain : List ProjAtom) (env : ProjEnv) (px py : ℚ) (g : Int),
          out_chain ∈ chains ∧
          out_chain[i]? = some (project_atom env target px py
            ((chains_before data ii + k : Nat) : Int) atom g) := by
  obtain ⟨sums, hsums⟩ : ∃ sums : CentroidSums × Int, scene_sums data = some sums :=
    ⟨_, scene_sums_wf data hwf⟩
  obtain ⟨env, henv⟩ : ∃ env : ProjEnv, env =
      { cx := if sums.1.count > 0 then sums.1.cx / sums.1.count else sums.1.cx
        cy := if sums.1.count > 0 then sums.1.cy / sums.1.count else sums.1.cy
        cz := if sums.1.count > 0 then sums.1.cz / sums.1.count else sums.1.cz
        total_chains := count_chains data
        fovRads := 1 / tanf ((FOV / zoom_level) * (1 / 2) / 180 * PI)
        half_w := (buf_width : ℚ) * (1 / 2)
        half_h := (buf_height : ℚ) * (1 / 2)
        scale := min ((buf_width : ℚ) * (1 / 2)) ((buf_height : ℚ) * (1 / 2))
        focal_offset := focal_offset
        pan_x := pan_x
        pan_y := pan_y } := ⟨_, rfl⟩
  have hpan : ∀ j, j < data.length →
      ∃ px py, env.pan_x[0 + j]? = some px ∧ env.pan_y[0 + j]? = some py := by
    intro j hj
    have h1 : j < pan_x.length := by omega
    have h2 : j < pan_y.length := by omega
    rw [henv]
    simp only [Nat.zero_add]
    exact ⟨_, _, List.getElem?_eq_getElem h1, List.getElem?_eq_getElem h2⟩
  obtain ⟨st, hst, -, hprop⟩ := project_structures_wf env data 0 {} hwf hpan
  refine ⟨st.chains_out, sums.2, ?_, ?_⟩
  · obtain ⟨s1, s2⟩ := sums
    simp only [project_atoms, hsums, ← henv, hst]
  · intro ii k i target chain atom hii hk hi
    have hne : chain.chain_atoms ≠ [] := by
      intro hnil
      rw [hnil] at hi
      simp at hi
    have hlt : ii < data.length := by
      rcases List.getElem?_eq_some_iff.mp hii with ⟨h, _⟩
      exact h
    obtain ⟨px, py, hx, hy⟩ := hpan ii hlt
    obtain ⟨g, hg⟩ := hprop ii k target chain px py hii hk hne hx hy
    refine ⟨_, env, px, py, g + i, hg, ?_⟩
    have h := project_list_getElem env target px py
      ((({} : ProjState).chain_idx) + ((chains_before data ii + k : Nat) : Int))
      chain.chain_atoms g i atom hi
    simpa using h

theorem project_atom_brightness (env : ProjEnv) (target : Protein) (px py : ℚ) (cidx : Int)
    (atom : Atom) (g : Int) :
    (project_atom env target px py cidx atom g).brightness
      = brightness_of target.scaled_min_z target.scaled_max_z atom.z := by
  simp only [project_atom, brightness_of, Atom.get_position]
  split_ifs with h
  · ring
  · norm_num [clamp]

theorem clamp_mono (a b lo hi : ℚ) (hab : a ≤ b) (h : lo ≤ hi) :
    clamp a lo hi ≤ clamp b lo hi := by
  unfold clamp
  split_ifs <;> linarith

theorem brightness_of_bounds (min_z max_z z : ℚ) :
    35 / 100 ≤ brightness_of min_z max_z z ∧ brightness_of min_z max_z z ≤ 1 := by
  unfold brightness_of
  split_ifs with h
  · obtain ⟨h0, h1⟩ := clamp_bounds ((z - min_z) / (max_z - min_z)) 0 1 (by norm_num)
    constructor <;> linarith
  · constructor <;> norm_num

theorem brightness_of_antitone (min_z max_z z1 z2 : ℚ) (hz : z1 ≤ z2) :
    brightness_of min_z max_z z2 ≤ brightness_of min_z max_z z1 := by
  unfold brightness_of
  split_ifs with h
  · have hpos : 0 < max_z - min_z := by linarith
    have hdiv : (z1 - min_z) / (max_z - min_z) ≤ (z2 - min_z) / (max_z - min_z) :=
      div_le_div_of_nonneg_right (by linarith) (le_of_lt hpos)
    have := clamp_mono _ _ 0 1 hdiv (by norm_num)
    linarith
  · exact le_refl _

/-- C17 (brightness): on a scene whose chain lengths are those of its atom
vectors and whose pan vectors cover the structures, `project_atoms` returns
and gives every atom, at its place in its chain, the brightness
`1 - 0.65 * clamp((z - min_z) / (max_z - min_z), 0, 1)` of its structure's
z-extent when `max_z > min_z`, and the constant 0.675 when `max_z <= min_z`;
the brightness lies in [0.35, 1] and does not increase with the atom's `z`. -/
theorem project_atoms_brightness (tanf : ℚ → ℚ) (data : List Protein) (pan_x pan_y : List ℚ)
    (zoom_level focal_offset : ℚ) (buf_width buf_height : Int)
    (hwf : ∀ p ∈ data, ∀ c ∈ p.get_atoms, c.chain_length = c.chain_atoms.length)
    (hpx : data.length ≤ pan_x.length) (hpy : data.length ≤ pan_y.length) :
    ∃ chains total,
      project_atoms tanf data pan_x zoom_level focal_offset pan_y buf_width buf_height
        = some (chains, total) ∧
      (∀ (ii k i : Nat) (target : Protein) (chain : Chain) (atom : Atom),
        data[ii]? = some target → target.get_atoms[k]? = some chain →
        chain.chain_atoms[i]? = some atom →
        ∃ out_chain pa, out_chain ∈ chains ∧ out_chain[i]? = some pa ∧
          pa.chain_idx = ((chains_before data ii + k : Nat) : Int) ∧
          (target.scaled_max_z > target.scaled_min_z →
            pa.brightness = 1 - 65 / 100 *
              clamp ((atom.z - target.scaled_min_z)
                / (target.scaled_max_z - target.scaled_min_z)) 0 1) ∧
          (target.scaled_max_z ≤ target.scaled_min_z → pa.brightness = 675 / 1000) ∧
          pa.brightness = brightness_of target.scaled_min_z target.scaled_max_z atom.z ∧
          35 / 100 ≤ pa.brightness ∧ pa.brightness ≤ 1) ∧
      (∀ min_z max_z z1 z2 : ℚ, z1 ≤ z2 →
        brightness_of min_z max_z z2 ≤ brightness_of min_z max_z z1) := by
  obtain ⟨chains, total, h1, h2⟩ := project_atoms_spec tanf data pan_x pan_y zoom_level
    focal_offset buf_width buf_height hwf hpx hpy
  refine ⟨chains, total, h1, ?_, brightness_of_antitone⟩
  intro ii k i target chain atom hii hk hi
  obtain ⟨out_chain, env, px, py, g, hm, he⟩ := h2 ii k i target chain atom hii hk hi
  have hb := project_atom_brightness env target px py
    ((chains_before data ii + k : Nat) : Int) atom g
  obtain ⟨b1, b2⟩ := brightness_of_bounds target.scaled_min_z target.scaled_max_z atom.z
  refine ⟨out_chain, _, hm, he, rfl, fun h => ?_, fun h => ?_, hb, by rw [hb]; exact b1,
    by rw [hb]; exact b2⟩
  · rw [hb, brightness_of, if_pos h]
  · rw [hb, brightness_of, if_neg (not_lt.mpr h)]

/-- Instance of C17: in a structure of z-extent 1 .. 5 the atom at `z = 2` gets
the brightness `1 - 0.65 * 1/4 = 67/80`. -/
theorem project_atoms_brightness_witness :
    ∃ chains total,
      project_atoms (fun x => x) [demo_extent] [0] (28 / 10) 5 [0] 10 10 = some (chains, total) ∧
      ∃ out_chain pa, out_chain ∈ chains ∧ out_chain[1]? = some pa ∧
        pa.brightness = 67 / 80 ∧ 35 / 100 ≤ pa.brightness ∧ pa.brightness ≤ 1 := by
  obtain ⟨chains, total, h1, h2, -⟩ :=
    project_atoms_brightness (fun x => x) [demo_extent] [0] [0] (28 / 10) 5 10 10
      (by simp [demo_extent]) (by simp) (by simp)
  obtain ⟨out_chain, pa, m, e, -, hb, -, -, lo, hi⟩ :=
    h2 0 0 1 demo_extent _ ⟨1, 0, 2, 'H'⟩ rfl rfl rfl
  refine ⟨chains, total, h1, out_chain, pa, m, e, ?_, lo, hi⟩
  rw [hb (by norm_num [demo_extent])]
  norm_num [demo_extent, clamp]

/-! ## Properties of the color schemes -/

theorem subpixel_at_some (s : UnicodeScreen) (cc cr dc dr : Nat)
    (hlen : s.framebuffer.length = (s.buf_width * s.buf_height).toNat)
    (hcc : (cc : Int) * 2 + dc < s.buf_width) (hcr : (cr : Int) * 4 + dr < s.buf_height) :
    ∃ cell, subpixel_at s cc cr dc dr = some cell := by
  have hidx := plot_pixel_in_bounds_index s.buf_width s.buf_height ((cc : Int) * 2 + dc)
    ((cr : Int) * 4 + dr) (by omega) hcc (by omega) hcr
  have hlt : (((cr : Int) * 4 + dr) * s.buf_width + ((cc : Int) * 2 + dc)).toNat
      < s.framebuffer.length := by
    rw [hlen]; omega
  exact ⟨_, List.getElem?_eq_getElem hlt⟩

theorem braille_step_merge (s : UnicodeScreen) (cc cr : Nat) (st : BrailleCell) (dc dr : Nat)
    (cell : Pixel) (hcell : subpixel_at s cc cr dc dr = some cell)
    (hcc : (cc : Int) * 2 + dc < s.buf_width) (hcr : (cr : Int) * 4 + dr < s.buf_height) :
    braille_step s cc cr st (dc, dr) = some (braille_merge st cell (dot_bits dc dr)) := by
  have hb : ¬ ((cc : Int) * 2 + dc ≥ s.buf_width ∨ (cr : Int) * 4 + dr ≥ s.buf_height) := by
    omega
  simp only [subpixel_at] at hcell
  simp only [braille_step, hb, if_false, hcell, braille_merge]
  split_ifs <;> rfl

theorem braille_fold_merge (s : UnicodeScreen) (cc cr : Nat)
    (hlen : s.framebuffer.length = (s.buf_width * s.buf_height).toNat)
    (hcc : (cc : Int) * 2 + 1 < s.buf_width) (hcr : (cr : Int) * 4 + 3 < s.buf_height)
    (l : List (Nat × Nat)) (hl : ∀ p ∈ l, p.1 < 2 ∧ p.2 < 4) (st : BrailleCell) :
    l.foldlM (braille_step s cc cr) st =
      some (l.foldl (fun st p =>
        braille_merge st ((subpixel_at s cc cr p.1 p.2).getD ⟨0, 0, 0, 0, false⟩)
          (dot_bits p.1 p.2)) st) := by
  induction l generalizing st with
  | nil => rfl
  | cons p l ih =>
    obtain ⟨h1, h2⟩ := hl p (List.mem_cons_self _ _)
    have hl' : ∀ q ∈ l, q.1 < 2 ∧ q.2 < 4 := fun q hq => hl q (List.mem_cons_of_mem _ hq)
    have hc1 : (cc : Int) * 2 + p.1 < s.buf_width := by omega
    have hc2 : (cr : Int) * 4 + p.2 < s.buf_height := by omega
    obtain ⟨cell, hcell⟩ := subpixel_at_some s cc cr p.1 p.2 hlen hc1 hc2
    have hstep := braille_step_merge s cc cr st p.1 p.2 cell hcell hc1 hc2
    simp only [List.foldlM_cons, List.foldl_cons, hstep, Option.some_bind, Option.bind_eq_bind,
      hcell, Option.getD_some]
    exact ih hl' _

theorem nearest_so_far_step (seen : List Pixel) (st : BrailleCell) (cell : Pixel) (bit : Nat)
    (h : nearest_so_far seen st) :
    nearest_so_far (seen ++ [cell]) (braille_merge st cell bit) := by
  unfold braille_merge
  by_cases ha : cell.active = true
  · simp only [ha, if_true]
    rcases h with ⟨hd, -, hall⟩ | ⟨j, x, hj, hx, hd, hcol, hany, hmin⟩
    · have hb : depth_below cell.depth st.best_depth = true := by simp [hd, depth_below]
      simp only [hb, if_true]
      refine Or.inr ⟨seen.length, cell, by simp, ha, rfl, rfl, rfl, fun k y hk hy => ?_⟩
      by_cases hlt : k < seen.length
      · rw [List.getElem?_append_left hlt] at hk
        have := hall y (List.getElem?_mem hk)
        rw [hy] at this
        exact Bool.noConfusion this
      · have hk' : k = seen.length := by
          by_contra hne
          have : seen.length + 1 ≤ k := by omega
          rw [List.getElem?_eq_none (by simpa using this)] at hk
          exact Option.noConfusion hk
        subst hk'
        simp only [List.getElem?_concat_length, Option.some.injEq] at hk
        subst hk
        exact ⟨le_refl _, fun h => absurd h (lt_irrefl _)⟩
    · have hjlt : j < seen.length := by
        rcases List.getElem?_eq_some_iff.mp hj with ⟨h, _⟩
        exact h
      by_cases hb : cell.depth < x.depth
      · have hb' : depth_below cell.depth st.best_depth = true := by simp [hd, depth_below, hb]
        simp only [hb', if_true]
        refine Or.inr ⟨seen.length, cell, by simp, ha, rfl, rfl, rfl, fun k y hk hy => ?_⟩
        by_cases hlt : k < seen.length
        · rw [List.getElem?_append_left hlt] at hk
          have := (hmin k y hk hy).1
          exact ⟨le_of_lt (lt_of_lt_of_le hb this), fun _ => lt_of_lt_of_le hb this⟩
        · have hk' : k = seen.length := by
            by_contra hne
            have : seen.length + 1 ≤ k := by omega
            rw [List.getElem?_eq_none (by simpa using this)] at hk
            exact Option.noConfusion hk
          subst hk'
          simp only [List.getElem?_concat_length, Option.some.injEq] at hk
          subst hk
          exact ⟨le_refl _, fun h => absurd h (lt_irrefl _)⟩
      · have hb' : ¬ (depth_below cell.depth st.best_depth = true) := by
          simp [hd, depth_below, hb]
        simp only [hb', if_false]
        refine Or.inr ⟨j, x, by rw [List.getElem?_append_left hjlt]; exact hj, hx, hd, hcol,
          rfl, fun k y hk hy => ?_⟩
        by_cases hlt : k < seen.length
        · rw [List.getElem?_append_left hlt] at hk
          exact hmin k y hk hy
        · have hk' : k = seen.length := by
            by_contra hne
            have : seen.length + 1 ≤ k := by omega
            rw [List.getElem?_eq_none (by simpa using this)] at hk
            exact Option.noConfusion hk
          subst hk'
          simp only [List.getElem?_concat_length, Option.some.injEq] at hk
          subst hk
          exact ⟨not_lt.mp hb, fun h => absurd h (by omega)⟩
  · simp only [ha, if_false]
    have ha' : cell.active = false := by simpa using ha
    rcases h with ⟨hd, hany, hall⟩ | ⟨j, x, hj, hx, hd, hcol, hany, hmin⟩
    · refine Or.inl ⟨hd, hany, fun y hy => ?_⟩
      simp only [List.mem_append, List.mem_singleton] at hy
      rcases hy with hy | hy
      · exact hall y hy
      · rw [hy]; exact ha'
    · have hjlt : j < seen.length := by
        rcases List.getElem?_eq_some_iff.mp hj with ⟨h, _⟩
        exact h
      refine Or.inr ⟨j, x, by rw [List.getElem?_append_left hjlt]; exact hj, hx, hd, hcol,
        hany, fun k y hk hy => ?_⟩
      by_cases hlt : k < seen.length
      · rw [List.getElem?_append_left hlt] at hk
        exact hmin k y hk hy
      · have hk' : k = seen.length := by
          by_contra hne
          have : seen.length + 1 ≤ k := by omega
          rw [List.getElem?_eq_none (by simpa using this)] at hk
          exact Option.noConfusion hk
        subst hk'
        simp only [List.getElem?_concat_length, Option.some.injEq] at hk
        subst hk
        rw [ha'] at hy
        exact Bool.noConfusion hy

theorem nearest_so_far_fold (pix : Nat × Nat → Pixel) (bit : Nat × Nat → Nat)
    (l : List (Nat × Nat)) (seen : List Pixel) (st : BrailleCell)
    (h : nearest_so_far seen st) :
    nearest_so_far (seen ++ l.map pix)
      (l.foldl (fun st p => braille_merge st (pix p) (bit p)) st) := by
  induction l generalizing seen st with
  | nil => simpa using h
  | cons p l ih =>
    have h1 := nearest_so_far_step seen st (pix p) (bit p) h
    have h2 := ih (seen ++ [pix p]) _ h1
    simpa [List.append_assoc] using h2

/-- C11 (nearest color of a cell): for a cell of the render grid with an active
subpixel, on a framebuffer of size `buf_width * buf_height`, the foreground
escape written for the cell carries the color of an active subpixel whose
depth is minimal among the active subpixels of the cell, and every active
subpixel earlier in scan order (left column top to bottom, then right column)
is strictly farther: among equally near subpixels the first one wins. -/
theorem render_braille_nearest_color (s : UnicodeScreen) (cc cr : Nat)
    (hlen : s.framebuffer.length = (s.buf_width * s.buf_height).toNat)
    (hcc : (cc : Int) * 2 + 1 < s.buf_width) (hcr : (cr : Int) * 4 + 3 < s.buf_height)
    (hact : ∃ dc dr cell, dc < 2 ∧ dr < 4 ∧ subpixel_at s cc cr dc dr = some cell ∧
      cell.active = true) :
    ∃ (st : BrailleCell) (j : Nat) (pos : Nat × Nat) (x : Pixel),
      braille_cell s cc cr = some st ∧
      render_cell s cc cr = some (color_escape "38" ⟨x.r, x.g, x.b⟩ ++
        color_escape "48" s.bg_color ++ codepoint_bytes (0x2800 + st.pattern)) ∧
      braille_positions[j]? = some pos ∧ subpixel_at s cc cr pos.1 pos.2 = some x ∧
      x.active = true ∧
      ∀ (k : Nat) (pos' : Nat × Nat) (y : Pixel), braille_positions[k]? = some pos' →
        subpixel_at s cc cr pos'.1 pos'.2 = some y → y.active = true →
        x.depth ≤ y.depth ∧ (k < j → x.depth < y.depth) := by
  have hpos : ∀ p ∈ braille_positions, p.1 < 2 ∧ p.2 < 4 := by
    rw [braille_positions_eq]
    decide
  have hfold := braille_fold_merge s cc cr hlen hcc hcr braille_positions hpos {}
  have hinv := nearest_so_far_fold
    (fun p => (subpixel_at s cc cr p.1 p.2).getD ⟨0, 0, 0, 0, false⟩)
    (fun p => dot_bits p.1 p.2) braille_positions [] {}
    (Or.inl ⟨rfl, rfl, fun x hx => by simp at hx⟩)
  simp only [List.nil_append] at hinv
  have hget : ∀ (k : Nat) (pos' : Nat × Nat) (y : Pixel), braille_positions[k]? = some pos' →
      subpixel_at s cc cr pos'.1 pos'.2 = some y →
      (braille_positions.map
        (fun p => (subpixel_at s cc cr p.1 p.2).getD ⟨0, 0, 0, 0, false⟩))[k]? = some y := by
    intro k pos' y hk hy
    rw [List.getElem?_map, hk, Option.map_some', hy, Option.getD_some]
  rcases hinv with ⟨-, -, hall⟩ | ⟨j, x, hj, hx, -, hcol, hany, hmin⟩
  · obtain ⟨dc, dr, cell, hdc, hdr, hcell, hactive⟩ := hact
    have hmem : (dc, dr) ∈ braille_positions := by
      rw [braille_positions_eq]
      interval_cases dc <;> interval_cases dr <;> decide
    have := hall cell (by
      rw [List.mem_map]
      exact ⟨(dc, dr), hmem, by simp only [hcell, Option.getD_some]⟩)
    rw [hactive] at this
    exact Bool.noConfusion this
  · rw [List.getElem?_map] at hj
    obtain ⟨pos, hp, hpx⟩ : ∃ pos, braille_positions[j]? = some pos ∧
        (subpixel_at s cc cr pos.1 pos.2).getD ⟨0, 0, 0, 0, false⟩ = x := by
      cases hq : braille_positions[j]? with
      | none => rw [hq] at hj; exact Option.noConfusion hj
      | some pos =>
        rw [hq, Option.map_some', Option.some.injEq] at hj
        exact ⟨pos, rfl, hj⟩
    obtain ⟨h1, h2⟩ := hpos pos (List.getElem?_mem hp)
    obtain ⟨cell, hcell⟩ := subpixel_at_some s cc cr pos.1 pos.2 hlen (by omega) (by omega)
    have hx' : cell = x := by rw [hcell, Option.getD_some] at hpx; exact hpx
    subst hx'
    refine ⟨_, j, pos, cell, hfold, ?_, hp, hcell, hx, fun k pos' y hk hy hya => ?_⟩
    · simp only [render_cell, braille_cell, hfold, hany, if_true, hcol]
    · exact hmin k y (hget k pos' y hk hy) hya

/-- Instance of C11: in a cell with active pixels at depth 3 (left column), 2 and
2 (right column, rows 0 and 2) the color written is (40, 50, 60), that of
the first of the two nearest pixels in scan order. -/
theorem render_braille_nearest_color_witness :
    render_cell demo_nearest 0 0 = some (color_escape "38" ⟨40, 50, 60⟩ ++
      color_escape "48" ⟨18, 18, 24⟩ ++ codepoint_bytes (0x2800 + 0x2A)) ∧
    ∃ (st : BrailleCell) (j : Nat) (pos : Nat × Nat) (x : Pixel),
      braille_cell demo_nearest 0 0 = some st ∧
      braille_positions[j]? = some pos ∧ subpixel_at demo_nearest 0 0 pos.1 pos.2 = some x ∧
      x.active = true := by
  obtain ⟨st, j, pos, x, h1, -, h3, h4, h5, -⟩ :=
    render_braille_nearest_color demo_nearest 0 0 rfl (by decide) (by decide)
      ⟨0, 1, ⟨10, 20, 30, 3, true⟩, by decide, by decide, rfl, rfl⟩
  refine ⟨?_, st, j, pos, x, h1, h3, h4, h5⟩
  have hb : braille_cell demo_nearest 0 0 = some ⟨0x2A, some 2, ⟨40, 50, 60⟩, true⟩ := by
    have e := braille_fold_merge demo_nearest 0 0 rfl (by decide) (by decide)
      braille_positions (by rw [braille_positions_eq]; decide) {}
    have s00 : subpixel_at demo_nearest 0 0 0 0 = some ⟨0, 0, 0, 0, false⟩ := rfl
    have s01 : subpixel_at demo_nearest 0 0 0 1 = some ⟨10, 20, 30, 3, true⟩ := rfl
    have s02 : subpixel_at demo_nearest 0 0 0 2 = some ⟨0, 0, 0, 0, false⟩ := rfl
    have s03 : subpixel_at demo_nearest 0 0 0 3 = some ⟨0, 0, 0, 0, false⟩ := rfl
    have s10 : subpixel_at demo_nearest 0 0 1 0 = some ⟨40, 50, 60, 2, true⟩ := rfl
    have s11 : subpixel_at demo_nearest 0 0 1 1 = some ⟨0, 0, 0, 0, false⟩ := rfl
    have s12 : subpixel_at demo_nearest 0 0 1 2 = some ⟨70, 80, 90, 2, true⟩ := rfl
    have s13 : subpixel_at demo_nearest 0 0 1 3 = some ⟨0, 0, 0, 0, false⟩ := rfl
    rw [braille_cell, e]
    simp only [braille_positions_eq, List.foldl_cons, List.foldl_nil, s00, s01, s02, s03,
      s10, s11, s12, s13, Option.getD_some]
    norm_num [braille_merge, depth_below, dot_bits]
    decide
  simp only [render_cell, hb, if_true]
  rfl

/-! ## Properties of the Braille frame -/

theorem option_mapM_some {α β : Type} (f : α → Option β) (g : α → β) (l : List α)
    (h : ∀ x ∈ l, f x = some (g x)) : l.mapM f = some (l.map g) := by
  rw [← List.mapM'_eq_mapM]
  induction l with
  | nil => rfl
  | cons a l ih =>
    have ha := h a (List.mem_cons_self _ _)
    have hl : ∀ x ∈ l, f x = some (g x) := fun x hx => h x (List.mem_cons_of_mem _ hx)
    simp only [List.mapM'_cons, ha, ih hl, List.map_cons]
    rfl

theorem subpixel_getD_active (s : UnicodeScreen) (cc cr dc dr : Nat) :
    ((subpixel_at s cc cr dc dr).getD ⟨0, 0, 0, 0, false⟩).active
      = subpixel_active s cc cr dc dr := by
  simp only [subpixel_at, subpixel_active]
  cases s.framebuffer[(((cr : Int) * 4 + dr) * s.buf_width + ((cc : Int) * 2 + dc)).toNat]? <;>
    rfl

theorem render_cell_some (s : UnicodeScreen) (cc cr : Nat)
    (hlen : s.framebuffer.length = (s.buf_width * s.buf_height).toNat)
    (hcc : (cc : Int) * 2 + 1 < s.buf_width) (hcr : (cr : Int) * 4 + 3 < s.buf_height) :
    ∃ bytes, render_cell s cc cr = some bytes ∧
      ((∀ dc dr, dc < 2 → dr < 4 → subpixel_active s cc cr dc dr = false) →
        bytes = color_escape "48" s.bg_color ++ str_bytes " ") := by
  have hpos : ∀ p ∈ braille_positions, p.1 < 2 ∧ p.2 < 4 := by
    rw [braille_positions_eq]
    decide
  have hfold := braille_fold_merge s cc cr hlen hcc hcr braille_positions hpos {}
  have hinv := nearest_so_far_fold
    (fun p => (subpixel_at s cc cr p.1 p.2).getD ⟨0, 0, 0, 0, false⟩)
    (fun p => dot_bits p.1 p.2) braille_positions [] {}
    (Or.inl ⟨rfl, rfl, fun x hx => by simp at hx⟩)
  simp only [List.nil_append] at hinv
  rcases hinv with ⟨-, hany, -⟩ | ⟨j, x, hj, hx, -, -, hany, -⟩
  · refine ⟨_, ?_, fun _ => rfl⟩
    simp only [render_cell, braille_cell, hfold, hany, Bool.false_eq_true, if_false]
  · refine ⟨color_escape "38" (List.foldl (fun st p =>
        braille_merge st ((subpixel_at s cc cr p.1 p.2).getD ⟨0, 0, 0, 0, false⟩)
          (dot_bits p.1 p.2)) {} braille_positions).best_color ++
      color_escape "48" s.bg_color ++ codepoint_bytes (0x2800 + (List.foldl (fun st p =>
        braille_merge st ((subpixel_at s cc cr p.1 p.2).getD ⟨0, 0, 0, 0, false⟩)
          (dot_bits p.1 p.2)) {} braille_positions).pattern), ?_, fun hoff => ?_⟩
    · simp only [render_cell, braille_cell, hfold, hany, if_true]
    · exfalso
      obtain ⟨p, hp, hpx⟩ := List.mem_map.mp (List.getElem?_mem hj)
      obtain ⟨h1, h2⟩ := hpos p hp
      have := hoff p.1 p.2 h1 h2
      rw [← subpixel_getD_active, hpx, hx] at this
      exact Bool.noConfusion this

theorem tdiv_two_bound (w : Int) (c : Nat) (h : c < (Int.tdiv w 2).toNat) :
    (c : Int) * 2 + 1 < w := by
  by_cases hw : 0 ≤ w
  · rw [Int.tdiv_eq_ediv hw (by decide)] at h
    omega
  · exfalso
    have ht : Int.tdiv w 2 = -((-w) / 2) := by
      have h' := Int.neg_tdiv (-w) 2
      rw [neg_neg] at h'
      rw [h', Int.tdiv_eq_ediv (by omega) (by decide)]
    rw [ht] at h
    omega

theorem tdiv_four_bound (w : Int) (c : Nat) (h : c < (Int.tdiv w 4).toNat) :
    (c : Int) * 4 + 3 < w := by
  by_cases hw : 0 ≤ w
  · rw [Int.tdiv_eq_ediv hw (by decide)] at h
    omega
  · exfalso
    have ht : Int.tdiv w 4 = -((-w) / 4) := by
      have h' := Int.neg_tdiv (-w) 4
      rw [neg_neg] at h'
      rw [h', Int.tdiv_eq_ediv (by omega) (by decide)]
    rw [ht] at h
    omega

theorem render_row_some (s : UnicodeScreen) (cell_rows cr : Nat)
    (hlen : s.framebuffer.length = (s.buf_width * s.buf_height).toNat)
    (hcr : (cr : Int) * 4 + 3 < s.buf_height) :
    render_row s cell_rows (Int.tdiv s.buf_width 2).toNat cr =
      some (((List.range (Int.tdiv s.buf_width 2).toNat).map
          (fun cc => (render_cell s cc cr).getD [])).flatten ++
        (if cr + 1 < cell_rows then str_bytes "\x1b[0m\n" else [])) := by
  unfold render_row
  rw [option_mapM_some (fun cc => render_cell s cc cr) (fun cc => (render_cell s cc cr).getD [])]
  intro cc hcc
  obtain ⟨bytes, hb, -⟩ := render_cell_some s cc cr hlen
    (tdiv_two_bound _ _ (List.mem_range.mp hcc)) hcr
  rw [hb, Option.getD_some]

theorem flatten_separated (sep : List Nat) (f : Nat → List Nat) (m : Nat) :
    ∀ k, ((List.range' k m).map
        (fun cr => f cr ++ (if cr + 1 < k + m then sep else []))).flatten
      = List.intercalate sep ((List.range' k m).map f) := by
  induction m with
  | zero => intro k; simp [List.intercalate]
  | succ m ih =>
    intro k
    cases m with
    | zero => simp [List.intercalate]
    | succ m =>
      have h := ih (k + 1)
      rw [show k + 1 + (m + 1) = k + (m + 1 + 1) by omega] at h
      rw [List.range'_succ, List.map_cons, List.flatten_cons, h, List.map_cons,
        intercalate_cons_eq, List.range'_succ, List.map_cons, intercalate_cons_eq,
        List.flatMap_cons]
      have hk : k + 1 < k + (m + 1 + 1) := by omega
      simp only [hk, if_true, List.append_assoc]

/-- The frame of `render_braille` when the size passed to `out.reserve` is not
negative: on a framebuffer of size `buf_width * buf_height`, `render_braille`
returns the cursor-home sequence, then the rows of cells joined by the style
reset and newline (none after the last row), then a final style reset; there
are `buf_height / 4` rows of `buf_width / 2` cells each, in row-major order,
the cell `(cc, cr)` being written as `render_cell` gives it, and a cell
without an active subpixel is exactly the background truecolor escape
followed by one space. -/
theorem render_braille_frame (s : UnicodeScreen)
    (hlen : s.framebuffer.length = (s.buf_width * s.buf_height).toNat)
    (hres : 0 ≤ s.term_cols * (s.term_rows - s.info_rows) * 30) :
    ∃ rows : List (List (List Nat)),
      s.render_braille = some (str_bytes "\x1b[H" ++
        List.intercalate (str_bytes "\x1b[0m\n") (rows.map List.flatten) ++
        str_bytes "\x1b[0m") ∧
      rows.length = (Int.tdiv s.buf_height 4).toNat ∧
      (∀ row ∈ rows, row.length = (Int.tdiv s.buf_width 2).toNat) ∧
      rows.flatten.length
        = (Int.tdiv s.buf_height 4).toNat * (Int.tdiv s.buf_width 2).toNat ∧
      ∀ (cr cc : Nat), cr < (Int.tdiv s.buf_height 4).toNat →
        cc < (Int.tdiv s.buf_width 2).toNat →
        ∃ row bytes, rows[cr]? = some row ∧ row[cc]? = some bytes ∧
          render_cell s cc cr = some bytes ∧
          ((∀ dc dr, dc < 2 → dr < 4 → subpixel_active s cc cr dc dr = false) →
            bytes = color_escape "48" s.bg_color ++ str_bytes " ") := by
  refine ⟨(List.range (Int.tdiv s.buf_height 4).toNat).map (fun cr =>
    (List.range (Int.tdiv s.buf_width 2).toNat).map (fun cc => (render_cell s cc cr).getD [])),
    ?_, by simp, ?_, ?_, ?_⟩
  · unfold UnicodeScreen.render_braille
    rw [if_neg (not_lt.mpr hres)]
    simp only
    rw [option_mapM_some
      (fun cr => render_row s (Int.tdiv s.buf_height 4).toNat (Int.tdiv s.buf_width 2).toNat cr)
      (fun cr => ((List.range (Int.tdiv s.buf_width 2).toNat).map
          (fun cc => (render_cell s cc cr).getD [])).flatten ++
        (if cr + 1 < (Int.tdiv s.buf_height 4).toNat then str_bytes "\x1b[0m\n" else []))]
    · have h := flatten_separated (str_bytes "\x1b[0m\n")
        (fun cr => ((List.range (Int.tdiv s.buf_width 2).toNat).map
          (fun cc => (render_cell s cc cr).getD [])).flatten)
        (Int.tdiv s.buf_height 4).toNat 0
      simp only [Nat.zero_add, ← List.range_eq_range'] at h
      simp only [h, List.map_map]
      rfl
    · intro cr hcr
      exact render_row_some s _ cr hlen (tdiv_four_bound _ _ (List.mem_range.mp hcr))
  · intro row hrow
    obtain ⟨cr, -, rfl⟩ := List.mem_map.mp hrow
    simp
  · rw [List.length_flatten, List.map_map]
    have e : (List.length ∘ fun cr =>
        (List.range (Int.tdiv s.buf_width 2).toNat).map
          (fun cc => (render_cell s cc cr).getD []))
        = fun _ => (Int.tdiv s.buf_width 2).toNat := by
      funext cr
      simp
    rw [e]
    simp
  · intro cr cc hcr hcc
    obtain ⟨bytes, hb, hoff⟩ := render_cell_some s cc cr hlen (tdiv_two_bound _ _ hcc)
      (tdiv_four_bound _ _ hcr)
    refine ⟨(List.range (Int.tdiv s.buf_width 2).toNat).map
      (fun cc => (render_cell s cc cr).getD []), bytes, ?_, ?_, hb, hoff⟩
    · rw [List.getElem?_map, List.getElem?_range hcr]
      rfl
    · rw [List.getElem?_map, List.getElem?_range hcc, Option.map_some', hb, Option.getD_some]

/-- Instance of the frame on a terminal of 80 x 24 cells: the 10 x 10 screen
whose only active pixel is (0, 0) is written as 2 rows of 5 cells; the cell
(1, 0) has no active subpixel and is the background escape and a space. -/
theorem render_braille_frame_demo :
    ∃ rows : List (List (List Nat)),
      demo_top_left.render_braille = some (str_bytes "\x1b[H" ++
        List.intercalate (str_bytes "\x1b[0m\n") (rows.map List.flatten) ++
        str_bytes "\x1b[0m") ∧
      rows.length = 2 ∧ rows.flatten.length = 2 * 5 ∧
      ∃ row, rows[0]? = some row ∧
        row[1]? = some (color_escape "48" ⟨18, 18, 24⟩ ++ str_bytes " ") := by
  obtain ⟨rows, h1, h2, -, h4, h5⟩ := render_braille_frame demo_top_left rfl (by decide)
  obtain ⟨row, bytes, r1, r2, -, r4⟩ := h5 0 1 (by decide) (by decide)
  refine ⟨rows, h1, h2, h4, row, r1, ?_⟩
  rw [r2, r4 (by
    intro dc dr hdc hdr
    interval_cases dc <;> interval_cases dr <;> rfl)]
  rfl

/-! ## Properties of the palette state -/

theorem palette_stops_length (t : PaletteType) (pywal : List RGB)
    (ht : t ≠ PaletteType.PALETTE_COUNT)
    (hp : pywal = [] ∨ pywal.length = 6 ∨ pywal.length = 7) :
    ∃ stops, palette_stops t pywal = some stops ∧ 6 ≤ stops.length ∧ stops.length ≤ 8 := by
  cases t with
  | PYWAL =>
    rcases hp with hp | hp | hp
    · subst hp
      exact ⟨_, rfl, by decide, by decide⟩
    · have hne : pywal.isEmpty = false := by
        cases pywal with
        | nil => simp at hp
        | cons a l => rfl
      refine ⟨pywal, by simp [palette_stops, hne], by omega, by omega⟩
    · have hne : pywal.isEmpty = false := by
        cases pywal with
        | nil => simp at hp
        | cons a l => rfl
      refine ⟨pywal, by simp [palette_stops, hne], by omega, by omega⟩
  | NEON => exact ⟨_, rfl, by decide, by decide⟩
  | COOL => exact ⟨_, rfl, by decide, by decide⟩
  | WARM => exact ⟨_, rfl, by decide, by decide⟩
  | EARTH => exact ⟨_, rfl, by decide, by decide⟩
  | PASTEL => exact ⟨_, rfl, by decide, by decide⟩
  | PALETTE_COUNT => exact absurd rfl ht

theorem apply_palette_fields (s : UnicodeScreen) :
    s.apply_palette.palette_type = s.palette_type ∧
    s.apply_palette.pywal_colors = s.pywal_colors ∧
    s.apply_palette.bg_color = s.bg_color := ⟨rfl, rfl, rfl⟩

theorem apply_palette_length (s : UnicodeScreen)
    (ht : s.palette_type ≠ PaletteType.PALETTE_COUNT)
    (hp : s.pywal_colors = [] ∨ s.pywal_colors.length = 6 ∨ s.pywal_colors.length = 7) :
    6 ≤ s.apply_palette.palette_colors.length ∧ s.apply_palette.palette_colors.length ≤ 8 := by
  obtain ⟨stops, h1, h2, h3⟩ := palette_stops_length s.palette_type s.pywal_colors ht hp
  simp only [UnicodeScreen.apply_palette, h1, List.length_map]
  exact ⟨h2, h3⟩

theorem load_colors_fields (wal : Option (List RGB)) (s : UnicodeScreen)
    (hfresh : s.pywal_colors = []) :
    ((s.load_colors wal).palette_type = s.palette_type ∨
      (s.load_colors wal).palette_type = PaletteType.NEON) ∧
    ((s.load_colors wal).pywal_colors = [] ∨ (s.load_colors wal).pywal_colors.length = 6 ∨
      (s.load_colors wal).pywal_colors.length = 7) := by
  unfold UnicodeScreen.load_colors
  cases wal with
  | none =>
    simp only [hfresh, List.isEmpty_nil, if_true]
    exact ⟨Or.inr rfl, Or.inl rfl⟩
  | some wal_colors =>
    by_cases h16 : wal_colors.length ≥ 16
    · simp only [h16, dite_true]
      exact ⟨Or.inl rfl, Or.inr (Or.inr rfl)⟩
    · by_cases h8 : wal_colors.length ≥ 8
      · simp only [h16, h8, dite_true, dite_false]
        exact ⟨Or.inl rfl, Or.inr (Or.inl rfl)⟩
      · simp only [h16, h8, dite_false, hfresh, List.isEmpty_nil, if_true]
        exact ⟨Or.inr rfl, Or.inl rfl⟩

theorem palette_key_type (decl : List PaletteType) (hdecl : decl ≠ [])
    (hreal : PaletteType.PALETTE_COUNT ∉ decl) (s : UnicodeScreen) :
    (s.palette_key decl).palette_type
        = decl.getD ((decl.indexOf s.palette_type + 1) % decl.length) PaletteType.PALETTE_COUNT ∧
    (s.palette_key decl).palette_type ∈ decl ∧
    (s.palette_key decl).pywal_colors = s.pywal_colors ∧
    (s.palette_key decl).bg_color = s.bg_color := by
  have hcount : palette_to_int decl PaletteType.PALETTE_COUNT = decl.length :=
    List.indexOf_of_not_mem hreal
  have hpos : 0 < decl.length := List.length_pos.mpr hdecl
  have hlt : (decl.indexOf s.palette_type + 1) % decl.length < decl.length := Nat.mod_lt _ hpos
  have e : (s.palette_key decl).palette_type
      = decl.getD ((decl.indexOf s.palette_type + 1) % decl.length)
          PaletteType.PALETTE_COUNT := by
    simp only [UnicodeScreen.palette_key, (apply_palette_fields _).1, int_to_palette, hcount]
    rfl
  refine ⟨e, ?_, rfl, rfl⟩
  rw [e, List.getD_eq_getElem _ _ hlt]
  exact List.getElem_mem _

/-- C13 (palette invariant): whatever the declaration order `decl` of the real
palettes (non-empty, without the sentinel, with `NEON`), whether or not theme
colors were read, after `load_colors` on a fresh object and after any number
of palette key presses `palette_colors` is not empty and holds between 6 and
8 stops, and the palette type is one of the declared palettes, never
`PALETTE_COUNT`. -/
theorem palette_invariant (decl : List PaletteType) (hdecl : decl ≠ [])
    (hreal : PaletteType.PALETTE_COUNT ∉ decl) (hneon : PaletteType.NEON ∈ decl)
    (s0 : UnicodeScreen) (hfresh : s0.pywal_colors = []) (h0 : s0.palette_type ∈ decl)
    (wal : Option (List RGB)) (n : Nat) :
    ((UnicodeScreen.palette_key decl)^[n] (s0.load_colors wal)).palette_colors ≠ [] ∧
    6 ≤ ((UnicodeScreen.palette_key decl)^[n] (s0.load_colors wal)).palette_colors.length ∧
    ((UnicodeScreen.palette_key decl)^[n] (s0.load_colors wal)).palette_colors.length ≤ 8 ∧
    ((UnicodeScreen.palette_key decl)^[n] (s0.load_colors wal)).palette_type ∈ decl ∧
    ((UnicodeScreen.palette_key decl)^[n] (s0.load_colors wal)).palette_type
      ≠ PaletteType.PALETTE_COUNT := by
  have hinv : ∀ n,
      6 ≤ ((UnicodeScreen.palette_key decl)^[n] (s0.load_colors wal)).palette_colors.length ∧
      ((UnicodeScreen.palette_key decl)^[n] (s0.load_colors wal)).palette_colors.length ≤ 8 ∧
      ((UnicodeScreen.palette_key decl)^[n] (s0.load_colors wal)).palette_type ∈ decl ∧
      (((UnicodeScreen.palette_key decl)^[n] (s0.load_colors wal)).pywal_colors = [] ∨
        ((UnicodeScreen.palette_key decl)^[n] (s0.load_colors wal)).pywal_colors.length = 6 ∨
        ((UnicodeScreen.palette_key decl)^[n] (s0.load_colors wal)).pywal_colors.length = 7) := by
    intro n
    induction n with
    | zero =>
      simp only [Function.iterate_zero, id_eq]
      obtain ⟨ht, hp⟩ := load_colors_fields wal s0 hfresh
      have hmem : (s0.load_colors wal).palette_type ∈ decl := by
        rcases ht with ht | ht
        · rw [ht]; exact h0
        · rw [ht]; exact hneon
      have hne : (s0.load_colors wal).palette_type ≠ PaletteType.PALETTE_COUNT :=
        fun h => hreal (h ▸ hmem)
      have hlen : 6 ≤ (s0.load_colors wal).palette_colors.length ∧
          (s0.load_colors wal).palette_colors.length ≤ 8 := by
        unfold UnicodeScreen.load_colors at hne hp ⊢
        exact apply_palette_length _ hne hp
      exact ⟨hlen.1, hlen.2, hmem, hp⟩
    | succ n ih =>
      rw [Function.iterate_succ_apply']
      obtain ⟨-, -, -, hp⟩ := ih
      obtain ⟨-, hmem, hpy, -⟩ := palette_key_type decl hdecl hreal
        ((UnicodeScreen.palette_key decl)^[n] (s0.load_colors wal))
      have hne : (((UnicodeScreen.palette_key decl)^[n] (s0.load_colors wal)).palette_key
          decl).palette_type ≠ PaletteType.PALETTE_COUNT := fun h => hreal (h ▸ hmem)
      have hp' : (((UnicodeScreen.palette_key decl)^[n] (s0.load_colors wal)).palette_key
          decl).pywal_colors = [] ∨
          (((UnicodeScreen.palette_key decl)^[n] (s0.load_colors wal)).palette_key
            decl).pywal_colors.length = 6 ∨
          (((UnicodeScreen.palette_key decl)^[n] (s0.load_colors wal)).palette_key
            decl).pywal_colors.length = 7 := by
        rw [hpy]; exact hp
      have hlen : 6 ≤ (((UnicodeScreen.palette_key decl)^[n] (s0.load_colors wal)).palette_key
            decl).palette_colors.length ∧
          (((UnicodeScreen.palette_key decl)^[n] (s0.load_colors wal)).palette_key
            decl).palette_colors.length ≤ 8 := by
        unfold UnicodeScreen.palette_key at hne hp' ⊢
        exact apply_palette_length _ hne hp'
      exact ⟨hlen.1, hlen.2, hmem, hp'⟩
  obtain ⟨h1, h2, h3, -⟩ := hinv n
  refine ⟨fun h => ?_, h1, h2, h3, fun h => hreal (h ▸ h3)⟩
  rw [h] at h1
  simp at h1

/-- Instance of C13: with the palettes of the header and no theme file, after
`load_colors` and three palette key presses the palette is `EARTH` with 7
stops. -/
theorem palette_invariant_witness :
    ((UnicodeScreen.palette_key header_palette_decl)^[3]
      (demo_screen.load_colors none)).palette_type = PaletteType.EARTH ∧
    ((UnicodeScreen.palette_key header_palette_decl)^[3]
      (demo_screen.load_colors none)).palette_colors ≠ [] ∧
    6 ≤ ((UnicodeScreen.palette_key header_palette_decl)^[3]
      (demo_screen.load_colors none)).palette_colors.length ∧
    ((UnicodeScreen.palette_key header_palette_decl)^[3]
      (demo_screen.load_colors none)).palette_colors.length ≤ 8 := by
  obtain ⟨h1, h2, h3, -, -⟩ := palette_invariant header_palette_decl (by decide) (by decide)
    (by decide) demo_screen rfl (by decide) none 3
  exact ⟨rfl, h1, h2, h3⟩

theorem palette_key_colors (decl : List PaletteType) (s : UnicodeScreen) (stops : List RGB)
    (h : palette_stops (s.palette_key decl).palette_type s.pywal_colors = some stops) :
    (s.palette_key decl).palette_colors = stops.map (fun c => boost_color c s.bg_color) := by
  have e : (s.palette_key decl).palette_type
      = int_to_palette decl
          ((palette_to_int decl s.palette_type + 1)
            % palette_to_int decl PaletteType.PALETTE_COUNT) := rfl
  rw [e] at h
  simp only [UnicodeScreen.palette_key, UnicodeScreen.apply_palette, h]

/-- C14, evaluation at the failing input: with the theme `demo_theme` (black
background, first accent (10, 10, 10)) and the palettes declared `PYWAL`
first, `load_colors` stores the accent boosted once, (16, 16, 16); after five
palette key presses the theme palette is active and its first stop is
(25, 25, 25), the accent boosted twice, not `boost_color` of the theme color. -/
theorem palette_theme_boosted_twice :
    (demo_screen.load_colors (some demo_theme)).bg_color = ⟨0, 0, 0⟩ ∧
    (demo_screen.load_colors (some demo_theme)).pywal_colors.head?
      = some (boost_color ⟨10, 10, 10⟩ ⟨0, 0, 0⟩) ∧
    boost_color ⟨10, 10, 10⟩ ⟨0, 0, 0⟩ = ⟨16, 16, 16⟩ ∧
    ((UnicodeScreen.palette_key source_palette_decl)^[5]
      (demo_screen.load_colors (some demo_theme))).palette_type = PaletteType.PYWAL ∧
    ((UnicodeScreen.palette_key source_palette_decl)^[5]
      (demo_screen.load_colors (some demo_theme))).palette_colors.head?
        = some ⟨25, 25, 25⟩ ∧
    ((UnicodeScreen.palette_key source_palette_decl)^[5]
      (demo_screen.load_colors (some demo_theme))).palette_colors.head?
        ≠ some (boost_color ⟨10, 10, 10⟩ ⟨0, 0, 0⟩) := by
  have b1 : boost_color ⟨10, 10, 10⟩ ⟨0, 0, 0⟩ = ⟨16, 16, 16⟩ := by
    norm_num [boost_color, luminance, abs_lt, int_to_uint8, clamp_int, float_to_int]
    decide
  have b2 : boost_color ⟨16, 16, 16⟩ ⟨0, 0, 0⟩ = ⟨25, 25, 25⟩ := by
    norm_num [boost_color, luminance, abs_lt, int_to_uint8, clamp_int, float_to_int]
    decide
  have hty : ((UnicodeScreen.palette_key source_palette_decl)^[5]
      (demo_screen.load_colors (some demo_theme))).palette_type = PaletteType.PYWAL := rfl
  have hbg : ((UnicodeScreen.palette_key source_palette_decl)^[4]
      (demo_screen.load_colors (some demo_theme))).bg_color = ⟨0, 0, 0⟩ := rfl
  have hpy : ((UnicodeScreen.palette_key source_palette_decl)^[4]
      (demo_screen.load_colors (some demo_theme))).pywal_colors
      = [boost_color ⟨10, 10, 10⟩ ⟨0, 0, 0⟩, boost_color ⟨200, 0, 0⟩ ⟨0, 0, 0⟩,
         boost_color ⟨0, 200, 0⟩ ⟨0, 0, 0⟩, boost_color ⟨0, 0, 200⟩ ⟨0, 0, 0⟩,
         boost_color ⟨200, 200, 0⟩ ⟨0, 0, 0⟩, boost_color ⟨0, 200, 200⟩ ⟨0, 0, 0⟩] := rfl
  have hcol := palette_key_colors source_palette_decl
    ((UnicodeScreen.palette_key source_palette_decl)^[4]
      (demo_screen.load_colors (some demo_theme)))
    [boost_color ⟨10, 10, 10⟩ ⟨0, 0, 0⟩, boost_color ⟨200, 0, 0⟩ ⟨0, 0, 0⟩,
     boost_color ⟨0, 200, 0⟩ ⟨0, 0, 0⟩, boost_color ⟨0, 0, 200⟩ ⟨0, 0, 0⟩,
     boost_color ⟨200, 200, 0⟩ ⟨0, 0, 0⟩, boost_color ⟨0, 200, 200⟩ ⟨0, 0, 0⟩]
    (by rw [hpy]; rfl)
  have hhead : ((UnicodeScreen.palette_key source_palette_decl)^[5]
      (demo_screen.load_colors (some demo_theme))).palette_colors.head?
        = some ⟨25, 25, 25⟩ := by
    rw [Function.iterate_succ_apply', hcol, hbg]
    simp only [List.map_cons, List.head?_cons, b1, b2]
  refine ⟨rfl, rfl, b1, hty, hhead, ?_⟩
  rw [hhead, b1]
  decide

/-! ## Properties of the Sixel frame -/

theorem pixel_index_lt (pp : List Int) (width height row x : Nat)
    (hlen : pp.length = width * height) (hrow : row < height) (hx : x < width) :
    row * width + x < pp.length := by
  rw [hlen]
  have h1 : (row + 1) * width ≤ height * width := Nat.mul_le_mul_right _ hrow
  have h2 : (row + 1) * width = row * width + width := by ring
  have h3 : height * width = width * height := Nat.mul_comm _ _
  omega

theorem band_colors_row (pp : List Int) (width height row : Nat)
    (hlen : pp.length = width * height) (hrow : row < height)
    (l : List Nat) (hl : ∀ x ∈ l, x < width) (acc : List Int) :
    l.foldlM
      (fun acc x =>
        match pp[row * width + x]? with
        | none => none
        | some c => if c ≥ 0 then some (acc ++ [c]) else some acc)
      acc
    = some (acc ++ l.filterMap (fun x =>
        if pp.getD (row * width + x) (-1) ≥ 0 then some (pp.getD (row * width + x) (-1))
        else none)) := by
  induction l generalizing acc with
  | nil => simp
  | cons x l ih =>
    have hx := hl x (List.mem_cons_self _ _)
    have hl' : ∀ y ∈ l, y < width := fun y hy => hl y (List.mem_cons_of_mem _ hy)
    have hlt := pixel_index_lt pp width height row x hlen hrow hx
    have hget : pp[row * width + x]? = some (pp.getD (row * width + x) (-1)) := by
      rw [List.getD_eq_getElem _ _ hlt]
      exact List.getElem?_eq_getElem hlt
    simp only [List.foldlM_cons, hget, List.filterMap_cons]
    by_cases hc : pp.getD (row * width + x) (-1) ≥ 0
    · simp only [hc, if_true, Option.some_bind, Option.bind_eq_bind]
      rw [ih hl']
      simp
    · simp only [hc, if_false, Option.some_bind, Option.bind_eq_bind]
      rw [ih hl']

theorem band_colors_rows (pp : List Int) (width height : Nat)
    (hlen : pp.length = width * height)
    (rows : List Nat) (hrows : ∀ row ∈ rows, row < height) (acc : List Int) :
    rows.foldlM
      (fun acc row =>
        (List.range width).foldlM
          (fun acc x =>
            match pp[row * width + x]? with
            | none => none
            | some c => if c ≥ 0 then some (acc ++ [c]) else some acc)
          acc)
      acc
    = some (acc ++ rows.flatMap (fun row => (List.range width).filterMap (fun x =>
        if pp.getD (row * width + x) (-1) ≥ 0 then some (pp.getD (row * width + x) (-1))
        else none))) := by
  induction rows generalizing acc with
  | nil => simp
  | cons row rows ih =>
    have hrow := hrows row (List.mem_cons_self _ _)
    have hrows' : ∀ r ∈ rows, r < height := fun r hr => hrows r (List.mem_cons_of_mem _ hr)
    simp only [List.foldlM_cons,
      band_colors_row pp width height row hlen hrow (List.range width)
        (fun x hx => List.mem_range.mp hx), Option.some_bind, Option.bind_eq_bind]
    rw [ih hrows']
    simp

theorem band_colors_spec (pp : List Int) (width height band_y : Nat)
    (hlen : pp.length = width * height) :
    ∃ cs, band_colors pp width height band_y = some cs ∧
      ∀ c, c ∈ cs ↔ band_has_color pp width height band_y c := by
  have hrows : ∀ row ∈ List.range' band_y (min (band_y + 6) height - band_y), row < height := by
    intro row hrow
    rw [List.mem_range'_1] at hrow
    omega
  refine ⟨_, by
    unfold band_colors
    rw [band_colors_rows pp width height hlen _ hrows []], fun c => ?_⟩
  simp only [List.nil_append, List.mem_flatMap, List.mem_filterMap, List.mem_range,
    List.mem_range'_1, band_has_color]
  constructor
  · rintro ⟨row, hrow, x, hx, hc⟩
    have hlt := pixel_index_lt pp width height row x hlen (by omega) hx
    have hget : pp[row * width + x]? = some (pp.getD (row * width + x) (-1)) := by
      rw [List.getD_eq_getElem _ _ hlt]
      exact List.getElem?_eq_getElem hlt
    by_cases h0 : pp.getD (row * width + x) (-1) ≥ 0
    · simp only [h0, if_true, Option.some.injEq] at hc
      subst hc
      exact ⟨h0, row, x, by omega, by omega, by omega, hx, hget⟩
    · simp only [h0, if_false] at hc
      exact Option.noConfusion hc
  · rintro ⟨h0, row, x, h1, h2, h3, hx, hc⟩
    have hlt := pixel_index_lt pp width height row x hlen h3 hx
    have hget : pp.getD (row * width + x) (-1) = c := by
      rw [List.getD_eq_getElem?_getD, hc, Option.getD_some]
    refine ⟨row, by omega, x, hx, ?_⟩
    rw [hget]
    simp [h0]

theorem run_token_bytes (c k : Nat) (hc : 63 ≤ c ∧ c ≤ 126) :
    ∀ b ∈ run_token c k, b = 33 ∨ (48 ≤ b ∧ b ≤ 57) ∨ (63 ≤ b ∧ b ≤ 126) := by
  intro b hb
  unfold run_token at hb
  by_cases h3 : k ≤ 3
  · simp only [h3, if_true] at hb
    rw [List.eq_of_mem_replicate hb]
    exact Or.inr (Or.inr hc)
  · have he : str_bytes "!" = [33] := by decide
    simp only [h3, if_false, he, List.mem_append, List.mem_singleton] at hb
    rcases hb with (hb | hb) | hb
    · exact Or.inl hb
    · exact Or.inr (Or.inl ((to_string_spec k).1 b hb))
    · rw [hb]; exact Or.inr (Or.inr hc)

theorem color_segment_count (pp : List Int) (width height band_y : Nat) (color : Int) :
    (color_segment pp width height band_y color).count 35 = 1 ∧
    (color_segment pp width height band_y color).count 36 = 0 ∧
    (color_segment pp width height band_y color).count 45 = 0 := by
  obtain ⟨rs, h1, -, h3, -⟩ := color_runs_spec pp width height band_y color
  have htok : ∀ b ∈ rs.flatMap (fun r => run_token r.1 r.2),
      b = 33 ∨ (48 ≤ b ∧ b ≤ 57) ∨ (63 ≤ b ∧ b ≤ 126) := by
    intro b hb
    obtain ⟨r, hr, hbr⟩ := List.mem_flatMap.mp hb
    exact run_token_bytes r.1 r.2 (h3 r hr).2 b hbr
  have hdig := (to_string_spec color.toNat).1
  have hh : str_bytes "#" = [35] := by decide
  have c1 : ∀ v, v = 35 ∨ v = 36 ∨ v = 45 →
      (to_string color.toNat).count v = 0 ∧
      (rs.flatMap (fun r => run_token r.1 r.2)).count v = 0 := by
    intro v hv
    constructor
    · apply List.count_eq_zero.mpr
      intro hmem
      have := hdig v hmem
      omega
    · apply List.count_eq_zero.mpr
      intro hmem
      have := htok v hmem
      omega
  simp only [color_segment, h1, hh, List.count_append, (c1 35 (Or.inl rfl)).1,
    (c1 35 (Or.inl rfl)).2, (c1 36 (Or.inr (Or.inl rfl))).1, (c1 36 (Or.inr (Or.inl rfl))).2,
    (c1 45 (Or.inr (Or.inr rfl))).1, (c1 45 (Or.inr (Or.inr rfl))).2]
  decide

theorem separated_segments_count (pp : List Int) (width height band_y : Nat) (l : List Int) :
    (l.flatMap (fun c => str_bytes "$" ++ color_segment pp width height band_y c)).count 35
      = l.length ∧
    (l.flatMap (fun c => str_bytes "$" ++ color_segment pp width height band_y c)).count 36
      = l.length ∧
    (l.flatMap (fun c => str_bytes "$" ++ color_segment pp width height band_y c)).count 45
      = 0 := by
  induction l with
  | nil => simp
  | cons c l ih =>
    obtain ⟨s1, s2, s3⟩ := color_segment_count pp width height band_y c
    obtain ⟨i1, i2, i3⟩ := ih
    have d1 : List.count 35 (str_bytes "$") = 0 := by decide
    have d2 : List.count 36 (str_bytes "$") = 1 := by decide
    have d3 : List.count 45 (str_bytes "$") = 0 := by decide
    refine ⟨?_, ?_, ?_⟩
    · rw [List.flatMap_cons, List.count_append, List.count_append, s1, i1, d1,
        List.length_cons]
      omega
    · rw [List.flatMap_cons, List.count_append, List.count_append, s2, i2, d2,
        List.length_cons]
      omega
    · rw [List.flatMap_cons, List.count_append, List.count_append, s3, i3, d3]

theorem band_text_count (pp : List Int) (width height band_y : Nat) (iter : List Int) :
    (band_text pp width height band_y iter).count 35 = iter.length ∧
    (band_text pp width height band_y iter).count 36 = iter.length - 1 ∧
    (band_text pp width height band_y iter).count 45 = 1 ∧
    (band_text pp width height band_y iter).getLast? = some 45 := by
  have hm : str_bytes "-" = [45] := by decide
  cases iter with
  | nil =>
    simp only [band_text, List.map_nil, List.intercalate, List.intersperse, List.flatten_nil,
      List.nil_append, hm]
    decide
  | cons c l =>
    obtain ⟨s1, s2, s3⟩ := color_segment_count pp width height band_y c
    obtain ⟨i1, i2, i3⟩ := separated_segments_count pp width height band_y l
    simp only [band_text, List.map_cons, intercalate_cons_eq, List.flatMap_map,
      List.count_append, hm, s1, s2, s3, i1, i2, i3, List.length_cons]
    refine ⟨?_, ?_, ?_, by simp⟩
    · have : List.count 35 [45] = 0 := by decide
      omega
    · have : List.count 36 [45] = 0 := by decide
      omega
    · have : List.count 45 [45] = 1 := by decide
      omega

theorem encode_band_text (out : List Nat) (pp : List Int) (width height band_y : Nat)
    (iter : List Int) (hlen : pp.length = width * height) :
    encode_band out pp width height band_y iter
      = some (out ++ band_text pp width height band_y iter) := by
  rw [encode_band_eq out pp width height band_y iter hlen, band_text, List.append_assoc]

theorem encode_bands_spec (pp : List Int) (width height : Nat) (iters : Nat → List Int)
    (hlen : pp.length = width * height) (m : Nat) :
    ∀ (band_y : Nat) (out : List Nat), height - band_y ≤ m →
      ∃ bands : List (List Nat),
        encode_bands pp width height iters band_y out = some (out ++ bands.flatten) ∧
        bands.length = (height - band_y + 5) / 6 ∧
        ∀ k, k < bands.length →
          bands[k]? = some (band_text pp width height (band_y + 6 * k)
            (iters (band_y + 6 * k))) := by
  induction m with
  | zero =>
    intro band_y out hm
    have hge : ¬ band_y < height := by omega
    refine ⟨[], ?_, by simp; omega, fun k hk => by simp at hk⟩
    rw [encode_bands]
    simp [hge]
  | succ m ih =>
    intro band_y out hm
    by_cases hlt : band_y < height
    · obtain ⟨bands, h1, h2, h3⟩ := ih (band_y + 6)
        (out ++ band_text pp width height band_y (iters band_y)) (by omega)
      refine ⟨band_text pp width height band_y (iters band_y) :: bands, ?_, ?_, ?_⟩
      · rw [encode_bands]
        simp only [hlt, if_true, encode_band_text out pp width height band_y _ hlen, h1,
          List.flatten_cons, List.append_assoc]
      · rw [List.length_cons, h2]
        omega
      · intro k hk
        cases k with
        | zero => simp
        | succ k =>
          rw [List.length_cons] at hk
          rw [List.getElem?_cons_succ, h3 k (by omega)]
          congr 2 <;> ring_nf
    · refine ⟨[], ?_, by simp; omega, fun k hk => by simp at hk⟩
      rw [encode_bands]
      simp [hlt]

theorem encode_pixels_spec (pixels : List RGBA) (width height bg_r bg_g bg_b : Nat)
    (hlen : pixels.length = width * height) :
    encode_pixels pixels width height bg_r bg_g bg_b
      = some (pixels.map (fun px => quantize_pixel px bg_r bg_g bg_b)) := by
  unfold encode_pixels
  rw [option_mapM_some _ (fun i => quantize_pixel (pixels.getD i ⟨0, 0, 0, 0⟩) bg_r bg_g bg_b)]
  · congr 1
    apply List.ext_getElem?
    intro i
    by_cases hi : i < pixels.length
    · rw [List.getElem?_map, List.getElem?_map, List.getElem?_range (by omega),
        List.getElem?_eq_getElem hi, Option.map_some', Option.map_some',
        List.getD_eq_getElem _ _ hi]
    · rw [List.getElem?_eq_none (by simp; omega), List.getElem?_eq_none (by simp; omega)]
  · intro i hi
    have hi' : i < pixels.length := by rw [hlen]; exact List.mem_range.mp hi
    rw [List.getElem?_eq_getElem hi', List.getD_eq_getElem _ _ hi']

/-- C18 (markers of a band, bands of a frame): on a pixel vector of size
`width * height`, when the colors are visited once each (`iter` has no
duplicate and holds exactly the active indices of the band's rows),
`encode_band` appends the segments of the visited colors joined by `$` and
the terminator `-`; the text holds one `#` per distinct active index, one
`$` less than that (none when there is at most one color), one `-`, its
last byte, and a band without an active pixel is `-` alone. `encode`
returns the start sequence, the palette prologue, `ceil(height / 6)` bands,
the `k`-th being the band at `band_y = 6 k`, and the end sequence. -/
theorem sixel_band_structure :
    (∀ (out : List Nat) (pp : List Int) (width height band_y : Nat) (iter : List Int),
      pp.length = width * height → iter.Nodup →
      (∀ c, c ∈ iter ↔ band_has_color pp width height band_y c) →
      ∃ cs emitted, band_colors pp width height band_y = some cs ∧
        (∀ c, c ∈ cs ↔ c ∈ iter) ∧ iter.length = cs.dedup.length ∧
        encode_band out pp width height band_y iter = some (out ++ emitted) ∧
        emitted = List.intercalate (str_bytes "$")
          (iter.map (color_segment pp width height band_y)) ++ str_bytes "-" ∧
        (∀ c, (color_segment pp width height band_y c).take (1 + (to_string c.toNat).length)
          = str_bytes "#" ++ to_string c.toNat) ∧
        emitted.count 35 = iter.length ∧ emitted.count 36 = iter.length - 1 ∧
        emitted.count 45 = 1 ∧ emitted.getLast? = some 45 ∧
        ((∀ c, ¬ band_has_color pp width height band_y c) → emitted = str_bytes "-")) ∧
    (∀ (ID2RGBA : Nat → RGBA) (pixels : List RGBA) (width height bg_r bg_g bg_b : Nat)
      (iters : Nat → List Int), pixels.length = width * height →
      ∃ (pp : List Int) (bands : List (List Nat)), encode_pixels pixels width height bg_r bg_g bg_b = some pp ∧
        encode ID2RGBA pixels width height bg_r bg_g bg_b iters
          = some (str_bytes "\x1bP0;1;q" ++ build_palette ID2RGBA ++ bands.flatten ++
              str_bytes "\x1b\\") ∧
        bands.length = (height + 5) / 6 ∧
        ∀ k, k < bands.length →
          ∃ band, bands[k]? = some band ∧
            encode_band [] pp width height (6 * k) (iters (6 * k)) = some band) := by
  constructor
  · intro out pp width height band_y iter hlen hnodup hiter
    obtain ⟨cs, hcs, hmem⟩ := band_colors_spec pp width height band_y hlen
    obtain ⟨c1, c2, c3, c4⟩ := band_text_count pp width height band_y iter
    have hperm : iter.Perm cs.dedup := by
      rw [List.perm_ext_iff_of_nodup hnodup (List.nodup_dedup cs)]
      intro c
      rw [List.mem_dedup, hmem c, hiter c]
    refine ⟨cs, band_text pp width height band_y iter, hcs,
      fun c => by rw [hmem c, hiter c], hperm.length_eq,
      encode_band_text out pp width height band_y iter hlen, rfl, fun c => ?_, c1, c2, c3, c4,
      fun hnone => ?_⟩
    · have hh : str_bytes "#" = [35] := by decide
      simp only [color_segment, hh, List.singleton_append, List.cons_append]
      rw [show 1 + (to_string c.toNat).length = (to_string c.toNat).length + 1 by omega,
        List.take_succ_cons, List.take_left']
      rfl
    · have hnil : iter = [] := by
        cases iter with
        | nil => rfl
        | cons c l => exact absurd ((hiter c).mp (List.mem_cons_self _ _)) (hnone c)
      subst hnil
      simp [band_text, List.intercalate]
  · intro ID2RGBA pixels width height bg_r bg_g bg_b iters hlen
    have hpp := encode_pixels_spec pixels width height bg_r bg_g bg_b hlen
    have hpl : (pixels.map (fun px => quantize_pixel px bg_r bg_g bg_b)).length
        = width * height := by rw [List.length_map, hlen]
    obtain ⟨bands, h1, h2, h3⟩ := encode_bands_spec
      (pixels.map (fun px => quantize_pixel px bg_r bg_g bg_b)) width height iters hpl height 0
      (str_bytes "\x1bP0;1;q" ++ build_palette ID2RGBA) (by omega)
    refine ⟨_, bands, hpp, ?_, by rw [h2]; omega, fun k hk => ?_⟩
    · simp only [encode, hpp, h1]
    · refine ⟨_, h3 k hk, ?_⟩
      rw [encode_band_text [] _ width height _ _ hpl, Nat.zero_add, List.nil_append]

/-- Instances of C18: the band of `demo_band` (indices 16 and 17) is written as
`#16!5@$#17A!4?-`, with two `#`, one `$` and one `-`; the 1 x 7 image
`demo_pixels` is encoded as two bands. -/
theorem sixel_band_structure_witness :
    encode_band [] demo_band 5 2 0 [16, 17] = some (str_bytes "#16!5@$#17A!4?-") ∧
    (∃ cs emitted, band_colors demo_band 5 2 0 = some cs ∧
      encode_band [] demo_band 5 2 0 [16, 17] = some ([] ++ emitted) ∧
      emitted.count 35 = 2 ∧ emitted.count 36 = 2 - 1 ∧ emitted.count 45 = 1) ∧
    (∃ (pp : List Int) (bands : List (List Nat)), encode_pixels demo_pixels 1 7 0 0 0 = some pp ∧
      encode (fun _ => ⟨0, 0, 0, 255⟩) demo_pixels 1 7 0 0 0 (fun _ => [196])
        = some (str_bytes "\x1bP0;1;q" ++ build_palette (fun _ => ⟨0, 0, 0, 255⟩) ++
            bands.flatten ++ str_bytes "\x1b\\") ∧
      bands.length = (7 + 5) / 6) := by
  have hcs : band_colors demo_band 5 2 0 = some [16, 16, 16, 16, 16, 17] := by decide
  have hiter : ∀ c, c ∈ [(16 : Int), 17] ↔ band_has_color demo_band 5 2 0 c := by
    intro c
    obtain ⟨cs, h1, h2⟩ := band_colors_spec demo_band 5 2 0 rfl
    rw [hcs] at h1
    cases h1
    rw [← h2 c]
    simp
  obtain ⟨cs, emitted, a1, -, -, a4, -, -, a7, a8, a9, -, -⟩ :=
    sixel_band_structure.1 [] demo_band 5 2 0 [16, 17] rfl (by decide) hiter
  obtain ⟨pp, bands, b1, b2, b3, -⟩ :=
    sixel_band_structure.2 (fun _ => ⟨0, 0, 0, 255⟩) demo_pixels 1 7 0 0 0 (fun _ => [196]) rfl
  exact ⟨by decide, ⟨cs, emitted, a1, a4, a7, a8, a9⟩, ⟨pp, bands, b1, b2, b3⟩⟩

theorem sixel_bits_testBit :
    ∀ (b0 b1 b2 b3 b4 b5 : Bool) (i : Nat), i < 6 →
    ((if b0 = true then 2 ^ 0 else 0) + ((if b1 = true then 2 ^ 1 else 0)
      + ((if b2 = true then 2 ^ 2 else 0) + ((if b3 = true then 2 ^ 3 else 0)
      + ((if b4 = true then 2 ^ 4 else 0) + ((if b5 = true then 2 ^ 5 else 0) + 0))))) :
        Nat).testBit i
      = [b0, b1, b2, b3, b4, b5].getD i false := by
  decide

theorem column_value_testBit (pp : List Int) (width height band_y : Nat) (color : Int)
    (x i : Nat) (hi : i < 6) :
    (column_value pp width height band_y color x).testBit i
      = decide (band_y + i < height ∧ pp[(band_y + i) * width + x]? = some color) := by
  have h : List.range 6 = [0, 1, 2, 3, 4, 5] := by decide
  have hs := sixel_bits_testBit
    (decide (band_y + 0 < height ∧ pp[(band_y + 0) * width + x]? = some color))
    (decide (band_y + 1 < height ∧ pp[(band_y + 1) * width + x]? = some color))
    (decide (band_y + 2 < height ∧ pp[(band_y + 2) * width + x]? = some color))
    (decide (band_y + 3 < height ∧ pp[(band_y + 3) * width + x]? = some color))
    (decide (band_y + 4 < height ∧ pp[(band_y + 4) * width + x]? = some color))
    (decide (band_y + 5 < height ∧ pp[(band_y + 5) * width + x]? = some color)) i hi
  simp only [decide_eq_true_eq] at hs
  simp only [column_value, h, List.map_cons, List.map_nil, List.sum_cons, List.sum_nil, hs]
  interval_cases i <;> rfl

theorem float_to_uint8_lt (q : ℚ) : float_to_uint8 q < 256 := by
  unfold float_to_uint8
  omega

theorem blend_channel_opaque (c bg : Nat) (hc : c < 256) : blend_channel c 255 bg = c := by
  have h1 : f32 (((255 : Nat) : ℚ) / 255) = 1 := by
    have : (((255 : Nat) : ℚ) / 255) = 1 := by norm_num
    rw [this, f32_one]
  simp only [blend_channel, h1, mul_one, sub_self, f32_zero, mul_zero, add_zero,
    f32_natCast c (by omega)]
  exact float_to_uint8_natCast c hc

theorem nearest_palette_color_ge (r g b : Nat) : 16 ≤ nearest_palette_color r g b := by
  simp only [nearest_palette_color]
  omega

/-- C19, as it fails on the code: the pixel (196, 196, 196) of alpha 65 on the
background (196, 196, 196) blends to 195.99998 in binary32, so every channel is
195 and the pixel gets the palette index 145; the blend `c * a + bg * (1 - a)`
with `a = alpha / 255` is 196 and has the index 188. -/
theorem quantize_pixel_blend_rounds :
    encode_pixels [⟨196, 196, 196, 65⟩] 1 1 196 196 196 = some [145] ∧
    quantize_pixel ⟨196, 196, 196, 65⟩ 196 196 196 = 145 ∧
    blend_channel 196 65 196 = 195 ∧
    float_to_uint8 ((196 : ℚ) * (65 / 255) + (196 : ℚ) * (1 - 65 / 255)) = 196 ∧
    nearest_palette_color 196 196 196 = 188 := by
  decide!

/-- C19 (inactive and active pixels of a frame, binary32 blend): on a pixel
vector of size `width * height`, `encode` computes a vector `palette_pixels`
of that size. The character of every column is `63 + v` with `v < 64`. For
the pixel in column `x` of row `row`, bit `row % 6` of the character of column
`x` in its band (`band_y = 6 * (row / 6)`) is as follows. If its alpha is
below 16 its entry is `-1` and the bit is clear for every color `>= 0` (the
colors a band visits). If its alpha is at least 16 its entry is the index
`nearest_palette_color` of the channels
`(uint8_t)fl(fl(c * a) + fl(bg * fl(1 - a)))`, `a = fl(alpha / 255)`, every
operation rounded to binary32, this index is an active color of the band, and
the bit is set for this color and for no other. If its alpha is 255 the index
is `nearest_palette_color (r, g, b)`. -/
theorem encode_pixel_activity (pixels : List RGBA) (width height bg_r bg_g bg_b : Nat)
    (hlen : pixels.length = width * height) :
    ∃ pp : List Int, encode_pixels pixels width height bg_r bg_g bg_b = some pp ∧
      pp.length = width * height ∧
      ∀ (x row : Nat) (px : RGBA), x < width → row < height →
        pixels[row * width + x]? = some px →
        ∃ idx : Int, pp[row * width + x]? = some idx ∧
          (∀ color : Int, ∃ v : Nat,
            sixel_column pp width height (6 * (row / 6)) color x = some ((63 + v : Nat) : Int) ∧
            v < 64 ∧
            (px.a < 16 → 0 ≤ color → v.testBit (row % 6) = false) ∧
            (16 ≤ px.a → (v.testBit (row % 6) = true ↔ color = idx))) ∧
          (px.a < 16 → idx = -1) ∧
          (16 ≤ px.a →
            idx = nearest_palette_color
              (float_to_uint8 (f32 (f32 ((px.r : ℚ) * f32 ((px.a : ℚ) / 255))
                + f32 ((bg_r : ℚ) * f32 (1 - f32 ((px.a : ℚ) / 255))))))
              (float_to_uint8 (f32 (f32 ((px.g : ℚ) * f32 ((px.a : ℚ) / 255))
                + f32 ((bg_g : ℚ) * f32 (1 - f32 ((px.a : ℚ) / 255))))))
              (float_to_uint8 (f32 (f32 ((px.b : ℚ) * f32 ((px.a : ℚ) / 255))
                + f32 ((bg_b : ℚ) * f32 (1 - f32 ((px.a : ℚ) / 255))))))
            ∧ 16 ≤ idx ∧ band_has_color pp width height (6 * (row / 6)) idx) ∧
          (px.a = 255 → px.r < 256 → px.g < 256 → px.b < 256 →
            idx = nearest_palette_color px.r px.g px.b) := by
  have hpp := encode_pixels_spec pixels width height bg_r bg_g bg_b hlen
  have hpl : (pixels.map (fun px => quantize_pixel px bg_r bg_g bg_b)).length
      = width * height := by rw [List.length_map, hlen]
  refine ⟨_, hpp, hpl, ?_⟩
  intro x row px hx hrow hpx
  have hidx : (pixels.map (fun px => quantize_pixel px bg_r bg_g bg_b))[row * width + x]?
      = some (quantize_pixel px bg_r bg_g bg_b) := by
    rw [List.getElem?_map, hpx]
    rfl
  have hband : 6 * (row / 6) + row % 6 = row := Nat.div_add_mod row 6
  have hmod : row % 6 < 6 := Nat.mod_lt _ (by decide)
  refine ⟨quantize_pixel px bg_r bg_g bg_b, hidx, fun color => ?_, fun ha => ?_, fun ha => ?_,
    fun ha hr hg hb => ?_⟩
  · refine ⟨column_value _ width height (6 * (row / 6)) color x,
      sixel_column_spec _ width height _ color x hpl hx, column_value_lt _ _ _ _ _ _, ?_, ?_⟩
    · intro ha hc
      rw [column_value_testBit _ _ _ _ _ _ _ hmod, hband, hidx]
      have hq : quantize_pixel px bg_r bg_g bg_b = -1 := by simp only [quantize_pixel, ha, if_true]
      have hne : ¬ ((-1 : Int) = color) := by omega
      simp [hq, hne]
    · intro _
      rw [column_value_testBit _ _ _ _ _ _ _ hmod, hband, hidx]
      simp only [decide_eq_true_eq, Option.some.injEq, hrow, true_and]
      exact eq_comm
  · simp only [quantize_pixel, ha, if_true]
  · have hna : ¬ px.a < 16 := by omega
    have hq : quantize_pixel px bg_r bg_g bg_b = nearest_palette_color
        (blend_channel px.r px.a bg_r) (blend_channel px.g px.a bg_g)
        (blend_channel px.b px.a bg_b) := by
      simp only [quantize_pixel, hna, if_false]
    have hge : 16 ≤ quantize_pixel px bg_r bg_g bg_b := by
      rw [hq]
      exact nearest_palette_color_ge _ _ _
    refine ⟨hq, hge, by omega, row, x, by omega, by omega, hrow, hx, hidx⟩
  · have hna : ¬ px.a < 16 := by omega
    simp only [quantize_pixel, hna, if_false]
    rw [ha, blend_channel_opaque _ _ hr, blend_channel_opaque _ _ hg, blend_channel_opaque _ _ hb]

/-- Instance of C19 on the 1 x 7 image `demo_pixels`: the six opaque red pixels
get the index 196 whatever the background, the pixel of alpha 10 gets `-1`,
and the second band holds no active color. -/
theorem encode_pixel_activity_witness :
    encode_pixels demo_pixels 1 7 0 0 0 = some [196, 196, 196, 196, 196, 196, -1] ∧
    (∃ pp : List Int, encode_pixels demo_pixels 1 7 10 20 30 = some pp ∧
      pp.length = 1 * 7 ∧ pp[2 * 1 + 0]? = some 196 ∧ pp[6 * 1 + 0]? = some (-1)) := by
  obtain ⟨pp, h1, h2, h3⟩ := encode_pixel_activity demo_pixels 1 7 10 20 30 rfl
  obtain ⟨idx, i1, -, -, -, i5⟩ :=
    h3 0 2 ⟨255, 0, 0, 255⟩ (by decide) (by decide) rfl
  obtain ⟨jdx, j1, -, j3, -, -⟩ :=
    h3 0 6 ⟨0, 0, 255, 10⟩ (by decide) (by decide) rfl
  have hi : idx = 196 := (i5 rfl (by decide) (by decide) (by decide)).trans (by decide)
  have hj : jdx = -1 := j3 (by decide)
  rw [hi] at i1
  rw [hj] at j1
  refine ⟨?_, pp, h1, h2, i1, j1⟩
  rw [encode_pixels_spec demo_pixels 1 7 0 0 0 rfl]
  decide!

/-! ## Properties of the input handling -/

theorem key_codes :
    key '0' = 48 ∧ key '1' = 49 ∧ key '6' = 54 ∧ key 'v' = 118 ∧ key 'V' = 86 ∧
    key 'a' = 97 ∧ key 'A' = 65 ∧ key 'd' = 100 ∧ key 'D' = 68 ∧ key 'w' = 119 ∧
    key 'W' = 87 ∧ key 's' = 115 ∧ key 'S' = 83 ∧ key 'x' = 120 ∧ key 'X' = 88 ∧
    key 'y' = 121 ∧ key 'Y' = 89 ∧ key 'z' = 122 ∧ key 'Z' = 90 ∧ key 'r' = 114 ∧
    key 'R' = 82 ∧ key 'f' = 102 ∧ key 'F' = 70 ∧ key ' ' = 32 ∧ key 'c' = 99 ∧
    key 'C' = 67 ∧ key 'p' = 112 ∧ key 'P' = 80 ∧ key 'n' = 110 ∧ key 'N' = 78 ∧
    key 'q' = 113 ∧ key 'Q' = 81 := by
  decide

theorem handle_input_unbound (env : KeyEnv) (attempts : List LoadAttempt) (s : UnicodeScreen)
    (c : Nat) (hc : bound_key c = false) :
    s.handle_input env attempts (some c) = some (s, true) := by
  obtain ⟨k0, k1, k6, kv, kV, ka, kA, kd, kD, kw, kW, ks, kS, kx, kX, ky, kY, kz, kZ, kr, kR,
    kf, kF, ksp, kc, kC, kp, kP, kn, kN, kq, kQ⟩ := key_codes
  simp only [bound_key, k0, k6, kv, kV, ka, kA, kd, kD, kw, kW, ks, kS, kx, kX, ky, kY, kz, kZ,
    kr, kR, kf, kF, ksp, kc, kC, kp, kP, kn, kN, kq, kQ, List.mem_cons, List.mem_singleton,
    List.mem_nil_iff, or_false, decide_eq_false_iff_not, not_or, not_and, not_le] at hc
  obtain ⟨h06, hv, hV, ha, hA, hd, hD, hw, hW, hs, hS, hx, hX, hy, hY, hz, hZ, hr, hR, hf, hF,
    hsp, hcc, hC, hp, hP, hn, hN, hq, hQ⟩ := hc
  have h0 : c ≠ 48 := by omega
  have h16 : ¬ (49 ≤ c ∧ c ≤ 54) := by omega
  simp only [UnicodeScreen.handle_input, k0, k1, k6, kv, kV, ka, kA, kd, kD, kw, kW, ks, kS,
    kx, kX, ky, kY, kz, kZ, kr, kR, kf, kF, ksp, kc, kC, kp, kP, kn, kN, kq, kQ, h0, h16, hv,
    hV, ha, hA, hd, hD, hw, hW, hs, hS, hx, hX, hy, hY, hz, hZ, hr, hR, hf, hF, hsp, hcc, hC,
    hp, hP, hn, hN, hq, hQ, or_self, if_false]

theorem handle_input_select_all (env : KeyEnv) (attempts : List LoadAttempt)
    (s : UnicodeScreen) :
    s.handle_input env attempts (some (key '0')) = some ({ s with structNum := -1 }, true) := by
  simp only [UnicodeScreen.handle_input, if_true]

theorem handle_input_select (env : KeyEnv) (attempts : List LoadAttempt) (s : UnicodeScreen)
    (c : Nat) (hc : key '1' ≤ c ∧ c ≤ key '6') :
    s.handle_input env attempts (some c) =
      some (if (c : Int) - 48 ≤ (s.data.length : Int)
        then { s with structNum := (c : Int) - 49 } else s, true) := by
  have h0 : c ≠ key '0' := by
    have h := key_codes
    omega
  simp only [UnicodeScreen.handle_input, h0, hc, and_self, if_true, if_false]
  have e0 : ((key '0' : Nat) : Int) = 48 := rfl
  have e1 : ((key '1' : Nat) : Int) = 49 := rfl
  rw [e0, e1]
  split_ifs <;> rfl

theorem handle_input_view (env : KeyEnv) (attempts : List LoadAttempt) (s : UnicodeScreen)
    (c : Nat) (hc : c = key 'v' ∨ c = key 'V') :
    s.handle_input env attempts (some c) =
      some ({ s with view_mode := int_to_view ((view_to_int s.view_mode + 1) % 3) }, true) := by
  rcases hc with rfl | rfl <;>
  simp only [UnicodeScreen.handle_input, key, Char.reduceToNat, Nat.reduceEqDiff, reduceIte,
    Nat.reduceLeDiff, and_self, and_false, false_and, or_false, or_true, true_or, false_or]

theorem handle_input_pan_left (env : KeyEnv) (attempts : List LoadAttempt) (s : UnicodeScreen)
    (c : Nat) (hc : c = key 'a' ∨ c = key 'A') :
    s.handle_input env attempts (some c) =
      (pan_update s.pan_x s.structNum (-pan_step)).map
        (fun pan => ({ s with pan_x := pan }, true)) := by
  rcases hc with rfl | rfl <;>
  simp only [UnicodeScreen.handle_input, key, Char.reduceToNat, Nat.reduceEqDiff, reduceIte,
    Nat.reduceLeDiff, and_self, and_false, false_and, or_false, or_true, true_or, false_or]

theorem handle_input_pan_right (env : KeyEnv) (attempts : List LoadAttempt) (s : UnicodeScreen)
    (c : Nat) (hc : c = key 'd' ∨ c = key 'D') :
    s.handle_input env attempts (some c) =
      (pan_update s.pan_x s.structNum pan_step).map
        (fun pan => ({ s with pan_x := pan }, true)) := by
  rcases hc with rfl | rfl <;>
  simp only [UnicodeScreen.handle_input, key, Char.reduceToNat, Nat.reduceEqDiff, reduceIte,
    Nat.reduceLeDiff, and_self, and_false, false_and, or_false, or_true, true_or, false_or]

theorem handle_input_pan_up (env : KeyEnv) (attempts : List LoadAttempt) (s : UnicodeScreen)
    (c : Nat) (hc : c = key 'w' ∨ c = key 'W') :
    s.handle_input env attempts (some c) =
      (pan_update s.pan_y s.structNum pan_step).map
        (fun pan => ({ s with pan_y := pan }, true)) := by
  rcases hc with rfl | rfl <;>
  simp only [UnicodeScreen.handle_input, key, Char.reduceToNat, Nat.reduceEqDiff, reduceIte,
    Nat.reduceLeDiff, and_self, and_false, false_and, or_false, or_true, true_or, false_or]

theorem handle_input_pan_down (env : KeyEnv) (attempts : List LoadAttempt) (s : UnicodeScreen)
    (c : Nat) (hc : c = key 's' ∨ c = key 'S') :
    s.handle_input env attempts (some c) =
      (pan_update s.pan_y s.structNum (-pan_step)).map
        (fun pan => ({ s with pan_y := pan }, true)) := by
  rcases hc with rfl | rfl <;>
  simp only [UnicodeScreen.handle_input, key, Char.reduceToNat, Nat.reduceEqDiff, reduceIte,
    Nat.reduceLeDiff, and_self, and_false, false_and, or_false, or_true, true_or, false_or]

theorem handle_input_rotate_x (env : KeyEnv) (attempts : List LoadAttempt) (s : UnicodeScreen)
    (c : Nat) (hc : c = key 'x' ∨ c = key 'X') :
    s.handle_input env attempts (some c) =
      (rotate_update (env.set_rotate 1 0 0) s.data s.structNum).map
        (fun data => ({ s with data := data }, true)) := by
  rcases hc with rfl | rfl <;>
  simp only [UnicodeScreen.handle_input, key, Char.reduceToNat, Nat.reduceEqDiff, reduceIte,
    Nat.reduceLeDiff, and_self, and_false, false_and, or_false, or_true, true_or, false_or]

theorem handle_input_rotate_y (env : KeyEnv) (attempts : List LoadAttempt) (s : UnicodeScreen)
    (c : Nat) (hc : c = key 'y' ∨ c = key 'Y') :
    s.handle_input env attempts (some c) =
      (rotate_update (env.set_rotate 0 1 0) s.data s.structNum).map
        (fun data => ({ s with data := data }, true)) := by
  rcases hc with rfl | rfl <;>
  simp only [UnicodeScreen.handle_input, key, Char.reduceToNat, Nat.reduceEqDiff, reduceIte,
    Nat.reduceLeDiff, and_self, and_false, false_and, or_false, or_true, true_or, false_or]

theorem handle_input_rotate_z (env : KeyEnv) (attempts : List LoadAttempt) (s : UnicodeScreen)
    (c : Nat) (hc : c = key 'z' ∨ c = key 'Z') :
    s.handle_input env attempts (some c) =
      (rotate_update (env.set_rotate 0 0 1) s.data s.structNum).map
        (fun data => ({ s with data := data }, true)) := by
  rcases hc with rfl | rfl <;>
  simp only [UnicodeScreen.handle_input, key, Char.reduceToNat, Nat.reduceEqDiff, reduceIte,
    Nat.reduceLeDiff, and_self, and_false, false_and, or_false, or_true, true_or, false_or]

theorem handle_input_zoom_in (env : KeyEnv) (attempts : List LoadAttempt) (s : UnicodeScreen)
    (c : Nat) (hc : c = key 'r' ∨ c = key 'R') :
    s.handle_input env attempts (some c) =
      some (if s.zoom_level + 3 / 10 < 15 then { s with zoom_level := s.zoom_level + 3 / 10 }
        else s, true) := by
  rcases hc with rfl | rfl
  · simp only [UnicodeScreen.handle_input, key, Char.reduceToNat, Nat.reduceEqDiff, reduceIte,
      Nat.reduceLeDiff, and_self, and_false, false_and, or_false, or_true, true_or, false_or]
    split_ifs <;> rfl
  · simp only [UnicodeScreen.handle_input, key, Char.reduceToNat, Nat.reduceEqDiff, reduceIte,
      Nat.reduceLeDiff, and_self, and_false, false_and, or_false, or_true, true_or, false_or]
    split_ifs <;> rfl

theorem handle_input_zoom_out (env : KeyEnv) (attempts : List LoadAttempt) (s : UnicodeScreen)
    (c : Nat) (hc : c = key 'f' ∨ c = key 'F') :
    s.handle_input env attempts (some c) =
      some (if s.zoom_level - 3 / 10 > 5 / 10
        then { s with zoom_level := s.zoom_level - 3 / 10 } else s, true) := by
  rcases hc with rfl | rfl
  · simp only [UnicodeScreen.handle_input, key, Char.reduceToNat, Nat.reduceEqDiff, reduceIte,
      Nat.reduceLeDiff, and_self, and_false, false_and, or_false, or_true, true_or, false_or]
    split_ifs <;> rfl
  · simp only [UnicodeScreen.handle_input, key, Char.reduceToNat, Nat.reduceEqDiff, reduceIte,
      Nat.reduceLeDiff, and_self, and_false, false_and, or_false, or_true, true_or, false_or]
    split_ifs <;> rfl

theorem handle_input_space (env : KeyEnv) (attempts : List LoadAttempt) (s : UnicodeScreen) :
    s.handle_input env attempts (some (key ' ')) =
      some ({ s with auto_rotate := !s.auto_rotate }, true) := by
  simp only [UnicodeScreen.handle_input, key, Char.reduceToNat, Nat.reduceEqDiff, reduceIte,
    Nat.reduceLeDiff, and_self, and_false, false_and, or_false, or_true, true_or, false_or]

theorem handle_input_scheme (env : KeyEnv) (attempts : List LoadAttempt) (s : UnicodeScreen)
    (c : Nat) (hc : c = key 'c' ∨ c = key 'C') :
    s.handle_input env attempts (some c) =
      some ({ s with color_scheme := int_to_scheme ((scheme_to_int s.color_scheme + 1) % 3) },
        true) := by
  rcases hc with rfl | rfl <;>
  simp only [UnicodeScreen.handle_input, key, Char.reduceToNat, Nat.reduceEqDiff, reduceIte,
    Nat.reduceLeDiff, and_self, and_false, false_and, or_false, or_true, true_or, false_or]

theorem handle_input_palette (env : KeyEnv) (attempts : List LoadAttempt) (s : UnicodeScreen)
    (c : Nat) (hc : c = key 'p' ∨ c = key 'P') :
    s.handle_input env attempts (some c) = some (s.palette_key env.decl, true) := by
  rcases hc with rfl | rfl <;>
  simp only [UnicodeScreen.handle_input, key, Char.reduceToNat, Nat.reduceEqDiff, reduceIte,
    Nat.reduceLeDiff, and_self, and_false, false_and, or_false, or_true, true_or, false_or]

theorem handle_input_next (env : KeyEnv) (attempts : List LoadAttempt) (s : UnicodeScreen)
    (c : Nat) (hc : c = key 'n' ∨ c = key 'N') :
    s.handle_input env attempts (some c) =
      some (if s.random_mode = true then (s.load_random_pdb (attempts.take 5)).1 else s,
        true) := by
  rcases hc with rfl | rfl
  · simp only [UnicodeScreen.handle_input, key, Char.reduceToNat, Nat.reduceEqDiff, reduceIte,
      Nat.reduceLeDiff, and_self, and_false, false_and, or_false, or_true, true_or, false_or]
    split_ifs <;> rfl
  · simp only [UnicodeScreen.handle_input, key, Char.reduceToNat, Nat.reduceEqDiff, reduceIte,
      Nat.reduceLeDiff, and_self, and_false, false_and, or_false, or_true, true_or, false_or]
    split_ifs <;> rfl

theorem handle_input_quit (env : KeyEnv) (attempts : List LoadAttempt) (s : UnicodeScreen)
    (c : Nat) (hc : c = key 'q' ∨ c = key 'Q') :
    s.handle_input env attempts (some c) = some (s, false) := by
  rcases hc with rfl | rfl <;>
  simp only [UnicodeScreen.handle_input, key, Char.reduceToNat, Nat.reduceEqDiff, reduceIte,
    Nat.reduceLeDiff, and_self, and_false, false_and, or_false, or_true, true_or, false_or]

theorem handle_input_cases (env : KeyEnv) (attempts : List LoadAttempt) (s : UnicodeScreen)
    (c : Nat) :
    (c = key '0' ∧
      s.handle_input env attempts (some c) = some ({ s with structNum := -1 }, true)) ∨
    (key '1' ≤ c ∧ c ≤ key '6' ∧
      s.handle_input env attempts (some c) =
        some (if (c : Int) - 48 ≤ (s.data.length : Int)
          then { s with structNum := (c : Int) - 49 } else s, true)) ∨
    ((c = key 'v' ∨ c = key 'V') ∧
      s.handle_input env attempts (some c) =
        some ({ s with view_mode := int_to_view ((view_to_int s.view_mode + 1) % 3) },
          true)) ∨
    ((c = key 'a' ∨ c = key 'A' ∨ c = key 'd' ∨ c = key 'D') ∧ ∃ delta : ℚ,
      s.handle_input env attempts (some c) =
        (pan_update s.pan_x s.structNum delta).map
          (fun pan => ({ s with pan_x := pan }, true))) ∨
    ((c = key 'w' ∨ c = key 'W' ∨ c = key 's' ∨ c = key 'S') ∧ ∃ delta : ℚ,
      s.handle_input env attempts (some c) =
        (pan_update s.pan_y s.structNum delta).map
          (fun pan => ({ s with pan_y := pan }, true))) ∨
    ((c = key 'x' ∨ c = key 'X' ∨ c = key 'y' ∨ c = key 'Y' ∨ c = key 'z' ∨ c = key 'Z') ∧
      ∃ rot : Protein → Protein,
      s.handle_input env attempts (some c) =
        (rotate_update rot s.data s.structNum).map
          (fun data => ({ s with data := data }, true))) ∨
    ((c = key 'r' ∨ c = key 'R') ∧
      s.handle_input env attempts (some c) =
        some (if s.zoom_level + 3 / 10 < 15
          then { s with zoom_level := s.zoom_level + 3 / 10 } else s, true)) ∨
    ((c = key 'f' ∨ c = key 'F') ∧
      s.handle_input env attempts (some c) =
        some (if s.zoom_level - 3 / 10 > 5 / 10
          then { s with zoom_level := s.zoom_level - 3 / 10 } else s, true)) ∨
    (c = key ' ' ∧
      s.handle_input env attempts (some c) =
        some ({ s with auto_rotate := !s.auto_rotate }, true)) ∨
    ((c = key 'c' ∨ c = key 'C') ∧
      s.handle_input env attempts (some c) =
        some ({ s with
          color_scheme := int_to_scheme ((scheme_to_int s.color_scheme + 1) % 3) }, true)) ∨
    ((c = key 'p' ∨ c = key 'P') ∧
      s.handle_input env attempts (some c) = some (s.palette_key env.decl, true)) ∨
    ((c = key 'n' ∨ c = key 'N') ∧
      s.handle_input env attempts (some c) =
        some (if s.random_mode = true then (s.load_random_pdb (attempts.take 5)).1 else s,
          true)) ∨
    ((c = key 'q' ∨ c = key 'Q') ∧ s.handle_input env attempts (some c) = some (s, false)) ∨
    (bound_key c = false ∧ s.handle_input env attempts (some c) = some (s, true)) := by
  by_cases hb : bound_key c = false
  · iterate 13 right
    exact ⟨hb, handle_input_unbound env attempts s c hb⟩
  · simp only [bound_key, List.mem_cons, List.mem_singleton, List.mem_nil_iff, or_false,
      decide_eq_false_iff_not, not_not] at hb
    rcases hb with h | h | h | h | h | h | h | h | h | h | h | h | h | h | h | h | h | h | h |
      h | h | h | h | h | h | h | h | h | h | h
    · by_cases h0 : c = key '0'
      · left
        subst h0
        exact ⟨rfl, handle_input_select_all env attempts s⟩
      · right; left
        have hk := key_codes
        have h1 : key '1' ≤ c ∧ c ≤ key '6' := by omega
        exact ⟨h1.1, h1.2, handle_input_select env attempts s c h1⟩
    · iterate 2 right
      left; exact ⟨Or.inl h, handle_input_view env attempts s c (Or.inl h)⟩
    · iterate 2 right
      left; exact ⟨Or.inr h, handle_input_view env attempts s c (Or.inr h)⟩
    · iterate 3 right
      left; exact ⟨by tauto, _, handle_input_pan_left env attempts s c (Or.inl h)⟩
    · iterate 3 right
      left; exact ⟨by tauto, _, handle_input_pan_left env attempts s c (Or.inr h)⟩
    · iterate 3 right
      left; exact ⟨by tauto, _, handle_input_pan_right env attempts s c (Or.inl h)⟩
    · iterate 3 right
      left; exact ⟨by tauto, _, handle_input_pan_right env attempts s c (Or.inr h)⟩
    · iterate 4 right
      left; exact ⟨by tauto, _, handle_input_pan_up env attempts s c (Or.inl h)⟩
    · iterate 4 right
      left; exact ⟨by tauto, _, handle_input_pan_up env attempts s c (Or.inr h)⟩
    · iterate 4 right
      left; exact ⟨by tauto, _, handle_input_pan_down env attempts s c (Or.inl h)⟩
    · iterate 4 right
      left; exact ⟨by tauto, _, handle_input_pan_down env attempts s c (Or.inr h)⟩
    · iterate 5 right
      left; exact ⟨by tauto, _, handle_input_rotate_x env attempts s c (Or.inl h)⟩
    · iterate 5 right
      left; exact ⟨by tauto, _, handle_input_rotate_x env attempts s c (Or.inr h)⟩
    · iterate 5 right
      left; exact ⟨by tauto, _, handle_input_rotate_y env attempts s c (Or.inl h)⟩
    · iterate 5 right
      left; exact ⟨by tauto, _, handle_input_rotate_y env attempts s c (Or.inr h)⟩
    · iterate 5 right
      left; exact ⟨by tauto, _, handle_input_rotate_z env attempts s c (Or.inl h)⟩
    · iterate 5 right
      left; exact ⟨by tauto, _, handle_input_rotate_z env attempts s c (Or.inr h)⟩
    · iterate 6 right
      left; exact ⟨Or.inl h, handle_input_zoom_in env attempts s c (Or.inl h)⟩
    · iterate 6 right
      left; exact ⟨Or.inr h, handle_input_zoom_in env attempts s c (Or.inr h)⟩
    · iterate 7 right
      left; exact ⟨Or.inl h, handle_input_zoom_out env attempts s c (Or.inl h)⟩
    · iterate 7 right
      left; exact ⟨Or.inr h, handle_input_zoom_out env attempts s c (Or.inr h)⟩
    · iterate 8 right
      left
      subst h
      exact ⟨rfl, handle_input_space env attempts s⟩
    · iterate 9 right
      left; exact ⟨Or.inl h, handle_input_scheme env attempts s c (Or.inl h)⟩
    · iterate 9 right
      left; exact ⟨Or.inr h, handle_input_scheme env attempts s c (Or.inr h)⟩
    · iterate 10 right
      left; exact ⟨Or.inl h, handle_input_palette env attempts s c (Or.inl h)⟩
    · iterate 10 right
      left; exact ⟨Or.inr h, handle_input_palette env attempts s c (Or.inr h)⟩
    · iterate 11 right
      left; exact ⟨Or.inl h, handle_input_next env attempts s c (Or.inl h)⟩
    · iterate 11 right
      left; exact ⟨Or.inr h, handle_input_next env attempts s c (Or.inr h)⟩
    · iterate 12 right
      left; exact ⟨Or.inl h, handle_input_quit env attempts s c (Or.inl h)⟩
    · iterate 12 right
      left; exact ⟨Or.inr h, handle_input_quit env attempts s c (Or.inr h)⟩

theorem option_map_flag {α : Type} (o : Option α) (f : α → UnicodeScreen)
    (s1 : UnicodeScreen) (run : Bool)
    (h : o.map (fun v => (f v, true)) = some (s1, run)) :
    run = true ∧ ∃ v, o = some v ∧ s1 = f v := by
  cases o with
  | none => simp at h
  | some v =>
    simp only [Option.map_some', Option.some.injEq, Prod.mk.injEq] at h
    exact ⟨h.2.symm, v, rfl, h.1.symm⟩

theorem pan_update_some (pan : List ℚ) (structNum : Int) (delta : ℚ)
    (h : structNum < 0 ∨ structNum.toNat < pan.length) :
    ∃ pan1, pan_update pan structNum delta = some pan1 ∧ pan1.length = pan.length := by
  unfold pan_update
  by_cases hs : structNum ≥ 0
  · have hlt : structNum.toNat < pan.length := by
      rcases h with h | h
      · omega
      · exact h
    simp only [hs, if_true, List.getElem?_eq_getElem hlt]
    exact ⟨_, rfl, List.length_set _ _ _⟩
  · simp only [hs, if_false]
    exact ⟨_, rfl, List.length_map _ _⟩

theorem pan_update_length (pan pan1 : List ℚ) (structNum : Int) (delta : ℚ)
    (h : pan_update pan structNum delta = some pan1) : pan1.length = pan.length := by
  unfold pan_update at h
  split_ifs at h with hs
  · cases hv : pan[structNum.toNat]? with
    | none => simp [hv] at h
    | some v =>
      simp only [hv, Option.some.injEq] at h
      rw [← h]
      exact List.length_set _ _ _
  · simp only [Option.some.injEq] at h
    rw [← h]
    exact List.length_map _ _

theorem rotate_update_some (rot : Protein → Protein) (data : List Protein) (structNum : Int)
    (h : structNum < 0 ∨ structNum.toNat < data.length) :
    ∃ data1, rotate_update rot data structNum = some data1 ∧ data1.length = data.length := by
  unfold rotate_update
  by_cases hs : structNum ≥ 0
  · have hlt : structNum.toNat < data.length := by
      rcases h with h | h
      · omega
      · exact h
    simp only [hs, if_true, List.getElem?_eq_getElem hlt]
    exact ⟨_, rfl, List.length_set _ _ _⟩
  · simp only [hs, if_false]
    exact ⟨_, rfl, List.length_map _ _⟩

theorem rotate_update_length (rot : Protein → Protein) (data data1 : List Protein)
    (structNum : Int) (h : rotate_update rot data structNum = some data1) :
    data1.length = data.length := by
  unfold rotate_update at h
  split_ifs at h with hs
  · cases hv : data[structNum.toNat]? with
    | none => simp [hv] at h
    | some v =>
      simp only [hv, Option.some.injEq] at h
      rw [← h]
      exact List.length_set _ _ _
  · simp only [Option.some.injEq] at h
    rw [← h]
    exact List.length_map _ _

theorem handle_input_flag (env : KeyEnv) (attempts : List LoadAttempt) (s s1 : UnicodeScreen)
    (c : Nat) (run : Bool) (hq : ¬ (c = key 'q' ∨ c = key 'Q'))
    (h : s.handle_input env attempts (some c) = some (s1, run)) : run = true := by
  rcases handle_input_cases env attempts s c with
    ⟨-, e⟩ | ⟨-, -, e⟩ | ⟨-, e⟩ | ⟨-, _, e⟩ | ⟨-, _, e⟩ | ⟨-, _, e⟩ | ⟨-, e⟩ | ⟨-, e⟩ | ⟨-, e⟩ |
    ⟨-, e⟩ | ⟨-, e⟩ | ⟨-, e⟩ | ⟨hc, -⟩ | ⟨-, e⟩
  all_goals first
    | exact absurd hc hq
    | (rw [e] at h
       first
       | exact (option_map_flag _ _ _ _ h).1
       | (simp only [Option.some.injEq, Prod.mk.injEq] at h
          exact h.2.symm))

theorem handle_input_total (env : KeyEnv) (attempts : List LoadAttempt) (s : UnicodeScreen)
    (c : Nat)
    (hsel : s.structNum < 0 ∨ (s.structNum.toNat < s.pan_x.length ∧
      s.structNum.toNat < s.pan_y.length ∧ s.structNum.toNat < s.data.length)) :
    ∃ s1 run, s.handle_input env attempts (some c) = some (s1, run) := by
  have hx : s.structNum < 0 ∨ s.structNum.toNat < s.pan_x.length := by tauto
  have hy : s.structNum < 0 ∨ s.structNum.toNat < s.pan_y.length := by tauto
  have hd : s.structNum < 0 ∨ s.structNum.toNat < s.data.length := by tauto
  rcases handle_input_cases env attempts s c with
    ⟨-, e⟩ | ⟨-, -, e⟩ | ⟨-, e⟩ | ⟨-, delta, e⟩ | ⟨-, delta, e⟩ | ⟨-, rot, e⟩ | ⟨-, e⟩ | ⟨-, e⟩ |
    ⟨-, e⟩ | ⟨-, e⟩ | ⟨-, e⟩ | ⟨-, e⟩ | ⟨-, e⟩ | ⟨-, e⟩
  · exact ⟨_, _, e⟩
  · exact ⟨_, _, e⟩
  · exact ⟨_, _, e⟩
  · obtain ⟨pan1, h1, -⟩ := pan_update_some s.pan_x s.structNum delta hx
    rw [h1] at e
    exact ⟨_, _, e⟩
  · obtain ⟨pan1, h1, -⟩ := pan_update_some s.pan_y s.structNum delta hy
    rw [h1] at e
    exact ⟨_, _, e⟩
  · obtain ⟨data1, h1, -⟩ := rotate_update_some rot s.data s.structNum hd
    rw [h1] at e
    exact ⟨_, _, e⟩
  all_goals exact ⟨_, _, e⟩

/-- C21 (key dispatch): without a pending byte `handle_input` returns `true`
and leaves the state as it is; on `q` and `Q` it returns `false`, on every
other byte `true` (a result exists whenever the selected index is negative
or inside the per-structure vectors); on every byte that is not bound to a
command the whole state is unchanged. -/
theorem handle_input_dispatch (env : KeyEnv) (attempts : List LoadAttempt)
    (s : UnicodeScreen) :
    s.handle_input env attempts none = some (s, true) ∧
    (∀ c, (c = key 'q' ∨ c = key 'Q') →
      s.handle_input env attempts (some c) = some (s, false)) ∧
    (∀ c s1 run, s.handle_input env attempts (some c) = some (s1, run) →
      (run = false ↔ (c = key 'q' ∨ c = key 'Q'))) ∧
    (∀ c, (s.structNum < 0 ∨ (s.structNum.toNat < s.pan_x.length ∧
        s.structNum.toNat < s.pan_y.length ∧ s.structNum.toNat < s.data.length)) →
      ∃ s1 run, s.handle_input env attempts (some c) = some (s1, run) ∧
        (run = false ↔ (c = key 'q' ∨ c = key 'Q'))) ∧
    (∀ c, bound_key c = false → s.handle_input env attempts (some c) = some (s, true)) := by
  have hflag : ∀ c s1 run, s.handle_input env attempts (some c) = some (s1, run) →
      (run = false ↔ (c = key 'q' ∨ c = key 'Q')) := by
    intro c s1 run h
    by_cases hq : c = key 'q' ∨ c = key 'Q'
    · rw [handle_input_quit env attempts s c hq] at h
      simp only [Option.some.injEq, Prod.mk.injEq] at h
      simp [← h.2, hq]
    · have hr := handle_input_flag env attempts s s1 c run hq h
      simp [hr, hq]
  refine ⟨rfl, fun c hc => handle_input_quit env attempts s c hc, hflag, fun c hsel => ?_,
    fun c hc => handle_input_unbound env attempts s c hc⟩
  obtain ⟨s1, run, h⟩ := handle_input_total env attempts s c hsel
  exact ⟨s1, run, h, hflag c s1 run h⟩

/-- Instances of C21 on `demo_controls`: the bytes ESC (27), `[` (91), `7` and
`B` are not bound and leave the state unchanged, `q` ends the loop, and
`a` returns `true`. -/
theorem handle_input_dispatch_witness :
    bound_key 27 = false ∧
    demo_controls.handle_input demo_keys [] (some 27) = some (demo_controls, true) ∧
    demo_controls.handle_input demo_keys [] (some (key '[')) = some (demo_controls, true) ∧
    demo_controls.handle_input demo_keys [] (some (key '7')) = some (demo_controls, true) ∧
    demo_controls.handle_input demo_keys [] (some (key 'B')) = some (demo_controls, true) ∧
    demo_controls.handle_input demo_keys [] (some (key 'q')) = some (demo_controls, false) ∧
    (∃ s1 run, demo_controls.handle_input demo_keys [] (some (key 'a')) = some (s1, run) ∧
      (run = false ↔ (key 'a' = key 'q' ∨ key 'a' = key 'Q'))) := by
  obtain ⟨-, hq, -, ht, hu⟩ := handle_input_dispatch demo_keys [] demo_controls
  exact ⟨by decide, hu 27 (by decide), hu (key '[') (by decide), hu (key '7') (by decide),
    hu (key 'B') (by decide), hq (key 'q') (Or.inl rfl),
    ht (key 'a') (Or.inl (by decide))⟩

theorem load_colors_controls (wal : Option (List RGB)) (s : UnicodeScreen) :
    (s.load_colors wal).zoom_level = s.zoom_level ∧
    (s.load_colors wal).color_scheme = s.color_scheme ∧
    (s.load_colors wal).view_mode = s.view_mode ∧
    (s.load_colors wal).structNum = s.structNum ∧
    (s.load_colors wal).data = s.data := by
  unfold UnicodeScreen.load_colors
  cases wal with
  | none =>
    simp only
    split_ifs <;> exact ⟨rfl, rfl, rfl, rfl, rfl⟩
  | some wal_colors =>
    simp only
    split_ifs <;> exact ⟨rfl, rfl, rfl, rfl, rfl⟩

theorem load_random_pdb_zoom (attempts : List LoadAttempt) (s : UnicodeScreen) :
    (s.load_random_pdb attempts).1.zoom_level = s.zoom_level ∧
    (s.load_random_pdb attempts).1.structNum = s.structNum := by
  induction attempts generalizing s with
  | nil => exact ⟨rfl, rfl⟩
  | cons a rest ih =>
    cases a with
    | no_file => exact ih s
    | threw pushed =>
      simp only [UnicodeScreen.load_random_pdb]
      exact ih _
    | loaded p bw bh => exact ⟨rfl, rfl⟩

theorem handle_input_zoom (env : KeyEnv) (attempts : List LoadAttempt) (s s1 : UnicodeScreen)
    (c : Nat) (run : Bool) (h : s.handle_input env attempts (some c) = some (s1, run)) :
    s1.zoom_level =
      if c = key 'r' ∨ c = key 'R' then
        (if s.zoom_level + 3 / 10 < 15 then s.zoom_level + 3 / 10 else s.zoom_level)
      else if c = key 'f' ∨ c = key 'F' then
        (if s.zoom_level - 3 / 10 > 5 / 10 then s.zoom_level - 3 / 10 else s.zoom_level)
      else s.zoom_level := by
  obtain ⟨k0, k1, k6, kv, kV, ka, kA, kd, kD, kw, kW, ks, kS, kx, kX, ky, kY, kz, kZ, kr, kR,
    kf, kF, ksp, kc, kC, kp, kP, kn, kN, kq, kQ⟩ := key_codes
  have hb : bound_key c = false → ¬ (c = key 'r' ∨ c = key 'R') ∧
      ¬ (c = key 'f' ∨ c = key 'F') := by
    intro hb
    constructor
    · rintro (rfl | rfl) <;> exact absurd hb (by decide)
    · rintro (rfl | rfl) <;> exact absurd hb (by decide)
  rcases handle_input_cases env attempts s c with
    ⟨hc, e⟩ | ⟨hc1, hc2, e⟩ | ⟨hc, e⟩ | ⟨hc, _, e⟩ | ⟨hc, _, e⟩ | ⟨hc, _, e⟩ | ⟨hc, e⟩ |
    ⟨hc, e⟩ | ⟨hc, e⟩ | ⟨hc, e⟩ | ⟨hc, e⟩ | ⟨hc, e⟩ | ⟨hc, e⟩ | ⟨hc, e⟩
  · have n1 : ¬ (c = key 'r' ∨ c = key 'R') := by omega
    have n2 : ¬ (c = key 'f' ∨ c = key 'F') := by omega
    rw [e] at h
    simp only [Option.some.injEq, Prod.mk.injEq] at h
    rw [if_neg n1, if_neg n2, ← h.1]
  · have n1 : ¬ (c = key 'r' ∨ c = key 'R') := by omega
    have n2 : ¬ (c = key 'f' ∨ c = key 'F') := by omega
    rw [e] at h
    simp only [Option.some.injEq, Prod.mk.injEq] at h
    rw [if_neg n1, if_neg n2, ← h.1]
    split_ifs <;> rfl
  · have n1 : ¬ (c = key 'r' ∨ c = key 'R') := by omega
    have n2 : ¬ (c = key 'f' ∨ c = key 'F') := by omega
    rw [e] at h
    simp only [Option.some.injEq, Prod.mk.injEq] at h
    rw [if_neg n1, if_neg n2, ← h.1]
  · have n1 : ¬ (c = key 'r' ∨ c = key 'R') := by omega
    have n2 : ¬ (c = key 'f' ∨ c = key 'F') := by omega
    rw [e] at h
    obtain ⟨-, v, -, hs⟩ := option_map_flag _ _ _ _ h
    rw [if_neg n1, if_neg n2, hs]
  · have n1 : ¬ (c = key 'r' ∨ c = key 'R') := by omega
    have n2 : ¬ (c = key 'f' ∨ c = key 'F') := by omega
    rw [e] at h
    obtain ⟨-, v, -, hs⟩ := option_map_flag _ _ _ _ h
    rw [if_neg n1, if_neg n2, hs]
  · have n1 : ¬ (c = key 'r' ∨ c = key 'R') := by omega
    have n2 : ¬ (c = key 'f' ∨ c = key 'F') := by omega
    rw [e] at h
    obtain ⟨-, v, -, hs⟩ := option_map_flag _ _ _ _ h
    rw [if_neg n1, if_neg n2, hs]
  · rw [e] at h
    simp only [Option.some.injEq, Prod.mk.injEq] at h
    rw [if_pos hc, ← h.1]
    split_ifs <;> rfl
  · have n1 : ¬ (c = key 'r' ∨ c = key 'R') := by omega
    rw [e] at h
    simp only [Option.some.injEq, Prod.mk.injEq] at h
    rw [if_neg n1, if_pos hc, ← h.1]
    split_ifs <;> rfl
  · have n1 : ¬ (c = key 'r' ∨ c = key 'R') := by omega
    have n2 : ¬ (c = key 'f' ∨ c = key 'F') := by omega
    rw [e] at h
    simp only [Option.some.injEq, Prod.mk.injEq] at h
    rw [if_neg n1, if_neg n2, ← h.1]
  · have n1 : ¬ (c = key 'r' ∨ c = key 'R') := by omega
    have n2 : ¬ (c = key 'f' ∨ c = key 'F') := by omega
    rw [e] at h
    simp only [Option.some.injEq, Prod.mk.injEq] at h
    rw [if_neg n1, if_neg n2, ← h.1]
  · have n1 : ¬ (c = key 'r' ∨ c = key 'R') := by omega
    have n2 : ¬ (c = key 'f' ∨ c = key 'F') := by omega
    rw [e] at h
    simp only [Option.some.injEq, Prod.mk.injEq] at h
    rw [if_neg n1, if_neg n2, ← h.1]
    rfl
  · have n1 : ¬ (c = key 'r' ∨ c = key 'R') := by omega
    have n2 : ¬ (c = key 'f' ∨ c = key 'F') := by omega
    rw [e] at h
    simp only [Option.some.injEq, Prod.mk.injEq] at h
    rw [if_neg n1, if_neg n2, ← h.1]
    split_ifs
    · exact (load_random_pdb_zoom _ s).1
    · rfl
  · have n1 : ¬ (c = key 'r' ∨ c = key 'R') := by omega
    have n2 : ¬ (c = key 'f' ∨ c = key 'F') := by omega
    rw [e] at h
    simp only [Option.some.injEq, Prod.mk.injEq] at h
    rw [if_neg n1, if_neg n2, ← h.1]
  · obtain ⟨n1, n2⟩ := hb hc
    rw [e] at h
    simp only [Option.some.injEq, Prod.mk.injEq] at h
    rw [if_neg n1, if_neg n2, ← h.1]

theorem handle_input_zoom_bounds (env : KeyEnv) (i : TickInput) (s s1 : UnicodeScreen)
    (run : Bool) (h : s.handle_input env i.attempts i.byte = some (s1, run))
    (hlo : 5 / 10 < s.zoom_level) (hhi : s.zoom_level < 15) :
    5 / 10 < s1.zoom_level ∧ s1.zoom_level < 15 := by
  cases hb : i.byte with
  | none =>
    rw [hb] at h
    simp only [UnicodeScreen.handle_input, Option.some.injEq, Prod.mk.injEq] at h
    rw [← h.1]
    exact ⟨hlo, hhi⟩
  | some c =>
    rw [hb] at h
    rw [handle_input_zoom env i.attempts s s1 c run h]
    split_ifs <;> constructor <;> linarith

theorem handle_inputs_zoom_bounds (env : KeyEnv) (inputs : List TickInput)
    (s s1 : UnicodeScreen) (h : s.handle_inputs env inputs = some s1)
    (hlo : 5 / 10 < s.zoom_level) (hhi : s.zoom_level < 15) :
    5 / 10 < s1.zoom_level ∧ s1.zoom_level < 15 := by
  induction inputs generalizing s with
  | nil =>
    simp only [UnicodeScreen.handle_inputs, Option.some.injEq] at h
    rw [← h]
    exact ⟨hlo, hhi⟩
  | cons i rest ih =>
    simp only [UnicodeScreen.handle_inputs] at h
    cases hr : s.handle_input env i.attempts i.byte with
    | none => simp [hr] at h
    | some r =>
      obtain ⟨s2, run⟩ := r
      obtain ⟨h1, h2⟩ := handle_input_zoom_bounds env i s s2 run hr hlo hhi
      simp only [hr] at h
      split_ifs at h
      · exact ih s2 h h1 h2
      · simp only [Option.some.injEq] at h
        rw [← h]
        exact ⟨h1, h2⟩

/-- C22 (zoom bounds): a new screen has zoom 2.8; from any state whose zoom is
strictly between 0.5 and 15, after the calls of `handle_input` on any finite
sequence of inputs the zoom is again strictly between 0.5 and 15. One call
on a byte `c` leaves the zoom `z` as `z + 0.3` for `r`, `R` when
`z + 0.3 < 15`, as `z - 0.3` for `f`, `F` when `z - 0.3 > 0.5`, and as `z` in
every other case; the zoom keys always return a result. -/
theorem zoom_bounded (env : KeyEnv) :
    (∀ (show_structure : Bool) (mode : String) (sixel : Bool) (wal : Option (List RGB))
      (w h : Int),
      (UnicodeScreen.new show_structure mode sixel wal w h).zoom_level = 28 / 10) ∧
    (∀ (inputs : List TickInput) (s s1 : UnicodeScreen),
      5 / 10 < s.zoom_level → s.zoom_level < 15 → s.handle_inputs env inputs = some s1 →
      5 / 10 < s1.zoom_level ∧ s1.zoom_level < 15) ∧
    (∀ (attempts : List LoadAttempt) (s s1 : UnicodeScreen) (c : Nat) (run : Bool),
      s.handle_input env attempts (some c) = some (s1, run) →
      s1.zoom_level =
        if c = key 'r' ∨ c = key 'R' then
          (if s.zoom_level + 3 / 10 < 15 then s.zoom_level + 3 / 10 else s.zoom_level)
        else if c = key 'f' ∨ c = key 'F' then
          (if s.zoom_level - 3 / 10 > 5 / 10 then s.zoom_level - 3 / 10 else s.zoom_level)
        else s.zoom_level) ∧
    (∀ (attempts : List LoadAttempt) (s : UnicodeScreen) (c : Nat),
      (c = key 'r' ∨ c = key 'R' ∨ c = key 'f' ∨ c = key 'F') →
      ∃ s1, s.handle_input env attempts (some c) = some (s1, true)) := by
  refine ⟨fun _ _ _ wal _ _ => (load_colors_controls wal _).1,
    fun inputs s s1 hlo hhi h => handle_inputs_zoom_bounds env inputs s s1 h hlo hhi,
    fun attempts s s1 c run h => handle_input_zoom env attempts s s1 c run h,
    fun attempts s c hc => ?_⟩
  rcases hc with hc | hc | hc | hc
  · exact ⟨_, handle_input_zoom_in env attempts s c (Or.inl hc)⟩
  · exact ⟨_, handle_input_zoom_in env attempts s c (Or.inr hc)⟩
  · exact ⟨_, handle_input_zoom_out env attempts s c (Or.inl hc)⟩
  · exact ⟨_, handle_input_zoom_out env attempts s c (Or.inr hc)⟩

/-- Instances of C22 on `demo_controls` (zoom 2.8): after `r`, `f`, `f` the zoom
is 2.5; at zoom 14.8 the key `r` changes nothing. -/
theorem zoom_bounded_witness :
    (∃ s1, demo_controls.handle_inputs demo_keys
        [⟨some (key 'r'), []⟩, ⟨some (key 'f'), []⟩, ⟨some (key 'f'), []⟩] = some s1 ∧
      s1.zoom_level = 25 / 10 ∧ 5 / 10 < s1.zoom_level ∧ s1.zoom_level < 15) ∧
    (∃ s1, ({ demo_controls with zoom_level := 148 / 10 } : UnicodeScreen).handle_input
        demo_keys [] (some (key 'r')) = some (s1, true) ∧ s1.zoom_level = 148 / 10) := by
  have h : demo_controls.handle_inputs demo_keys
      [⟨some (key 'r'), []⟩, ⟨some (key 'f'), []⟩, ⟨some (key 'f'), []⟩]
      = some { demo_controls with zoom_level := 25 / 10 } := by
    simp only [UnicodeScreen.handle_inputs, handle_input_zoom_in _ _ _ _ (Or.inl rfl),
      handle_input_zoom_out _ _ _ _ (Or.inl rfl)]
    norm_num [demo_controls]
  have h2 : ({ demo_controls with zoom_level := 148 / 10 } : UnicodeScreen).handle_input
      demo_keys [] (some (key 'r'))
      = some ({ demo_controls with zoom_level := 148 / 10 }, true) := by
    rw [handle_input_zoom_in _ _ _ _ (Or.inl rfl)]
    norm_num
  obtain ⟨-, hb, hz, -⟩ := zoom_bounded demo_keys
  have hb1 := hb _ demo_controls _ (by norm_num [demo_controls]) (by norm_num [demo_controls]) h
  have hz1 := hz _ _ _ _ _ h2
  exact ⟨⟨_, h, rfl, hb1⟩, ⟨_, h2, rfl⟩⟩

theorem handle_input_selection (env : KeyEnv) (attempts : List LoadAttempt)
    (s s1 : UnicodeScreen) (c : Nat) (run : Bool)
    (hc : ¬ ((c = key 'n' ∨ c = key 'N') ∧ s.random_mode = true))
    (h : s.handle_input env attempts (some c) = some (s1, run)) :
    s1.structNum =
      (if c = key '0' then -1
       else if key '1' ≤ c ∧ c ≤ key '6' ∧ (c : Int) - 48 ≤ (s.data.length : Int)
         then (c : Int) - 49
       else s.structNum) ∧
    s1.data.length = s.data.length ∧ s1.pan_x.length = s.pan_x.length ∧
    s1.pan_y.length = s.pan_y.length := by
  obtain ⟨k0, k1, k6, kv, kV, ka, kA, kd, kD, kw, kW, ks, kS, kx, kX, ky, kY, kz, kZ, kr, kR,
    kf, kF, ksp, kc, kC, kp, kP, kn, kN, kq, kQ⟩ := key_codes
  rcases handle_input_cases env attempts s c with
    ⟨hk, e⟩ | ⟨hk1, hk2, e⟩ | ⟨hk, e⟩ | ⟨hk, _, e⟩ | ⟨hk, _, e⟩ | ⟨hk, _, e⟩ | ⟨hk, e⟩ |
    ⟨hk, e⟩ | ⟨hk, e⟩ | ⟨hk, e⟩ | ⟨hk, e⟩ | ⟨hk, e⟩ | ⟨hk, e⟩ | ⟨hk, e⟩
  · rw [e] at h
    simp only [Option.some.injEq, Prod.mk.injEq] at h
    rw [if_pos hk, ← h.1]
    exact ⟨rfl, rfl, rfl, rfl⟩
  · have n0 : ¬ c = key '0' := by omega
    rw [e] at h
    simp only [Option.some.injEq, Prod.mk.injEq] at h
    rw [if_neg n0, ← h.1]
    by_cases hn : (c : Int) - 48 ≤ (s.data.length : Int)
    · rw [if_pos hn, if_pos ⟨hk1, hk2, hn⟩]
      exact ⟨rfl, rfl, rfl, rfl⟩
    · have n1 : ¬ (key '1' ≤ c ∧ c ≤ key '6' ∧ (c : Int) - 48 ≤ (s.data.length : Int)) :=
        fun hh => hn hh.2.2
      rw [if_neg hn, if_neg n1]
      exact ⟨rfl, rfl, rfl, rfl⟩
  · have n0 : ¬ c = key '0' := by omega
    have n1 : ¬ (key '1' ≤ c ∧ c ≤ key '6' ∧ (c : Int) - 48 ≤ (s.data.length : Int)) := by
      omega
    rw [e] at h
    simp only [Option.some.injEq, Prod.mk.injEq] at h
    rw [if_neg n0, if_neg n1, ← h.1]
    exact ⟨rfl, rfl, rfl, rfl⟩
  · have n0 : ¬ c = key '0' := by omega
    have n1 : ¬ (key '1' ≤ c ∧ c ≤ key '6' ∧ (c : Int) - 48 ≤ (s.data.length : Int)) := by
      omega
    rw [e] at h
    obtain ⟨-, v, hv, hs⟩ := option_map_flag _ _ _ _ h
    rw [if_neg n0, if_neg n1, hs]
    exact ⟨rfl, rfl, pan_update_length _ _ _ _ hv, rfl⟩
  · have n0 : ¬ c = key '0' := by omega
    have n1 : ¬ (key '1' ≤ c ∧ c ≤ key '6' ∧ (c : Int) - 48 ≤ (s.data.length : Int)) := by
      omega
    rw [e] at h
    obtain ⟨-, v, hv, hs⟩ := option_map_flag _ _ _ _ h
    rw [if_neg n0, if_neg n1, hs]
    exact ⟨rfl, rfl, rfl, pan_update_length _ _ _ _ hv⟩
  · have n0 : ¬ c = key '0' := by omega
    have n1 : ¬ (key '1' ≤ c ∧ c ≤ key '6' ∧ (c : Int) - 48 ≤ (s.data.length : Int)) := by
      omega
    rw [e] at h
    obtain ⟨-, v, hv, hs⟩ := option_map_flag _ _ _ _ h
    rw [if_neg n0, if_neg n1, hs]
    exact ⟨rfl, rotate_update_length _ _ _ _ hv, rfl, rfl⟩
  · have n0 : ¬ c = key '0' := by omega
    have n1 : ¬ (key '1' ≤ c ∧ c ≤ key '6' ∧ (c : Int) - 48 ≤ (s.data.length : Int)) := by
      omega
    rw [e] at h
    simp only [Option.some.injEq, Prod.mk.injEq] at h
    rw [if_neg n0, if_neg n1, ← h.1]
    split_ifs <;> exact ⟨rfl, rfl, rfl, rfl⟩
  · have n0 : ¬ c = key '0' := by omega
    have n1 : ¬ (key '1' ≤ c ∧ c ≤ key '6' ∧ (c : Int) - 48 ≤ (s.data.length : Int)) := by
      omega
    rw [e] at h
    simp only [Option.some.injEq, Prod.mk.injEq] at h
    rw [if_neg n0, if_neg n1, ← h.1]
    split_ifs <;> exact ⟨rfl, rfl, rfl, rfl⟩
  · have n0 : ¬ c = key '0' := by omega
    have n1 : ¬ (key '1' ≤ c ∧ c ≤ key '6' ∧ (c : Int) - 48 ≤ (s.data.length : Int)) := by
      omega
    rw [e] at h
    simp only [Option.some.injEq, Prod.mk.injEq] at h
    rw [if_neg n0, if_neg n1, ← h.1]
    exact ⟨rfl, rfl, rfl, rfl⟩
  · have n0 : ¬ c = key '0' := by omega
    have n1 : ¬ (key '1' ≤ c ∧ c ≤ key '6' ∧ (c : Int) - 48 ≤ (s.data.length : Int)) := by
      omega
    rw [e] at h
    simp only [Option.some.injEq, Prod.mk.injEq] at h
    rw [if_neg n0, if_neg n1, ← h.1]
    exact ⟨rfl, rfl, rfl, rfl⟩
  · have n0 : ¬ c = key '0' := by omega
    have n1 : ¬ (key '1' ≤ c ∧ c ≤ key '6' ∧ (c : Int) - 48 ≤ (s.data.length : Int)) := by
      omega
    rw [e] at h
    simp only [Option.some.injEq, Prod.mk.injEq] at h
    rw [if_neg n0, if_neg n1, ← h.1]
    exact ⟨rfl, rfl, rfl, rfl⟩
  · have n0 : ¬ c = key '0' := by omega
    have n1 : ¬ (key '1' ≤ c ∧ c ≤ key '6' ∧ (c : Int) - 48 ≤ (s.data.length : Int)) := by
      omega
    have hr : ¬ s.random_mode = true := fun hh => hc ⟨hk, hh⟩
    rw [e] at h
    simp only [Option.some.injEq, Prod.mk.injEq] at h
    rw [if_neg n0, if_neg n1, ← h.1, if_neg hr]
    exact ⟨rfl, rfl, rfl, rfl⟩
  · have n0 : ¬ c = key '0' := by omega
    have n1 : ¬ (key '1' ≤ c ∧ c ≤ key '6' ∧ (c : Int) - 48 ≤ (s.data.length : Int)) := by
      omega
    rw [e] at h
    simp only [Option.some.injEq, Prod.mk.injEq] at h
    rw [if_neg n0, if_neg n1, ← h.1]
    exact ⟨rfl, rfl, rfl, rfl⟩
  · have hb : ¬ (key '0' ≤ c ∧ c ≤ key '6') := by
      intro hh
      simp only [bound_key, hh, and_self, decide_True, Bool.true_or, true_or,
        Bool.true_eq_false, decide_eq_false_iff_not, not_true_eq_false] at hk
    have n0 : ¬ c = key '0' := by omega
    have n1 : ¬ (key '1' ≤ c ∧ c ≤ key '6' ∧ (c : Int) - 48 ≤ (s.data.length : Int)) := by
      omega
    rw [e] at h
    simp only [Option.some.injEq, Prod.mk.injEq] at h
    rw [if_neg n0, if_neg n1, ← h.1]
    exact ⟨rfl, rfl, rfl, rfl⟩

/-- C23 (selection invariant): in a state with `n` structures and pan vectors of
length `n` whose selected index is `-1` or in `[0, n)`, `handle_input` on a
byte that does not reload the scene returns a result, never reading `pan_x`,
`pan_y` or `data` outside the vector; the numbers of structures and of pan
entries are unchanged and the selected index is again `-1` or in `[0, n)`:
`-1` after `0`, `k - 1` after the digit `k` in 1..6 when `k <= n`, and the
old index in every other case. -/
theorem selection_invariant (env : KeyEnv) (attempts : List LoadAttempt) (s : UnicodeScreen)
    (c : Nat)
    (hsel : s.structNum = -1 ∨ (0 ≤ s.structNum ∧ s.structNum < (s.data.length : Int)))
    (hpx : s.pan_x.length = s.data.length) (hpy : s.pan_y.length = s.data.length)
    (hc : ¬ ((c = key 'n' ∨ c = key 'N') ∧ s.random_mode = true)) :
    ∃ s1 run, s.handle_input env attempts (some c) = some (s1, run) ∧
      (s1.structNum = -1 ∨ (0 ≤ s1.structNum ∧ s1.structNum < (s1.data.length : Int))) ∧
      s1.data.length = s.data.length ∧ s1.pan_x.length = s1.data.length ∧
      s1.pan_y.length = s1.data.length ∧
      s1.structNum =
        (if c = key '0' then -1
         else if key '1' ≤ c ∧ c ≤ key '6' ∧ (c : Int) - 48 ≤ (s.data.length : Int)
           then (c : Int) - 49
         else s.structNum) := by
  have hvalid : s.structNum < 0 ∨ (s.structNum.toNat < s.pan_x.length ∧
      s.structNum.toNat < s.pan_y.length ∧ s.structNum.toNat < s.data.length) := by
    rcases hsel with h | ⟨h1, h2⟩
    · left; omega
    · right
      rw [hpx, hpy]
      omega
  obtain ⟨s1, run, h⟩ := handle_input_total env attempts s c hvalid
  obtain ⟨h1, h2, h3, h4⟩ := handle_input_selection env attempts s s1 c run hc h
  have hk := key_codes
  refine ⟨s1, run, h, ?_, h2, by omega, by omega, h1⟩
  rw [h1, h2]
  split_ifs with c0 c1
  · left; rfl
  · right; omega
  · exact hsel

/-- Instances of C23 on `demo_controls` (one structure, nothing selected): the
digit `1` selects the structure 0, the digit `2` changes nothing. -/
theorem selection_invariant_witness :
    (∃ s1 run, demo_controls.handle_input demo_keys [] (some (key '1')) = some (s1, run) ∧
      s1.structNum = 0) ∧
    (∃ s1 run, demo_controls.handle_input demo_keys [] (some (key '2')) = some (s1, run) ∧
      s1.structNum = -1) := by
  obtain ⟨s1, r1, h1, -, -, -, -, e1⟩ :=
    selection_invariant demo_keys [] demo_controls (key '1') (Or.inl rfl) rfl rfl (by decide)
  obtain ⟨s2, r2, h2, -, -, -, -, e2⟩ :=
    selection_invariant demo_keys [] demo_controls (key '2') (Or.inl rfl) rfl rfl (by decide)
  refine ⟨⟨s1, r1, h1, ?_⟩, ⟨s2, r2, h2, ?_⟩⟩
  · rw [e1]
    decide
  · rw [e2]
    decide

/-- C26, evaluation at the failing inputs: fed to `handle_input` one byte per
call from `demo_controls`, the right-arrow sequence ESC `[` `C` leaves the
pan offsets as they are and advances the color scheme from `RAINBOW` to
`CHAIN`; the down-arrow sequence ESC `[` `B` changes nothing at all; the
up-arrow sequence ESC `[` `A` pans along x, as the key `a` does; whereas the
key `s` changes the y offset. -/
theorem arrow_keys_not_pan :
    demo_controls.color_scheme = ColorScheme.RAINBOW ∧
    demo_controls.handle_inputs demo_keys
        [⟨some 27, []⟩, ⟨some (key '['), []⟩, ⟨some (key 'C'), []⟩]
      = some { demo_controls with color_scheme := ColorScheme.CHAIN } ∧
    demo_controls.handle_inputs demo_keys
        [⟨some 27, []⟩, ⟨some (key '['), []⟩, ⟨some (key 'B'), []⟩]
      = some demo_controls ∧
    demo_controls.handle_inputs demo_keys
        [⟨some 27, []⟩, ⟨some (key '['), []⟩, ⟨some (key 'A'), []⟩]
      = some { demo_controls with pan_x := [-(5 / 100)] } ∧
    demo_controls.handle_inputs demo_keys [⟨some (key 'a'), []⟩]
      = some { demo_controls with pan_x := [-(5 / 100)] } ∧
    demo_controls.handle_inputs demo_keys [⟨some (key 's'), []⟩]
      = some { demo_controls with pan_y := [-(5 / 100)] } := by
  have hesc : ∀ s : UnicodeScreen, s.handle_input demo_keys [] (some 27) = some (s, true) :=
    fun s => handle_input_unbound demo_keys [] s 27 (by decide)
  have hbr : ∀ s : UnicodeScreen,
      s.handle_input demo_keys [] (some (key '[')) = some (s, true) :=
    fun s => handle_input_unbound demo_keys [] s (key '[') (by decide)
  have hB : ∀ s : UnicodeScreen,
      s.handle_input demo_keys [] (some (key 'B')) = some (s, true) :=
    fun s => handle_input_unbound demo_keys [] s (key 'B') (by decide)
  have hpan : pan_update [0] (-1) (-pan_step) = some [-(5 / 100)] := by
    norm_num [pan_update, pan_step]
  refine ⟨rfl, ?_, ?_, ?_, ?_, ?_⟩
  · simp only [UnicodeScreen.handle_inputs, hesc, hbr,
      handle_input_scheme _ _ _ _ (Or.inr rfl), if_true]
    rfl
  · simp only [UnicodeScreen.handle_inputs, hesc, hbr, hB, if_true]
  · simp only [UnicodeScreen.handle_inputs, hesc, hbr,
      handle_input_pan_left _ _ _ _ (Or.inr rfl), if_true]
    have e : pan_update demo_controls.pan_x demo_controls.structNum (-pan_step)
        = some [-(5 / 100)] := hpan
    rw [e]
    rfl
  · simp only [UnicodeScreen.handle_inputs, handle_input_pan_left _ _ _ _ (Or.inl rfl)]
    have e : pan_update demo_controls.pan_x demo_controls.structNum (-pan_step)
        = some [-(5 / 100)] := hpan
    rw [e]
    rfl
  · simp only [UnicodeScreen.handle_inputs, handle_input_pan_down _ _ _ _ (Or.inl rfl)]
    have e : pan_update demo_controls.pan_y demo_controls.structNum (-pan_step)
        = some [-(5 / 100)] := hpan
    rw [e]
    rfl

/-! ## Properties of the command line -/

theorem arg_items_plain (a : String) (rest : List String) (hv : ¬ takes_value a = true) :
    arg_items (a :: rest) = (a, none) :: arg_items rest := by
  rw [arg_items.eq_def]
  simp only [hv, Bool.false_eq_true, if_false]

theorem scan_eq_items (is_file : String → Bool) (args : List String) (p : Parameters) :
    Parameters.scan is_file args p = items_scan is_file (arg_items args) p := by
  induction args using arg_items.induct generalizing p with
  | case1 => rfl
  | case2 a hv v rest1 ih =>
    simp only [takes_value, List.mem_cons, List.mem_singleton, List.mem_nil_iff, or_false,
      decide_eq_true_eq] at hv
    rcases hv with rfl | rfl | rfl | rfl | rfl | rfl | rfl | rfl <;>
    · simp only [arg_items, takes_value, Parameters.scan, items_scan, item_step, ih,
        String.reduceEq, or_self, or_true, true_or, or_false, false_or, reduceIte,
        List.mem_cons, List.mem_singleton, List.mem_nil_iff, decide_True, decide_False]
      try split_ifs <;> rfl
  | case3 a hv =>
    simp only [takes_value, List.mem_cons, List.mem_singleton, List.mem_nil_iff, or_false,
      decide_eq_true_eq] at hv
    rcases hv with rfl | rfl | rfl | rfl | rfl | rfl | rfl | rfl <;>
    · simp only [arg_items, takes_value, Parameters.scan, items_scan, item_step,
        String.reduceEq, or_self, or_true, true_or, or_false, false_or, reduceIte,
        List.mem_cons, List.mem_singleton, List.mem_nil_iff, decide_True, decide_False]
  | case4 a rest hv ih =>
    have hv1 := hv
    simp only [takes_value, List.mem_cons, List.mem_singleton, List.mem_nil_iff, or_false,
      decide_eq_true_eq, not_or] at hv1
    obtain ⟨h1, h2, h3, h4, h5, h6, h7, h8⟩ := hv1
    rw [arg_items_plain a rest hv]
    unfold Parameters.scan
    simp only [items_scan, item_step, h1, h2, h3, h4, h5, h6, h7, h8, or_self, if_false]
    split_ifs <;> simp only [ih]

theorem item_step_ok (is_file : String → Bool) (p q : Parameters)
    (item : String × Option String) (h : item_step is_file p item = Except.ok q) :
    (q.random_pdb = true ↔ (p.random_pdb = true ∨ item.1 = "--random")) ∧
    (item.1 ≠ "--pdb" → q.pdb_id = p.pdb_id) ∧
    (∀ v, item.1 = "--pdb" → item.2 = some v → q.pdb_id = str_toupper v) ∧
    (is_file item.1 = false → q.in_file = p.in_file) ∧
    (takes_value item.1 = true → item.2 ≠ none) ∧
    (∀ v, (item.1 = "-m" ∨ item.1 = "--mode") → item.2 = some v →
      (str_tolower v = "chain" ∨ str_tolower v = "rainbow" ∨ str_tolower v = "protein")) := by
  obtain ⟨a, ov⟩ := item
  unfold item_step at h
  simp only at h
  by_cases c1 : a = "-m" ∨ a = "--mode"
  · rw [if_pos c1] at h
    cases ov with
    | none => simp at h
    | some v =>
      simp only at h
      split_ifs at h with hval
      · injection h with h
        subst h
        rcases c1 with rfl | rfl <;> simp [hval, takes_value]
  rw [if_neg c1] at h
  by_cases c2 : a = "-c" ∨ a = "--chains"
  · rw [if_pos c2] at h
    cases ov with
    | none => simp at h
    | some v =>
      simp only at h
      injection h with h
      subst h
      rcases c2 with rfl | rfl <;> simp [takes_value]
  rw [if_neg c2] at h
  by_cases c3 : a = "-s" ∨ a = "--structure"
  · rw [if_pos c3] at h
    injection h with h
    subst h
    rcases c3 with rfl | rfl <;> simp [takes_value]
  rw [if_neg c3] at h
  by_cases c4 : a = "-p" ∨ a = "--predict"
  · rw [if_pos c4] at h
    injection h with h
    subst h
    rcases c4 with rfl | rfl <;> simp [takes_value]
  rw [if_neg c4] at h
  by_cases c5 : a = "--sixel"
  · rw [if_pos c5] at h
    injection h with h
    subst h
    subst c5
    simp [takes_value]
  rw [if_neg c5] at h
  by_cases c6 : a = "--random"
  · rw [if_pos c6] at h
    injection h with h
    subst h
    subst c6
    simp [takes_value]
  rw [if_neg c6] at h
  by_cases c7 : a = "--pdb"
  · rw [if_pos c7] at h
    cases ov with
    | none => simp at h
    | some v =>
      simp only at h
      injection h with h
      subst h
      subst c7
      simp [takes_value]
  rw [if_neg c7] at h
  by_cases c8 : a = "--render"
  · rw [if_pos c8] at h
    cases ov with
    | none => simp at h
    | some v =>
      simp only at h
      injection h with h
      subst h
      subst c8
      simp [takes_value]
  rw [if_neg c8] at h
  by_cases c9 : a = "-ut" ∨ a = "--utmatrix"
  · rw [if_pos c9] at h
    cases ov with
    | none => simp at h
    | some v =>
      simp only at h
      injection h with h
      subst h
      rcases c9 with rfl | rfl <;> simp [takes_value]
  rw [if_neg c9] at h
  by_cases c10 : is_file a = true ∧ p.in_file.length < 6
  · rw [if_pos c10] at h
    injection h with h
    subst h
    have ht : takes_value a = false := by
      simp only [takes_value, List.mem_cons, List.mem_singleton, List.mem_nil_iff, or_false,
        decide_eq_false_iff_not]
      tauto
    simp [ht, c6, c7, c10.1, c1]
  · rw [if_neg c10] at h
    simp at h

theorem str_toupper_ne (v : String) (h : v ≠ "") : str_toupper v ≠ "" := by
  intro e
  apply h
  have e1 : (str_toupper v).data = [] := by rw [e]
  simp only [str_toupper, List.map_eq_nil_iff] at e1
  exact String.ext e1

theorem items_scan_ok (is_file : String → Bool) (items : List (String × Option String))
    (p q : Parameters) (h : items_scan is_file items p = Except.ok q) :
    (q.random_pdb = true ↔ (p.random_pdb = true ∨ ∃ item ∈ items, item.1 = "--random")) ∧
    ((∀ item ∈ items, item.1 ≠ "--pdb") → q.pdb_id = p.pdb_id) ∧
    ((∀ id, ("--pdb", some id) ∈ items → id ≠ "") →
      (p.pdb_id ≠ "" ∨ ∃ id, ("--pdb", some id) ∈ items) → q.pdb_id ≠ "") ∧
    ((∀ item ∈ items, is_file item.1 = false) → q.in_file = p.in_file) ∧
    (∀ item ∈ items, takes_value item.1 = true → item.2 ≠ none) ∧
    (∀ a v, (a = "-m" ∨ a = "--mode") → (a, some v) ∈ items →
      (str_tolower v = "chain" ∨ str_tolower v = "rainbow" ∨ str_tolower v = "protein")) := by
  induction items generalizing p with
  | nil =>
    simp only [items_scan, Except.ok.injEq] at h
    subst h
    simp
  | cons item rest ih =>
    simp only [items_scan] at h
    cases hs : item_step is_file p item with
    | error e => simp [hs] at h
    | ok p1 =>
      simp only [hs] at h
      obtain ⟨s1, s2, s3, s4, s5, s6⟩ := item_step_ok is_file p p1 item hs
      obtain ⟨i1, i2, i3, i4, i5, i6⟩ := ih p1 h
      refine ⟨?_, ?_, ?_, ?_, ?_, ?_⟩
      · rw [i1, s1]
        simp only [List.mem_cons, exists_eq_or_imp]
        exact or_assoc
      · intro hno
        rw [i2 (fun it hit => hno it (List.mem_cons_of_mem _ hit)),
          s2 (hno item (List.mem_cons_self _ _))]
      · intro hall hex
        apply i3 (fun id hid => hall id (List.mem_cons_of_mem _ hid))
        by_cases hrest : ∃ id, ("--pdb", some id) ∈ rest
        · exact Or.inr hrest
        · left
          by_cases hit : item.1 = "--pdb"
          · cases hv : item.2 with
            | none => exact absurd hv (s5 (by rw [hit]; decide))
            | some v =>
              rw [s3 v hit hv]
              apply str_toupper_ne
              apply hall v
              have e : item = ("--pdb", some v) := Prod.ext hit hv
              rw [← e]
              exact List.mem_cons_self _ _
          · rw [s2 hit]
            rcases hex with hp | ⟨id, hid⟩
            · exact hp
            · rcases List.mem_cons.mp hid with e | e
              · exact absurd (by rw [← e]) hit
              · exact absurd ⟨id, e⟩ hrest
      · intro hno
        rw [i4 (fun it hit => hno it (List.mem_cons_of_mem _ hit)),
          s4 (hno item (List.mem_cons_self _ _))]
      · intro it hit ht
        rcases List.mem_cons.mp hit with e | e
        · rw [e]
          exact s5 (by rw [← e]; exact ht)
        · exact i5 it e ht
      · intro a v ha hin
        rcases List.mem_cons.mp hin with e | e
        · exact s6 v (by rw [← e]; exact ha) (by rw [← e])
        · exact i6 a v ha e

theorem validate_reject (p : Parameters)
    (h : (p.random_pdb = true ∧ p.pdb_id ≠ "") ∨
      (p.in_file = [] ∧ p.random_pdb = false ∧ p.pdb_id = "")) :
    p.validate.arg_okay = false := by
  unfold Parameters.validate
  simp only
  rcases h with ⟨h1, h2⟩ | ⟨h1, h2, h3⟩
  · rw [if_pos ⟨h1, h2⟩]
  · have hl : p.in_file.length = 0 := by rw [h1]; rfl
    split_ifs
    · rfl
    · rfl
    · rename_i hn
      exact absurd ⟨hl, h2, h3⟩ hn

/-- C28 (argument validation, with the arguments read as options and values):
the constructor of `Parameters` returns for
every argument list without `--help`, and `check_arg_okay()` is false for
the empty list; for a list that holds the option `--random` and an option
`--pdb` with a value, every such value being non-empty; for a list without
an existing file, `--pdb` or `--random`; for a list whose last argument
is an option waiting for its value; and for a list whose `-m` or `--mode`
value, lower-cased, is not `protein`, `chain` or `rainbow`. The lists
`--pdb <ID>` (a non-empty ID) and `--random` are accepted, with the ID
upper-cased and the mode `protein`. An argument counts as an option when
it is not itself the value of the option before it (`arg_items`). -/
theorem check_arg_okay_spec (is_file : String → Bool) :
    (Parameters.new is_file []).map Parameters.check_arg_okay = some false ∧
    (∀ args : List String, "--help" ∉ args →
      ∃ p, Parameters.new is_file args = some p ∧
        ((("--random", none) ∈ arg_items args ∧ (∃ id, ("--pdb", some id) ∈ arg_items args) ∧
            (∀ id, ("--pdb", some id) ∈ arg_items args → id ≠ "")) →
          p.check_arg_okay = false) ∧
        ((∀ item ∈ arg_items args,
            item.1 ≠ "--pdb" ∧ item.1 ≠ "--random" ∧ is_file item.1 = false) →
          p.check_arg_okay = false) ∧
        ((∃ a, takes_value a = true ∧ (a, none) ∈ arg_items args) →
          p.check_arg_okay = false) ∧
        ((∃ a v, (a = "-m" ∨ a = "--mode") ∧ (a, some v) ∈ arg_items args ∧
            str_tolower v ∉ ["protein", "chain", "rainbow"]) →
          p.check_arg_okay = false)) ∧
    (∀ id : String, id ≠ "" → id ≠ "--help" →
      ∃ p, Parameters.new is_file ["--pdb", id] = some p ∧ p.check_arg_okay = true ∧
        p.pdb_id = str_toupper id ∧ p.get_mode = "protein") ∧
    (∃ p, Parameters.new is_file ["--random"] = some p ∧ p.check_arg_okay = true ∧
      p.random_pdb = true ∧ p.get_mode = "protein") := by
  refine ⟨rfl, fun args hhelp => ?_, fun id hid hh => ?_,
    ⟨({ random_pdb := true } : Parameters), ?_, rfl, rfl, rfl⟩⟩
  rotate_left 2
  · have h2 : Parameters.scan is_file ["--random"] {}
        = Except.ok { random_pdb := true } := by
      simp only [Parameters.scan, String.reduceEq, or_self, if_false, if_true]
    unfold Parameters.new
    rw [if_neg (by decide), if_neg (by decide), h2]
    rfl
  · unfold Parameters.new
    rw [if_neg hhelp]
    by_cases hempty : args.length + 1 ≤ 1
    · rw [if_pos hempty]
      exact ⟨_, rfl, fun _ => rfl, fun _ => rfl, fun _ => rfl, fun _ => rfl⟩
    · rw [if_neg hempty]
      cases hs : Parameters.scan is_file args {} with
      | error e => exact ⟨_, rfl, fun _ => rfl, fun _ => rfl, fun _ => rfl, fun _ => rfl⟩
      | ok q =>
        rw [scan_eq_items] at hs
        obtain ⟨i1, i2, i3, i4, i5, i6⟩ := items_scan_ok is_file (arg_items args) {} q hs
        refine ⟨_, rfl, ?_, ?_, ?_, ?_⟩
        · rintro ⟨hr, hp, hne⟩
          apply validate_reject
          left
          exact ⟨i1.mpr (Or.inr ⟨_, hr, rfl⟩), i3 hne (Or.inr hp)⟩
        · intro hno
          apply validate_reject
          right
          refine ⟨?_, ?_, ?_⟩
          · rw [i4 (fun it hit => (hno it hit).2.2)]
          · cases hq : q.random_pdb with
            | false => rfl
            | true =>
              rcases i1.mp hq with h0 | ⟨it, hit, e⟩
              · exact absurd h0 (by decide)
              · exact absurd e (hno it hit).2.1
          · rw [i2 (fun it hit => (hno it hit).1)]
        · rintro ⟨a, ha, hin⟩
          exact absurd rfl (i5 (a, none) hin ha)
        · rintro ⟨a, v, ha, hin, hbad⟩
          have hv := i6 a v ha hin
          simp only [List.mem_cons, List.mem_singleton, List.mem_nil_iff, or_false,
            not_or] at hbad
          tauto
  · have h1 : "--help" ∉ ["--pdb", id] := by
      simp only [List.mem_cons, List.mem_singleton, List.mem_nil_iff, or_false, not_or]
      exact ⟨by decide, fun e => hh e.symm⟩
    have h2 : Parameters.scan is_file ["--pdb", id] {}
        = Except.ok { pdb_id := str_toupper id } := by
      simp only [Parameters.scan, String.reduceEq, or_self, if_false, if_true]
    have h3 : str_toupper id ≠ "" := str_toupper_ne id hid
    refine ⟨({ pdb_id := str_toupper id } : Parameters).validate, ?_, ?_, ?_, ?_⟩
    · unfold Parameters.new
      rw [if_neg h1, if_neg (by simp), h2]
    · simp [Parameters.validate, Parameters.check_arg_okay, h3]
    · simp [Parameters.validate, h3]
    · simp [Parameters.validate, Parameters.get_mode, h3]

/-- Instances of C28 with no existing file: `--random --pdb 1abc` and
`-m purple --random` are rejected, `--pdb 1abc` is accepted with the ID `1ABC`,
and `-c` as last argument is rejected. -/
theorem check_arg_okay_spec_witness :
    (Parameters.new (fun _ => false) ["--random", "--pdb", "1abc"]).map
      Parameters.check_arg_okay = some false ∧
    (Parameters.new (fun _ => false) ["-m", "purple", "--random"]).map
      Parameters.check_arg_okay = some false ∧
    (Parameters.new (fun _ => false) ["--random", "-c"]).map
      Parameters.check_arg_okay = some false ∧
    (∃ p, Parameters.new (fun _ => false) ["--pdb", "1abc"] = some p ∧
      p.check_arg_okay = true ∧ p.pdb_id = "1ABC" ∧ p.get_mode = "protein") := by
  obtain ⟨-, -, hpdb, -⟩ := check_arg_okay_spec (fun _ => false)
  obtain ⟨p, h1, h2, h3, h4⟩ := hpdb "1abc" (by decide) (by decide)
  refine ⟨by decide, by decide, by decide, p, h1, h2, ?_, h4⟩
  rw [h3]
  decide

/-! ## Properties of the start-up -/

theorem load_files_controls (proteins normalised : List Protein) (buf_width buf_height : Int)
    (s : UnicodeScreen) :
    (s.load_files proteins normalised buf_width buf_height).color_scheme = s.color_scheme ∧
    (s.load_files proteins normalised buf_width buf_height).screen_mode = s.screen_mode := by
  have h : ∀ (ps : List Protein) (s0 : UnicodeScreen),
      (ps.foldl (fun s1 protein => UnicodeScreen.set_protein protein s1) s0).color_scheme
        = s0.color_scheme ∧
      (ps.foldl (fun s1 protein => UnicodeScreen.set_protein protein s1) s0).screen_mode
        = s0.screen_mode := by
    intro ps
    induction ps with
    | nil => intro s0; exact ⟨rfl, rfl⟩
    | cons p ps ih =>
      intro s0
      simp only [List.foldl_cons]
      exact ih _
  exact h proteins s

/-- C27, evaluation at the failing input: the arguments `x.pdb -m chain` are
accepted with the mode `chain`, and for every mode string, `chain` and
`rainbow` included, the screen built by the constructor and filled by the
branch of `main` for local files keeps the mode in `screen_mode` and has the
color scheme `RAINBOW`. -/
theorem mode_not_applied :
    (Parameters.new (fun f => decide (f = "x.pdb")) ["x.pdb", "-m", "chain"]).map
      (fun p => (p.check_arg_okay, p.get_mode)) = some (true, "chain") ∧
    (∀ (mode : String) (show_structure sixel : Bool) (wal : Option (List RGB)) (w h : Int)
      (proteins normalised : List Protein) (buf_width buf_height : Int),
      ((UnicodeScreen.new show_structure mode sixel wal w h).load_files proteins normalised
        buf_width buf_height).color_scheme = ColorScheme.RAINBOW ∧
      ((UnicodeScreen.new show_structure mode sixel wal w h).load_files proteins normalised
        buf_width buf_height).screen_mode = mode) := by
  refine ⟨by decide, ?_⟩
  intro mode show_structure sixel wal w h proteins normalised buf_width buf_height
  obtain ⟨h1, h2⟩ := load_files_controls proteins normalised buf_width buf_height
    (UnicodeScreen.new show_structure mode sixel wal w h)
  rw [h1, h2]
  unfold UnicodeScreen.new
  refine ⟨(load_colors_controls wal _).2.1, ?_⟩
  unfold UnicodeScreen.load_colors
  cases wal with
  | none =>
    simp only
    split_ifs <;> rfl
  | some wal_colors =>
    simp only
    split_ifs <;> rfl

/-! ## Properties of the palette interpolation -/

theorem clamp_unit (t : ℚ) : clamp t 0 1 = max 0 (min t 1) ∧ 0 ≤ clamp t 0 1 ∧
    clamp t 0 1 ≤ 1 ∧ clamp (clamp t 0 1) 0 1 = clamp t 0 1 := by
  unfold clamp
  by_cases h0 : t < 0
  · have e1 : min t 1 = t := min_eq_left (by linarith)
    have e2 : max 0 t = 0 := max_eq_left (by linarith)
    simp only [h0, if_true, e1, e2]
    norm_num
  · by_cases h1 : 1 < t
    · have e1 : min t 1 = 1 := min_eq_right (by linarith)
      simp only [h0, h1, if_true, if_false, e1]
      norm_num
    · have e1 : min t 1 = t := min_eq_left (by linarith)
      have e2 : max 0 t = t := max_eq_right (by linarith)
      simp only [h0, h1, if_false, e1, e2]
      exact ⟨trivial, by linarith, by linarith, trivial⟩

theorem blend_trunc (a b : Nat) (f : ℚ) (ha : a < 256) (hb : b < 256) (hf0 : 0 ≤ f)
    (hf1 : f ≤ 1) :
    float_to_uint8 ((a : ℚ) + (((b : Int) - (a : Int) : Int) : ℚ) * f)
      = ⌊(a : ℚ) + ((b : ℚ) - (a : ℚ)) * f⌋.toNat ∧
    min a b ≤ ⌊(a : ℚ) + ((b : ℚ) - (a : ℚ)) * f⌋.toNat ∧
    ⌊(a : ℚ) + ((b : ℚ) - (a : ℚ)) * f⌋.toNat ≤ max a b := by
  have e : (((b : Int) - (a : Int) : Int) : ℚ) = (b : ℚ) - (a : ℚ) := by push_cast; ring
  rw [e]
  set v : ℚ := (a : ℚ) + ((b : ℚ) - (a : ℚ)) * f with hv
  have hlo : ((min a b : Nat) : ℚ) ≤ v := by
    rcases le_total a b with hab | hab
    · rw [min_eq_left hab]
      have : (0 : ℚ) ≤ ((b : ℚ) - a) * f :=
        mul_nonneg (by
          have : (a : ℚ) ≤ b := by exact_mod_cast hab
          linarith) hf0
      linarith
    · rw [min_eq_right hab]
      have h1 : (b : ℚ) ≤ a := by exact_mod_cast hab
      have : ((a : ℚ) - b) * f ≤ (a : ℚ) - b :=
        mul_le_of_le_one_right (by linarith) hf1
      nlinarith
  have hhi : v ≤ ((max a b : Nat) : ℚ) := by
    rcases le_total a b with hab | hab
    · rw [max_eq_right hab]
      have h1 : (a : ℚ) ≤ b := by exact_mod_cast hab
      have : ((b : ℚ) - a) * f ≤ (b : ℚ) - a :=
        mul_le_of_le_one_right (by linarith) hf1
      linarith
    · rw [max_eq_left hab]
      have h1 : (b : ℚ) ≤ a := by exact_mod_cast hab
      have : ((b : ℚ) - a) * f ≤ 0 :=
        mul_nonpos_of_nonpos_of_nonneg (by linarith) hf0
      linarith
  have h0 : (0 : ℚ) ≤ v := le_trans (by exact_mod_cast Nat.zero_le _) hlo
  have hfl_lo : ((min a b : Nat) : Int) ≤ ⌊v⌋ := by
    apply Int.le_floor.mpr
    exact_mod_cast hlo
  have hfl_hi : ⌊v⌋ ≤ ((max a b : Nat) : Int) := by
    have h := Int.floor_le v
    have h2 : ((⌊v⌋ : Int) : ℚ) ≤ ((max a b : Nat) : ℚ) := le_trans h hhi
    exact_mod_cast h2
  have hmax : max a b < 256 := max_lt ha hb
  refine ⟨?_, ?_, ?_⟩
  · unfold float_to_uint8
    rw [float_to_int_nonneg v h0]
    have : ⌊v⌋ % 256 = ⌊v⌋ := Int.emod_eq_of_lt (by omega) (by omega)
    rw [this]
  · omega
  · omega

theorem interpolate_color_inner (s : UnicodeScreen) (hn : 2 ≤ s.palette_colors.length)
    (hv : ∀ c ∈ s.palette_colors, c.valid) (t : ℚ) :
    ∃ a b,
      s.palette_colors[⌊clamp t 0 1 * ((s.palette_colors.length : ℚ) - 1)⌋.toNat]? = some a ∧
      s.palette_colors[min (⌊clamp t 0 1 * ((s.palette_colors.length : ℚ) - 1)⌋.toNat + 1)
        (s.palette_colors.length - 1)]? = some b ∧
      s.interpolate_color t = some
        { r := ⌊(a.r : ℚ) + ((b.r : ℚ) - (a.r : ℚ)) *
            (clamp t 0 1 * ((s.palette_colors.length : ℚ) - 1) -
              ⌊clamp t 0 1 * ((s.palette_colors.length : ℚ) - 1)⌋)⌋.toNat
          g := ⌊(a.g : ℚ) + ((b.g : ℚ) - (a.g : ℚ)) *
            (clamp t 0 1 * ((s.palette_colors.length : ℚ) - 1) -
              ⌊clamp t 0 1 * ((s.palette_colors.length : ℚ) - 1)⌋)⌋.toNat
          b := ⌊(a.b : ℚ) + ((b.b : ℚ) - (a.b : ℚ)) *
            (clamp t 0 1 * ((s.palette_colors.length : ℚ) - 1) -
              ⌊clamp t 0 1 * ((s.palette_colors.length : ℚ) - 1)⌋)⌋.toNat } ∧
      0 ≤ clamp t 0 1 * ((s.palette_colors.length : ℚ) - 1) -
          ⌊clamp t 0 1 * ((s.palette_colors.length : ℚ) - 1)⌋ ∧
      clamp t 0 1 * ((s.palette_colors.length : ℚ) - 1) -
          ⌊clamp t 0 1 * ((s.palette_colors.length : ℚ) - 1)⌋ < 1 ∧
      a.valid ∧ b.valid := by
  obtain ⟨-, hc0, hc1, -⟩ := clamp_unit t
  set tc := clamp t 0 1 with htc
  set n := s.palette_colors.length with hnn
  have hnq : (2 : ℚ) ≤ (n : ℚ) := by exact_mod_cast hn
  set idx : ℚ := tc * ((n : ℚ) - 1) with hidx
  have hidx0 : 0 ≤ idx := mul_nonneg hc0 (by linarith)
  have hidx1 : idx ≤ (n : ℚ) - 1 := by
    have := mul_le_mul_of_nonneg_right hc1 (show (0 : ℚ) ≤ (n : ℚ) - 1 by linarith)
    linarith
  have hfl0 : 0 ≤ ⌊idx⌋ := Int.floor_nonneg.mpr hidx0
  have hfl1 : ⌊idx⌋ ≤ (n : Int) - 1 := by
    have h := Int.floor_le idx
    have h2 : ((⌊idx⌋ : Int) : ℚ) ≤ (((n : Int) - 1 : Int) : ℚ) := by
      push_cast
      linarith
    exact_mod_cast h2
  have hf0 : 0 ≤ idx - ⌊idx⌋ := by linarith [Int.floor_le idx]
  have hf1 : idx - ⌊idx⌋ < 1 := by linarith [Int.lt_floor_add_one idx]
  have hcast : (((n : Int) - 1 : Int) : ℚ) = (n : ℚ) - 1 := by push_cast; ring
  have n0 : ¬ ((n : Int) = 0) := by omega
  have n1 : ¬ ((n : Int) = 1) := by omega
  have hfi : float_to_int idx = ⌊idx⌋ := float_to_int_nonneg idx hidx0
  by_cases hend : ⌊idx⌋ ≥ (n : Int) - 1
  · have hfl : ⌊idx⌋ = (n : Int) - 1 := le_antisymm hfl1 hend
    have hi : ⌊idx⌋.toNat = n - 1 := by omega
    have hlt : n - 1 < s.palette_colors.length := by omega
    have hidxe : idx = (n : ℚ) - 1 := by
      apply le_antisymm hidx1
      have h := Int.floor_le idx
      rw [hfl] at h
      rw [← hcast]
      exact h
    have hf : idx - ⌊idx⌋ = 0 := by
      rw [hfl, hcast, hidxe]
      ring
    have hmin : min (n - 1 + 1) (n - 1) = n - 1 := by omega
    have hval := hv _ (List.getElem_mem hlt)
    refine ⟨s.palette_colors[n - 1], s.palette_colors[n - 1], ?_, ?_, ?_, hf0, hf1, hval, hval⟩
    · rw [hi]
      exact List.getElem?_eq_getElem hlt
    · rw [hi, hmin]
      exact List.getElem?_eq_getElem hlt
    · have e : ((n : Int) - 1).toNat = n - 1 := by omega
      simp only [UnicodeScreen.interpolate_color, ← hnn, ← htc, hcast, ← hidx, hfi, n0, n1,
        hend, if_true, if_false, e, List.getElem?_eq_getElem hlt, hf, mul_zero, add_zero,
        Int.floor_natCast, Int.toNat_ofNat]
  · have hi : ⌊idx⌋.toNat < n - 1 := by omega
    have hlt : ⌊idx⌋.toNat < s.palette_colors.length := by omega
    have hlt1 : ⌊idx⌋.toNat + 1 < s.palette_colors.length := by omega
    have hmin : min (⌊idx⌋.toNat + 1) (n - 1) = ⌊idx⌋.toNat + 1 := by omega
    have e1 : (⌊idx⌋ + 1).toNat = ⌊idx⌋.toNat + 1 := by omega
    obtain ⟨ar, ag, ab⟩ := hv _ (List.getElem_mem hlt)
    obtain ⟨br, bg, bb⟩ := hv _ (List.getElem_mem hlt1)
    refine ⟨s.palette_colors[⌊idx⌋.toNat], s.palette_colors[⌊idx⌋.toNat + 1], ?_, ?_, ?_, hf0,
      hf1, ⟨ar, ag, ab⟩, ⟨br, bg, bb⟩⟩
    · exact List.getElem?_eq_getElem hlt
    · rw [hmin]
      exact List.getElem?_eq_getElem hlt1
    · simp only [UnicodeScreen.interpolate_color, ← hnn, ← htc, hcast, ← hidx, hfi, n0, n1,
        hend, if_false, e1, List.getElem?_eq_getElem hlt, List.getElem?_eq_getElem hlt1,
        (blend_trunc _ _ _ ar br hf0 hf1.le).1, (blend_trunc _ _ _ ag bg hf0 hf1.le).1,
        (blend_trunc _ _ _ ab bb hf0 hf1.le).1]

/-! ## Properties of the projected chains -/

theorem project_chain_exact (env : ProjEnv) (ii : Nat) (target : Protein) (st : ProjState)
    (chain : Chain) (px py : ℚ)
    (hpx : env.pan_x[ii]? = some px) (hpy : env.pan_y[ii]? = some py)
    (hwf : chain.chain_length = chain.chain_atoms.length) :
    project_chain env ii target st chain =
      some { global_idx := st.global_idx + (chain.chain_atoms.length : Int)
             chain_idx := st.chain_idx + 1
             chains_out := st.chains_out ++
               (if chain.chain_atoms = [] then []
                else [project_list env target px py st.chain_idx chain.chain_atoms
                  st.global_idx]) } := by
  unfold project_chain
  by_cases h0 : chain.chain_length = 0
  · have hnil : chain.chain_atoms = [] := by
      rw [hwf] at h0
      exact List.length_eq_zero.mp (by exact_mod_cast h0)
    simp only [h0, if_true, hnil, List.length_nil, Int.ofNat_zero, add_zero, List.append_nil,
      Nat.cast_zero]
  · have h0' : ¬ ((chain.chain_atoms.length : Int) = 0) := by rwa [hwf] at h0
    have hne : chain.chain_atoms ≠ [] := by
      intro e
      rw [e] at h0'
      exact h0' rfl
    simp only [hwf, h0', if_false, Int.toNat_ofNat, List.range_eq_range', hpx, hpy]
    rw [project_range_fold env target st.chain_idx px py chain.chain_atoms
      chain.chain_atoms 0 [] st.global_idx (fun j a h => by simpa using h)]
    simp only [List.nil_append, hne, if_false]

theorem project_chains_exact (env : ProjEnv) (ii : Nat) (target : Protein) (px py : ℚ)
    (hpx : env.pan_x[ii]? = some px) (hpy : env.pan_y[ii]? = some py)
    (cs : List Chain) (st : ProjState)
    (hwf : ∀ c ∈ cs, c.chain_length = c.chain_atoms.length) :
    cs.foldlM (project_chain env ii target) st =
      some { global_idx := st.global_idx + ((cs.flatMap (fun c => c.chain_atoms)).length : Int)
             chain_idx := st.chain_idx + (cs.length : Int)
             chains_out := st.chains_out ++
               projected_chains env target px py st.chain_idx st.global_idx cs } := by
  induction cs generalizing st with
  | nil =>
    simp [projected_chains]
  | cons c cs ih =>
    have hc := hwf c (List.mem_cons_self _ _)
    have hcs : ∀ d ∈ cs, d.chain_length = d.chain_atoms.length :=
      fun d hd => hwf d (List.mem_cons_of_mem _ hd)
    simp only [List.foldlM_cons, project_chain_exact env ii target st c px py hpx hpy hc,
      Option.some_bind, Option.bind_eq_bind, ih _ hcs, projected_chains, List.flatMap_cons,
      List.length_append, List.length_cons, List.append_assoc, Option.some.injEq]
    congr 1
    · push_cast
      ring
    · push_cast
      ring

theorem project_structures_exact (env : ProjEnv) (ps : List Protein) (ii : Nat)
    (st : ProjState)
    (hwf : ∀ p ∈ ps, ∀ c ∈ p.get_atoms, c.chain_length = c.chain_atoms.length)
    (hpx : ii + ps.length ≤ env.pan_x.length) (hpy : ii + ps.length ≤ env.pan_y.length) :
    project_structures env ii ps st =
      some { global_idx := st.global_idx + ((scene_atoms ps).length : Int)
             chain_idx := st.chain_idx + ((ps.map (fun p => p.get_atoms.length)).sum : Nat)
             chains_out := st.chains_out ++
               projected_scene env ii st.chain_idx st.global_idx ps } := by
  induction ps generalizing ii st with
  | nil =>
    simp [project_structures, projected_scene, scene_atoms]
  | cons p ps ih =>
    have hp := hwf p (List.mem_cons_self _ _)
    have hps : ∀ q ∈ ps, ∀ c ∈ q.get_atoms, c.chain_length = c.chain_atoms.length :=
      fun q hq => hwf q (List.mem_cons_of_mem _ hq)
    simp only [List.length_cons] at hpx hpy
    have hx : ii < env.pan_x.length := by omega
    have hy : ii < env.pan_y.length := by omega
    have ex : env.pan_x[ii]? = some (env.pan_x.getD ii 0) := by
      rw [List.getD_eq_getElem _ _ hx]
      exact List.getElem?_eq_getElem hx
    have ey : env.pan_y[ii]? = some (env.pan_y.getD ii 0) := by
      rw [List.getD_eq_getElem _ _ hy]
      exact List.getElem?_eq_getElem hy
    simp only [project_structures,
      project_chains_exact env ii p _ _ ex ey p.get_atoms st hp,
      ih (ii + 1) _ hps (by omega) (by omega), projected_scene, scene_atoms,
      List.flatMap_cons, List.length_append, List.map_cons, List.sum_cons, List.append_assoc,
      Protein.all_atoms, Option.some.injEq]
    congr 1
    · push_cast
      ring
    · push_cast
      ring

theorem project_atoms_exact (tanf : ℚ → ℚ) (data : List Protein) (pan_x pan_y : List ℚ)
    (zoom_level focal_offset : ℚ) (buf_width buf_height : Int)
    (hwf : ∀ p ∈ data, ∀ c ∈ p.get_atoms, c.chain_length = c.chain_atoms.length)
    (hpx : data.length ≤ pan_x.length) (hpy : data.length ≤ pan_y.length) :
    project_atoms tanf data pan_x zoom_level focal_offset pan_y buf_width buf_height =
      some (projected_scene
          (scene_env tanf data pan_x zoom_level focal_offset pan_y buf_width buf_height)
          0 0 0 data,
        ((scene_atoms data).length : Int)) := by
  have h := project_structures_exact
    (scene_env tanf data pan_x zoom_level focal_offset pan_y buf_width buf_height) data 0 {}
    hwf (by simpa [scene_env] using hpx) (by simpa [scene_env] using hpy)
  simp only [project_atoms, scene_sums_wf data hwf]
  have e : scene_env tanf data pan_x zoom_level focal_offset pan_y buf_width buf_height =
      { cx := if ((scene_atoms data).length : Int) > 0
          then ((scene_atoms data).map (fun a => a.x)).sum / (((scene_atoms data).length : Int) : ℚ)
          else ((scene_atoms data).map (fun a => a.x)).sum
        cy := if ((scene_atoms data).length : Int) > 0
          then ((scene_atoms data).map (fun a => a.y)).sum / (((scene_atoms data).length : Int) : ℚ)
          else ((scene_atoms data).map (fun a => a.y)).sum
        cz := if ((scene_atoms data).length : Int) > 0
          then ((scene_atoms data).map (fun a => a.z)).sum / (((scene_atoms data).length : Int) : ℚ)
          else ((scene_atoms data).map (fun a => a.z)).sum
        total_chains := count_chains data
        fovRads := 1 / tanf ((FOV / zoom_level) * (1 / 2) / 180 * PI)
        half_w := (buf_width : ℚ) * (1 / 2)
        half_h := (buf_height : ℚ) * (1 / 2)
        scale := min ((buf_width : ℚ) * (1 / 2)) ((buf_height : ℚ) * (1 / 2))
        focal_offset := focal_offset
        pan_x := pan_x
        pan_y := pan_y } := rfl
  rw [← e, h]
  simp

theorem project_list_length (env : ProjEnv) (target : Protein) (px py : ℚ) (cidx : Int)
    (l : List Atom) (g : Int) : (project_list env target px py cidx l g).length = l.length := by
  induction l generalizing g with
  | nil => rfl
  | cons a l ih => simp only [project_list, List.length_cons, ih]

theorem projected_chains_lengths (env : ProjEnv) (target : Protein) (px py : ℚ) (cidx g : Int)
    (cs : List Chain) :
    (projected_chains env target px py cidx g cs).map List.length =
      ((cs.filter (fun c => !c.chain_atoms.isEmpty)).map (fun c => c.chain_atoms.length)) := by
  induction cs generalizing cidx g with
  | nil => rfl
  | cons c cs ih =>
    cases hc : c.chain_atoms with
    | nil =>
      simp only [projected_chains, hc, if_true, List.nil_append, ih, List.filter_cons,
        List.isEmpty_nil, Bool.not_true, Bool.false_eq_true, if_false]
    | cons a l =>
      simp only [projected_chains, hc, List.cons_ne_nil, if_false, List.singleton_append,
        List.map_cons, project_list_length, ih, List.filter_cons, List.isEmpty_cons,
        Bool.not_false, if_true, reduceCtorEq]

theorem projected_scene_lengths (env : ProjEnv) (ii : Nat) (cidx g : Int)
    (ps : List Protein) :
    (projected_scene env ii cidx g ps).map List.length =
      (((ps.flatMap (fun p => p.get_atoms)).filter (fun c => !c.chain_atoms.isEmpty)).map
        (fun c => c.chain_atoms.length)) := by
  induction ps generalizing ii cidx g with
  | nil => rfl
  | cons p ps ih =>
    simp only [projected_scene, List.map_append, projected_chains_lengths, ih,
      List.flatMap_cons, List.filter_append]

theorem centroid_chain_empty (acc : CentroidSums × Int) (chain : Chain)
    (h : chain.chain_length = 0) : centroid_chain acc chain = some acc := by
  obtain ⟨sums, total⟩ := acc
  simp [centroid_chain, h]

theorem scene_sums_empty (data : List Protein)
    (hno : ∀ p ∈ data, ∀ c ∈ p.get_atoms, c.chain_length = 0) :
    scene_sums data = some ({}, 0) := by
  have hchains : ∀ (cs : List Chain) (acc : CentroidSums × Int),
      (∀ c ∈ cs, c.chain_length = 0) → cs.foldlM centroid_chain acc = some acc := by
    intro cs
    induction cs with
    | nil => intro acc _; rfl
    | cons c cs ih =>
      intro acc h
      simp only [List.foldlM_cons, centroid_chain_empty acc c (h c (List.mem_cons_self _ _)),
        Option.some_bind, Option.bind_eq_bind]
      exact ih acc (fun d hd => h d (List.mem_cons_of_mem _ hd))
  have hdata : ∀ (ps : List Protein) (acc : CentroidSums × Int),
      (∀ p ∈ ps, ∀ c ∈ p.get_atoms, c.chain_length = 0) →
      ps.foldlM (fun acc p => p.get_atoms.foldlM centroid_chain acc) acc = some acc := by
    intro ps
    induction ps with
    | nil => intro acc _; rfl
    | cons p ps ih =>
      intro acc h
      simp only [List.foldlM_cons, hchains p.get_atoms acc (h p (List.mem_cons_self _ _)),
        Option.some_bind, Option.bind_eq_bind]
      exact ih acc (fun q hq => h q (List.mem_cons_of_mem _ hq))
  exact hdata data _ hno

theorem project_structures_empty (env : ProjEnv) (ps : List Protein) (ii : Nat)
    (st : ProjState) (hno : ∀ p ∈ ps, ∀ c ∈ p.get_atoms, c.chain_length = 0) :
    ∃ st1, project_structures env ii ps st = some st1 ∧ st1.chains_out = st.chains_out := by
  induction ps generalizing ii st with
  | nil => exact ⟨st, rfl, rfl⟩
  | cons p ps ih =>
    have hchains1 : ∀ (cs : List Chain) (st : ProjState),
        (∀ c ∈ cs, c.chain_length = 0) →
        ∃ st1, cs.foldlM (project_chain env ii p) st = some st1 ∧
          st1.chains_out = st.chains_out := by
      intro cs
      induction cs with
      | nil => intro st _; exact ⟨st, rfl, rfl⟩
      | cons c cs ihc =>
        intro st h
        have e : project_chain env ii p st c
            = some { st with chain_idx := st.chain_idx + 1 } := by
          simp [project_chain, h c (List.mem_cons_self _ _)]
        obtain ⟨st1, h1, h2⟩ := ihc { st with chain_idx := st.chain_idx + 1 }
          (fun d hd => h d (List.mem_cons_of_mem _ hd))
        exact ⟨st1,
          by simp only [List.foldlM_cons, e, Option.some_bind, Option.bind_eq_bind, h1], h2⟩
    obtain ⟨st1, h1, h2⟩ := hchains1 p.get_atoms st (hno p (List.mem_cons_self _ _))
    obtain ⟨st2, h3, h4⟩ := ih (ii + 1) st1 (fun q hq => hno q (List.mem_cons_of_mem _ hq))
    exact ⟨st2, by simp only [project_structures, h1, h3], by rw [h4, h2]⟩

theorem project_atoms_empty (tanf : ℚ → ℚ) (data : List Protein) (pan_x pan_y : List ℚ)
    (zoom_level focal_offset : ℚ) (buf_width buf_height : Int)
    (hno : ∀ p ∈ data, ∀ c ∈ p.get_atoms, c.chain_length = 0) :
    project_atoms tanf data pan_x zoom_level focal_offset pan_y buf_width buf_height
      = some ([], 0) := by
  simp only [project_atoms, scene_sums_empty data hno]
  obtain ⟨st1, h1, h2⟩ := project_structures_empty
    { cx := if (({} : CentroidSums).count > 0) then ({} : CentroidSums).cx / ({} : CentroidSums).count
        else ({} : CentroidSums).cx
      cy := if (({} : CentroidSums).count > 0) then ({} : CentroidSums).cy / ({} : CentroidSums).count
        else ({} : CentroidSums).cy
      cz := if (({} : CentroidSums).count > 0) then ({} : CentroidSums).cz / ({} : CentroidSums).count
        else ({} : CentroidSums).cz
      total_chains := count_chains data
      fovRads := 1 / tanf ((FOV / zoom_level) * (1 / 2) / 180 * PI)
      half_w := (buf_width : ℚ) * (1 / 2)
      half_h := (buf_height : ℚ) * (1 / 2)
      scale := min ((buf_width : ℚ) * (1 / 2)) ((buf_height : ℚ) * (1 / 2))
      focal_offset := focal_offset
      pan_x := pan_x
      pan_y := pan_y } data 0 {} hno
  rw [h1]
  show some (st1.chains_out, (0 : Int)) = some ([], 0)
  rw [h2]

theorem grid_atoms_empty (s : UnicodeScreen) (chains : List (List ProjAtom))
    (global_total : Int) (hno : ∀ p ∈ s.data, ∀ c ∈ p.get_atoms, c.chain_length = 0) :
    s.grid_atoms chains global_total = some [] := by
  have hchains : ∀ (cs : List Chain) (acc : List FlatAtom × Int),
      (∀ c ∈ cs, c.chain_length = 0) →
      ∃ k, cs.foldlM (s.grid_chain chains global_total) acc = some (acc.1, k) := by
    intro cs
    induction cs with
    | nil => intro acc _; exact ⟨acc.2, rfl⟩
    | cons c cs ih =>
      intro acc h
      have e : s.grid_chain chains global_total acc c = some (acc.1, acc.2 + 1) := by
        simp [UnicodeScreen.grid_chain, h c (List.mem_cons_self _ _)]
      obtain ⟨k, hk⟩ := ih (acc.1, acc.2 + 1) (fun d hd => h d (List.mem_cons_of_mem _ hd))
      exact ⟨k, by simp only [List.foldlM_cons, e, Option.some_bind, Option.bind_eq_bind, hk]⟩
  have hdata : ∀ (ps : List Protein) (acc : List FlatAtom × Int),
      (∀ p ∈ ps, ∀ c ∈ p.get_atoms, c.chain_length = 0) →
      ∃ k, ps.foldlM (fun (acc : List FlatAtom × Int) (target : Protein) =>
        target.get_atoms.foldlM (s.grid_chain chains global_total) acc) acc
          = some (acc.1, k) := by
    intro ps
    induction ps with
    | nil => intro acc _; exact ⟨acc.2, rfl⟩
    | cons p ps ih =>
      intro acc h
      obtain ⟨k1, hk1⟩ := hchains p.get_atoms acc (h p (List.mem_cons_self _ _))
      obtain ⟨k, hk⟩ := ih (acc.1, k1) (fun q hq => h q (List.mem_cons_of_mem _ hq))
      exact ⟨k,
        by simp only [List.foldlM_cons, hk1, Option.some_bind, Option.bind_eq_bind, hk]⟩
  obtain ⟨k, hk⟩ := hdata s.data ([], 0) hno
  simp only [UnicodeScreen.grid_atoms, hk]

/-- C24 (empty scenes): on a scene without structures, and on a scene in which
no chain of any structure has an atom, each of `project_backbone`,
`project_grid` and `project_surface` returns, without an access outside a
vector, and leaves the screen as it is; run after `clear_framebuffer`, every
cell of the framebuffer is still inactive. -/
theorem views_empty_scene (sqrtf tanf : ℚ → ℚ) (s : UnicodeScreen)
    (hno : ∀ p ∈ s.data, ∀ c ∈ p.get_atoms, c.chain_atoms = [] ∧ c.chain_length = 0) :
    s.project_backbone tanf = some s ∧ s.project_grid sqrtf tanf = some s ∧
    s.project_surface sqrtf tanf = some s ∧
    s.clear_framebuffer.project_backbone tanf = some s.clear_framebuffer ∧
    s.clear_framebuffer.project_grid sqrtf tanf = some s.clear_framebuffer ∧
    s.clear_framebuffer.project_surface sqrtf tanf = some s.clear_framebuffer ∧
    ∀ cell ∈ s.clear_framebuffer.framebuffer, cell.active = false := by
  have hall : ∀ s1 : UnicodeScreen,
      (∀ p ∈ s1.data, ∀ c ∈ p.get_atoms, c.chain_length = 0) →
      s1.project_backbone tanf = some s1 ∧ s1.project_grid sqrtf tanf = some s1 ∧
      s1.project_surface sqrtf tanf = some s1 := by
    intro s1 h1
    have hp := project_atoms_empty tanf s1.data s1.pan_x s1.pan_y s1.zoom_level
      s1.focal_offset s1.buf_width s1.buf_height h1
    refine ⟨?_, ?_, ?_⟩
    · simp only [UnicodeScreen.project_backbone, hp]
      rfl
    · have ht : grid_threshold sqrtf [] = some (15 / 100) := by
        simp [grid_threshold]
      simp only [UnicodeScreen.project_grid, hp, grid_atoms_empty s1 [] 0 h1, ht]
      rfl
    · simp only [UnicodeScreen.project_surface, hp]
      rfl
  have h0 : ∀ p ∈ s.data, ∀ c ∈ p.get_atoms, c.chain_length = 0 :=
    fun p hp c hc => (hno p hp c hc).2
  obtain ⟨a1, a2, a3⟩ := hall s h0
  obtain ⟨b1, b2, b3⟩ := hall s.clear_framebuffer h0
  refine ⟨a1, a2, a3, b1, b2, b3, ?_⟩
  intro cell hcell
  simp only [UnicodeScreen.clear_framebuffer, List.mem_map] at hcell
  obtain ⟨_, -, e⟩ := hcell
  rw [← e]

/-- Instances of C24: the scene without structures (`demo_screen`) and a scene
whose only structure has one chain without atoms are left as they are by
the three views. -/
theorem views_empty_scene_witness :
    demo_screen.project_backbone (fun x => x) = some demo_screen ∧
    demo_screen.project_grid (fun x => x) (fun x => x) = some demo_screen ∧
    demo_hollow.project_grid (fun x => x) (fun x => x) = some demo_hollow ∧
    demo_hollow.project_surface (fun x => x) (fun x => x) = some demo_hollow := by
  obtain ⟨a1, a2, -⟩ := views_empty_scene (fun x => x) (fun x => x) demo_screen
    (by simp [demo_screen])
  obtain ⟨-, b2, b3, -⟩ := views_empty_scene (fun x => x) (fun x => x) demo_hollow
    (by simp [demo_hollow])
  exact ⟨a1, a2, b2, b3⟩

/-! ## Properties of the backbone view -/

theorem same_controls_refl (s : UnicodeScreen) : s.same_controls s := rfl

theorem same_controls_trans (s s1 s2 : UnicodeScreen) (h1 : s.same_controls s1)
    (h2 : s1.same_controls s2) : s.same_controls s2 := by
  unfold UnicodeScreen.same_controls at h1 h2 ⊢
  rw [h2, h1]

theorem plot_pixel_controls (s s1 : UnicodeScreen) (x y : Int) (z : ℚ) (color : RGB)
    (brightness : ℚ) (h : s.plot_pixel x y z color brightness = some s1) :
    s.same_controls s1 := by
  unfold UnicodeScreen.plot_pixel at h
  split_ifs at h with h1
  · simp only [Option.some.injEq] at h
    rw [← h]
    rfl
  · cases hc : s.framebuffer[(y * s.buf_width + x).toNat]? with
    | none => simp [hc] at h
    | some cell =>
      simp only [hc] at h
      split_ifs at h
      · simp only [Option.some.injEq] at h
        rw [← h]
        rfl
      · simp only [Option.some.injEq] at h
        rw [← h]
        rfl

theorem foldlM_controls {α : Type} (f : UnicodeScreen → α → Option UnicodeScreen)
    (hf : ∀ s s1 a, f s a = some s1 → s.same_controls s1) (l : List α)
    (s s1 : UnicodeScreen) (h : l.foldlM f s = some s1) : s.same_controls s1 := by
  induction l generalizing s with
  | nil =>
    simp only [List.foldlM_nil, pure, Option.some.injEq] at h
    rw [← h]
    rfl
  | cons a l ih =>
    simp only [List.foldlM_cons, Option.bind_eq_bind] at h
    cases hs : f s a with
    | none => simp [hs] at h
    | some s2 =>
      simp only [hs, Option.some_bind] at h
      exact same_controls_trans s s2 s1 (hf s s2 a hs) (ih s2 h)

theorem plot_neighbours_controls (s s1 : UnicodeScreen) (ix iy : Int) (z : ℚ) (color : RGB)
    (brightness : ℚ) (t : Int) (h : s.plot_neighbours ix iy z color brightness t = some s1) :
    s.same_controls s1 := by
  unfold UnicodeScreen.plot_neighbours at h
  dsimp only at h
  split at h
  · simp at h
  · rename_i a1 h1
    split at h
    · simp at h
    · rename_i a2 h2
      split at h
      · simp at h
      · rename_i a3 h3
        exact same_controls_trans _ _ _ (plot_pixel_controls _ _ _ _ _ _ _ h1)
          (same_controls_trans _ _ _ (plot_pixel_controls _ _ _ _ _ _ _ h2)
            (same_controls_trans _ _ _ (plot_pixel_controls _ _ _ _ _ _ _ h3)
              (plot_pixel_controls _ _ _ _ _ _ _ h)))

theorem line_step_controls (xInc yInc zInc : ℚ) (thick : Nat) (color : RGB) (brightness : ℚ)
    (st st1 : LineState) (h : line_step xInc yInc zInc thick color brightness st = some st1) :
    st.screen.same_controls st1.screen := by
  unfold line_step at h
  dsimp only at h
  split at h
  · simp at h
  · rename_i a1 h1
    split at h
    · simp at h
    · rename_i a2 h2
      simp only [Option.some.injEq] at h
      rw [← h]
      exact same_controls_trans _ _ _ (plot_pixel_controls _ _ _ _ _ _ _ h1)
        (foldlM_controls _ (fun s s1 k hk => plot_neighbours_controls _ _ _ _ _ _ _ _ hk) _ _ _
          h2)

theorem line_fold_controls {α : Type} (f : LineState → α → Option LineState)
    (hf : ∀ st st1 a, f st a = some st1 → st.screen.same_controls st1.screen) (l : List α)
    (st st1 : LineState) (h : l.foldlM f st = some st1) :
    st.screen.same_controls st1.screen := by
  induction l generalizing st with
  | nil =>
    simp only [List.foldlM_nil, pure, Option.some.injEq] at h
    rw [← h]
    rfl
  | cons a l ih =>
    simp only [List.foldlM_cons, Option.bind_eq_bind] at h
    cases hs : f st a with
    | none => simp [hs] at h
    | some st2 =>
      simp only [hs, Option.some_bind] at h
      exact same_controls_trans _ _ _ (hf st st2 a hs) (ih st2 h)

theorem draw_line_controls (s s1 : UnicodeScreen) (x0 y0 : Int) (z0 : ℚ) (x1 y1 : Int)
    (z1 : ℚ) (color : RGB) (brightness : ℚ)
    (h : s.draw_line x0 y0 z0 x1 y1 z1 color brightness = some s1) : s.same_controls s1 := by
  unfold UnicodeScreen.draw_line at h
  dsimp only at h
  split_ifs at h with h0
  · exact plot_pixel_controls _ _ _ _ _ _ _ h
  all_goals
    split at h
    · simp at h
    · rename_i st hf
      simp only [Option.some.injEq] at h
      rw [← h]
      exact line_fold_controls _ (fun st st1 _ hk => line_step_controls _ _ _ _ _ _ _ _ hk) _
        _ _ hf

theorem resolve_color_controls (s s1 : UnicodeScreen) (a : ProjAtom) (global_total : Int)
    (h : s.same_controls s1) : s1.resolve_color a global_total = s.resolve_color a global_total := by
  unfold UnicodeScreen.same_controls at h
  rw [h]
  rfl

theorem chain_lines_cons (color_of : ProjAtom → RGB) (prev a : ProjAtom)
    (rest : List ProjAtom) :
    chain_lines color_of (prev :: a :: rest)
      = line_between (color_of a) prev a :: chain_lines color_of (a :: rest) := rfl

theorem draw_lines_cons (s : UnicodeScreen) (c : LineCall) (calls : List LineCall) :
    s.draw_lines (c :: calls) =
      (s.draw_line c.x0 c.y0 c.z0 c.x1 c.y1 c.z1 c.color c.brightness).bind
        (fun s1 => s1.draw_lines calls) := by
  simp only [UnicodeScreen.draw_lines, List.foldlM_cons, Option.bind_eq_bind]

theorem draw_lines_append (s : UnicodeScreen) (l1 l2 : List LineCall) :
    s.draw_lines (l1 ++ l2) = (s.draw_lines l1).bind (fun s1 => s1.draw_lines l2) := by
  simp only [UnicodeScreen.draw_lines, List.foldlM_append, Option.bind_eq_bind]

theorem draw_lines_controls (s s1 : UnicodeScreen) (calls : List LineCall)
    (h : s.draw_lines calls = some s1) : s.same_controls s1 :=
  foldlM_controls _ (fun _ _ _ hk => draw_line_controls _ _ _ _ _ _ _ _ _ _ hk) calls s s1 h

theorem backbone_range (s : UnicodeScreen) (total : Int) (color_of : ProjAtom → RGB)
    (chain : List ProjAtom)
    (hcol : ∀ a ∈ chain, s.resolve_color a total = some (color_of a))
    (rest : List ProjAtom) (k : Nat) (prev : ProjAtom) (s1 : UnicodeScreen)
    (hs : s.same_controls s1)
    (hrest : ∀ (j : Nat) (a : ProjAtom), rest[j]? = some a → chain[k + j]? = some a)
    (hprev : chain[k - 1]? = some prev) (hk : 0 < k) :
    (List.range' k rest.length).foldlM (UnicodeScreen.backbone_step total chain) s1
      = s1.draw_lines (chain_lines color_of (prev :: rest)) := by
  induction rest generalizing k prev s1 with
  | nil => rfl
  | cons a rest ih =>
    have ha : chain[k]? = some a := by simpa using hrest 0 a (List.getElem?_cons_zero)
    have hmem : a ∈ chain := List.getElem?_mem ha
    have hstep : UnicodeScreen.backbone_step total chain s1 k
        = s1.draw_line prev.sx prev.sy prev.z a.sx a.sy a.z (color_of a) a.brightness := by
      simp only [UnicodeScreen.backbone_step, ha, resolve_color_controls s s1 a total hs,
        hcol a hmem, hk, gt_iff_lt, if_true, hprev]
    rw [chain_lines_cons, draw_lines_cons]
    simp only [List.length_cons, List.range'_succ, List.foldlM_cons, hstep,
      Option.bind_eq_bind, line_between]
    cases hd : s1.draw_line prev.sx prev.sy prev.z a.sx a.sy a.z (color_of a) a.brightness with
    | none => rfl
    | some s2 =>
      simp only [Option.some_bind]
      apply ih (k + 1) a s2
        (same_controls_trans _ _ _ hs (draw_line_controls _ _ _ _ _ _ _ _ _ _ hd))
      · intro j b hj
        have := hrest (j + 1) b (by simpa using hj)
        rw [← this]
        congr 1
        omega
      · simpa using ha
      · omega

theorem backbone_chain_lines (s : UnicodeScreen) (total : Int) (color_of : ProjAtom → RGB)
    (chain : List ProjAtom)
    (hcol : ∀ a ∈ chain, s.resolve_color a total = some (color_of a))
    (s1 : UnicodeScreen) (hs : s.same_controls s1) :
    (List.range chain.length).foldlM (UnicodeScreen.backbone_step total chain) s1
      = s1.draw_lines (chain_lines color_of chain) := by
  cases chain with
  | nil => rfl
  | cons a0 rest =>
    have h0 : UnicodeScreen.backbone_step total (a0 :: rest) s1 0 = some s1 := by
      simp only [UnicodeScreen.backbone_step, List.getElem?_cons_zero,
        resolve_color_controls s s1 a0 total hs, hcol a0 (List.mem_cons_self _ _), gt_iff_lt,
        lt_self_iff_false, if_false]
    rw [List.range_eq_range', List.length_cons, List.range'_succ, List.foldlM_cons, h0]
    simp only [Option.some_bind, Option.bind_eq_bind, zero_add]
    exact backbone_range s total color_of (a0 :: rest) hcol rest 1 a0 s1 hs
      (fun j a hj => by
        rw [Nat.add_comm, List.getElem?_cons_succ]
        exact hj)
      (List.getElem?_cons_zero) (by decide)

theorem backbone_chains_lines (s : UnicodeScreen) (total : Int) (color_of : ProjAtom → RGB)
    (chains : List (List ProjAtom))
    (hcol : ∀ chain ∈ chains, ∀ a ∈ chain, s.resolve_color a total = some (color_of a))
    (s1 : UnicodeScreen) (hs : s.same_controls s1) :
    s1.backbone_chains total chains = s1.draw_lines (chains.flatMap (chain_lines color_of)) := by
  induction chains generalizing s1 with
  | nil => rfl
  | cons chain chains ih =>
    have hc := backbone_chain_lines s total color_of chain
      (hcol chain (List.mem_cons_self _ _)) s1 hs
    simp only [UnicodeScreen.backbone_chains, List.foldlM_cons, hc, List.flatMap_cons,
      draw_lines_append, Option.bind_eq_bind]
    cases hd : s1.draw_lines (chain_lines color_of chain) with
    | none => rfl
    | some s2 =>
      simp only [Option.some_bind]
      exact ih (fun c hc1 => hcol c (List.mem_cons_of_mem _ hc1)) s2
        (same_controls_trans _ _ _ hs (draw_lines_controls _ _ _ hd))

theorem chain_lines_length (color_of : ProjAtom → RGB) (chain : List ProjAtom) :
    (chain_lines color_of chain).length = chain.length - 1 := by
  simp only [chain_lines, List.length_map, List.length_zip, List.length_tail]
  omega

theorem chain_lines_getElem (color_of : ProjAtom → RGB) (chain : List ProjAtom) (i : Nat)
    (prev a : ProjAtom) (h1 : chain[i]? = some prev) (h2 : chain[i + 1]? = some a) :
    (chain_lines color_of chain)[i]? = some (line_between (color_of a) prev a) := by
  have ht : chain.tail[i]? = some a := by
    rw [List.getElem?_tail]
    exact h2
  have hz : (chain.zip chain.tail)[i]? = some (prev, a) :=
    List.getElem?_zip_eq_some.mpr ⟨h1, ht⟩
  simp only [chain_lines, List.getElem?_map, hz, Option.map_some']

theorem flatMap_length_sum {α β : Type} (f : α → List β) (l : List α) :
    (l.flatMap f).length = (l.map (fun a => (f a).length)).sum := by
  induction l with
  | nil => rfl
  | cons a l ih => simp only [List.flatMap_cons, List.length_append, ih, List.map_cons,
      List.sum_cons]

theorem interpolate_color_some (s : UnicodeScreen) (hv : ∀ c ∈ s.palette_colors, c.valid)
    (t : ℚ) : ∃ c, s.interpolate_color t = some c := by
  rcases Nat.lt_or_ge s.palette_colors.length 2 with hlt | hge
  · cases hp : s.palette_colors with
    | nil => exact ⟨⟨255, 255, 255⟩, by simp [UnicodeScreen.interpolate_color, hp]⟩
    | cons c rest =>
      cases rest with
      | nil => exact ⟨c, by simp [UnicodeScreen.interpolate_color, hp]⟩
      | cons d rest2 =>
        rw [hp] at hlt
        simp only [List.length_cons] at hlt
        omega
  · obtain ⟨a, b, -, -, h, -⟩ := interpolate_color_inner s hge hv t
    exact ⟨_, h⟩

theorem resolve_color_some (s : UnicodeScreen) (hpal : s.palette_colors ≠ [])
    (hv : ∀ c ∈ s.palette_colors, c.valid) (a : ProjAtom) (total : Int) :
    ∃ c, s.resolve_color a total = some c := by
  have h0 : ∃ c, s.palette_colors[0]? = some c := by
    cases hp : s.palette_colors with
    | nil => exact absurd hp hpal
    | cons c rest => exact ⟨c, List.getElem?_cons_zero⟩
  have hempty : s.palette_colors.isEmpty = false := by
    cases hp : s.palette_colors with
    | nil => exact absurd hp hpal
    | cons c rest => rfl
  unfold UnicodeScreen.resolve_color
  cases s.color_scheme with
  | RAINBOW =>
    simp only [UnicodeScreen.get_color_for_point]
    split_ifs
    · exact h0
    · exact interpolate_color_some s hv _
  | CHAIN =>
    simp only [UnicodeScreen.get_chain_color, hempty, Bool.false_eq_true, if_false]
    split_ifs
    · exact h0
    · exact interpolate_color_some s hv _
  | STRUCTURE => exact ⟨_, rfl⟩

/-- C30 (backbone lines): on a scene whose chain lengths are those of its atom
vectors and whose pan vectors cover the structures, with a non-empty palette
of 8-bit stops, `project_atoms` returns one chain of projected atoms for
every chain with atoms, of the same length and in the same order, and
`project_backbone` does what the calls of `draw_line` of
`chain_lines`, chain after chain, do: for every chain one line from the
atom `i` to the atom `i + 1` for each consecutive pair, with the resolved
color and the brightness of the atom `i + 1`. Every line belongs to one
chain, a chain of one atom gives no line, and the number of lines is the
sum of `length - 1` over the chains that have atoms. -/
theorem backbone_lines_spec (tanf : ℚ → ℚ) (s : UnicodeScreen)
    (hwf : ∀ p ∈ s.data, ∀ c ∈ p.get_atoms, c.chain_length = c.chain_atoms.length)
    (hpx : s.data.length ≤ s.pan_x.length) (hpy : s.data.length ≤ s.pan_y.length)
    (hpal : s.palette_colors ≠ []) (hv : ∀ c ∈ s.palette_colors, c.valid) :
    ∃ (chains : List (List ProjAtom)) (total : Int) (color_of : ProjAtom → RGB),
      project_atoms tanf s.data s.pan_x s.zoom_level s.focal_offset s.pan_y s.buf_width
        s.buf_height = some (chains, total) ∧
      chains.map List.length =
        ((s.data.flatMap (fun p => p.get_atoms)).filter (fun c => !c.chain_atoms.isEmpty)).map
          (fun c => c.chain_atoms.length) ∧
      (∀ chain ∈ chains, ∀ a ∈ chain, s.resolve_color a total = some (color_of a)) ∧
      s.project_backbone tanf = s.draw_lines (chains.flatMap (chain_lines color_of)) ∧
      (chains.flatMap (chain_lines color_of)).length =
        (((s.data.flatMap (fun p => p.get_atoms)).filter
          (fun c => !c.chain_atoms.isEmpty)).map (fun c => c.chain_atoms.length - 1)).sum ∧
      (∀ chain ∈ chains, ∀ (i : Nat) (prev a : ProjAtom),
        chain[i]? = some prev → chain[i + 1]? = some a →
        (chain_lines color_of chain)[i]? = some (line_between (color_of a) prev a)) ∧
      (∀ chain ∈ chains, (chain_lines color_of chain).length = chain.length - 1) ∧
      (∀ call ∈ chains.flatMap (chain_lines color_of),
        ∃ chain ∈ chains, call ∈ chain_lines color_of chain) ∧
      (∀ chain : List ProjAtom, chain.length ≤ 1 → chain_lines color_of chain = []) := by
  have hp := project_atoms_exact tanf s.data s.pan_x s.pan_y s.zoom_level s.focal_offset
    s.buf_width s.buf_height hwf hpx hpy
  obtain ⟨chains, hchains⟩ : ∃ chains, chains = projected_scene
      (scene_env tanf s.data s.pan_x s.zoom_level s.focal_offset s.pan_y s.buf_width
        s.buf_height) 0 0 0 s.data := ⟨_, rfl⟩
  obtain ⟨total, htotal⟩ : ∃ total : Int, total = ((scene_atoms s.data).length : Int) :=
    ⟨_, rfl⟩
  rw [← hchains, ← htotal] at hp
  have hlen : chains.map List.length =
      ((s.data.flatMap (fun p => p.get_atoms)).filter (fun c => !c.chain_atoms.isEmpty)).map
        (fun c => c.chain_atoms.length) := by
    rw [hchains]
    exact projected_scene_lengths _ 0 0 0 s.data
  have hcol : ∀ chain ∈ chains, ∀ a ∈ chain,
      s.resolve_color a total
        = some ((fun a => (s.resolve_color a total).getD ⟨0, 0, 0⟩) a) := by
    intro chain _ a _
    obtain ⟨c, hc⟩ := resolve_color_some s hpal hv a total
    simp only [hc, Option.getD_some]
  refine ⟨chains, total, fun a => (s.resolve_color a total).getD ⟨0, 0, 0⟩, hp, hlen, hcol,
    ?_, ?_, ?_, ?_, ?_, ?_⟩
  · simp only [UnicodeScreen.project_backbone, hp]
    exact backbone_chains_lines s total _ chains hcol s (same_controls_refl s)
  · rw [flatMap_length_sum]
    have e : chains.map (fun chain => (chain_lines
        (fun a => (s.resolve_color a total).getD ⟨0, 0, 0⟩) chain).length)
        = (chains.map List.length).map (fun n => n - 1) := by
      rw [List.map_map]
      apply List.map_congr_left
      intro chain _
      exact chain_lines_length _ chain
    rw [e, hlen, List.map_map]
    rfl
  · intro chain _ i prev a h1 h2
    exact chain_lines_getElem _ chain i prev a h1 h2
  · intro chain _
    exact chain_lines_length _ chain
  · intro call hcall
    exact List.mem_flatMap.mp hcall
  · intro chain hle
    have h := chain_lines_length (fun a => (s.resolve_color a total).getD ⟨0, 0, 0⟩) chain
    exact List.length_eq_zero.mp (by omega)

/-- Instance of C30 on `demo_backbone`: the chain of two atoms and the chain of
one atom are projected to chains of the lengths 2 and 1, and
`project_backbone` draws one line. -/
theorem backbone_lines_spec_witness :
    ∃ (chains : List (List ProjAtom)) (total : Int) (color_of : ProjAtom → RGB),
      project_atoms (fun x => x) demo_backbone.data demo_backbone.pan_x
        demo_backbone.zoom_level demo_backbone.focal_offset demo_backbone.pan_y
        demo_backbone.buf_width demo_backbone.buf_height = some (chains, total) ∧
      chains.map List.length = [2, 1] ∧
      demo_backbone.project_backbone (fun x => x)
        = demo_backbone.draw_lines (chains.flatMap (chain_lines color_of)) ∧
      (chains.flatMap (chain_lines color_of)).length = 1 := by
  obtain ⟨chains, total, color_of, h1, h2, -, h4, h5, -⟩ :=
    backbone_lines_spec (fun x => x) demo_backbone (by simp [demo_backbone, demo_protein])
      (by simp [demo_backbone]) (by simp [demo_backbone]) (by simp [demo_backbone])
      (by simp [demo_backbone, RGB.valid])
  refine ⟨chains, total, color_of, h1, ?_, h4, ?_⟩
  · rw [h2]
    rfl
  · rw [h5]
    rfl

/-! ## Properties of the grid view -/

theorem line_step_sample (xInc yInc zInc : ℚ) (thick : Nat) (color : RGB) (brightness : ℚ)
    (st : LineState) :
    line_step xInc yInc zInc thick color brightness st
      = (st.screen.line_sample (float_to_int (st.x + 1 / 2)) (float_to_int (st.y + 1 / 2)) st.z
          thick color brightness).map
        (fun s3 => { x := st.x + xInc, y := st.y + yInc, z := st.z + zInc, screen := s3 }) := by
  unfold line_step UnicodeScreen.line_sample
  dsimp only
  cases st.screen.plot_pixel (float_to_int (st.x + 1 / 2)) (float_to_int (st.y + 1 / 2)) st.z
      color brightness with
  | none => rfl
  | some s1 =>
    dsimp only
    cases (List.range thick).foldlM
      (fun (s2 : UnicodeScreen) (k : Nat) =>
        s2.plot_neighbours (float_to_int (st.x + 1 / 2)) (float_to_int (st.y + 1 / 2)) st.z
          color brightness ((k : Int) + 1)) s1 with
    | none => rfl
    | some s3 => rfl

theorem line_fold_samples (xInc yInc zInc : ℚ) (thick : Nat) (color : RGB) (brightness : ℚ)
    (x0 y0 z0 : ℚ) (n : Nat) (s : UnicodeScreen) :
    (List.range n).foldlM
        (fun (st : LineState) (_ : Nat) => line_step xInc yInc zInc thick color brightness st)
        { x := x0, y := y0, z := z0, screen := s }
      = ((List.range n).foldlM
          (fun (s1 : UnicodeScreen) (i : Nat) =>
            s1.line_sample (float_to_int (x0 + (i : ℚ) * xInc + 1 / 2))
              (float_to_int (y0 + (i : ℚ) * yInc + 1 / 2)) (z0 + (i : ℚ) * zInc)
              thick color brightness) s).map
        (fun s1 => { x := x0 + (n : ℚ) * xInc, y := y0 + (n : ℚ) * yInc,
                     z := z0 + (n : ℚ) * zInc, screen := s1 }) := by
  induction n with
  | zero => simp
  | succ n ih =>
    rw [List.range_succ, List.foldlM_append, ih, List.foldlM_append]
    cases (List.range n).foldlM
        (fun (s1 : UnicodeScreen) (i : Nat) =>
          s1.line_sample (float_to_int (x0 + (i : ℚ) * xInc + 1 / 2))
            (float_to_int (y0 + (i : ℚ) * yInc + 1 / 2)) (z0 + (i : ℚ) * zInc)
            thick color brightness) s with
    | none => rfl
    | some s1 =>
      simp only [Option.map_some', Option.some_bind, Option.bind_eq_bind, List.foldlM_cons,
        List.foldlM_nil, line_step_sample]
      cases s1.line_sample (float_to_int (x0 + (n : ℚ) * xInc + 1 / 2))
          (float_to_int (y0 + (n : ℚ) * yInc + 1 / 2)) (z0 + (n : ℚ) * zInc)
          thick color brightness with
      | none => rfl
      | some s2 =>
        simp only [Option.map_some', Option.some_bind, Option.pure_def, Option.bind_some,
          Option.some.injEq, LineState.mk.injEq, and_true]
        push_cast
        refine ⟨by ring, by ring, by ring⟩

theorem draw_line_samples (s : UnicodeScreen) (x0 y0 : Int) (z0 : ℚ) (x1 y1 : Int) (z1 : ℚ)
    (color : RGB) (brightness : ℚ) (h : max |x1 - x0| |y1 - y0| ≠ 0) :
    s.draw_line x0 y0 z0 x1 y1 z1 color brightness
      = (List.range ((max |x1 - x0| |y1 - y0|).toNat + 1)).foldlM
          (fun (s1 : UnicodeScreen) (i : Nat) =>
            s1.line_sample
              (float_to_int ((x0 : ℚ) + (i : ℚ) * (((x1 - x0 : Int) : ℚ)
                / ((max |x1 - x0| |y1 - y0| : Int) : ℚ)) + 1 / 2))
              (float_to_int ((y0 : ℚ) + (i : ℚ) * (((y1 - y0 : Int) : ℚ)
                / ((max |x1 - x0| |y1 - y0| : Int) : ℚ)) + 1 / 2))
              (z0 + (i : ℚ) * ((z1 - z0) / ((max |x1 - x0| |y1 - y0| : Int) : ℚ)))
              (if s.use_sixel = true then 2 else 1) color brightness) s := by
  have hpos : 0 ≤ max |x1 - x0| |y1 - y0| := le_trans (abs_nonneg _) (le_max_left _ _)
  have hn : (max |x1 - x0| |y1 - y0| + 1).toNat = (max |x1 - x0| |y1 - y0|).toNat + 1 := by
    omega
  unfold UnicodeScreen.draw_line
  simp only [h, if_false, hn, line_fold_samples]
  cases (List.range ((max |x1 - x0| |y1 - y0|).toNat + 1)).foldlM
          (fun (s1 : UnicodeScreen) (i : Nat) =>
            s1.line_sample
              (float_to_int ((x0 : ℚ) + (i : ℚ) * (((x1 - x0 : Int) : ℚ)
                / ((max |x1 - x0| |y1 - y0| : Int) : ℚ)) + 1 / 2))
              (float_to_int ((y0 : ℚ) + (i : ℚ) * (((y1 - y0 : Int) : ℚ)
                / ((max |x1 - x0| |y1 - y0| : Int) : ℚ)) + 1 / 2))
              (z0 + (i : ℚ) * ((z1 - z0) / ((max |x1 - x0| |y1 - y0| : Int) : ℚ)))
              (if s.use_sixel = true then 2 else 1) color brightness) s with
  | none => rfl
  | some s1 => rfl

theorem float_to_int_round (v : ℚ) (h : -(1 / 2) ≤ v) : float_to_int (v + 1 / 2) = round v := by
  rw [float_to_int, if_pos (by linarith), round_eq]

/-- C33, evaluation at the failing input: a line from the pixel (-1, 0) at depth
1 to the pixel (2, 0) at depth 4 on a strip of 3 x 1 cells in Braille mode.
The first sample is at `x = -1`; the conversion `(int)(x + 0.5f)` truncates
-0.5 toward zero, so its centre pixel is (0, 0), not the nearest pixel
(-1, 0), the start of the line. The cell (0, 0) therefore receives the line
color at full brightness at depth 1, and the cell (1, 0) the faded color at
depth 1, where a first sample centred on (-1, 0) would leave the faded color
in the cell (0, 0) and the depth 2 in the cell (1, 0). For coordinates
`v >= -0.5` the conversion is the rounding to the nearest integer. -/
theorem draw_line_negative_start :
    float_to_int ((-1 : ℚ) + 1 / 2) = 0 ∧ round (-1 : ℚ) = -1 ∧
    float_to_int ((2 : ℚ) + 1 / 2) = round (2 : ℚ) ∧
    depth_shade ⟨200, 100, 40⟩ (1 * (1 - 25 / 100 * 1)) = ⟨150, 75, 30⟩ ∧
    demo_strip.draw_line (-1) 0 1 2 0 4 ⟨200, 100, 40⟩ 1
      = some { demo_strip with framebuffer :=
          [⟨200, 100, 40, 1, true⟩, ⟨150, 75, 30, 1, true⟩, ⟨150, 75, 30, 3, true⟩] } := by
  refine ⟨?_, ?_, ?_, ?_, ?_⟩
  · norm_num [float_to_int]
  · norm_num [round_eq]
  · exact float_to_int_round 2 (by norm_num)
  · norm_num [depth_shade, clamp, float_to_uint8, float_to_int]
    decide
  · have h0 : demo_strip.line_sample 0 0 1 1 ⟨200, 100, 40⟩ 1
        = some { demo_strip with framebuffer :=
            [⟨200, 100, 40, 1, true⟩, ⟨150, 75, 30, 1, true⟩, ⟨0, 0, 0, 0, false⟩] } := by
      norm_num [UnicodeScreen.line_sample, UnicodeScreen.plot_neighbours,
        UnicodeScreen.plot_pixel, demo_strip, depth_shade, clamp, float_to_uint8, float_to_int,
        depth_eps, List.range_succ, show Int.toNat 2 = 2 from rfl,
        show Int.toNat 3 = 3 from rfl]
      rfl
    have h1 : UnicodeScreen.line_sample { demo_strip with framebuffer :=
            [⟨200, 100, 40, 1, true⟩, ⟨150, 75, 30, 1, true⟩, ⟨0, 0, 0, 0, false⟩] }
          0 0 2 1 ⟨200, 100, 40⟩ 1
        = some { demo_strip with framebuffer :=
            [⟨200, 100, 40, 1, true⟩, ⟨150, 75, 30, 1, true⟩, ⟨0, 0, 0, 0, false⟩] } := by
      norm_num [UnicodeScreen.line_sample, UnicodeScreen.plot_neighbours,
        UnicodeScreen.plot_pixel, demo_strip, depth_shade, clamp, float_to_uint8, float_to_int,
        depth_eps, List.range_succ, show Int.toNat 2 = 2 from rfl,
        show Int.toNat 3 = 3 from rfl]
    have h2 : UnicodeScreen.line_sample { demo_strip with framebuffer :=
            [⟨200, 100, 40, 1, true⟩, ⟨150, 75, 30, 1, true⟩, ⟨0, 0, 0, 0, false⟩] }
          1 0 3 1 ⟨200, 100, 40⟩ 1
        = some { demo_strip with framebuffer :=
            [⟨200, 100, 40, 1, true⟩, ⟨150, 75, 30, 1, true⟩, ⟨150, 75, 30, 3, true⟩] } := by
      norm_num [UnicodeScreen.line_sample, UnicodeScreen.plot_neighbours,
        UnicodeScreen.plot_pixel, demo_strip, depth_shade, clamp, float_to_uint8, float_to_int,
        depth_eps, List.range_succ, show Int.toNat 2 = 2 from rfl,
        show Int.toNat 3 = 3 from rfl]
      decide
    have h3 : UnicodeScreen.line_sample { demo_strip with framebuffer :=
            [⟨200, 100, 40, 1, true⟩, ⟨150, 75, 30, 1, true⟩, ⟨150, 75, 30, 3, true⟩] }
          2 0 4 1 ⟨200, 100, 40⟩ 1
        = some { demo_strip with framebuffer :=
            [⟨200, 100, 40, 1, true⟩, ⟨150, 75, 30, 1, true⟩, ⟨150, 75, 30, 3, true⟩] } := by
      norm_num [UnicodeScreen.line_sample, UnicodeScreen.plot_neighbours,
        UnicodeScreen.plot_pixel, demo_strip, depth_shade, clamp, float_to_uint8, float_to_int,
        depth_eps, List.range_succ, show Int.toNat 2 = 2 from rfl,
        show Int.toNat 3 = 3 from rfl]
    have e0 : float_to_int (((-1 : Int) : ℚ) + ((0 : Nat) : ℚ) * (((2 - -1 : Int) : ℚ)
        / ((max |(2 : Int) - -1| |(0 : Int) - 0| : Int) : ℚ)) + 1 / 2) = 0 := by
      norm_num [float_to_int]
    have e1 : float_to_int (((-1 : Int) : ℚ) + ((1 : Nat) : ℚ) * (((2 - -1 : Int) : ℚ)
        / ((max |(2 : Int) - -1| |(0 : Int) - 0| : Int) : ℚ)) + 1 / 2) = 0 := by
      norm_num [float_to_int]
    have e2 : float_to_int (((-1 : Int) : ℚ) + ((2 : Nat) : ℚ) * (((2 - -1 : Int) : ℚ)
        / ((max |(2 : Int) - -1| |(0 : Int) - 0| : Int) : ℚ)) + 1 / 2) = 1 := by
      norm_num [float_to_int]
    have e3 : float_to_int (((-1 : Int) : ℚ) + ((3 : Nat) : ℚ) * (((2 - -1 : Int) : ℚ)
        / ((max |(2 : Int) - -1| |(0 : Int) - 0| : Int) : ℚ)) + 1 / 2) = 2 := by
      norm_num [float_to_int]
    have ey : ∀ i : Nat, float_to_int (((0 : Int) : ℚ) + (i : ℚ) * (((0 - 0 : Int) : ℚ)
        / ((max |(2 : Int) - -1| |(0 : Int) - 0| : Int) : ℚ)) + 1 / 2) = 0 := by
      intro i
      norm_num [float_to_int]
    have ez : ∀ i : Nat, (1 : ℚ) + (i : ℚ) * ((4 - 1)
        / ((max |(2 : Int) - -1| |(0 : Int) - 0| : Int) : ℚ)) = 1 + (i : ℚ) := by
      intro i
      norm_num
    have hr : List.range ((max |(2 : Int) - -1| |(0 : Int) - 0|).toNat + 1) = [0, 1, 2, 3] := by
      decide
    have hs : (if demo_strip.use_sixel = true then 2 else 1) = 1 := rfl
    rw [draw_line_samples _ _ _ _ _ _ _ _ _ (by decide), hr]
    simp only [List.foldlM_cons, List.foldlM_nil, e0, e1, e2, e3, ey, ez, hs]
    norm_num [h0, h1, h2, h3]

/-! ## Properties of the cycling keys -/

theorem handle_inputs_cons_run (env : KeyEnv) (i : TickInput) (rest : List TickInput)
    (s s1 : UnicodeScreen) (h : s.handle_input env i.attempts i.byte = some (s1, true)) :
    s.handle_inputs env (i :: rest) = s1.handle_inputs env rest := by
  simp only [UnicodeScreen.handle_inputs, h, if_true]

theorem handle_inputs_replicate (env : KeyEnv) (i : TickInput) (f : UnicodeScreen → UnicodeScreen)
    (h : ∀ s : UnicodeScreen, s.handle_input env i.attempts i.byte = some (f s, true))
    (k : Nat) (s : UnicodeScreen) :
    s.handle_inputs env (List.replicate k i) = some (f^[k] s) := by
  induction k generalizing s with
  | zero => rfl
  | succ k ih =>
    rw [List.replicate_succ, handle_inputs_cons_run env i _ s (f s) (h s), ih,
      Function.iterate_succ_apply]

theorem palette_count_eq (decl : List PaletteType) (hreal : PaletteType.PALETTE_COUNT ∉ decl) :
    palette_to_int decl PaletteType.PALETTE_COUNT = decl.length := by
  unfold palette_to_int
  exact List.indexOf_eq_length.mpr hreal

theorem palette_key_index (decl : List PaletteType) (hnodup : decl.Nodup)
    (hreal : PaletteType.PALETTE_COUNT ∉ decl) (s : UnicodeScreen)
    (hmem : s.palette_type ∈ decl) :
    (s.palette_key decl).palette_type ∈ decl ∧
    palette_to_int decl (s.palette_key decl).palette_type
      = (palette_to_int decl s.palette_type + 1) % decl.length := by
  have hpos : 0 < decl.length := List.length_pos_of_mem hmem
  have hlt : (palette_to_int decl s.palette_type + 1) % decl.length < decl.length :=
    Nat.mod_lt _ hpos
  have e : (s.palette_key decl).palette_type
      = decl[(palette_to_int decl s.palette_type + 1) % decl.length] := by
    show int_to_palette decl ((palette_to_int decl s.palette_type + 1)
      % palette_to_int decl PaletteType.PALETTE_COUNT) = _
    rw [palette_count_eq decl hreal]
    unfold int_to_palette
    exact List.getD_eq_getElem _ _ hlt
  rw [e]
  refine ⟨List.getElem_mem _, ?_⟩
  unfold palette_to_int
  exact List.indexOf_getElem hnodup _ hlt

theorem palette_key_iterate (decl : List PaletteType) (hnodup : decl.Nodup)
    (hreal : PaletteType.PALETTE_COUNT ∉ decl) (s : UnicodeScreen)
    (hmem : s.palette_type ∈ decl) (k : Nat) :
    ((UnicodeScreen.palette_key decl)^[k] s).palette_type ∈ decl ∧
    palette_to_int decl ((UnicodeScreen.palette_key decl)^[k] s).palette_type
      = (palette_to_int decl s.palette_type + k) % decl.length ∧
    (UnicodeScreen.palette_key decl)^[k] s
      = { s with palette_type := ((UnicodeScreen.palette_key decl)^[k] s).palette_type,
                 palette_colors := ((UnicodeScreen.palette_key decl)^[k] s).palette_colors } := by
  have hlt0 : palette_to_int decl s.palette_type < decl.length := by
    unfold palette_to_int
    exact List.indexOf_lt_length.mpr hmem
  induction k with
  | zero =>
    refine ⟨hmem, ?_, rfl⟩
    simp only [Function.iterate_zero, id_eq, Nat.add_zero]
    exact (Nat.mod_eq_of_lt hlt0).symm
  | succ k ih =>
    obtain ⟨h1, h2, h3⟩ := ih
    rw [Function.iterate_succ_apply']
    obtain ⟨g1, g2⟩ := palette_key_index decl hnodup hreal _ h1
    refine ⟨g1, ?_, ?_⟩
    · rw [g2, h2, Nat.add_mod, Nat.mod_mod, ← Nat.add_mod, Nat.add_assoc]
    · generalize (UnicodeScreen.palette_key decl)^[k] s = sk at h3 ⊢
      rw [h3]
      rfl

theorem palette_to_int_inj (decl : List PaletteType) (a b : PaletteType) (ha : a ∈ decl)
    (hb : b ∈ decl) (h : palette_to_int decl a = palette_to_int decl b) : a = b := by
  unfold palette_to_int at h
  exact (List.indexOf_inj ha hb).mp h

theorem view_cycle (v : ViewMode) :
    int_to_view ((view_to_int (int_to_view ((view_to_int
      (int_to_view ((view_to_int v + 1) % 3)) + 1) % 3)) + 1) % 3) = v := by
  cases v <;> rfl

theorem scheme_cycle (v : ColorScheme) :
    int_to_scheme ((scheme_to_int (int_to_scheme ((scheme_to_int
      (int_to_scheme ((scheme_to_int v + 1) % 3)) + 1) % 3)) + 1) % 3) = v := by
  cases v <;> rfl

/-- C34 (cycling keys): the view key steps Backbone, Grid, Surface, Backbone,
so three presses restore the view; the color-scheme key steps Rainbow, Chain,
Structure, Rainbow, so three presses restore the scheme; the palette key
moves the palette identifier to the next one modulo the number of palettes
and runs `apply_palette` on that state, so after `k` presses the identifier
has advanced by `k` modulo the number of palettes and is back exactly when
that number divides `k`; the space key toggles auto-rotation, so two presses
restore it. Each key changes no other field (the palette key: no field other
than the palette identifier and the stops that `apply_palette` writes). -/
theorem cycling_keys (env : KeyEnv) (attempts : List LoadAttempt) (s : UnicodeScreen)
    (hnodup : env.decl.Nodup) (hreal : PaletteType.PALETTE_COUNT ∉ env.decl)
    (hmem : s.palette_type ∈ env.decl) :
    (∀ c, c = key 'v' ∨ c = key 'V' →
      s.handle_input env attempts (some c)
        = some ({ s with view_mode :=
            match s.view_mode with
            | ViewMode.BACKBONE => ViewMode.GRID
            | ViewMode.GRID => ViewMode.SURFACE
            | ViewMode.SURFACE => ViewMode.BACKBONE }, true) ∧
      s.handle_inputs env (List.replicate 3 ⟨some c, attempts⟩) = some s) ∧
    (∀ c, c = key 'c' ∨ c = key 'C' →
      s.handle_input env attempts (some c)
        = some ({ s with color_scheme :=
            match s.color_scheme with
            | ColorScheme.RAINBOW => ColorScheme.CHAIN
            | ColorScheme.CHAIN => ColorScheme.STRUCTURE
            | ColorScheme.STRUCTURE => ColorScheme.RAINBOW }, true) ∧
      s.handle_inputs env (List.replicate 3 ⟨some c, attempts⟩) = some s) ∧
    (∀ c, c = key 'p' ∨ c = key 'P' →
      s.handle_input env attempts (some c)
        = some (UnicodeScreen.apply_palette
            { s with palette_type := int_to_palette env.decl ((palette_to_int env.decl
                s.palette_type + 1) % palette_to_int env.decl PaletteType.PALETTE_COUNT) },
            true) ∧
      palette_to_int env.decl PaletteType.PALETTE_COUNT = env.decl.length ∧
      ∀ k, ∃ sk : UnicodeScreen,
        s.handle_inputs env (List.replicate k ⟨some c, attempts⟩) = some sk ∧
        sk = { s with palette_type := sk.palette_type, palette_colors := sk.palette_colors } ∧
        palette_to_int env.decl sk.palette_type
          = (palette_to_int env.decl s.palette_type + k) % env.decl.length ∧
        (sk.palette_type = s.palette_type ↔ env.decl.length ∣ k)) ∧
    (s.handle_input env attempts (some (key ' '))
        = some ({ s with auto_rotate := !s.auto_rotate }, true) ∧
      s.handle_inputs env (List.replicate 2 ⟨some (key ' '), attempts⟩) = some s) := by
  refine ⟨fun c hc => ⟨?_, ?_⟩, fun c hc => ⟨?_, ?_⟩, fun c hc => ⟨?_, ?_, fun k => ?_⟩, ?_, ?_⟩
  · rw [handle_input_view env attempts s c hc]
    cases hv : s.view_mode <;> rfl
  · rw [handle_inputs_replicate env ⟨some c, attempts⟩
      (fun t => { t with view_mode := int_to_view ((view_to_int t.view_mode + 1) % 3) })
      (fun t => handle_input_view env attempts t c hc)]
    have h3 : ∀ v1 : ViewMode, v1 = s.view_mode →
        ({ s with view_mode := v1 } : UnicodeScreen) = s := by
      intro v1 h
      rw [h]
    exact congrArg some (h3 _ (view_cycle s.view_mode))
  · rw [handle_input_scheme env attempts s c hc]
    cases hv : s.color_scheme <;> rfl
  · rw [handle_inputs_replicate env ⟨some c, attempts⟩
      (fun t => { t with color_scheme := int_to_scheme ((scheme_to_int t.color_scheme + 1) % 3) })
      (fun t => handle_input_scheme env attempts t c hc)]
    have h3 : ∀ v1 : ColorScheme, v1 = s.color_scheme →
        ({ s with color_scheme := v1 } : UnicodeScreen) = s := by
      intro v1 h
      rw [h]
    exact congrArg some (h3 _ (scheme_cycle s.color_scheme))
  · rw [handle_input_palette env attempts s c hc]
    rfl
  · exact palette_count_eq env.decl hreal
  · obtain ⟨h1, h2, h3⟩ := palette_key_iterate env.decl hnodup hreal s hmem k
    refine ⟨(UnicodeScreen.palette_key env.decl)^[k] s,
      handle_inputs_replicate env ⟨some c, attempts⟩ (UnicodeScreen.palette_key env.decl)
        (fun t => handle_input_palette env attempts t c hc) k s, h3, h2, ?_⟩
    have hlt0 : palette_to_int env.decl s.palette_type < env.decl.length := by
      unfold palette_to_int
      exact List.indexOf_lt_length.mpr hmem
    constructor
    · intro e
      rw [e] at h2
      have h4 : (palette_to_int env.decl s.palette_type + k) % env.decl.length
          = (palette_to_int env.decl s.palette_type + 0) % env.decl.length := by
        rw [← h2, Nat.add_zero, Nat.mod_eq_of_lt hlt0]
      have h5 : k % env.decl.length = 0 % env.decl.length :=
        Nat.ModEq.add_left_cancel' _ h4
      exact Nat.dvd_of_mod_eq_zero (by simpa using h5)
    · intro hd
      apply palette_to_int_inj env.decl _ _ h1 hmem
      rw [h2]
      obtain ⟨m, rfl⟩ := hd
      rw [Nat.add_mul_mod_self_left]
      exact Nat.mod_eq_of_lt hlt0
  · exact handle_input_space env attempts s
  · rw [handle_inputs_replicate env ⟨some (key ' '), attempts⟩
      (fun t => { t with auto_rotate := !t.auto_rotate })
      (fun t => handle_input_space env attempts t)]
    simp only [Function.iterate_succ, Function.iterate_zero, Function.comp_apply, id_eq,
      Bool.not_not]

/-- Instance of C34: on the screen `demo_controls` with the five palettes of the
header, three presses of `v`, three of `c`, five of `p` and two of the space
key each give back the palette identifier, view, scheme and rotation flag
they started from. -/
theorem cycling_keys_witness :
    demo_controls.handle_inputs demo_keys (List.replicate 3 ⟨some (key 'v'), []⟩)
      = some demo_controls ∧
    demo_controls.handle_inputs demo_keys (List.replicate 3 ⟨some (key 'c'), []⟩)
      = some demo_controls ∧
    (∃ sk : UnicodeScreen,
      demo_controls.handle_inputs demo_keys (List.replicate 5 ⟨some (key 'p'), []⟩) = some sk ∧
      sk.palette_type = demo_controls.palette_type) ∧
    demo_controls.handle_inputs demo_keys (List.replicate 2 ⟨some (key ' '), []⟩)
      = some demo_controls := by
  obtain ⟨hv, hc, hp, hs⟩ := cycling_keys demo_keys [] demo_controls (by decide) (by decide)
    (by decide)
  obtain ⟨sk, h1, -, -, h4⟩ := (hp (key 'p') (Or.inl rfl)).2.2 5
  exact ⟨(hv _ (Or.inl rfl)).2, (hc _ (Or.inl rfl)).2, ⟨sk, h1, h4.mpr (by decide)⟩, hs.2⟩

/-! ## Properties of the pan keys -/

theorem pan_update_selected (pan : List ℚ) (k : Nat) (v delta : ℚ) (h : pan[k]? = some v) :
    pan_update pan (k : Int) delta = some (pan.set k (v + delta)) := by
  unfold pan_update
  simp only [ge_iff_le, Int.natCast_nonneg, if_true, Int.toNat_ofNat, h]

theorem pan_update_all (pan : List ℚ) (delta : ℚ) :
    pan_update pan (-1) delta = some (pan.map (fun v => v + delta)) := by
  unfold pan_update
  rw [if_neg (by decide)]

/-- C35 (pan keys): with the structure `k ≥ 0` selected, `a` subtracts 0.05
from the horizontal pan of structure `k`, `d` adds 0.05 to it, `w` adds 0.05
to its vertical pan and `s` subtracts 0.05 from it; the pans of the other
structures, the other component and every other field are unchanged. With
the selection -1 the same change applies to every structure. Whatever the
selection, a pan key that returns leaves the lengths of both pan lists
unchanged. -/
theorem pan_keys (env : KeyEnv) (attempts : List LoadAttempt) (s : UnicodeScreen) :
    (∀ (k : Nat) (x y : ℚ), s.structNum = (k : Int) → s.pan_x[k]? = some x →
      s.pan_y[k]? = some y →
      (∀ c, c = key 'a' ∨ c = key 'A' → s.handle_input env attempts (some c)
        = some ({ s with pan_x := s.pan_x.set k (x - 5 / 100) }, true)) ∧
      (∀ c, c = key 'd' ∨ c = key 'D' → s.handle_input env attempts (some c)
        = some ({ s with pan_x := s.pan_x.set k (x + 5 / 100) }, true)) ∧
      (∀ c, c = key 'w' ∨ c = key 'W' → s.handle_input env attempts (some c)
        = some ({ s with pan_y := s.pan_y.set k (y + 5 / 100) }, true)) ∧
      (∀ c, c = key 's' ∨ c = key 'S' → s.handle_input env attempts (some c)
        = some ({ s with pan_y := s.pan_y.set k (y - 5 / 100) }, true)) ∧
      (∀ (j : Nat) (v : ℚ), j ≠ k → (s.pan_x.set k v)[j]? = s.pan_x[j]? ∧
        (s.pan_y.set k v)[j]? = s.pan_y[j]?) ∧
      (∀ v : ℚ, (s.pan_x.set k v)[k]? = some v ∧ (s.pan_y.set k v)[k]? = some v)) ∧
    (s.structNum = -1 →
      (∀ c, c = key 'a' ∨ c = key 'A' → s.handle_input env attempts (some c)
        = some ({ s with pan_x := s.pan_x.map (fun v => v - 5 / 100) }, true)) ∧
      (∀ c, c = key 'd' ∨ c = key 'D' → s.handle_input env attempts (some c)
        = some ({ s with pan_x := s.pan_x.map (fun v => v + 5 / 100) }, true)) ∧
      (∀ c, c = key 'w' ∨ c = key 'W' → s.handle_input env attempts (some c)
        = some ({ s with pan_y := s.pan_y.map (fun v => v + 5 / 100) }, true)) ∧
      (∀ c, c = key 's' ∨ c = key 'S' → s.handle_input env attempts (some c)
        = some ({ s with pan_y := s.pan_y.map (fun v => v - 5 / 100) }, true))) ∧
    (∀ (c : Nat) (s1 : UnicodeScreen) (run : Bool),
      c ∈ [key 'a', key 'A', key 'd', key 'D', key 'w', key 'W', key 's', key 'S'] →
      s.handle_input env attempts (some c) = some (s1, run) →
      s1.pan_x.length = s.pan_x.length ∧ s1.pan_y.length = s.pan_y.length) := by
  refine ⟨fun k x y hk hx hy => ⟨fun c hc => ?_, fun c hc => ?_, fun c hc => ?_, fun c hc => ?_,
    fun j v hj => ?_, fun v => ?_⟩, fun hall => ⟨fun c hc => ?_, fun c hc => ?_, fun c hc => ?_,
    fun c hc => ?_⟩, fun c s1 run hc h => ?_⟩
  · rw [handle_input_pan_left env attempts s c hc, hk, pan_update_selected _ _ _ _ hx]
    simp only [pan_step, Option.map_some', sub_eq_add_neg]
  · rw [handle_input_pan_right env attempts s c hc, hk, pan_update_selected _ _ _ _ hx]
    simp only [pan_step, Option.map_some']
  · rw [handle_input_pan_up env attempts s c hc, hk, pan_update_selected _ _ _ _ hy]
    simp only [pan_step, Option.map_some']
  · rw [handle_input_pan_down env attempts s c hc, hk, pan_update_selected _ _ _ _ hy]
    simp only [pan_step, Option.map_some', sub_eq_add_neg]
  · exact ⟨List.getElem?_set_ne (Ne.symm hj), List.getElem?_set_ne (Ne.symm hj)⟩
  · have h1 : k < s.pan_x.length := (List.getElem?_eq_some_iff.mp hx).1
    have h2 : k < s.pan_y.length := (List.getElem?_eq_some_iff.mp hy).1
    exact ⟨by simp [List.getElem?_set, h1], by simp [List.getElem?_set, h2]⟩
  · rw [handle_input_pan_left env attempts s c hc, hall, pan_update_all]
    simp only [pan_step, Option.map_some', sub_eq_add_neg]
  · rw [handle_input_pan_right env attempts s c hc, hall, pan_update_all]
    simp only [pan_step, Option.map_some']
  · rw [handle_input_pan_up env attempts s c hc, hall, pan_update_all]
    simp only [pan_step, Option.map_some']
  · rw [handle_input_pan_down env attempts s c hc, hall, pan_update_all]
    simp only [pan_step, Option.map_some', sub_eq_add_neg]
  · simp only [List.mem_cons, List.mem_singleton, List.not_mem_nil, or_false] at hc
    have hcases : (c = key 'a' ∨ c = key 'A') ∨ (c = key 'd' ∨ c = key 'D') ∨
        (c = key 'w' ∨ c = key 'W') ∨ (c = key 's' ∨ c = key 'S') := by tauto
    rcases hcases with hc | hc | hc | hc
    · rw [handle_input_pan_left env attempts s c hc] at h
      cases hp : pan_update s.pan_x s.structNum (-pan_step) with
      | none => simp [hp] at h
      | some pan =>
        simp only [hp, Option.map_some', Option.some.injEq, Prod.mk.injEq] at h
        rw [← h.1]
        exact ⟨pan_update_length _ _ _ _ hp, rfl⟩
    · rw [handle_input_pan_right env attempts s c hc] at h
      cases hp : pan_update s.pan_x s.structNum pan_step with
      | none => simp [hp] at h
      | some pan =>
        simp only [hp, Option.map_some', Option.some.injEq, Prod.mk.injEq] at h
        rw [← h.1]
        exact ⟨pan_update_length _ _ _ _ hp, rfl⟩
    · rw [handle_input_pan_up env attempts s c hc] at h
      cases hp : pan_update s.pan_y s.structNum pan_step with
      | none => simp [hp] at h
      | some pan =>
        simp only [hp, Option.map_some', Option.some.injEq, Prod.mk.injEq] at h
        rw [← h.1]
        exact ⟨rfl, pan_update_length _ _ _ _ hp⟩
    · rw [handle_input_pan_down env attempts s c hc] at h
      cases hp : pan_update s.pan_y s.structNum (-pan_step) with
      | none => simp [hp] at h
      | some pan =>
        simp only [hp, Option.map_some', Option.some.injEq, Prod.mk.injEq] at h
        rw [← h.1]
        exact ⟨rfl, pan_update_length _ _ _ _ hp⟩

/-- Instance of C35: on the screen `demo_controls` with structure 0 selected
and both pans 0, the key `a` moves the horizontal pan to -0.05 and leaves
everything else as it was. -/
theorem pan_keys_witness :
    ({ demo_controls with structNum := 0 } : UnicodeScreen).handle_input demo_keys []
        (some (key 'a'))
      = some ({ demo_controls with structNum := 0, pan_x := [-(5 / 100)] }, true) := by
  have h := ((pan_keys demo_keys [] { demo_controls with structNum := 0 }).1 0 0 0 rfl rfl
    rfl).1 (key 'a') (Or.inl rfl)
  rw [h]
  simp [demo_controls]

/-! ## Properties of the word wrap -/

theorem stream_words_from_spec (text cur : List Nat) (hcur : ∀ c ∈ cur, is_space c = false) :
    ∀ w ∈ stream_words_from text cur, w ≠ [] ∧ ∀ c ∈ w, is_space c = false := by
  induction text generalizing cur with
  | nil =>
    intro w hw
    unfold stream_words_from at hw
    by_cases h : cur = []
    · simp [h] at hw
    · simp only [h, if_false, List.mem_singleton] at hw
      subst hw
      exact ⟨h, hcur⟩
  | cons c rest ih =>
    intro w hw
    unfold stream_words_from at hw
    by_cases hs : is_space c = true
    · by_cases h : cur = []
      · simp only [hs, h, if_true] at hw
        exact ih [] (by simp) w hw
      · simp only [hs, h, if_true, if_false, List.mem_cons] at hw
        rcases hw with hw | hw
        · subst hw
          exact ⟨h, hcur⟩
        · exact ih [] (by simp) w hw
    · simp only [hs, if_false, Bool.false_eq_true] at hw
      apply ih (cur ++ [c]) _ w hw
      intro d hd
      rcases List.mem_append.mp hd with hd | hd
      · exact hcur d hd
      · rw [List.mem_singleton.mp hd]
        simpa using hs

theorem stream_words_nonempty (text : List Nat) : ∀ w ∈ stream_words text, w ≠ [] :=
  fun w hw => (stream_words_from_spec text [] (by simp) w hw).1

theorem join_words_singleton (w : List Nat) : join_words [w] = w := by
  simp [join_words, List.intercalate]

theorem join_words_cons (w : List Nat) (g : List (List Nat)) (hg : g ≠ []) :
    join_words (w :: g) = w ++ ([32] ++ join_words g) := by
  cases g with
  | nil => exact absurd rfl hg
  | cons a g =>
    simp [join_words, List.intercalate, List.intersperse]

theorem join_words_append (g h : List (List Nat)) (hg : g ≠ []) (hh : h ≠ []) :
    join_words (g ++ h) = join_words g ++ ([32] ++ join_words h) := by
  induction g with
  | nil => exact absurd rfl hg
  | cons a g ih =>
    by_cases hgn : g = []
    · subst hgn
      rw [List.singleton_append, join_words_cons a h hh, join_words_singleton]
    · rw [List.cons_append, join_words_cons a (g ++ h) (by simp [hgn]), ih hgn,
        join_words_cons a g hgn]
      simp only [List.append_assoc]

theorem join_words_eq_nil (g : List (List Nat)) (hg : g ≠ []) (hw : ∀ w ∈ g, w ≠ []) :
    join_words g ≠ [] := by
  cases g with
  | nil => exact absurd rfl hg
  | cons a g =>
    have ha : a ≠ [] := hw a (List.mem_cons_self _ _)
    by_cases hgn : g = []
    · subst hgn
      rw [join_words_singleton]
      exact ha
    · rw [join_words_cons a g hgn]
      simp [ha]

theorem join_words_flatten (gs : List (List (List Nat))) (hne : ∀ g ∈ gs, g ≠ []) :
    join_words (gs.map join_words) = join_words gs.flatten := by
  induction gs with
  | nil => rfl
  | cons g gs ih =>
    have hg : g ≠ [] := hne g (List.mem_cons_self _ _)
    have ih1 := ih (fun x hx => hne x (List.mem_cons_of_mem _ hx))
    by_cases hgs : gs = []
    · subst hgs
      simp [join_words_singleton]
    · have hfl : gs.flatten ≠ [] := by
        cases gs with
        | nil => exact absurd rfl hgs
        | cons x xs =>
          have hx : x ≠ [] := hne x (List.mem_cons_of_mem _ (List.mem_cons_self _ _))
          simp [hx]
      rw [List.map_cons, join_words_cons _ _ (by simp [hgs]), ih1, List.flatten_cons,
        join_words_append g _ hg hfl]

theorem wrap_step_sim (width : Int) (gst : List (List (List Nat)) × List (List Nat))
    (word : List Nat) (h2 : ∀ w ∈ gst.2, w ≠ []) :
    wrap_step width (gst.1.map join_words, join_words gst.2) word
      = ((wrap_step_words width gst word).1.map join_words,
          join_words (wrap_step_words width gst word).2) := by
  unfold wrap_step wrap_step_words
  by_cases hg : gst.2 = []
  · simp [hg, join_words, List.intercalate]
  · have hj : join_words gst.2 ≠ [] := join_words_eq_nil gst.2 hg h2
    have he : (join_words gst.2).isEmpty = false := by
      cases hjj : join_words gst.2 with
      | nil => exact absurd hjj hj
      | cons a l => rfl
    simp only [he, Bool.false_eq_true, if_false, hg]
    by_cases hfit : (((join_words gst.2).length + 1 + word.length : Nat) : Int) ≤ width
    · simp only [hfit, if_true]
      rw [join_words_append gst.2 [word] hg (by simp), join_words_singleton]
    · simp only [hfit, if_false, List.map_append, List.map_cons, List.map_nil,
        join_words_singleton]

theorem wrap_step_words_mem (width : Int) (gst : List (List (List Nat)) × List (List Nat))
    (word : List Nat) (hword : word ≠ []) (h2 : ∀ w ∈ gst.2, w ≠ []) :
    ∀ w ∈ (wrap_step_words width gst word).2, w ≠ [] := by
  unfold wrap_step_words
  intro w hw
  split_ifs at hw
  · rw [List.mem_singleton.mp hw]; exact hword
  · rcases List.mem_append.mp hw with h | h
    · exact h2 w h
    · rw [List.mem_singleton.mp h]; exact hword
  · rw [List.mem_singleton.mp hw]; exact hword

theorem wrap_fold_sim (width : Int) (ws : List (List Nat)) (hws : ∀ w ∈ ws, w ≠ [])
    (gst : List (List (List Nat)) × List (List Nat)) (h2 : ∀ w ∈ gst.2, w ≠ []) :
    ws.foldl (wrap_step width) (gst.1.map join_words, join_words gst.2)
      = ((ws.foldl (wrap_step_words width) gst).1.map join_words,
          join_words (ws.foldl (wrap_step_words width) gst).2) ∧
    ∀ w ∈ (ws.foldl (wrap_step_words width) gst).2, w ≠ [] := by
  induction ws generalizing gst with
  | nil => exact ⟨rfl, h2⟩
  | cons a ws ih =>
    simp only [List.foldl_cons]
    rw [wrap_step_sim width gst a h2]
    exact ih (fun w hw => hws w (List.mem_cons_of_mem _ hw)) _
      (wrap_step_words_mem width gst a (hws a (List.mem_cons_self _ _)) h2)

theorem word_wrap_groups (text : List Nat) (width : Int) :
    word_wrap text width = (wrap_groups (stream_words text) width).map join_words := by
  obtain ⟨h1, h2⟩ := wrap_fold_sim width (stream_words text) (stream_words_nonempty text)
    ([], []) (by simp)
  unfold word_wrap wrap_groups
  have e : (([] : List (List (List Nat))).map join_words, join_words [])
      = (([] : List (List Nat)), ([] : List Nat)) := rfl
  rw [e] at h1
  simp only [h1]
  by_cases hg : ((stream_words text).foldl (wrap_step_words width) ([], [])).2 = []
  · simp [hg, join_words, List.intercalate]
  · have hj := join_words_eq_nil _ hg h2
    have he : (join_words
        ((stream_words text).foldl (wrap_step_words width) ([], [])).2).isEmpty = false := by
      cases hjj : join_words ((stream_words text).foldl (wrap_step_words width) ([], [])).2 with
      | nil => exact absurd hjj hj
      | cons a l => rfl
    simp only [he, Bool.false_eq_true, if_false, hg, List.map_append, List.map_cons,
      List.map_nil]

theorem wrap_inv_step (width : Int) (ws : List (List Nat))
    (st : List (List (List Nat)) × List (List Nat)) (word : List Nat)
    (h : wrap_inv width ws st) : wrap_inv width (ws ++ [word]) (wrap_step_words width st word) := by
  obtain ⟨h1, h2, h3, h4, h5⟩ := h
  unfold wrap_step_words
  by_cases hg : st.2 = []
  · have hs1 : st.1 = [] := by
      by_contra hne
      exact h3 hne hg
    simp only [hg, if_true]
    rw [hs1, hg] at h1
    simp only [List.flatten_nil, List.append_nil] at h1
    refine ⟨by rw [hs1, ← h1]; rfl, h2, fun _ => by simp, ?_, ?_⟩
    · intro g hgm hlen
      rw [hs1] at hgm
      simp only [List.nil_append, List.mem_singleton] at hgm
      rw [hgm] at hlen
      simp at hlen
    · rw [hs1]
      exact List.chain'_singleton _
  · simp only [hg, if_false]
    by_cases hfit : (((join_words st.2).length + 1 + word.length : Nat) : Int) ≤ width
    · simp only [hfit, if_true]
      refine ⟨by rw [← h1, List.append_assoc], h2, fun _ => by simp, ?_, ?_⟩
      · intro g hgm hlen
        rcases List.mem_append.mp hgm with hm | hm
        · exact h4 g (List.mem_append_left _ hm) hlen
        · rw [List.mem_singleton.mp hm, join_words_append st.2 [word] hg (by simp),
            join_words_singleton]
          have hl : (join_words st.2 ++ ([32] ++ word)).length
              = (join_words st.2).length + 1 + word.length := by
            simp only [List.length_append, List.length_singleton]
            omega
          rw [hl]
          exact hfit
      · rw [List.chain'_append] at h5 ⊢
        refine ⟨h5.1, List.chain'_singleton _, ?_⟩
        intro x hx y hy
        obtain ⟨w, hw1, hw2⟩ := h5.2.2 x hx st.2 (by simp)
        simp only [List.head?_cons, Option.mem_def, Option.some.injEq] at hy
        subst hy
        refine ⟨w, ?_, hw2⟩
        cases hst : st.2 with
        | nil => exact absurd hst hg
        | cons a l =>
          rw [hst] at hw1
          simpa using hw1
    · simp only [hfit, if_false]
      refine ⟨by rw [← h1]; simp, ?_, fun _ => by simp, ?_, ?_⟩
      · intro g hgm
        rcases List.mem_append.mp hgm with hm | hm
        · exact h2 g hm
        · rw [List.mem_singleton.mp hm]; exact hg
      · intro g hgm hlen
        rcases List.mem_append.mp hgm with hm | hm
        · exact h4 g hm hlen
        · rw [List.mem_singleton.mp hm] at hlen
          simp at hlen
      · rw [List.chain'_append]
        refine ⟨h5, List.chain'_singleton _, ?_⟩
        intro x hx y hy
        simp only [List.getLast?_concat, Option.mem_def, Option.some.injEq] at hx
        simp only [List.head?_cons, Option.mem_def, Option.some.injEq] at hy
        subst hx hy
        exact ⟨word, rfl, not_le.mp hfit⟩

theorem wrap_inv_fold (width : Int) (ws pre : List (List Nat))
    (st : List (List (List Nat)) × List (List Nat)) (h : wrap_inv width pre st) :
    wrap_inv width (pre ++ ws) (ws.foldl (wrap_step_words width) st) := by
  induction ws generalizing pre st with
  | nil => simpa using h
  | cons a ws ih =>
    have h1 := ih (pre ++ [a]) _ (wrap_inv_step width pre st a h)
    simpa using h1

/-- C36 (word wrap): the lines of `word_wrap` are the words of the text, in
order and split into groups, each line being the words of its group joined
by single spaces. Hence joining the lines with single spaces gives the words
of the text joined by single spaces; no line is empty; every line of more
than one word has a length of at most `width`; and the wrap is greedy: the
first word of every line after the first did not fit on the line before it
(the length of that line plus one plus the length of the word exceeds
`width`). -/
theorem word_wrap_spec (text : List Nat) (width : Int) :
    ∃ groups : List (List (List Nat)),
      groups.flatten = stream_words text ∧
      word_wrap text width = groups.map join_words ∧
      (∀ g ∈ groups, g ≠ []) ∧
      join_words (word_wrap text width) = join_words (stream_words text) ∧
      (∀ line ∈ word_wrap text width, line ≠ []) ∧
      (∀ g ∈ groups, 1 < g.length → ((join_words g).length : Int) ≤ width) ∧
      List.Chain' (fun g1 g2 => ∃ w, g2.head? = some w ∧
        width < (((join_words g1).length + 1 + w.length : Nat) : Int)) groups := by
  have hinv := wrap_inv_fold width (stream_words text) [] ([], [])
    ⟨rfl, by simp, by simp, by simp, by simp⟩
  simp only [List.nil_append] at hinv
  obtain ⟨h1, h2, h3, h4, h5⟩ := hinv
  have hgroups := word_wrap_groups text width
  by_cases hg : ((stream_words text).foldl (wrap_step_words width) ([], [])).2 = []
  · have hs1 : ((stream_words text).foldl (wrap_step_words width) ([], [])).1 = [] := by
      by_contra hne
      exact h3 hne hg
    have e : wrap_groups (stream_words text) width = [] := by
      simp only [wrap_groups, hg, if_true, hs1]
    rw [hs1, hg] at h1
    simp only [List.flatten_nil, List.append_nil] at h1
    refine ⟨[], by rw [← h1]; rfl, by rw [hgroups, e, List.map_nil], by simp, ?_, ?_, by simp,
      List.chain'_nil⟩
    · rw [hgroups, e, ← h1]; rfl
    · rw [hgroups, e]; simp
  · have e : wrap_groups (stream_words text) width
        = ((stream_words text).foldl (wrap_step_words width) ([], [])).1
          ++ [((stream_words text).foldl (wrap_step_words width) ([], [])).2] := by
      simp only [wrap_groups, hg, if_false]
    have hne : ∀ g ∈ wrap_groups (stream_words text) width, g ≠ [] := by
      intro g hgm
      rw [e] at hgm
      rcases List.mem_append.mp hgm with hm | hm
      · exact h2 g hm
      · rw [List.mem_singleton.mp hm]; exact hg
    have hfl : (wrap_groups (stream_words text) width).flatten = stream_words text := by
      rw [e]
      simp only [List.flatten_append, List.flatten_cons, List.flatten_nil, List.append_nil]
      exact h1
    refine ⟨wrap_groups (stream_words text) width, hfl, hgroups, hne, ?_, ?_, ?_, ?_⟩
    · rw [hgroups, join_words_flatten _ hne, hfl]
    · intro line hl
      rw [hgroups] at hl
      obtain ⟨g, hgm, rfl⟩ := List.mem_map.mp hl
      apply join_words_eq_nil g (hne g hgm)
      intro w hw
      apply stream_words_nonempty text
      rw [← hfl]
      exact List.mem_flatten.mpr ⟨g, hgm, hw⟩
    · intro g hgm
      rw [e] at hgm
      exact h4 g hgm
    · rw [e]
      exact h5

theorem word_wrap_example :
    stream_words [32, 97, 98, 32, 32, 99, 100, 10, 101, 32, 102, 103, 104, 105, 106]
      = [[97, 98], [99, 100], [101], [102, 103, 104, 105, 106]] ∧
    word_wrap [32, 97, 98, 32, 32, 99, 100, 10, 101, 32, 102, 103, 104, 105, 106] 4
      = [[97, 98], [99, 100, 32, 101], [102, 103, 104, 105, 106]] := by
  decide

/-! ## Properties of the flattened atom list -/

theorem grid_atoms_gap (pb pc : ProjAtom) (total : Int) (color : RGB)
    (hc : demo_gap.resolve_color pc total = some color) :
    demo_gap.grid_atoms [[pb], [pc]] total
      = some [{ sx := pc.sx, sy := pc.sy, z := pc.z, brightness := pc.brightness,
                x3d := 1, y3d := 2, z3d := 3, color := color }] := by
  simp [UnicodeScreen.grid_atoms, UnicodeScreen.grid_chain, demo_gap, List.range_succ] at hc ⊢
  simp [hc, Atom.get_position]

theorem project_atoms_gap (tanf : ℚ → ℚ) :
    project_atoms tanf demo_gap.data demo_gap.pan_x demo_gap.zoom_level demo_gap.focal_offset
        demo_gap.pan_y demo_gap.buf_width demo_gap.buf_height
      = some ([[project_atom (scene_env tanf demo_gap.data [0] (28 / 10) 5 [0] 10 10)
            { get_atoms := [⟨"A", [], 0⟩, ⟨"B", [⟨1, 2, 3, 'H'⟩], 1⟩,
                             ⟨"C", [⟨3, 0, 1, 'H'⟩], 1⟩] } 0 0 1 ⟨1, 2, 3, 'H'⟩ 0],
          [project_atom (scene_env tanf demo_gap.data [0] (28 / 10) 5 [0] 10 10)
            { get_atoms := [⟨"A", [], 0⟩, ⟨"B", [⟨1, 2, 3, 'H'⟩], 1⟩,
                             ⟨"C", [⟨3, 0, 1, 'H'⟩], 1⟩] } 0 0 2 ⟨3, 0, 1, 'H'⟩ 1]], 2) := by
  rw [project_atoms_exact tanf _ _ _ _ _ _ _ (by simp [demo_gap]) (by simp [demo_gap])
    (by simp [demo_gap])]
  simp [demo_gap, projected_scene, projected_chains, project_list, scene_atoms,
    Protein.all_atoms, scene_env]

/-- C37, evaluation at the failing input: the structure of `demo_gap` lists a
chain without atoms before the chain B with the atom (1, 2, 3) and the chain
C with the atom (3, 0, 1). `project_atoms` skips the empty chain, so its
output holds two chains: the projection `pb` of the atom of B (depth 6) and
the projection `pc` of the atom of C (depth 4). The first loop of
`project_grid` counts the empty chain in `chain_offset`, reads `chains[1]`
for B and nothing for C: the flattened list has one entry for the two atoms
of the scene, and this entry pairs the screen position, depth and brightness
of the atom of C with the 3D position (1, 2, 3) of the atom of B. -/
theorem grid_atoms_misaligned :
    (scene_atoms demo_gap.data).length = 2 ∧
    ∃ (pb pc : ProjAtom) (fa : FlatAtom),
      project_atoms (fun x => x) demo_gap.data demo_gap.pan_x demo_gap.zoom_level
        demo_gap.focal_offset demo_gap.pan_y demo_gap.buf_width demo_gap.buf_height
        = some ([[pb], [pc]], 2) ∧
      pb.z = 6 ∧ pc.z = 4 ∧
      demo_gap.grid_atoms [[pb], [pc]] 2 = some [fa] ∧
      fa.sx = pc.sx ∧ fa.sy = pc.sy ∧ fa.z = 4 ∧ fa.brightness = pc.brightness ∧
      fa.x3d = 1 ∧ fa.y3d = 2 ∧ fa.z3d = 3 := by
  refine ⟨rfl, ?_⟩
  obtain ⟨color, hc⟩ := resolve_color_some demo_gap (by simp [demo_gap])
    (by simp [demo_gap, RGB.valid])
    (project_atom (scene_env (fun x => x) demo_gap.data [0] (28 / 10) 5 [0] 10 10)
      { get_atoms := [⟨"A", [], 0⟩, ⟨"B", [⟨1, 2, 3, 'H'⟩], 1⟩,
                       ⟨"C", [⟨3, 0, 1, 'H'⟩], 1⟩] } 0 0 2 ⟨3, 0, 1, 'H'⟩ 1) 2
  have hzb : ∀ (target : Protein) (c g : Int),
      (project_atom (scene_env (fun x => x) demo_gap.data [0] (28 / 10) 5 [0] 10 10)
        target 0 0 c ⟨1, 2, 3, 'H'⟩ g).z = 6 := by
    intro target c g
    norm_num [project_atom, scene_env, scene_atoms, Protein.all_atoms, demo_gap,
      Atom.get_position]
  have hzc : ∀ (target : Protein) (c g : Int),
      (project_atom (scene_env (fun x => x) demo_gap.data [0] (28 / 10) 5 [0] 10 10)
        target 0 0 c ⟨3, 0, 1, 'H'⟩ g).z = 4 := by
    intro target c g
    norm_num [project_atom, scene_env, scene_atoms, Protein.all_atoms, demo_gap,
      Atom.get_position]
  refine ⟨_, _, _, project_atoms_gap (fun x => x), ?_, ?_,
    grid_atoms_gap _ _ 2 color hc, rfl, rfl, ?_, rfl, rfl, rfl, rfl⟩
  · exact hzb _ _ _
  · exact hzc _ _ _
  · exact hzc { get_atoms := [⟨"A", [], 0⟩, ⟨"B", [⟨1, 2, 3, 'H'⟩], 1⟩,
      ⟨"C", [⟨3, 0, 1, 'H'⟩], 1⟩] } 2 1

/-! ## Properties of the terminal geometry -/

theorem query_terminal_size_braille (ws : Winsize) (s : UnicodeScreen)
    (hmode : s.use_sixel = false) (hcols : 1 ≤ ws.ws_col) :
    ∃ s1 : UnicodeScreen, s.query_terminal_size (some ws) = some s1 ∧
      s1.info_rows = 1 + (s.data.length : Int) ∧
      s1.buf_width = 2 * (ws.ws_col : Int) ∧
      s1.buf_height = 4 * max 4 ((ws.ws_row : Int) - s1.info_rows) ∧
      0 < s1.buf_width ∧ 16 ≤ s1.buf_height ∧ s1.buf_height % 4 = 0 := by
  have e : s.query_terminal_size (some ws)
      = some { s with term_cols := ws.ws_col, term_rows := ws.ws_row,
                      info_rows := 1 + (s.data.length : Int),
                      buf_width := (ws.ws_col : Int) * 2,
                      buf_height := max 4 ((ws.ws_row : Int) - (1 + (s.data.length : Int))) * 4 } := by
    simp only [UnicodeScreen.query_terminal_size, hmode, Bool.false_eq_true, if_false]
  refine ⟨_, e, rfl, Int.mul_comm _ _, Int.mul_comm _ _, ?_, ?_, ?_⟩
  · show 0 < (ws.ws_col : Int) * 2
    omega
  · show 16 ≤ max 4 ((ws.ws_row : Int) - (1 + (s.data.length : Int))) * 4
    have := le_max_left (4 : Int) ((ws.ws_row : Int) - (1 + (s.data.length : Int)))
    omega
  · show max 4 ((ws.ws_row : Int) - (1 + (s.data.length : Int))) * 4 % 4 = 0
    exact Int.mul_emod_left _ _

theorem query_terminal_size_pixels (ws : Winsize) (s : UnicodeScreen)
    (hmode : s.use_sixel = true) (hrows : 1 ≤ ws.ws_row)
    (hx : 0 < ws.ws_xpixel) (hy : 0 < ws.ws_ypixel) :
    ∃ s1 : UnicodeScreen, s.query_terminal_size (some ws) = some s1 ∧
      s1.buf_width = (ws.ws_xpixel : Int) ∧ 0 < s1.buf_width ∧ 6 ≤ s1.buf_height := by
  have h1 : (0 : Int) < (ws.ws_xpixel : Int) ∧ (0 : Int) < (ws.ws_ypixel : Int) := by
    constructor <;> omega
  have h2 : ¬ (ws.ws_row : Int) = 0 := by omega
  have e : s.query_terminal_size (some ws)
      = some { s with term_cols := ws.ws_col, term_rows := ws.ws_row,
                      pixel_width := ws.ws_xpixel, pixel_height := ws.ws_ypixel,
                      info_rows := 1 + (s.data.length : Int),
                      buf_width := (ws.ws_xpixel : Int),
                      buf_height := max 6 ((ws.ws_ypixel : Int) - (1 + (s.data.length : Int))
                        * Int.tdiv (ws.ws_ypixel : Int) (ws.ws_row : Int)) } := by
    simp only [UnicodeScreen.query_terminal_size, hmode, if_true, gt_iff_lt, h1, and_self, h2,
      if_false]
  exact ⟨_, e, rfl, h1.1, le_max_left _ _⟩

theorem query_terminal_size_cells (ws : Winsize) (s : UnicodeScreen)
    (hmode : s.use_sixel = true) (hpix : ws.ws_xpixel = 0 ∨ ws.ws_ypixel = 0) :
    ∃ s1 : UnicodeScreen, s.query_terminal_size (some ws) = some s1 ∧
      s1.info_rows = 1 + (s.data.length : Int) ∧
      s1.buf_width = (ws.ws_col : Int) * 8 ∧
      s1.buf_height = ((ws.ws_row : Int) - s1.info_rows) * 16 := by
  have h1 : ¬ ((0 : Int) < (ws.ws_xpixel : Int) ∧ (0 : Int) < (ws.ws_ypixel : Int)) := by
    omega
  have e : s.query_terminal_size (some ws)
      = some { s with term_cols := ws.ws_col, term_rows := ws.ws_row,
                      pixel_width := ws.ws_xpixel, pixel_height := ws.ws_ypixel,
                      info_rows := 1 + (s.data.length : Int),
                      buf_width := (ws.ws_col : Int) * 8,
                      buf_height := ((ws.ws_row : Int) - (1 + (s.data.length : Int))) * 16 } := by
    simp only [UnicodeScreen.query_terminal_size, hmode, if_true, gt_iff_lt, h1, if_false]
  exact ⟨_, e, rfl, rfl, rfl⟩

/-- C38, evaluation at the failing input: in Sixel mode with one structure
loaded, a terminal that reports 80 columns, 2 rows and no pixel size gets
`info_rows = 2`, `buf_width = 640` and `buf_height = (2 - 2) * 16 = 0`, not a
positive height of at least 6; with a single row the height is -16. On the
same terminal the Braille branch clamps the rows and yields 160 x 16, and the
Sixel branch for a terminal that reports its pixel size (640 x 32) clamps the
height to 6. -/
theorem sixel_cells_height_unclamped :
    (∃ s1 : UnicodeScreen,
      UnicodeScreen.query_terminal_size (some ⟨2, 80, 0, 0⟩)
        { demo_controls with use_sixel := true } = some s1 ∧
      s1.info_rows = 2 ∧ s1.buf_width = 640 ∧ s1.buf_height = 0) ∧
    (∃ s1 : UnicodeScreen,
      UnicodeScreen.query_terminal_size (some ⟨1, 80, 0, 0⟩)
        { demo_controls with use_sixel := true } = some s1 ∧
      s1.buf_height = -16) ∧
    (∃ s1 : UnicodeScreen,
      UnicodeScreen.query_terminal_size (some ⟨2, 80, 0, 0⟩) demo_controls = some s1 ∧
      s1.buf_width = 160 ∧ s1.buf_height = 16) ∧
    (∃ s1 : UnicodeScreen,
      UnicodeScreen.query_terminal_size (some ⟨2, 80, 640, 32⟩)
        { demo_controls with use_sixel := true } = some s1 ∧
      s1.buf_width = 640 ∧ s1.buf_height = 6) := by
  refine ⟨⟨_, rfl, ?_⟩, ⟨_, rfl, ?_⟩, ⟨_, rfl, ?_⟩, ⟨_, rfl, ?_⟩⟩ <;> decide

/-! ## Properties of the chain selection -/

theorem chainfile_line_length (filesize : Int) (chainVec v : List String) (line : Int × String)
    (h : chainfile_line filesize chainVec line = some v) : v.length = chainVec.length := by
  unfold chainfile_line at h
  dsimp only at h
  split_ifs at h
  · rw [← Option.some.inj h]
  · rw [← Option.some.inj h]
    exact List.length_set _ _ _

theorem chainfile_line_nonneg (filesize : Int) (chainVec : List String) (line : Int × String)
    (hlen : (chainVec.length : Int) = filesize) (hidx : 0 ≤ line.1) :
    chainfile_line filesize chainVec line
      = some (if line.1 < filesize then chainVec.set line.1.toNat line.2 else chainVec) := by
  unfold chainfile_line
  dsimp only
  by_cases h : line.1 ≥ filesize
  · rw [if_pos h, if_neg (by omega)]
  · rw [if_neg h, if_pos ⟨hidx, by omega⟩, if_pos (by omega)]

theorem set_chainfile_nonneg (lines : List (Int × String)) (filesize : Int)
    (hn : 0 ≤ filesize) (hidx : ∀ line ∈ lines, 0 ≤ line.1) :
    ∃ v : List String, set_chainfile (some lines) filesize [] = some v ∧
      (v.length : Int) = filesize := by
  unfold set_chainfile
  simp only [List.nil_append]
  have hgen : ∀ (ls : List (Int × String)) (acc : List String),
      (acc.length : Int) = filesize → (∀ line ∈ ls, 0 ≤ line.1) →
      ∃ v : List String, ls.foldlM (chainfile_line filesize) acc = some v ∧
        (v.length : Int) = filesize := by
    intro ls
    induction ls with
    | nil => intro acc hacc _; exact ⟨acc, rfl, hacc⟩
    | cons l rest ih =>
      intro acc hacc hls
      rw [List.foldlM_cons, chainfile_line_nonneg filesize acc l hacc
        (hls l (List.mem_cons_self _ _))]
      apply ih _ _ (fun x hx => hls x (List.mem_cons_of_mem _ hx))
      split_ifs
      · rw [List.length_set]; exact hacc
      · exact hacc
  apply hgen lines _ _ hidx
  rw [List.length_replicate]
  omega

/-- C39, evaluation at the failing input: for one structure and a chain file
whose only line is `-1 A`, `set_chainfile` first builds the list `["-"]`, the
test `index >= filesize` lets the index -1 through and the assignment
`chainVec[-1] = "A"` addresses an element before the start of the list (no
result in the model), whereas the test of `set_utmatrix` skips the same index.
Without a file, and with the line `0 A`, the list has exactly one entry. -/
theorem set_chainfile_negative_index :
    set_chainfile none 1 [] = some ["-"] ∧
    set_chainfile (some [(0, "A")]) 1 [] = some ["A"] ∧
    set_chainfile (some [(1, "A")]) 1 [] = some ["-"] ∧
    chainfile_line 1 ["-"] (-1, "A") = none ∧
    set_chainfile (some [(-1, "A")]) 1 [] = none ∧
    utmatrix_skips 1 (-1) = true := by
  refine ⟨rfl, by decide, by decide, by decide, by decide, by decide⟩

/-! ## Properties of the pixel operations in binary32 -/

theorem depth_shade_f32_one (color : RGB) (hv : color.valid) (brightness : ℚ)
    (hb : 1 ≤ brightness) : depth_shade_f32 color brightness = color := by
  obtain ⟨hr, hg, hb'⟩ := hv
  have h45 : f32 (45 / 100) ≤ 1 := by decide!
  have hc : clamp brightness (f32 (45 / 100)) 1 = 1 := by
    unfold clamp
    split_ifs with h2 h3
    · linarith
    · rfl
    · linarith
  simp only [depth_shade_f32, hc, mul_one, f32_natCast _ (by omega : color.r < 2 ^ 24),
    f32_natCast _ (by omega : color.g < 2 ^ 24), f32_natCast _ (by omega : color.b < 2 ^ 24),
    float_to_uint8_natCast _ hr, float_to_uint8_natCast _ hg, float_to_uint8_natCast _ hb']

/-- C1, as it fails on the code: the cell holds the depth 5 and the write has
the depth `z = 5.01f` (the binary32 value 2626683/524288 nearest to 5.01),
which exceeds the stored depth by more than 0.01. The sum `5.0f + 0.01f`
rounds up to `z` itself, so the test `z > depth + 0.01f` fails and the write
replaces the cell. -/
theorem plot_pixel_f32_near_epsilon :
    f32 (501 / 100) = 2626683 / 524288 ∧
    (2626683 / 524288 : ℚ) > 5 + 1 / 100 ∧
    f32 (5 + f32 (1 / 100)) = 2626683 / 524288 ∧
    (demo_cell 5).plot_pixel_f32 0 0 (2626683 / 524288) ⟨80, 120, 255⟩ 1
      = some { demo_cell 5 with framebuffer := [⟨80, 120, 255, 2626683 / 524288, true⟩] } ∧
    (demo_cell 5).plot_pixel_f32 0 0 (2626683 / 524288) ⟨80, 120, 255⟩ 1
      ≠ some (demo_cell 5) := by
  have e1 : f32 (501 / 100) = 2626683 / 524288 := by decide!
  have e2 : f32 (5 + f32 (1 / 100)) = 2626683 / 524288 := by decide!
  have e3 : depth_shade_f32 ⟨80, 120, 255⟩ 1 = ⟨80, 120, 255⟩ :=
    depth_shade_f32_one _ (by simp [RGB.valid]) 1 (le_refl _)
  have e4 : (demo_cell 5).plot_pixel_f32 0 0 (2626683 / 524288) ⟨80, 120, 255⟩ 1
      = some { demo_cell 5 with framebuffer := [⟨80, 120, 255, 2626683 / 524288, true⟩] } := by
    have hb : ¬ ((0 : Int) < 0 ∨ (0 : Int) ≥ (demo_cell 5).buf_width ∨ (0 : Int) < 0 ∨
        (0 : Int) ≥ (demo_cell 5).buf_height) := by decide
    have hc : (demo_cell 5).framebuffer[((0 : Int) * (demo_cell 5).buf_width + 0).toNat]?
        = some ⟨255, 70, 70, 5, true⟩ := rfl
    simp only [UnicodeScreen.plot_pixel_f32, hb, if_false, hc, e2, e3, gt_iff_lt, lt_self_iff_false,
      and_false]
    rfl
  refine ⟨e1, by norm_num, e2, e4, ?_⟩
  rw [e4]
  intro h
  have h2 := congrArg (fun o => o.map (fun s => s.framebuffer.map (fun c => c.r))) h
  exact absurd h2 (by decide)


/-- C1 (depth monotonicity, binary32): on an in-bounds cell that is active, a
write whose depth `z` exceeds the binary32 sum `fl(depth + 0.01f)` of the
stored depth and the epsilon returns the screen as it was, whatever the color
and the brightness. -/
theorem plot_pixel_f32_rejects_farther (s : UnicodeScreen) (x y : Int) (z : ℚ)
    (color : RGB) (brightness : ℚ) (cell : Pixel)
    (hx0 : 0 ≤ x) (hxw : x < s.buf_width) (hy0 : 0 ≤ y) (hyh : y < s.buf_height)
    (hcell : s.framebuffer[(y * s.buf_width + x).toNat]? = some cell)
    (hact : cell.active = true) (hz : z > f32 (cell.depth + f32 (1 / 100))) :
    s.plot_pixel_f32 x y z color brightness = some s := by
  have hb : ¬ (x < 0 ∨ x ≥ s.buf_width ∨ y < 0 ∨ y ≥ s.buf_height) := by omega
  simp only [UnicodeScreen.plot_pixel_f32, hb, if_false, hcell]
  rw [if_pos]
  exact ⟨hact, hz⟩

theorem plot_pixel_f32_first :
    demo_screen.plot_pixel_f32 5 5 1 ⟨255, 70, 70⟩ 1 = some demo_first := by
  have e3 : depth_shade_f32 ⟨255, 70, 70⟩ 1 = ⟨255, 70, 70⟩ :=
    depth_shade_f32_one _ (by simp [RGB.valid]) 1 (le_refl _)
  have hb : ¬ ((5 : Int) < 0 ∨ (5 : Int) ≥ demo_screen.buf_width ∨ (5 : Int) < 0 ∨
      (5 : Int) ≥ demo_screen.buf_height) := by decide
  have hc : demo_screen.framebuffer[((5 : Int) * demo_screen.buf_width + 5).toNat]?
      = some ⟨0, 0, 0, 0, false⟩ := rfl
  simp only [UnicodeScreen.plot_pixel_f32, hb, if_false, hc, e3, Bool.false_eq_true, false_and]
  rfl

/-- Scenario of C1: after `plot(5,5,z=1.0)` the write `plot(5,5,z=5.0)` of another
color is rejected, since 5 exceeds `fl(1.0f + 0.01f)`, and the cell keeps the
first color. -/
theorem plot_pixel_f32_rejects_farther_witness :
    demo_screen.plot_pixel_f32 5 5 1 ⟨255, 70, 70⟩ 1 = some demo_first ∧
    demo_first.plot_pixel_f32 5 5 5 ⟨80, 120, 255⟩ 1 = some demo_first ∧
    demo_first.framebuffer[55]? = some ⟨255, 70, 70, 1, true⟩ :=
  ⟨plot_pixel_f32_first,
   plot_pixel_f32_rejects_farther demo_first 5 5 5 ⟨80, 120, 255⟩ 1 ⟨255, 70, 70, 1, true⟩
    (by decide) (by decide) (by decide) (by decide) rfl rfl (by decide!),
   rfl⟩

/-- C2, as it fails on the code: the cell holds the depth `-0.01f` and the
write has the depth `z = 1e-10f`, so that `z <= depth + 0.01` (the literal
`0.01f` is below 0.01). The sum `-0.01f + 0.01f` is 0 in binary32, the test
`z > depth + 0.01f` succeeds and the write is dropped: the cell keeps its
color and its depth. -/
theorem plot_pixel_f32_tie_rejected :
    f32 (1 / 10000000000) ≤ -f32 (1 / 100) + 1 / 100 ∧
    f32 (-f32 (1 / 100) + f32 (1 / 100)) = 0 ∧
    (demo_cell (-f32 (1 / 100))).plot_pixel_f32 0 0 (f32 (1 / 10000000000)) ⟨80, 120, 255⟩ 1
      = some (demo_cell (-f32 (1 / 100))) ∧
    (demo_cell (-f32 (1 / 100))).framebuffer[0]? = some ⟨255, 70, 70, -f32 (1 / 100), true⟩ := by
  have e1 : f32 (1 / 10000000000) ≤ -f32 (1 / 100) + 1 / 100 := by decide!
  have e2 : f32 (-f32 (1 / 100) + f32 (1 / 100)) = 0 := by decide!
  have e3 : f32 (1 / 10000000000) > 0 := by decide!
  refine ⟨e1, e2, ?_, rfl⟩
  have hb : ¬ ((0 : Int) < 0 ∨ (0 : Int) ≥ (demo_cell (-f32 (1 / 100))).buf_width ∨
      (0 : Int) < 0 ∨ (0 : Int) ≥ (demo_cell (-f32 (1 / 100))).buf_height) := by decide
  have hc : (demo_cell (-f32 (1 / 100))).framebuffer[
      ((0 : Int) * (demo_cell (-f32 (1 / 100))).buf_width + 0).toNat]?
      = some ⟨255, 70, 70, -f32 (1 / 100), true⟩ := rfl
  simp only [UnicodeScreen.plot_pixel_f32, hb, if_false, hc, e2]
  rw [if_pos]
  exact ⟨trivial, e3⟩

/-- C2 (overwrite on tie or nearer, binary32): on an in-bounds cell that is
inactive, or whose stored depth `d` satisfies `z <= fl(d + 0.01f)`, the sum
rounded to binary32, the write succeeds; the cell becomes active with depth
`z` and the color `depth_shade_f32 color brightness`, every other cell and
every other field of the screen is unchanged. -/
theorem plot_pixel_f32_overwrites (s : UnicodeScreen) (x y : Int) (z : ℚ)
    (color : RGB) (brightness : ℚ) (cell : Pixel)
    (hx0 : 0 ≤ x) (hxw : x < s.buf_width) (hy0 : 0 ≤ y) (hyh : y < s.buf_height)
    (hcell : s.framebuffer[(y * s.buf_width + x).toNat]? = some cell)
    (hz : cell.active = false ∨
      (cell.active = true ∧ z ≤ f32 (cell.depth + f32 (1 / 100)))) :
    ∃ fb, s.plot_pixel_f32 x y z color brightness = some { s with framebuffer := fb } ∧
      fb[(y * s.buf_width + x).toNat]? =
        some { r := (depth_shade_f32 color brightness).r,
               g := (depth_shade_f32 color brightness).g,
               b := (depth_shade_f32 color brightness).b, depth := z, active := true } ∧
      (∀ j, j ≠ (y * s.buf_width + x).toNat → fb[j]? = s.framebuffer[j]?) ∧
      fb.length = s.framebuffer.length := by
  have hb : ¬ (x < 0 ∨ x ≥ s.buf_width ∨ y < 0 ∨ y ≥ s.buf_height) := by omega
  have hrej : ¬ (cell.active = true ∧ z > f32 (cell.depth + f32 (1 / 100))) := by
    rintro ⟨ha, hgt⟩
    rcases hz with hi | ⟨_, hle⟩
    · rw [ha] at hi; exact Bool.noConfusion hi
    · exact absurd hle (not_le.mpr hgt)
  have hlt : (y * s.buf_width + x).toNat < s.framebuffer.length := by
    rcases List.getElem?_eq_some_iff.mp hcell with ⟨h, _⟩
    exact h
  refine ⟨s.framebuffer.set (y * s.buf_width + x).toNat
      { r := (depth_shade_f32 color brightness).r, g := (depth_shade_f32 color brightness).g,
        b := (depth_shade_f32 color brightness).b, depth := z, active := true }, ?_, ?_, ?_, ?_⟩
  · simp only [UnicodeScreen.plot_pixel_f32, hb, if_false, hcell, hrej]
  · simp [List.getElem?_set, hlt]
  · intro j hj
    simp [List.getElem?_set, Ne.symm hj]
  · simp

/-- Scenario of C2: after `plot(5,5,z=1.0)` the write `plot(5,5,z=0.4)` of another
color is accepted and the cell holds the second color at depth 0.4. -/
theorem plot_pixel_f32_overwrites_witness :
    ∃ fb, demo_first.plot_pixel_f32 5 5 (2 / 5) ⟨80, 120, 255⟩ 1
        = some { demo_first with framebuffer := fb } ∧
      fb[55]? = some ⟨80, 120, 255, 2 / 5, true⟩ := by
  obtain ⟨fb, h1, h2, -, -⟩ :=
    plot_pixel_f32_overwrites demo_first 5 5 (2 / 5) ⟨80, 120, 255⟩ 1 ⟨255, 70, 70, 1, true⟩
      (by decide) (by decide) (by decide) (by decide) rfl (Or.inr ⟨rfl, by decide!⟩)
  refine ⟨fb, h1, ?_⟩
  have e : depth_shade_f32 ⟨80, 120, 255⟩ 1 = ⟨80, 120, 255⟩ :=
    depth_shade_f32_one _ (by simp [RGB.valid]) 1 (le_refl _)
  rw [e] at h2
  exact h2

/-! ## Properties of the shading and of the contrast boost in binary32 -/

theorem f32_literals :
    f32 (45 / 100) = 7549747 / 16777216 ∧ f32 (16 / 10) = 13421773 / 8388608 ∧
    f32 (6 / 10) = 10066330 / 16777216 := by
  decide!

theorem depth_shade_f32_floor :
    ∀ v : Nat, v < 256 →
      float_to_int ((v : ℚ) * (45 / 100)) ≤ float_to_int (f32 ((v : ℚ) * f32 (45 / 100))) := by
  have h : ∀ v : Nat, v < 256 →
      float_to_int ((v : ℚ) * (45 / 100))
        ≤ float_to_int (f32 ((v : ℚ) * (7549747 / 16777216))) := by
    decide!
  rw [f32_literals.1]
  exact h

theorem depth_shade_f32_channel (v : Nat) (hv : v < 256) (brightness : ℚ) :
    float_to_uint8 (f32 ((v : ℚ) * clamp brightness (f32 (45 / 100)) 1))
      = (float_to_int (f32 ((v : ℚ) * clamp brightness (f32 (45 / 100)) 1))).toNat ∧
    float_to_uint8 (f32 ((v : ℚ) * clamp brightness (f32 (45 / 100)) 1)) ≤ v ∧
    (float_to_int ((v : ℚ) * (45 / 100))).toNat
      ≤ float_to_uint8 (f32 ((v : ℚ) * clamp brightness (f32 (45 / 100)) 1)) := by
  have h45 : (0 : ℚ) ≤ f32 (45 / 100) ∧ f32 (45 / 100) ≤ 1 := by decide!
  obtain ⟨hlo, hhi⟩ := clamp_bounds brightness (f32 (45 / 100)) 1 h45.2
  have hc0 : (0 : ℚ) ≤ clamp brightness (f32 (45 / 100)) 1 := le_trans h45.1 hlo
  have hv0 : (0 : ℚ) ≤ (v : ℚ) := Nat.cast_nonneg v
  have hq0 : (0 : ℚ) ≤ f32 ((v : ℚ) * clamp brightness (f32 (45 / 100)) 1) :=
    f32_nonneg (mul_nonneg hv0 hc0)
  have hqv : f32 ((v : ℚ) * clamp brightness (f32 (45 / 100)) 1) ≤ ((v : Int) : ℚ) := by
    apply f32_le_intCast (v : Int)
    · rw [abs_of_nonneg (Int.natCast_nonneg v)]
      omega
    · have : (v : ℚ) * clamp brightness (f32 (45 / 100)) 1 ≤ (v : ℚ) * 1 :=
        mul_le_mul_of_nonneg_left hhi hv0
      simpa using this
  have hm0 : (0 : ℚ) ≤ f32 ((v : ℚ) * f32 (45 / 100)) := f32_nonneg (mul_nonneg hv0 h45.1)
  have hm : f32 ((v : ℚ) * f32 (45 / 100))
      ≤ f32 ((v : ℚ) * clamp brightness (f32 (45 / 100)) 1) :=
    f32_mono (mul_le_mul_of_nonneg_left hlo hv0)
  have h1 := float_to_int_mono _ _ hm0 hm
  have h2 := depth_shade_f32_floor v hv
  have h3 : float_to_int (f32 ((v : ℚ) * clamp brightness (f32 (45 / 100)) 1)) ≤ v := by
    rw [float_to_int_nonneg _ hq0]
    have := Int.floor_le_floor hqv
    rwa [Int.floor_intCast] at this
  have h4 : 0 ≤ float_to_int (f32 ((v : ℚ) * clamp brightness (f32 (45 / 100)) 1)) := by
    rw [float_to_int_nonneg _ hq0]
    exact Int.floor_nonneg.mpr hq0
  have e : float_to_uint8 (f32 ((v : ℚ) * clamp brightness (f32 (45 / 100)) 1))
      = (float_to_int (f32 ((v : ℚ) * clamp brightness (f32 (45 / 100)) 1))).toNat := by
    unfold float_to_uint8
    congr 1
    omega
  rw [e]
  refine ⟨rfl, by omega, by omega⟩

/-- C16, as it fails on the code: for the color (180, 120, 200) at the
brightness `0.65f` the code returns (116, 78, 130), the truncation of the
products rounded to binary32 (`120 * 0.65f` rounds up to 78). The formula
`trunc(v * clamp(brightness, 0.45, 1))` gives 77 for the channel 120 at the
binary32 brightness and 117 for the channel 180 at the decimal 0.65. -/
theorem depth_shade_f32_rounds_product :
    depth_shade_f32 ⟨180, 120, 200⟩ (f32 (65 / 100)) = ⟨116, 78, 130⟩ ∧
    float_to_uint8 ((120 : ℚ) * clamp (f32 (65 / 100)) (45 / 100) 1) = 77 ∧
    float_to_uint8 ((180 : ℚ) * clamp (65 / 100) (45 / 100) 1) = 117 := by
  decide!

/-- C16 (depth shading, binary32): for an 8-bit color, every channel `v` of
`depth_shade_f32 color brightness` is `trunc(fl(v * clamp(brightness, 0.45f, 1)))`,
the product rounded to binary32 before the truncation; it never exceeds `v`
and is never below `trunc(0.45 * v)`; a brightness of at least 1 returns the
color unchanged, and every binary32 brightness of at most 0.45 gives the
result of the brightness `0.45f`. -/
theorem depth_shade_f32_spec (color : RGB) (brightness : ℚ) (hv : color.valid) :
    ((depth_shade_f32 color brightness).r
        = (float_to_int (f32 ((color.r : ℚ) * clamp brightness (f32 (45 / 100)) 1))).toNat ∧
      (depth_shade_f32 color brightness).g
        = (float_to_int (f32 ((color.g : ℚ) * clamp brightness (f32 (45 / 100)) 1))).toNat ∧
      (depth_shade_f32 color brightness).b
        = (float_to_int (f32 ((color.b : ℚ) * clamp brightness (f32 (45 / 100)) 1))).toNat) ∧
    ((depth_shade_f32 color brightness).r ≤ color.r ∧
      (depth_shade_f32 color brightness).g ≤ color.g ∧
      (depth_shade_f32 color brightness).b ≤ color.b) ∧
    ((float_to_int ((color.r : ℚ) * (45 / 100))).toNat ≤ (depth_shade_f32 color brightness).r ∧
      (float_to_int ((color.g : ℚ) * (45 / 100))).toNat ≤ (depth_shade_f32 color brightness).g ∧
      (float_to_int ((color.b : ℚ) * (45 / 100))).toNat
        ≤ (depth_shade_f32 color brightness).b) ∧
    (1 ≤ brightness → depth_shade_f32 color brightness = color) ∧
    (brightness ≤ 45 / 100 → f32 brightness = brightness →
      depth_shade_f32 color brightness = depth_shade_f32 color (f32 (45 / 100))) := by
  obtain ⟨hr, hg, hb⟩ := hv
  obtain ⟨r1, r2, r3⟩ := depth_shade_f32_channel color.r hr brightness
  obtain ⟨g1, g2, g3⟩ := depth_shade_f32_channel color.g hg brightness
  obtain ⟨b1, b2, b3⟩ := depth_shade_f32_channel color.b hb brightness
  refine ⟨⟨r1, g1, b1⟩, ⟨r2, g2, b2⟩, ⟨r3, g3, b3⟩,
    fun h1 => depth_shade_f32_one color ⟨hr, hg, hb⟩ brightness h1, fun h45 hfl => ?_⟩
  have hle : brightness ≤ f32 (45 / 100) := by
    rw [← hfl]
    exact f32_mono h45
  have h1 : f32 (45 / 100) ≤ (1 : ℚ) := by decide!
  have hc : clamp brightness (f32 (45 / 100)) 1
      = clamp (f32 (45 / 100)) (f32 (45 / 100)) 1 := by
    unfold clamp
    split_ifs <;> first | rfl | linarith
  simp only [depth_shade_f32, hc]

/-- Instances of C16: (200, 100, 50) at brightness 1/2 becomes (100, 50, 25), at
brightness 2 it is unchanged, and at brightness -3 it is (90, 45, 22), the
result of the brightness `0.45f`; (180, 120, 200) at `0.65f` becomes
(116, 78, 130). -/
theorem depth_shade_f32_spec_witness :
    depth_shade_f32 ⟨200, 100, 50⟩ (1 / 2) = ⟨100, 50, 25⟩ ∧
    depth_shade_f32 ⟨200, 100, 50⟩ 2 = ⟨200, 100, 50⟩ ∧
    depth_shade_f32 ⟨200, 100, 50⟩ (-3) = depth_shade_f32 ⟨200, 100, 50⟩ (f32 (45 / 100)) ∧
    depth_shade_f32 ⟨200, 100, 50⟩ (f32 (45 / 100)) = ⟨90, 45, 22⟩ ∧
    depth_shade_f32 ⟨180, 120, 200⟩ (f32 (65 / 100)) = ⟨116, 78, 130⟩ := by
  have h := depth_shade_f32_spec ⟨200, 100, 50⟩ 2 (by simp [RGB.valid])
  have h' := depth_shade_f32_spec ⟨200, 100, 50⟩ (-3) (by simp [RGB.valid])
  exact ⟨by decide!, h.2.2.2.1 (by norm_num), h'.2.2.2.2 (by norm_num) (by decide!),
    by decide!, by decide!⟩

theorem boost_f32_channel_dark :
    ∀ v : Nat, v < 256 →
      float_to_int (f32 ((v : ℚ) * f32 (16 / 10))) = float_to_int ((v : ℚ) * (16 / 10)) := by
  have h : ∀ v : Nat, v < 256 →
      float_to_int (f32 ((v : ℚ) * (13421773 / 8388608)))
        = float_to_int ((v : ℚ) * (16 / 10)) := by
    decide!
  rw [f32_literals.2.1]
  exact h

theorem boost_f32_channel_light :
    ∀ v : Nat, v < 256 →
      float_to_int (f32 ((v : ℚ) * f32 (6 / 10))) = float_to_int ((v : ℚ) * (6 / 10)) := by
  have h : ∀ v : Nat, v < 256 →
      float_to_int (f32 ((v : ℚ) * (10066330 / 16777216)))
        = float_to_int ((v : ℚ) * (6 / 10)) := by
    decide!
  rw [f32_literals.2.2]
  exact h

/-- C15, as it fails on the code: for the color (128, 80, 118) on the
background (18, 18, 24) the luminances differ by exactly 80, yet the
luminances computed in binary32 differ by less than 80 and the code returns
the boosted color (204, 128, 188). -/
theorem boost_color_f32_at_threshold :
    |luminance ⟨128, 80, 118⟩ - luminance ⟨18, 18, 24⟩| = 80 ∧
    |f32 (luminance_f32 ⟨128, 80, 118⟩ - luminance_f32 ⟨18, 18, 24⟩)| < 80 ∧
    boost_color_f32 ⟨128, 80, 118⟩ ⟨18, 18, 24⟩ = ⟨204, 128, 188⟩ := by
  decide!

/-- C15 (contrast boost, binary32): with the luminance
`lum = 0.299f * r + 0.587f * g + 0.114f * b` and the difference of the
luminances computed in binary32, for an 8-bit color `c`: when
`|fl(lum c - lum bg)| >= 80` the color is returned unchanged; otherwise every
channel `v` becomes `min(255, trunc(v * s))` with `s = 1.6` when `lum bg < 128`
and `s = 0.6` otherwise (for an 8-bit channel the product with `1.6f` or `0.6f`
rounded to binary32 has the same truncation). In every case the result
channels are in 0..255, at least `v` on a dark background and at most `v` on
a light one. -/
theorem boost_color_f32_spec (c bg : RGB) (hv : c.valid) :
    (80 ≤ |f32 (luminance_f32 c - luminance_f32 bg)| → boost_color_f32 c bg = c) ∧
    (|f32 (luminance_f32 c - luminance_f32 bg)| < 80 →
      (boost_color_f32 c bg).r = min 255
        (float_to_int ((c.r : ℚ) * (if luminance_f32 bg < 128 then 16 / 10 else 6 / 10))).toNat ∧
      (boost_color_f32 c bg).g = min 255
        (float_to_int ((c.g : ℚ) * (if luminance_f32 bg < 128 then 16 / 10 else 6 / 10))).toNat ∧
      (boost_color_f32 c bg).b = min 255
        (float_to_int ((c.b : ℚ) * (if luminance_f32 bg < 128 then 16 / 10 else 6 / 10))).toNat) ∧
    (boost_color_f32 c bg).valid ∧
    (luminance_f32 bg < 128 → c.r ≤ (boost_color_f32 c bg).r ∧ c.g ≤ (boost_color_f32 c bg).g ∧
      c.b ≤ (boost_color_f32 c bg).b) ∧
    (128 ≤ luminance_f32 bg → (boost_color_f32 c bg).r ≤ c.r ∧ (boost_color_f32 c bg).g ≤ c.g ∧
      (boost_color_f32 c bg).b ≤ c.b) := by
  obtain ⟨hr, hg, hb⟩ := hv
  by_cases hd : |f32 (luminance_f32 c - luminance_f32 bg)| < 80
  · by_cases hbg : luminance_f32 bg < 128
    · obtain ⟨r1, r2, r3, -⟩ := boost_channel c.r hr (16 / 10) (by norm_num)
      obtain ⟨g1, g2, g3, -⟩ := boost_channel c.g hg (16 / 10) (by norm_num)
      obtain ⟨b1, b2, b3, -⟩ := boost_channel c.b hb (16 / 10) (by norm_num)
      simp only [boost_color_f32, hd, hbg, if_true, RGB.valid, boost_f32_channel_dark _ hr,
        boost_f32_channel_dark _ hg, boost_f32_channel_dark _ hb]
      exact ⟨fun h => absurd hd (not_lt.mpr h), fun _ => ⟨r1, g1, b1⟩, ⟨r2, g2, b2⟩,
        fun _ => ⟨r3 (by norm_num), g3 (by norm_num), b3 (by norm_num)⟩,
        fun h => absurd hbg (not_lt.mpr h)⟩
    · obtain ⟨r1, r2, -, r3⟩ := boost_channel c.r hr (6 / 10) (by norm_num)
      obtain ⟨g1, g2, -, g3⟩ := boost_channel c.g hg (6 / 10) (by norm_num)
      obtain ⟨b1, b2, -, b3⟩ := boost_channel c.b hb (6 / 10) (by norm_num)
      simp only [boost_color_f32, hd, hbg, if_true, if_false, RGB.valid,
        boost_f32_channel_light _ hr, boost_f32_channel_light _ hg,
        boost_f32_channel_light _ hb]
      exact ⟨fun h => absurd hd (not_lt.mpr h), fun _ => ⟨r1, g1, b1⟩, ⟨r2, g2, b2⟩,
        fun h => h.elim,
        fun _ => ⟨r3 (by norm_num), g3 (by norm_num), b3 (by norm_num)⟩⟩
  · have e : boost_color_f32 c bg = c := by simp only [boost_color_f32, hd, if_false]
    rw [e]
    exact ⟨fun _ => rfl, fun h => absurd h hd, ⟨hr, hg, hb⟩,
      fun _ => ⟨le_refl _, le_refl _, le_refl _⟩, fun _ => ⟨le_refl _, le_refl _, le_refl _⟩⟩

/-- Instances of C15: on the dark background (18, 18, 24) the color (60, 40, 40)
is scaled by 1.6 to (96, 64, 64) and (255, 70, 70), of luminance farther than
80 from the background, is unchanged; on the light background (255, 255, 255)
the color (200, 200, 200) is scaled by 0.6 to (120, 120, 120). -/
theorem boost_color_f32_spec_witness :
    boost_color_f32 ⟨60, 40, 40⟩ ⟨18, 18, 24⟩ = ⟨96, 64, 64⟩ ∧
    boost_color_f32 ⟨255, 70, 70⟩ ⟨18, 18, 24⟩ = ⟨255, 70, 70⟩ ∧
    boost_color_f32 ⟨200, 200, 200⟩ ⟨255, 255, 255⟩ = ⟨120, 120, 120⟩ ∧
    (boost_color_f32 ⟨60, 40, 40⟩ ⟨18, 18, 24⟩).valid := by
  have h := boost_color_f32_spec ⟨255, 70, 70⟩ ⟨18, 18, 24⟩ (by simp [RGB.valid])
  have h' := boost_color_f32_spec ⟨60, 40, 40⟩ ⟨18, 18, 24⟩ (by simp [RGB.valid])
  exact ⟨by decide!, h.1 (by decide!), by decide!, h'.2.2.1⟩

/-! ## Properties of the palette interpolation in binary32 -/

theorem blend_trunc_f32 (a b : Nat) (f : ℚ) (ha : a < 256) (hb : b < 256) (hf0 : 0 ≤ f)
    (hf1 : f ≤ 1) :
    float_to_uint8 (f32 ((a : ℚ) + f32 (int_to_float ((b : Int) - (a : Int)) * f)))
      = ⌊f32 ((a : ℚ) + f32 (((b : ℚ) - (a : ℚ)) * f))⌋.toNat ∧
    min a b ≤ ⌊f32 ((a : ℚ) + f32 (((b : ℚ) - (a : ℚ)) * f))⌋.toNat ∧
    ⌊f32 ((a : ℚ) + f32 (((b : ℚ) - (a : ℚ)) * f))⌋.toNat ≤ max a b := by
  have e : int_to_float ((b : Int) - (a : Int)) = (b : ℚ) - (a : ℚ) := by
    rw [int_to_float_eq _ (by rw [abs_lt]; omega)]
    push_cast
    ring
  rw [e]
  set v : ℚ := f32 ((a : ℚ) + f32 (((b : ℚ) - (a : ℚ)) * f)) with hv
  have hlo : ((min a b : Nat) : ℚ) ≤ v := by
    rcases le_total a b with hab | hab
    · rw [min_eq_left hab]
      have h1 : (0 : ℚ) ≤ ((b : ℚ) - a) * f :=
        mul_nonneg (by
          have : (a : ℚ) ≤ b := by exact_mod_cast hab
          linarith) hf0
      have h2 := f32_nonneg h1
      have h3 : ((a : Int) : ℚ) ≤ v := f32_ge_intCast (a : Int) (by rw [abs_lt]; omega)
        (show ((a : Int) : ℚ) ≤ (a : ℚ) + f32 (((b : ℚ) - (a : ℚ)) * f) by
          push_cast
          linarith)
      rwa [Int.cast_natCast] at h3
    · rw [min_eq_right hab]
      have h1 : (b : ℚ) ≤ a := by exact_mod_cast hab
      have h2 : ((a : ℚ) - b) * f ≤ (a : ℚ) - b :=
        mul_le_of_le_one_right (by linarith) hf1
      have h3 := f32_ge_intCast ((b : Int) - (a : Int)) (by rw [abs_lt]; omega)
        (show (((b : Int) - (a : Int) : Int) : ℚ) ≤ ((b : ℚ) - (a : ℚ)) * f by
          push_cast
          nlinarith)
      have h4 : ((b : Int) : ℚ) ≤ v := f32_ge_intCast (b : Int) (by rw [abs_lt]; omega)
        (show ((b : Int) : ℚ) ≤ (a : ℚ) + f32 (((b : ℚ) - (a : ℚ)) * f) by
          push_cast at h3 ⊢
          linarith)
      rwa [Int.cast_natCast] at h4
  have hhi : v ≤ ((max a b : Nat) : ℚ) := by
    rcases le_total a b with hab | hab
    · rw [max_eq_right hab]
      have h1 : (a : ℚ) ≤ b := by exact_mod_cast hab
      have h2 : ((b : ℚ) - a) * f ≤ (b : ℚ) - a :=
        mul_le_of_le_one_right (by linarith) hf1
      have h3 := f32_le_intCast ((b : Int) - (a : Int)) (by rw [abs_lt]; omega)
        (show ((b : ℚ) - (a : ℚ)) * f ≤ (((b : Int) - (a : Int) : Int) : ℚ) by
          push_cast
          linarith)
      have h4 : v ≤ ((b : Int) : ℚ) := f32_le_intCast (b : Int) (by rw [abs_lt]; omega)
        (show (a : ℚ) + f32 (((b : ℚ) - (a : ℚ)) * f) ≤ ((b : Int) : ℚ) by
          push_cast at h3 ⊢
          linarith)
      rwa [Int.cast_natCast] at h4
    · rw [max_eq_left hab]
      have h1 : (b : ℚ) ≤ a := by exact_mod_cast hab
      have h2 : ((b : ℚ) - a) * f ≤ 0 :=
        mul_nonpos_of_nonpos_of_nonneg (by linarith) hf0
      have h3 := f32_le_intCast 0 (by norm_num)
        (show ((b : ℚ) - (a : ℚ)) * f ≤ ((0 : Int) : ℚ) by
          push_cast
          exact h2)
      have h4 : v ≤ ((a : Int) : ℚ) := f32_le_intCast (a : Int) (by rw [abs_lt]; omega)
        (show (a : ℚ) + f32 (((b : ℚ) - (a : ℚ)) * f) ≤ ((a : Int) : ℚ) by
          push_cast at h3 ⊢
          linarith)
      rwa [Int.cast_natCast] at h4
  have h0 : (0 : ℚ) ≤ v := le_trans (by exact_mod_cast Nat.zero_le _) hlo
  have hfl_lo : ((min a b : Nat) : Int) ≤ ⌊v⌋ := by
    apply Int.le_floor.mpr
    exact_mod_cast hlo
  have hfl_hi : ⌊v⌋ ≤ ((max a b : Nat) : Int) := by
    have h := Int.floor_le v
    have h2 : ((⌊v⌋ : Int) : ℚ) ≤ ((max a b : Nat) : ℚ) := le_trans h hhi
    exact_mod_cast h2
  have hmax : max a b < 256 := max_lt ha hb
  refine ⟨?_, ?_, ?_⟩
  · unfold float_to_uint8
    rw [float_to_int_nonneg v h0]
    have : ⌊v⌋ % 256 = ⌊v⌋ := Int.emod_eq_of_lt (by omega) (by omega)
    rw [this]
  · omega
  · omega

theorem interpolate_color_f32_inner (s : UnicodeScreen) (hn : 2 ≤ s.palette_colors.length)
    (hmax : s.palette_colors.length ≤ 2 ^ 24)
    (hv : ∀ c ∈ s.palette_colors, c.valid) (t : ℚ) :
    ∃ a b,
      s.palette_colors[⌊f32 (clamp t 0 1 * f32 ((s.palette_colors.length : ℚ) - 1))⌋.toNat]?
        = some a ∧
      s.palette_colors[min
        (⌊f32 (clamp t 0 1 * f32 ((s.palette_colors.length : ℚ) - 1))⌋.toNat + 1)
        (s.palette_colors.length - 1)]? = some b ∧
      s.interpolate_color_f32 t = some
        { r := ⌊f32 ((a.r : ℚ) + f32 (((b.r : ℚ) - (a.r : ℚ)) *
            f32 (f32 (clamp t 0 1 * f32 ((s.palette_colors.length : ℚ) - 1)) -
              ⌊f32 (clamp t 0 1 * f32 ((s.palette_colors.length : ℚ) - 1))⌋)))⌋.toNat
          g := ⌊f32 ((a.g : ℚ) + f32 (((b.g : ℚ) - (a.g : ℚ)) *
            f32 (f32 (clamp t 0 1 * f32 ((s.palette_colors.length : ℚ) - 1)) -
              ⌊f32 (clamp t 0 1 * f32 ((s.palette_colors.length : ℚ) - 1))⌋)))⌋.toNat
          b := ⌊f32 ((a.b : ℚ) + f32 (((b.b : ℚ) - (a.b : ℚ)) *
            f32 (f32 (clamp t 0 1 * f32 ((s.palette_colors.length : ℚ) - 1)) -
              ⌊f32 (clamp t 0 1 * f32 ((s.palette_colors.length : ℚ) - 1))⌋)))⌋.toNat } ∧
      0 ≤ f32 (f32 (clamp t 0 1 * f32 ((s.palette_colors.length : ℚ) - 1)) -
          ⌊f32 (clamp t 0 1 * f32 ((s.palette_colors.length : ℚ) - 1))⌋) ∧
      f32 (f32 (clamp t 0 1 * f32 ((s.palette_colors.length : ℚ) - 1)) -
          ⌊f32 (clamp t 0 1 * f32 ((s.palette_colors.length : ℚ) - 1))⌋) ≤ 1 ∧
      a.valid ∧ b.valid := by
  obtain ⟨-, hc0, hc1, -⟩ := clamp_unit t
  set tc := clamp t 0 1 with htc
  set n := s.palette_colors.length with hnn
  have hnq : (2 : ℚ) ≤ (n : ℚ) := by exact_mod_cast hn
  have hcast : (((n : Int) - 1 : Int) : ℚ) = (n : ℚ) - 1 := by push_cast; ring
  have hfn : f32 ((n : ℚ) - 1) = (n : ℚ) - 1 := by
    rw [← hcast]
    exact f32_intCast _ (by rw [abs_lt]; omega)
  have hitf : int_to_float ((n : Int) - 1) = (n : ℚ) - 1 := by
    unfold int_to_float
    rw [hcast]
    exact hfn
  rw [hfn]
  set idx : ℚ := f32 (tc * ((n : ℚ) - 1)) with hidx
  have hidx0 : 0 ≤ idx := f32_nonneg (mul_nonneg hc0 (by linarith))
  have hidx1 : idx ≤ (n : ℚ) - 1 := by
    rw [← hcast]
    apply f32_le_intCast _ (by rw [abs_lt]; omega)
    rw [hcast]
    have := mul_le_mul_of_nonneg_right hc1 (show (0 : ℚ) ≤ (n : ℚ) - 1 by linarith)
    linarith
  have hfl0 : 0 ≤ ⌊idx⌋ := Int.floor_nonneg.mpr hidx0
  have hfl1 : ⌊idx⌋ ≤ (n : Int) - 1 := by
    have h := Int.floor_le idx
    have h2 : ((⌊idx⌋ : Int) : ℚ) ≤ (((n : Int) - 1 : Int) : ℚ) := by
      push_cast
      linarith
    exact_mod_cast h2
  have hif : int_to_float ⌊idx⌋ = (⌊idx⌋ : ℚ) :=
    int_to_float_eq _ (by rw [abs_lt]; omega)
  have hd0 : 0 ≤ idx - ⌊idx⌋ := by linarith [Int.floor_le idx]
  have hd1 : idx - ⌊idx⌋ ≤ 1 := by linarith [Int.lt_floor_add_one idx]
  have hf0 : 0 ≤ f32 (idx - ⌊idx⌋) := f32_nonneg hd0
  have hf1 : f32 (idx - ⌊idx⌋) ≤ 1 := by
    have := f32_mono hd1
    rwa [f32_one] at this
  have n0 : ¬ ((n : Int) = 0) := by omega
  have n1 : ¬ ((n : Int) = 1) := by omega
  have hfi : float_to_int idx = ⌊idx⌋ := float_to_int_nonneg idx hidx0
  by_cases hend : ⌊idx⌋ ≥ (n : Int) - 1
  · have hfl : ⌊idx⌋ = (n : Int) - 1 := le_antisymm hfl1 hend
    have hi : ⌊idx⌋.toNat = n - 1 := by omega
    have hlt : n - 1 < s.palette_colors.length := by omega
    have hidxe : idx = (n : ℚ) - 1 := by
      apply le_antisymm hidx1
      have h := Int.floor_le idx
      rw [hfl] at h
      rw [← hcast]
      exact h
    have hf : f32 (idx - ⌊idx⌋) = 0 := by
      rw [hfl, hcast, hidxe, sub_self, f32_zero]
    have hmin : min (n - 1 + 1) (n - 1) = n - 1 := by omega
    have hval := hv _ (List.getElem_mem hlt)
    obtain ⟨vr, vg, vb⟩ := hval
    have er : ⌊f32 ((s.palette_colors[n - 1].r : ℚ))⌋.toNat = s.palette_colors[n - 1].r := by
      rw [f32_natCast _ (by omega), Int.floor_natCast, Int.toNat_ofNat]
    have eg : ⌊f32 ((s.palette_colors[n - 1].g : ℚ))⌋.toNat = s.palette_colors[n - 1].g := by
      rw [f32_natCast _ (by omega), Int.floor_natCast, Int.toNat_ofNat]
    have eb : ⌊f32 ((s.palette_colors[n - 1].b : ℚ))⌋.toNat = s.palette_colors[n - 1].b := by
      rw [f32_natCast _ (by omega), Int.floor_natCast, Int.toNat_ofNat]
    refine ⟨s.palette_colors[n - 1], s.palette_colors[n - 1], ?_, ?_, ?_, hf0, hf1,
      ⟨vr, vg, vb⟩, ⟨vr, vg, vb⟩⟩
    · rw [hi]
      exact List.getElem?_eq_getElem hlt
    · rw [hi, hmin]
      exact List.getElem?_eq_getElem hlt
    · have e : ((n : Int) - 1).toNat = n - 1 := by omega
      simp only [UnicodeScreen.interpolate_color_f32, ← hnn, ← htc, hitf, ← hidx, hfi, n0, n1,
        hend, if_true, if_false, e, List.getElem?_eq_getElem hlt, hf, mul_zero, add_zero,
        f32_zero, er, eg, eb]
  · have hi : ⌊idx⌋.toNat < n - 1 := by omega
    have hlt : ⌊idx⌋.toNat < s.palette_colors.length := by omega
    have hlt1 : ⌊idx⌋.toNat + 1 < s.palette_colors.length := by omega
    have hmin : min (⌊idx⌋.toNat + 1) (n - 1) = ⌊idx⌋.toNat + 1 := by omega
    have e1 : (⌊idx⌋ + 1).toNat = ⌊idx⌋.toNat + 1 := by omega
    obtain ⟨ar, ag, ab⟩ := hv _ (List.getElem_mem hlt)
    obtain ⟨br, bg, bb⟩ := hv _ (List.getElem_mem hlt1)
    refine ⟨s.palette_colors[⌊idx⌋.toNat], s.palette_colors[⌊idx⌋.toNat + 1], ?_, ?_, ?_, hf0,
      hf1, ⟨ar, ag, ab⟩, ⟨br, bg, bb⟩⟩
    · exact List.getElem?_eq_getElem hlt
    · rw [hmin]
      exact List.getElem?_eq_getElem hlt1
    · simp only [UnicodeScreen.interpolate_color_f32, ← hnn, ← htc, hitf, ← hidx, hfi, hif, n0,
        n1, hend, if_false, e1, List.getElem?_eq_getElem hlt, List.getElem?_eq_getElem hlt1,
        (blend_trunc_f32 _ _ _ ar br hf0 hf1).1, (blend_trunc_f32 _ _ _ ag bg hf0 hf1).1,
        (blend_trunc_f32 _ _ _ ab bb hf0 hf1).1]


theorem interpolate_f32_stop_index :
    ∀ n : Nat, n < 14 → ∀ k : Nat, k < n → 2 ≤ n →
      f32 (clamp (f32 ((k : ℚ) / ((n : ℚ) - 1))) 0 1 * f32 ((n : ℚ) - 1)) = (k : ℚ) := by
  decide!

/-- C29, as it fails on the code: on the palette NEON at `t = 0.1f` the code
returns the blue channel 56, where the formula `trunc(a + (b - a) * f)` with
`idx = t * (n - 1)` gives 55; on the palette of the fourteen stops
`(i, 13 - i, 0)` the position `t = fl(7/13)` does not return the stop 7, which
is (7, 6, 0), but (7, 5, 0). With 2^24 + 2 stops the factor `n - 1` is
converted to the float 2^24, so that `t = 1` has the position 2^24 and not the
last stop 2^24 + 1. -/
theorem interpolate_color_f32_rounds :
    demo_palette.interpolate_color_f32 (f32 (1 / 10)) = some ⟨255, 119, 56⟩ ∧
    interpolate_reference demo_palette.palette_colors (f32 (1 / 10)) = ⟨255, 119, 55⟩ ∧
    demo_ramp.interpolate_color_f32 (f32 (7 / 13)) = some ⟨7, 5, 0⟩ ∧
    demo_ramp.palette_colors[7]? = some ⟨7, 6, 0⟩ ∧
    f32 (clamp 1 0 1 * int_to_float (16777218 - 1)) = 16777216 := by
  decide!

/-- C29 (palette interpolation against its reference, binary32): for a palette
of at most 2^24 stops, all of them 8-bit, `interpolate_color_f32 t` returns the
value of the reference definition `interpolate_reference_f32` for every `t`,
and the same as for `clamp(t, 0, 1)`. With `n >= 2` stops each channel of the
result lies between the channels of the stops `i = floor(idx)` and `i + 1`
(the last stop itself at the end), where `idx = fl(t * (n - 1))`; a position
`t` whose `idx` is the integer `k` returns the stop `k`, and so does
`t = fl(k / (n - 1))` in a palette of at most 13 stops. A single-stop palette
returns that stop and an empty palette returns (255, 255, 255), for every
`t`. -/
theorem interpolate_color_f32_reference (s : UnicodeScreen)
    (hv : ∀ c ∈ s.palette_colors, c.valid) (hmax : s.palette_colors.length ≤ 2 ^ 24) :
    (∀ t, s.interpolate_color_f32 t = some (interpolate_reference_f32 s.palette_colors t)) ∧
    (∀ t, s.interpolate_color_f32 t = s.interpolate_color_f32 (clamp t 0 1)) ∧
    (∀ t, 2 ≤ s.palette_colors.length → ∃ a b,
      s.palette_colors[⌊f32 (clamp t 0 1 * f32 ((s.palette_colors.length : ℚ) - 1))⌋.toNat]?
        = some a ∧
      s.palette_colors[min
        (⌊f32 (clamp t 0 1 * f32 ((s.palette_colors.length : ℚ) - 1))⌋.toNat + 1)
        (s.palette_colors.length - 1)]? = some b ∧
      min a.r b.r ≤ (interpolate_reference_f32 s.palette_colors t).r ∧
      (interpolate_reference_f32 s.palette_colors t).r ≤ max a.r b.r ∧
      min a.g b.g ≤ (interpolate_reference_f32 s.palette_colors t).g ∧
      (interpolate_reference_f32 s.palette_colors t).g ≤ max a.g b.g ∧
      min a.b b.b ≤ (interpolate_reference_f32 s.palette_colors t).b ∧
      (interpolate_reference_f32 s.palette_colors t).b ≤ max a.b b.b) ∧
    (∀ (t : ℚ) (k : Nat), 2 ≤ s.palette_colors.length → k < s.palette_colors.length →
      f32 (clamp t 0 1 * f32 ((s.palette_colors.length : ℚ) - 1)) = (k : ℚ) →
      s.interpolate_color_f32 t = s.palette_colors[k]?) ∧
    (∀ k : Nat, 2 ≤ s.palette_colors.length → s.palette_colors.length ≤ 13 →
      k < s.palette_colors.length →
      s.interpolate_color_f32 (f32 ((k : ℚ) / ((s.palette_colors.length : ℚ) - 1)))
        = s.palette_colors[k]?) ∧
    (∀ c t, s.palette_colors = [c] → s.interpolate_color_f32 t = some c) ∧
    (s.palette_colors = [] → ∀ t, s.interpolate_color_f32 t = some ⟨255, 255, 255⟩) := by
  have href : ∀ t, 2 ≤ s.palette_colors.length → ∃ a b,
      s.palette_colors[⌊f32 (clamp t 0 1 * f32 ((s.palette_colors.length : ℚ) - 1))⌋.toNat]?
        = some a ∧
      s.palette_colors[min
        (⌊f32 (clamp t 0 1 * f32 ((s.palette_colors.length : ℚ) - 1))⌋.toNat + 1)
        (s.palette_colors.length - 1)]? = some b ∧
      s.interpolate_color_f32 t = some (interpolate_reference_f32 s.palette_colors t) ∧
      min a.r b.r ≤ (interpolate_reference_f32 s.palette_colors t).r ∧
      (interpolate_reference_f32 s.palette_colors t).r ≤ max a.r b.r ∧
      min a.g b.g ≤ (interpolate_reference_f32 s.palette_colors t).g ∧
      (interpolate_reference_f32 s.palette_colors t).g ≤ max a.g b.g ∧
      min a.b b.b ≤ (interpolate_reference_f32 s.palette_colors t).b ∧
      (interpolate_reference_f32 s.palette_colors t).b ≤ max a.b b.b := by
    intro t hn
    obtain ⟨a, b, ha, hb, hres, hf0, hf1, ⟨ar, ag, ab⟩, ⟨br, bg, bb⟩⟩ :=
      interpolate_color_f32_inner s hn hmax hv t
    have n0 : ¬ s.palette_colors.length = 0 := by omega
    have n1 : ¬ s.palette_colors.length = 1 := by omega
    have e : interpolate_reference_f32 s.palette_colors t =
        { r := ⌊f32 ((a.r : ℚ) + f32 (((b.r : ℚ) - (a.r : ℚ)) *
            f32 (f32 (clamp t 0 1 * f32 ((s.palette_colors.length : ℚ) - 1)) -
              ⌊f32 (clamp t 0 1 * f32 ((s.palette_colors.length : ℚ) - 1))⌋)))⌋.toNat
          g := ⌊f32 ((a.g : ℚ) + f32 (((b.g : ℚ) - (a.g : ℚ)) *
            f32 (f32 (clamp t 0 1 * f32 ((s.palette_colors.length : ℚ) - 1)) -
              ⌊f32 (clamp t 0 1 * f32 ((s.palette_colors.length : ℚ) - 1))⌋)))⌋.toNat
          b := ⌊f32 ((a.b : ℚ) + f32 (((b.b : ℚ) - (a.b : ℚ)) *
            f32 (f32 (clamp t 0 1 * f32 ((s.palette_colors.length : ℚ) - 1)) -
              ⌊f32 (clamp t 0 1 * f32 ((s.palette_colors.length : ℚ) - 1))⌋)))⌋.toNat } := by
      simp only [interpolate_reference_f32, n0, n1, if_false, ← (clamp_unit t).1,
        List.getD_eq_getElem?_getD, ha, hb, Option.getD_some]
    rw [e]
    exact ⟨a, b, ha, hb, hres, (blend_trunc_f32 _ _ _ ar br hf0 hf1).2.1,
      (blend_trunc_f32 _ _ _ ar br hf0 hf1).2.2, (blend_trunc_f32 _ _ _ ag bg hf0 hf1).2.1,
      (blend_trunc_f32 _ _ _ ag bg hf0 hf1).2.2, (blend_trunc_f32 _ _ _ ab bb hf0 hf1).2.1,
      (blend_trunc_f32 _ _ _ ab bb hf0 hf1).2.2⟩
  have hone : ∀ c t, s.palette_colors = [c] → s.interpolate_color_f32 t = some c := by
    intro c t hc
    simp [UnicodeScreen.interpolate_color_f32, hc]
  have hnil : s.palette_colors = [] → ∀ t, s.interpolate_color_f32 t = some ⟨255, 255, 255⟩ := by
    intro hc t
    simp [UnicodeScreen.interpolate_color_f32, hc]
  have hstop : ∀ (t : ℚ) (k : Nat), 2 ≤ s.palette_colors.length →
      k < s.palette_colors.length →
      f32 (clamp t 0 1 * f32 ((s.palette_colors.length : ℚ) - 1)) = (k : ℚ) →
      s.interpolate_color_f32 t = s.palette_colors[k]? := by
    intro t k hn hk hidx
    obtain ⟨a, b, ha, -, hres, -, -, ⟨ar, ag, ab⟩, -⟩ :=
      interpolate_color_f32_inner s hn hmax hv t
    rw [hidx] at ha hres
    simp only [Int.floor_natCast, Int.toNat_ofNat, Int.cast_natCast, sub_self, mul_zero,
      add_zero, f32_zero, f32_natCast _ (by omega : a.r < 2 ^ 24),
      f32_natCast _ (by omega : a.g < 2 ^ 24), f32_natCast _ (by omega : a.b < 2 ^ 24)]
      at ha hres
    rw [hres, ha]
  refine ⟨fun t => ?_, fun t => ?_, fun t hn => ?_, hstop, fun k hn h13 hk => ?_, hone, hnil⟩
  · rcases Nat.lt_or_ge s.palette_colors.length 2 with hlt | hge
    · cases hp : s.palette_colors with
      | nil =>
        rw [hnil hp t]
        rfl
      | cons c rest =>
        cases rest with
        | nil =>
          rw [hone c t hp]
          rfl
        | cons d rest2 =>
          rw [hp] at hlt
          simp only [List.length_cons] at hlt
          omega
    · obtain ⟨a, b, -, -, h, -⟩ := href t hge
      exact h
  · simp only [UnicodeScreen.interpolate_color_f32, (clamp_unit t).2.2.2]
  · obtain ⟨a, b, ha, hb, -, h⟩ := href t hn
    exact ⟨a, b, ha, hb, h⟩
  · exact hstop _ k hn hk
      (interpolate_f32_stop_index s.palette_colors.length (by omega) k hk hn)

/-- Instances of C29 on the two stops (0, 100, 200) and (100, 0, 201): at
`t = 1/2` the result is (50, 50, 200), the last channel truncated from 200.5;
`t = 3` gives the last stop, as `clamp(3, 0, 1) = 1` does. On the palette NEON
the position `0.1f` gives (255, 119, 56). -/
theorem interpolate_color_f32_reference_witness :
    interpolate_reference_f32 demo_blend.palette_colors (1 / 2) = ⟨50, 50, 200⟩ ∧
    demo_blend.interpolate_color_f32 (1 / 2) = some ⟨50, 50, 200⟩ ∧
    demo_blend.interpolate_color_f32 3 = some ⟨100, 0, 201⟩ ∧
    demo_palette.interpolate_color_f32 (f32 (1 / 10))
      = some (interpolate_reference_f32 demo_palette.palette_colors (f32 (1 / 10))) ∧
    interpolate_reference_f32 demo_palette.palette_colors (f32 (1 / 10)) = ⟨255, 119, 56⟩ := by
  obtain ⟨h1, h2, -, h4, -, -, -⟩ :=
    interpolate_color_f32_reference demo_blend (by simp [demo_blend, RGB.valid])
      (by simp [demo_blend])
  have e : interpolate_reference_f32 demo_blend.palette_colors (1 / 2) = ⟨50, 50, 200⟩ := by
    decide!
  refine ⟨e, ?_, ?_, ?_, by decide!⟩
  · rw [h1, e]
  · rw [h4 3 1 (by decide) (by decide) (by decide!)]
    rfl
  · exact (interpolate_color_f32_reference demo_palette
      (by simp [demo_palette, RGB.valid]) (by simp [demo_palette])).1 _

/-! ## Properties of the projection in binary32 -/

/-- C28, as it fails on the code: an argument that follows an option taking a
value is consumed as that value, whatever it is. With no existing file, the
list `-c --random --pdb 1abc` contains `--random` and `--pdb 1abc` and is
accepted (`--random` is the value of `-c`); the list `--pdb -c` ends with the
option `-c` without a value and is accepted (`-c` is the PDB id); the list
`--random --pdb ""` contains `--random` and `--pdb` with an ID and is accepted
(the empty id counts as no id); and the list `--pdb ""` is rejected. -/
theorem check_arg_okay_consumed_values :
    (Parameters.new (fun _ => false) ["-c", "--random", "--pdb", "1abc"]).map
      Parameters.check_arg_okay = some true ∧
    "--random" ∈ ["-c", "--random", "--pdb", "1abc"] ∧
    (Parameters.new (fun _ => false) ["--pdb", "-c"]).map
      Parameters.check_arg_okay = some true ∧
    (Parameters.new (fun _ => false) ["--random", "--pdb", ""]).map
      Parameters.check_arg_okay = some true ∧
    (Parameters.new (fun _ => false) ["--pdb", ""]).map
      Parameters.check_arg_okay = some false := by
  decide

/-! ## Properties of the Braille frame on a small terminal -/

/-- C20, evaluation at the failing input: in Braille mode with one structure
loaded, a terminal that reports 80 columns and 1 row gets `info_rows = 2` and,
the rows being clamped to 4, a buffer of 160 x 16. On the cleared framebuffer
of that size `render_braille` produces no frame: the size passed to
`out.reserve` is `80 * (1 - 2) * 30 = -2400`. On a terminal of 80 columns and
24 rows the buffer is 160 x 88 and the size is not negative, which is the
case `render_braille_frame` covers. -/
theorem render_braille_small_terminal :
    (∃ s1 : UnicodeScreen,
      UnicodeScreen.query_terminal_size (some ⟨1, 80, 0, 0⟩) demo_controls = some s1 ∧
      s1.info_rows = 2 ∧ s1.buf_width = 160 ∧ s1.buf_height = 16 ∧
      s1.term_cols * (s1.term_rows - s1.info_rows) * 30 = -2400 ∧
      ({ s1 with framebuffer := List.replicate (160 * 16) ⟨0, 0, 0, 0, false⟩ }
        : UnicodeScreen).render_braille = none) ∧
    (∃ s2 : UnicodeScreen,
      UnicodeScreen.query_terminal_size (some ⟨24, 80, 0, 0⟩) demo_controls = some s2 ∧
      s2.buf_width = 160 ∧ s2.buf_height = 88 ∧
      0 ≤ s2.term_cols * (s2.term_rows - s2.info_rows) * 30) := by
  refine ⟨⟨_, rfl, by decide, by decide, by decide, by decide, ?_⟩,
    ⟨_, rfl, by decide, by decide, by decide⟩⟩
  unfold UnicodeScreen.render_braille
  rw [if_pos (by decide)]


end PdbTerm
